import Mathlib

/-!
CJFS / jbd2 commit engine: a shallow embedding of `fs/jbd2/commit.c`

Part I holds the definitions (translated from the C source, function by
function, keeping the source names); Part II holds the lemmas and theorems.

Conventions of the embedding:
* pointers are natural-number addresses, a nullable pointer is an `Option`;
* kernel memory reachable through a pointer is a function from addresses to
  records, updated with `Function.update`;
* calls that leave `commit.c` (block layer, journal.c, transaction.c) are
  recorded as events of a trace, and their results are read from an
  environment record;
* C `int` values that may be negative are `Int`, sizes and indices are `Nat`.
-/

namespace Jbd2

/-! ## Part I. Definitions -/

/-! ### The flush queue `j_flushing_transactions` (pipelined commit) -/

/-- The fields of `transaction_t` used by the flush queue: the id and the two
links of the circular doubly linked list. -/
structure flush_links where
  t_tid : Nat
  t_flushnext : Nat
  t_flushprev : Nat
  deriving DecidableEq, Repr

/-- The journal fields used by the flush queue: the queue head
`j_flushing_transactions` (NULL is `none`) and the memory holding every
`transaction_t`, indexed by address. -/
structure flush_queue where
  j_flushing_transactions : Option Nat
  mem : Nat → flush_links

/-- The assignment `p->t_flushnext = v`. -/
def set_flushnext (m : Nat → flush_links) (p v : Nat) : Nat → flush_links :=
  Function.update m p { m p with t_flushnext := v }

/-- The assignment `p->t_flushprev = v`. -/
def set_flushprev (m : Nat → flush_links) (p v : Nat) : Nat → flush_links :=
  Function.update m p { m p with t_flushprev := v }

/-- End of `jbd2_journal_barrier_commit_transaction` (commit.c 1833-1848):
insert `commit_transaction` into the flush transaction list.  The four
assignments of the non-empty branch are performed one after the other on the
memory, each reading the fields left by the previous one. -/
def flush_enqueue (j : flush_queue) (commit_transaction : Nat) : flush_queue :=
  match j.j_flushing_transactions with
  | none =>
    let m1 := set_flushnext j.mem commit_transaction commit_transaction
    let m2 := set_flushprev m1 commit_transaction commit_transaction
    { j_flushing_transactions := some commit_transaction, mem := m2 }
  | some head =>
    let m1 := set_flushnext j.mem commit_transaction head
    let m2 := set_flushprev m1 commit_transaction
      (m1 (m1 commit_transaction).t_flushnext).t_flushprev
    let m3 := set_flushprev m2 (m2 commit_transaction).t_flushnext commit_transaction
    let m4 := set_flushnext m3 (m3 commit_transaction).t_flushprev commit_transaction
    { j_flushing_transactions := some head, mem := m4 }

/-- Start of `jbd2_journal_barrier_flush_transaction` (commit.c 1928-1935):
the transaction the flush stage is going to process, `none` when the queue is
NULL and the function returns at once. -/
def flush_pick (j : flush_queue) : Option Nat :=
  j.j_flushing_transactions

/-- End of `jbd2_journal_barrier_flush_transaction` (commit.c 2307-2315):
remove `commit_transaction` from `j_flushing_transactions`. -/
def flush_dequeue (j : flush_queue) (commit_transaction : Nat) : flush_queue :=
  let m1 := set_flushprev j.mem (j.mem commit_transaction).t_flushnext
    (j.mem commit_transaction).t_flushprev
  let m2 := set_flushnext m1 (m1 commit_transaction).t_flushprev
    (m1 commit_transaction).t_flushnext
  let h1 := if j.j_flushing_transactions = some commit_transaction
    then some (m2 commit_transaction).t_flushnext else j.j_flushing_transactions
  let h2 := if h1 = some commit_transaction then none else h1
  { j_flushing_transactions := h2, mem := m2 }

/-- The object at address `p` is the transaction `tid`. -/
def set_tid (m : Nat → flush_links) (p tid : Nat) : Nat → flush_links :=
  Function.update m p { m p with t_tid := tid }

/-- Links `a → l₀ → l₁ → … → b` agree in both directions: each element's
`t_flushnext` is its successor and each successor's `t_flushprev` points back. -/
def flush_seg (m : Nat → flush_links) : Nat → List Nat → Nat → Prop
  | a, [], b => (m a).t_flushnext = b ∧ (m b).t_flushprev = a
  | a, x :: l, b => (m a).t_flushnext = x ∧ (m x).t_flushprev = a ∧ flush_seg m x l b

/-- The circular list hanging off `j_flushing_transactions` holds exactly the
transactions `q`, oldest first. -/
def flush_ring (j : flush_queue) : List Nat → Prop
  | [] => j.j_flushing_transactions = none
  | a :: l => j.j_flushing_transactions = some a ∧ (a :: l).Nodup ∧ flush_seg j.mem a l a

/-- The four bytes, in memory order, of a `__be32` holding `x` (`cpu_to_be32`). -/
def cpu_to_be32 (x : Nat) : List Nat :=
  [x / 16777216 % 256, x / 65536 % 256, x / 256 % 256, x % 256]

/-- The value held by a `__be32` (`be32_to_cpu`). -/
def be32_to_cpu : List Nat → Nat
  | [a, b, c, d] => a * 16777216 + b * 65536 + c * 256 + d
  | _ => 0

/-- The two bytes, in memory order, of a `__be16` holding `x` (`cpu_to_be16`). -/
def cpu_to_be16 (x : Nat) : List Nat :=
  [x / 256 % 256, x % 256]

/-- The value held by a `__be16` (`be16_to_cpu`). -/
def be16_to_cpu : List Nat → Nat
  | [a, b] => a * 256 + b
  | _ => 0

/-- The eight bytes of a `__be64` holding `x` (`cpu_to_be64`). -/
def cpu_to_be64 (x : Nat) : List Nat :=
  cpu_to_be32 (x / 4294967296) ++ cpu_to_be32 (x % 4294967296)

/-- The C operator `|=` on two big-endian fields of the same width. -/
def be_or (a b : List Nat) : List Nat :=
  List.zipWith (fun x y => x ||| y) a b

/-- Tag flag `JBD2_FLAG_ESCAPE` (jbd2.h). -/
def JBD2_FLAG_ESCAPE : Nat := 1
/-- Tag flag `JBD2_FLAG_SAME_UUID` (jbd2.h). -/
def JBD2_FLAG_SAME_UUID : Nat := 2
/-- Tag flag `JBD2_FLAG_DELETED` (jbd2.h). -/
def JBD2_FLAG_DELETED : Nat := 4
/-- Tag flag `JBD2_FLAG_LAST_TAG` (jbd2.h). -/
def JBD2_FLAG_LAST_TAG : Nat := 8

/-- Block type `JBD2_DESCRIPTOR_BLOCK` (jbd2.h). -/
def JBD2_DESCRIPTOR_BLOCK : Nat := 1
/-- Block type `JBD2_COMMIT_BLOCK` (jbd2.h). -/
def JBD2_COMMIT_BLOCK : Nat := 2

/-- Commit checksum type `JBD2_CRC32_CHKSUM` (jbd2.h). -/
def JBD2_CRC32_CHKSUM : Nat := 1
/-- Commit checksum size `JBD2_CRC32_CHKSUM_SIZE` (jbd2.h). -/
def JBD2_CRC32_CHKSUM_SIZE : Nat := 4

/-- The errno `EIO`. -/
def EIO : Int := 5

/-- The size `sizeof(journal_header_t)`: three `__be32` fields. -/
def sizeof_journal_header_t : Int := 12
/-- The size `sizeof(struct jbd2_journal_block_tail)`: one `__be32`. -/
def sizeof_jbd2_journal_block_tail : Int := 4

/-- Modelled from the spec: the declaration of the transaction states
(`t_state` in jbd2.h) is not part of the sources; the spec lists them "in
order, terminal last". -/
inductive t_state where
  | T_RUNNING
  | T_LOCKED
  | T_SWITCH
  | T_FLUSH
  | T_COMMIT
  | T_COMMIT_DFLUSH
  | T_COMMIT_JFLUSH
  | T_COMMIT_CALLBACK
  | T_FINISHED
  deriving DecidableEq, Repr

/-- Position of a state in the order of the enumeration. -/
def t_state.rank : t_state → Nat
  | T_RUNNING => 0
  | T_LOCKED => 1
  | T_SWITCH => 2
  | T_FLUSH => 3
  | T_COMMIT => 4
  | T_COMMIT_DFLUSH => 5
  | T_COMMIT_JFLUSH => 6
  | T_COMMIT_CALLBACK => 7
  | T_FINISHED => 8

/-- Modelled from the spec: the feature tests `jbd2_has_feature_checksum`,
`jbd2_journal_has_csum_v2or3` and `jbd2_has_feature_csum3` (jbd2.h) are not
part of the sources; the spec gives one "checksum version (none / v1 /
v2-or-3 / v3 with wider per-block checksums)". -/
inductive csum_version where
  | none
  | v1
  | v2
  | v3
  deriving DecidableEq, Repr

/-- The bits of `journal->j_flags` read or written by the commit code. -/
structure j_flags_t where
  JBD2_ABORT : Bool
  JBD2_FLUSHED : Bool
  JBD2_BARRIER : Bool
  JBD2_ABORT_ON_SYNCDATA_ERR : Bool
  JBD2_FAST_COMMIT_ONGOING : Bool
  JBD2_FULL_COMMIT_ONGOING : Bool
  deriving DecidableEq, Repr

/-- The fields of `journal_t` used by the commit code. -/
structure journal_t where
  j_flags : j_flags_t
  j_csum : csum_version
  feature_async_commit : Bool
  feature_64bit : Bool
  j_csum_seed : Nat
  j_blocksize : Nat
  j_wbufsize : Nat
  /-- Result of `journal_tag_bytes(journal)` (journal.c, not part of the sources). -/
  tag_bytes : Int
  j_uuid : List Nat
  j_fs_dev : Nat
  j_dev : Nat
  j_first : Nat
  j_last : Nat
  j_head : Nat
  j_tail : Nat
  j_tail_sequence : Nat
  j_commit_sequence : Nat
  j_transfer_sequence : Nat
  j_flush_sequence : Nat
  j_reserved_credits : Int
  j_average_commit_time : Nat
  /-- Whether `journal->j_commit_callback` is set. -/
  j_commit_callback : Bool
  /-- Whether `journal->j_fc_cleanup_callback` is set. -/
  j_fc_cleanup_callback : Bool
  /-- Whether `journal->j_submit_inode_data_buffers` is set. -/
  j_submit_inode_data_buffers : Bool
  /-- Whether `journal->j_finish_inode_data_buffers` is set. -/
  j_finish_inode_data_buffers : Bool
  /-- Whether `journal->j_checkpoint_transactions` is non-NULL. -/
  j_checkpoint_transactions : Bool
  deriving DecidableEq, Repr

/-- The test `jbd2_has_feature_checksum(journal)`. -/
def jbd2_has_feature_checksum (j : journal_t) : Bool := j.j_csum = csum_version.v1

/-- The test `jbd2_journal_has_csum_v2or3(journal)`. -/
def jbd2_journal_has_csum_v2or3 (j : journal_t) : Bool :=
  j.j_csum = csum_version.v2 || j.j_csum = csum_version.v3

/-- The test `jbd2_has_feature_csum3(journal)`. -/
def jbd2_has_feature_csum3 (j : journal_t) : Bool := j.j_csum = csum_version.v3

/-- The test `jbd2_has_feature_async_commit(journal)`. -/
def jbd2_has_feature_async_commit (j : journal_t) : Bool := j.feature_async_commit

/-- The test `jbd2_has_feature_64bit(journal)`. -/
def jbd2_has_feature_64bit (j : journal_t) : Bool := j.feature_64bit

/-- The test `is_journal_aborted(journal)`: the `JBD2_ABORT` bit of `j_flags`. -/
def is_journal_aborted (j : journal_t) : Bool := j.j_flags.JBD2_ABORT

/-- A generation slot `jh->b_jh_entry[i]` of a journal head (pipelined
commit): the snapshots of one in-flight version of the buffer. -/
structure jh_entry where
  b_frozen_data : Option (List Nat)
  b_committed_data : Option (List Nat)
  b_frozen_triggers : Bool
  deriving DecidableEq, Repr

/-- A metadata buffer under journaling: the `journal_head` together with the
bits of its `buffer_head` that the commit code touches.  `b_blocknr` is the
home block of the buffer (`jh2bh(jh)->b_blocknr`). -/
structure journal_head where
  b_blocknr : Nat
  /-- Contents of the block (the bytes that get copied to the log). -/
  b_data : List Nat
  jbddirty : Bool
  freed : Bool
  b_frozen_data : Option (List Nat)
  b_committed_data : Option (List Nat)
  b_frozen_triggers : Bool
  /-- Whether `jh->b_next_transaction` is non-NULL. -/
  b_next_transaction : Bool
  /-- Whether `jh->b_cp_transaction` is non-NULL. -/
  b_cp_transaction : Bool
  /-- The generation slots `jh->b_jh_entry[0 .. MAX_JH_VERSION)`. -/
  b_jh_entry : List jh_entry
  b_ver_count : Nat
  deriving DecidableEq, Repr

/-- A block tag of a descriptor block, each field as the bytes stored on
disk; `uuid` is the 16-byte UUID copied behind the first tag of a descriptor
(`none` for the tags that have none). -/
structure journal_block_tag_t where
  t_blocknr : List Nat
  t_blocknr_high : List Nat
  t_flags : List Nat
  t_checksum : List Nat
  uuid : Option (List Nat)
  deriving DecidableEq, Repr

/-- The commit block (`struct commit_header`). -/
structure commit_header where
  h_blocktype : Nat
  h_sequence : Nat
  h_chksum_type : Nat
  h_chksum_size : Nat
  h_chksum0 : List Nat
  h_commit_sec : List Nat
  h_commit_nsec : List Nat
  deriving DecidableEq, Repr

/-- Contents of a log block: a descriptor block (its tags in order, and the
checksum of the block tail once `jbd2_descriptor_block_csum_set` has run), the
temporary copy of a metadata buffer, a commit block, or a revoke block. -/
inductive block_data where
  | descriptor (tags : List journal_block_tag_t) (tail : Option (List Nat))
  | metadata (jh : journal_head) (do_escape : Bool)
  | commit (h : commit_header)
  | revoke
  deriving DecidableEq, Repr

/-- A buffer head bound for the log: `b_blocknr` is its log block. -/
structure buffer_head where
  b_blocknr : Nat
  b_size : Nat
  b_data : block_data
  deriving DecidableEq, Repr

/-- The request flags passed to `submit_bh` next to `REQ_OP_WRITE`. -/
structure req_flags where
  REQ_SYNC : Bool
  REQ_ORDERED : Bool
  REQ_BARRIER : Bool
  deriving DecidableEq, Repr

/-- An inode on `t_inode_list` (`struct jbd2_inode`). -/
structure jbd2_inode where
  i_ino : Nat
  JI_WRITE_DATA : Bool
  JI_WAIT_DATA : Bool
  /-- Whether `jinode->i_next_transaction` is non-NULL. -/
  i_next_transaction : Bool
  deriving DecidableEq, Repr

/-- Calls that leave `commit.c`, in the order they are made. -/
inductive event where
  | set_t_state (s : t_state)
  | jbd2_journal_abort (errno : Int)
  | submit_bh (flags : req_flags) (bh : buffer_head)
  | write_revoke_record (bh : buffer_head)
  | blkdev_issue_flush (dev : Nat)
  | update_sb_log_tail
  | clear_buffer_jbddirty (blocknr : Nat)
  | jbd2_buffer_abort_trigger (blocknr : Nat)
  | jbd2_journal_refile_buffer (blocknr : Nat)
  | jbd2_journal_unfile_buffer_entry (blocknr : Nat)
  | wait_on_buffer (log_blocknr : Nat)
  | jbd2_update_log_tail (first_tid first_block : Nat)
  | insert_checkpoint (blocknr : Nat)
  | release_buffer_page (blocknr : Nat)
  | j_commit_callback (tid : Nat)
  | j_fc_cleanup_callback (tid : Nat)
  | drop_transaction (tid : Nat)
  | jbd2_journal_refile_buffer_entry (blocknr : Nat)
  | wait_on_buffer_dispatch (log_blocknr : Nat)
  deriving DecidableEq, Repr

/-- Results of the calls that leave `commit.c` and cannot be computed from
the commit state. -/
structure commit_env where
  /-- Result of the callback `j_submit_inode_data_buffers` for an inode. -/
  submit_inode_data : Nat → Int
  /-- Result of the callback `j_finish_inode_data_buffers` for an inode. -/
  finish_inode_data : Nat → Int
  /-- Number of revoke blocks `jbd2_journal_write_revoke_records` writes. -/
  revoke_blocks : Nat
  /-- Error of mapping a log position to a physical block (`jbd2_journal_bmap`). -/
  bmap_err : Nat → Int
  /-- Whether a buffer head can be obtained for a log block (`__getblk`). -/
  getblk_ok : Nat → Bool
  /-- Result of `jbd2_journal_write_metadata_buffer` for the buffer with the
  given home block: negative on failure, otherwise bit 0 tells that the magic
  number was escaped. -/
  write_metadata_flags : Nat → Int
  /-- Whether the buffer written to a log block is uptodate after its I/O. -/
  io_uptodate : Nat → Bool
  /-- Result of `submit_bh` for the commit block. -/
  submit_bh_ret : Int
  /-- Result of `jbd2_journal_get_log_tail`: return value, tid, block. -/
  get_log_tail : Int × Nat × Nat
  /-- Result of `jbd2_journal_get_max_txn_bufs`. -/
  max_txn_bufs : Int
  /-- The bytes of a log buffer (`b_size` bytes at `b_data`). -/
  block_bytes : buffer_head → List Nat
  /-- The kernel function `crc32_be` (lib/crc32.c). -/
  crc32_be : Nat → List Nat → Nat
  /-- The journal checksum `jbd2_chksum` (crc32c driver). -/
  jbd2_chksum : Nat → List Nat → Nat
  /-- Wall clock read by `ktime_get_coarse_real_ts64`: seconds, nanoseconds. -/
  now : Nat × Nat
  /-- Duration measured by `ktime_get` between start and end of the commit. -/
  commit_time : Nat
  /-- Contents of tag memory in a fresh descriptor buffer. -/
  blank_tag : journal_block_tag_t

/-! ### State of one commit -/

/-- The journal, the committing transaction and the local variables of the
commit functions.  `wbuf` holds the slots `wbuf[0 .. bufs)`, so `bufs` is its
length; when `descriptor` is non-NULL (`true`) the descriptor buffer is
`wbuf[0]`, where line 671 stored it.  Buffers on `io_bufs` and `log_bufs` are
named by their log block.  `trace` lists the calls made so far. -/
structure commit_state where
  journal : journal_t
  t_tid : Nat
  t_state : t_state
  t_reserved_list : List journal_head
  t_inode_list : List jbd2_inode
  t_buffers : List journal_head
  t_shadow_list : List journal_head
  t_forget : List journal_head
  t_checkpoint_list : List journal_head
  t_checkpoint_io_list : List journal_head
  t_nr_buffers : Int
  t_outstanding_credits : Int
  t_need_data_flush : Bool
  t_log_start : Nat
  err : Int
  wbuf : List buffer_head
  descriptor : Bool
  space_left : Int
  first_tag : Bool
  crc32_sum : Nat
  io_bufs : List Nat
  log_bufs : List Nat
  cbh : Option buffer_head
  update_tail : Int
  first_tid : Nat
  first_block : Nat
  trace : List event
  deriving DecidableEq, Repr

/-- Record a call in the trace. -/
def emit (s : commit_state) (e : event) : commit_state :=
  { s with trace := s.trace ++ [e] }

/-- The assignment `commit_transaction->t_state = st`. -/
def set_t_state (s : commit_state) (st : t_state) : commit_state :=
  { s with t_state := st, trace := s.trace ++ [event.set_t_state st] }

/-- Modelled from the spec: `jbd2_journal_abort` (journal.c) is not part of
the sources; by the spec "a fatal I/O error transitions the whole journal into
an aborted state".  The call is recorded with its errno. -/
def jbd2_journal_abort (s : commit_state) (errno : Int) : commit_state :=
  { s with
    journal := { s.journal with j_flags := { s.journal.j_flags with JBD2_ABORT := true } },
    trace := s.trace ++ [event.jbd2_journal_abort errno] }

/-- Modelled from the spec: `jbd2_journal_next_log_block` (journal.c) is not
part of the sources; by the spec the next block comes from "a stateful next log
block cursor that wraps from `last` back to `first`".  Returns the new state,
the error of the block mapping and the block. -/
def jbd2_journal_next_log_block (env : commit_env) (s : commit_state) :
    commit_state × Int × Nat :=
  let blocknr := s.journal.j_head
  let head := if blocknr + 1 = s.journal.j_last then s.journal.j_first else blocknr + 1
  ({ s with journal := { s.journal with j_head := head } }, env.bmap_err blocknr, blocknr)

/-- Modelled from the spec: `jbd2_journal_get_descriptor_buffer` (journal.c)
is not part of the sources; a descriptor, revoke or commit block takes the next
block of the log from the same cursor (spec: blocks are "written in that
physical order") and the call gives NULL when no block or no buffer can be had
(spec: "descriptor/commit buffer allocation failure"). -/
def jbd2_journal_get_descriptor_buffer (env : commit_env) (s : commit_state) (type : Nat) :
    commit_state × Option buffer_head :=
  let r := jbd2_journal_next_log_block env s
  if r.2.1 ≠ 0 then (r.1, none)
  else if !env.getblk_ok r.2.2 then (r.1, none)
  else
    (r.1, some
      { b_blocknr := r.2.2, b_size := s.journal.j_blocksize,
        b_data :=
          if type = JBD2_COMMIT_BLOCK then
            block_data.commit
              { h_blocktype := type, h_sequence := s.t_tid, h_chksum_type := 0,
                h_chksum_size := 0, h_chksum0 := cpu_to_be32 0,
                h_commit_sec := cpu_to_be64 0, h_commit_nsec := cpu_to_be32 0 }
          else if type = JBD2_DESCRIPTOR_BLOCK then block_data.descriptor [] none
          else block_data.revoke })

/-- Source function `jbd2_checksum_data` (commit.c 338-350). -/
def jbd2_checksum_data (env : commit_env) (crc32_sum : Nat) (bh : buffer_head) : Nat :=
  env.crc32_be crc32_sum (env.block_bytes bh)

/-- Source function `write_tag_block` (commit.c 352-358). -/
def write_tag_block (j : journal_t) (tag : journal_block_tag_t) (block : Nat) :
    journal_block_tag_t :=
  let tag1 := { tag with t_blocknr := cpu_to_be32 (block &&& 4294967295) }
  if jbd2_has_feature_64bit j then
    { tag1 with t_blocknr_high := cpu_to_be32 ((block >>> 31) >>> 1) }
  else tag1

/-- Source function `jbd2_block_tag_csum_set` (commit.c 360-383). -/
def jbd2_block_tag_csum_set (env : commit_env) (j : journal_t) (tag : journal_block_tag_t)
    (bh : buffer_head) (sequence : Nat) : journal_block_tag_t :=
  if !jbd2_journal_has_csum_v2or3 j then tag
  else
    let seq := cpu_to_be32 sequence
    let csum32 := env.jbd2_chksum j.j_csum_seed seq
    let csum32 := env.jbd2_chksum csum32 (env.block_bytes bh)
    if jbd2_has_feature_csum3 j then { tag with t_checksum := cpu_to_be32 csum32 }
    else { tag with t_checksum := cpu_to_be16 csum32 }

/-- Source function `jbd2_commit_block_csum_set` (commit.c 92-106). -/
def jbd2_commit_block_csum_set (env : commit_env) (j : journal_t) (bh : buffer_head) :
    buffer_head :=
  if !jbd2_journal_has_csum_v2or3 j then bh
  else
    match bh.b_data with
    | block_data.commit h =>
      let h1 := { h with h_chksum_type := 0, h_chksum_size := 0, h_chksum0 := cpu_to_be32 0 }
      let csum := env.jbd2_chksum j.j_csum_seed
        (env.block_bytes { bh with b_data := block_data.commit h1 })
      { bh with b_data := block_data.commit { h1 with h_chksum0 := cpu_to_be32 csum } }
    | _ => bh

/-- Modelled from the spec: `jbd2_descriptor_block_csum_set` (journal.c) is
not part of the sources; by the spec "the descriptor block itself is
checksummed after all its tags are finalized", with the v2/v3 checksum, into
the block tail. -/
def jbd2_descriptor_block_csum_set (env : commit_env) (j : journal_t) (bh : buffer_head) :
    buffer_head :=
  if !jbd2_journal_has_csum_v2or3 j then bh
  else
    match bh.b_data with
    | block_data.descriptor tags _ =>
      let csum := env.jbd2_chksum j.j_csum_seed
        (env.block_bytes { bh with b_data := block_data.descriptor tags (some (cpu_to_be32 0)) })
      { bh with b_data := block_data.descriptor tags (some (cpu_to_be32 csum)) }
    | _ => bh

/-- Source function `journal_submit_commit_record` (commit.c 116-163).  The
result is the state, with `cbh` set, and the return value. -/
def journal_submit_commit_record (env : commit_env) (s : commit_state) (crc32_sum : Nat) :
    commit_state × Int :=
  let s0 := { s with cbh := none }
  if is_journal_aborted s0.journal then (s0, 0)
  else
    let r := jbd2_journal_get_descriptor_buffer env s0 JBD2_COMMIT_BLOCK
    match r.2 with
    | none => (r.1, 1)
    | some bh =>
      let bh1 : buffer_head :=
        match bh.b_data with
        | block_data.commit tmp =>
          let tmp1 := { tmp with h_commit_sec := cpu_to_be64 env.now.1,
                                 h_commit_nsec := cpu_to_be32 env.now.2 }
          let tmp2 :=
            if jbd2_has_feature_checksum r.1.journal then
              { tmp1 with h_chksum_type := JBD2_CRC32_CHKSUM,
                          h_chksum_size := JBD2_CRC32_CHKSUM_SIZE,
                          h_chksum0 := cpu_to_be32 crc32_sum }
            else tmp1
          { bh with b_data := block_data.commit tmp2 }
        | _ => bh
      let bh2 := jbd2_commit_block_csum_set env r.1.journal bh1
      let flags : req_flags :=
        if r.1.journal.j_flags.JBD2_BARRIER && !jbd2_has_feature_async_commit r.1.journal then
          { REQ_SYNC := true, REQ_ORDERED := true, REQ_BARRIER := true }
        else { REQ_SYNC := true, REQ_ORDERED := false, REQ_BARRIER := false }
      let s1 := emit r.1 (event.submit_bh flags bh2)
      ({ s1 with cbh := some bh2 }, env.submit_bh_ret)

/-- Source function `journal_wait_on_commit_record` (commit.c 169-182). -/
def journal_wait_on_commit_record (env : commit_env) (s : commit_state) (bh : buffer_head) :
    commit_state × Int :=
  let s1 := emit s (event.wait_on_buffer bh.b_blocknr)
  (s1, if !env.io_uptodate bh.b_blocknr then - EIO else 0)

/-- Source function `journal_submit_data_buffers` (commit.c 250-277): the
loop over `t_inode_list`, carrying `ret`. -/
def journal_submit_data_buffers (env : commit_env) (j : journal_t) :
    List jbd2_inode → Int → Int
  | [], ret => ret
  | jinode :: rest, ret =>
    if !jinode.JI_WRITE_DATA then journal_submit_data_buffers env j rest ret
    else if j.j_submit_inode_data_buffers then
      let err := env.submit_inode_data jinode.i_ino
      journal_submit_data_buffers env j rest (if ret = 0 then err else ret)
    else journal_submit_data_buffers env j rest ret

/-- Source function `journal_finish_inode_data_buffers` (commit.c 293-336),
first loop: wait for the data of every inode, carrying `ret`.  The second
loop takes every inode off `t_inode_list`. -/
def journal_finish_inode_data_buffers (env : commit_env) (j : journal_t) :
    List jbd2_inode → Int → Int
  | [], ret => ret
  | jinode :: rest, ret =>
    if !jinode.JI_WAIT_DATA then journal_finish_inode_data_buffers env j rest ret
    else if j.j_finish_inode_data_buffers then
      let err := env.finish_inode_data jinode.i_ino
      journal_finish_inode_data_buffers env j rest (if ret = 0 then err else ret)
    else journal_finish_inode_data_buffers env j rest ret

/-! ### The metadata loop (commit.c 620-792 and 1548-1725) -/

/-- The request flags chosen at commit.c 775-782 for `wbuf[i]` of a batch of
`bufs` buffers. -/
def journal_io_flags (t_buffers : List journal_head) (i bufs : Nat) : req_flags :=
  if t_buffers ≠ [] then { REQ_SYNC := true, REQ_ORDERED := true, REQ_BARRIER := false }
  else if i = bufs - 1 ∧ t_buffers = [] then
    { REQ_SYNC := true, REQ_ORDERED := true, REQ_BARRIER := true }
  else { REQ_SYNC := true, REQ_ORDERED := true, REQ_BARRIER := false }

/-- The loop `for (i = 0; i < bufs; i++)` at commit.c 759-784, from index
`i` on, `rest` being `wbuf[i .. bufs)`. -/
def journal_io_loop (env : commit_env) (bufs : Nat) :
    Nat → List buffer_head → commit_state → commit_state
  | _, [], s => s
  | i, bh :: rest, s =>
    let s1 :=
      if jbd2_has_feature_checksum s.journal then
        { s with crc32_sum := jbd2_checksum_data env s.crc32_sum bh }
      else s
    let s2 := emit s1 (event.submit_bh (journal_io_flags s1.t_buffers i bufs) bh)
    journal_io_loop env bufs (i + 1) rest s2

/-- Apply `f` to the descriptor buffer `wbuf[0]`. -/
def on_descriptor (f : buffer_head → buffer_head) : List buffer_head → List buffer_head
  | [] => []
  | d :: rest => f d :: rest

/-- The code from the label `start_journal_io` to the end of the `if` body
(commit.c 754-791). -/
def start_journal_io (env : commit_env) (s : commit_state) : commit_state :=
  let s1 :=
    if s.descriptor then
      { s with wbuf := on_descriptor (jbd2_descriptor_block_csum_set env s.journal) s.wbuf }
    else s
  let s2 := journal_io_loop env s1.wbuf.length 0 s1.wbuf s1
  { s2 with descriptor := false, wbuf := [] }

/-- Append a tag at `tagp` in a descriptor block. -/
def descriptor_add_tag (tag : journal_block_tag_t) (bh : buffer_head) : buffer_head :=
  match bh.b_data with
  | block_data.descriptor tags tail =>
    { bh with b_data := block_data.descriptor (tags ++ [tag]) tail }
  | _ => bh

/-- The statement `tag->t_flags |= cpu_to_be16(JBD2_FLAG_LAST_TAG)` on a list
of tags of which `tag` is the last one set up. -/
def mark_last_tag : List journal_block_tag_t → List journal_block_tag_t
  | [] => []
  | [tag] => [{ tag with t_flags := be_or tag.t_flags (cpu_to_be16 JBD2_FLAG_LAST_TAG) }]
  | tag :: rest => tag :: mark_last_tag rest

/-- The statement `tag->t_flags |= cpu_to_be16(JBD2_FLAG_LAST_TAG)` on the
descriptor block holding the tag. -/
def descriptor_mark_last (bh : buffer_head) : buffer_head :=
  match bh.b_data with
  | block_data.descriptor tags tail =>
    { bh with b_data := block_data.descriptor (mark_last_tag tags) tail }
  | _ => bh

/-- The value of `csum_size` (commit.c 421-422). -/
def csum_size (j : journal_t) : Int :=
  if jbd2_journal_has_csum_v2or3 j then sizeof_jbd2_journal_block_tail else 0

/-- The abort branch of the loop body (commit.c 629-644; 1557-1572 in the
dispatch stage, where the buffer is released with
`jbd2_journal_unfile_buffer_entry`) for the buffer `jh` at the head of
`t_buffers`, `rest` being the buffers behind it. -/
def loop_release (env : commit_env) (barrier : Bool) (s : commit_state) (jh : journal_head)
    (rest : List journal_head) : commit_state :=
  let s1 := emit s (event.clear_buffer_jbddirty jh.b_blocknr)
  let s2 := emit s1 (event.jbd2_buffer_abort_trigger jh.b_blocknr)
  let s3 :=
    if barrier then emit s2 (event.jbd2_journal_unfile_buffer_entry jh.b_blocknr)
    else emit s2 (event.jbd2_journal_refile_buffer jh.b_blocknr)
  let s4 : commit_state := { s3 with t_buffers := rest }
  if s4.t_buffers = [] then start_journal_io env s4 else s4

/-- The block `if (!descriptor) { ... }` of the loop body (commit.c 649-677);
the flag is `false` when the pass ends with `continue`. -/
def loop_descriptor (env : commit_env) (s : commit_state) : commit_state × Bool :=
  if !s.descriptor then
    let r := jbd2_journal_get_descriptor_buffer env s JBD2_DESCRIPTOR_BLOCK
    match r.2 with
    | none => (jbd2_journal_abort r.1 (- EIO), false)
    | some d =>
      ({ r.1 with
          descriptor := true,
          space_left := (d.b_size : Int) - sizeof_journal_header_t,
          first_tag := true,
          wbuf := r.1.wbuf ++ [d],
          log_bufs := r.1.log_bufs ++ [d.b_blocknr] }, true)
  else (s, true)

/-- The tag written for the buffer `jh` whose temporary copy is `new_bh`
(commit.c 718-728, 733-734). -/
def loop_make_tag (env : commit_env) (s : commit_state) (jh : journal_head)
    (new_bh : buffer_head) (flags : Int) : journal_block_tag_t :=
  let tag_flag : Nat :=
    (if flags % 2 = 1 then JBD2_FLAG_ESCAPE else 0) |||
    (if !s.first_tag then JBD2_FLAG_SAME_UUID else 0)
  let tag0 : journal_block_tag_t := { env.blank_tag with uuid := none }
  let tag1 := write_tag_block s.journal tag0 jh.b_blocknr
  let tag2 := { tag1 with t_flags := cpu_to_be16 tag_flag }
  let tag3 := jbd2_block_tag_csum_set env s.journal tag2 new_bh s.t_tid
  if s.first_tag then { tag3 with uuid := some s.journal.j_uuid } else tag3

/-- Recording the tag in the descriptor and counting the buffer
(commit.c 713-738). -/
def loop_tag (env : commit_env) (s : commit_state) (jh : journal_head)
    (new_bh : buffer_head) (flags : Int) : commit_state :=
  let s4 : commit_state := { s with
    wbuf := on_descriptor (descriptor_add_tag (loop_make_tag env s jh new_bh flags)) s.wbuf
      ++ [new_bh],
    space_left := s.space_left - s.journal.tag_bytes }
  if s4.first_tag then { s4 with space_left := s4.space_left - 16, first_tag := false }
  else s4

/-- The test that closes a batch (commit.c 743-745). -/
def loop_batch_full (s : commit_state) : Bool :=
  s.wbuf.length = s.journal.j_wbufsize ∨ s.t_buffers = [] ∨
    s.space_left < s.journal.tag_bytes + 16 + csum_size s.journal

/-- The end of the loop body (commit.c 743-791). -/
def loop_submit (env : commit_env) (s : commit_state) : commit_state :=
  if loop_batch_full s then
    start_journal_io env { s with wbuf := on_descriptor descriptor_mark_last s.wbuf }
  else s

/-- The loop body from `jbd2_journal_next_log_block` on (commit.c 681-791).
`jbd2_journal_write_metadata_buffer` (journal.c) is not part of the sources:
on success it is taken to move the buffer from `t_buffers` to the tail of
`t_shadow_list` ("this will requeue the metadata buffer to BJ_Shadow") and to
store a temporary buffer for the log block in `wbuf[bufs]`; on failure it
leaves the lists alone. -/
def loop_log (env : commit_env) (s : commit_state) (jh : journal_head)
    (rest : List journal_head) : commit_state :=
  let r := jbd2_journal_next_log_block env s
  let s1 : commit_state := { r.1 with err := r.2.1 }
  if r.2.1 ≠ 0 then jbd2_journal_abort s1 r.2.1
  else
    let s2 : commit_state := { s1 with t_outstanding_credits := s1.t_outstanding_credits - 1 }
    let flags := env.write_metadata_flags jh.b_blocknr
    if flags < 0 then jbd2_journal_abort s2 flags
    else
      let new_bh : buffer_head :=
        { b_blocknr := r.2.2, b_size := s2.journal.j_blocksize,
          b_data := block_data.metadata jh (flags % 2 = 1) }
      let s3 : commit_state := { s2 with
        t_buffers := rest,
        t_shadow_list := s2.t_shadow_list ++ [jh],
        io_bufs := s2.io_bufs ++ [new_bh.b_blocknr] }
      loop_submit env (loop_tag env s3 jh new_bh flags)

/-- One pass through the body of `while (commit_transaction->t_buffers)`.
`barrier` selects the copy of the loop in
`jbd2_journal_barrier_commit_transaction`.  A `continue` ends the pass;
`goto start_journal_io` runs the tail of the `if` body. -/
def commit_loop_iter (env : commit_env) (barrier : Bool) (s : commit_state) : commit_state :=
  match s.t_buffers with
  | [] => s
  | jh :: rest =>
    if is_journal_aborted s.journal then loop_release env barrier s jh rest
    else
      let got := loop_descriptor env s
      if !got.2 then got.1 else loop_log env got.1 jh rest

/-- The loop `while (commit_transaction->t_buffers)`, at most `fuel` passes;
`none` when the passes run out before `t_buffers` is empty. -/
def commit_loop (env : commit_env) (barrier : Bool) : Nat → commit_state → Option commit_state
  | 0, s => if s.t_buffers = [] then some s else none
  | fuel + 1, s =>
    if s.t_buffers = [] then some s
    else commit_loop env barrier fuel (commit_loop_iter env barrier s)

/-- Number of passes that always suffices: every pass takes a buffer off
`t_buffers` or aborts the journal, and aborting happens once. -/
def commit_loop_fuel (s : commit_state) : Nat :=
  2 * s.t_buffers.length + 1

/-! ### `jbd2_journal_commit_transaction` (commit.c 390-1224)

Blocking waits (`jbd2_journal_wait_updates`, the wait for a fast commit,
`wait_on_buffer`) return once the awaited event has happened and are not
steps of the embedding; locks, tracing and statistics are left out.  The
functions of this section leave the `J_ASSERT`s out: they give the run in
which no assertion fails; `jbd2_journal_commit_transaction_asserting` below
executes them. -/

/-- The loop `while (commit_transaction->t_reserved_list)` (commit.c 522-538). -/
def release_reserved_list : List journal_head → commit_state → commit_state
  | [], s => { s with t_reserved_list := [] }
  | jh :: rest, s =>
    release_reserved_list rest
      (emit { s with t_reserved_list := rest } (event.jbd2_journal_refile_buffer jh.b_blocknr))

/-- Modelled from the spec: `jbd2_journal_write_revoke_records` (revoke.c) is
not part of the sources; it writes `n` revoke blocks, each taking the next log
block and being filed on `log_bufs` ("here we wait for the revoke record and
descriptor record buffers"), and writes nothing once the journal is aborted
("no further log writes are attempted"). -/
def jbd2_journal_write_revoke_records (env : commit_env) : Nat → commit_state → commit_state
  | 0, s => s
  | n + 1, s =>
    if is_journal_aborted s.journal then s
    else
      let r := jbd2_journal_get_descriptor_buffer env s 5
      match r.2 with
      | none => r.1
      | some bh =>
        jbd2_journal_write_revoke_records env n
          (emit { r.1 with log_bufs := r.1.log_bufs ++ [bh.b_blocknr] }
            (event.write_revoke_record bh))

/-- From the entry of `jbd2_journal_commit_transaction` to the submission of
the data buffers (commit.c 421-591): lock down the running transaction. -/
def commit_lock_down (env : commit_env) (s : commit_state) : commit_state :=
  let s0 : commit_state := { s with
    space_left := 0, first_tag := false, cbh := none, crc32_sum := 4294967295,
    io_bufs := [], log_bufs := [] }
  let s1 := if s0.journal.j_flags.JBD2_FLUSHED then emit s0 event.update_sb_log_tail else s0
  let s2 : commit_state := { s1 with journal := { s1.journal with
    j_flags := { s1.journal.j_flags with JBD2_FULL_COMMIT_ONGOING := true } } }
  let s3 := set_t_state s2 t_state.T_LOCKED
  let s4 := set_t_state s3 t_state.T_SWITCH
  let s5 := release_reserved_list s4.t_reserved_list s4
  let s6 : commit_state := { s5 with
    t_outstanding_credits := s5.t_outstanding_credits - s5.journal.j_reserved_credits }
  let s7 := set_t_state s6 t_state.T_FLUSH
  let s8 : commit_state := { s7 with t_log_start := s7.journal.j_head }
  let err := journal_submit_data_buffers env s8.journal s8.t_inode_list 0
  let s9 : commit_state := { s8 with err := err }
  if err ≠ 0 then jbd2_journal_abort s9 err else s9

/-- From the entry of `jbd2_journal_commit_transaction` to the start of the
metadata loop (commit.c 421-619). -/
def commit_prologue (env : commit_env) (s : commit_state) : commit_state :=
  let s10 := commit_lock_down env s
  let s11 := jbd2_journal_write_revoke_records env env.revoke_blocks s10
  let s12 := set_t_state s11 t_state.T_COMMIT
  { s12 with err := 0, wbuf := [], descriptor := false }

/-- The value of `freed` (commit.c 816-819). -/
def log_tail_freed (j : journal_t) (first_block : Nat) : Int :=
  let freed : Int := (first_block : Int) - (j.j_tail : Int)
  if first_block < j.j_tail then freed + ((j.j_last : Int) - (j.j_first : Int)) else freed

/-- The statements `err = journal_submit_commit_record(journal,
commit_transaction, &cbh, crc32_sum); if (err) jbd2_journal_abort(journal,
err);` (commit.c 840-843 and 933-936). -/
def submit_commit_record_step (env : commit_env) (s : commit_state) : commit_state :=
  let r := journal_submit_commit_record env s s.crc32_sum
  let a : commit_state := { r.1 with err := r.2 }
  if r.2 ≠ 0 then jbd2_journal_abort a r.2 else a

/-- Waiting for the file data and handling its error (commit.c 794-802). -/
def finish_inode_data_step (env : commit_env) (s0 : commit_state) : commit_state :=
  let err := journal_finish_inode_data_buffers env s0.journal s0.t_inode_list 0
  let s1 : commit_state := { s0 with err := err, t_inode_list := [] }
  if err ≠ 0 then
    let a := if s1.journal.j_flags.JBD2_ABORT_ON_SYNCDATA_ERR then jbd2_journal_abort s1 err
      else s1
    { a with err := 0 }
  else s1

/-- Choosing whether the log tail will be updated (commit.c 811-823). -/
def log_tail_step (env : commit_env) (s2 : commit_state) : commit_state :=
  let s3 : commit_state := { s2 with
    update_tail := env.get_log_tail.1,
    first_tid := env.get_log_tail.2.1,
    first_block := env.get_log_tail.2.2 }
  if s3.update_tail ≠ 0 then
    if log_tail_freed s3.journal s3.first_block < env.max_txn_bufs then
      { s3 with update_tail := 0 }
    else s3
  else s3

/-- From the end of the metadata loop to the flush of the filesystem device
(commit.c 794-836). -/
def commit_dflush_head (env : commit_env) (s0 : commit_state) : commit_state :=
  let s4 := log_tail_step env (finish_inode_data_step env s0)
  let s5 := set_t_state s4 t_state.T_COMMIT_DFLUSH
  if s5.t_need_data_flush ∧ s5.journal.j_fs_dev ≠ s5.journal.j_dev ∧
      s5.journal.j_flags.JBD2_BARRIER then
    emit s5 (event.blkdev_issue_flush s5.journal.j_fs_dev)
  else s5

/-- From the end of the metadata loop to the submission of an asynchronous
commit record (commit.c 794-846). -/
def commit_dflush (env : commit_env) (s0 : commit_state) : commit_state :=
  let s6 := commit_dflush_head env s0
  if jbd2_has_feature_async_commit s6.journal then submit_commit_record_step env s6 else s6

/-- One pass of `while (!list_empty(&io_bufs))` (commit.c 861-898) for the
buffer `bh` at `io_bufs.prev`. -/
def wait_io_buf (env : commit_env) (s : commit_state) (bh : Nat) : commit_state :=
  let s1 := emit s (event.wait_on_buffer bh)
  let s2 : commit_state := if !env.io_uptodate bh then { s1 with err := - EIO } else s1
  let s3 : commit_state := { s2 with io_bufs := s2.io_bufs.dropLast }
  match s3.t_shadow_list.getLast? with
  | none => s3
  | some jh =>
    { s3 with t_shadow_list := s3.t_shadow_list.dropLast, t_forget := s3.t_forget ++ [jh] }

/-- One pass of `while (!list_empty(&log_bufs))` (commit.c 905-921) for the
buffer `bh` at `log_bufs.prev`. -/
def wait_log_buf (env : commit_env) (s : commit_state) (bh : Nat) : commit_state :=
  let s1 := emit s (event.wait_on_buffer bh)
  let s2 : commit_state := if !env.io_uptodate bh then { s1 with err := - EIO } else s1
  { s2 with log_bufs := s2.log_bufs.dropLast }

/-- The two wait loops, last buffer first, and the abort that follows them
(commit.c 861-924; the same code at 1959-2024 in the flush stage). -/
def commit_wait_io (env : commit_env) (s0 : commit_state) : commit_state :=
  let s1 := s0.io_bufs.reverse.foldl (wait_io_buf env) s0
  let s2 := s1.log_bufs.reverse.foldl (wait_log_buf env) s1
  if s2.err ≠ 0 then jbd2_journal_abort s2 s2.err else s2

/-- Waiting for the commit record, device flush and tail update
(commit.c 938-963). -/
def commit_jflush_tail (env : commit_env) (s2 : commit_state) : commit_state :=
  let s3 : commit_state :=
    match s2.cbh with
    | some cbh =>
      let r := journal_wait_on_commit_record env s2 cbh
      { r.1 with err := r.2 }
    | none => s2
  let s4 :=
    if s3.journal.j_flags.JBD2_BARRIER then emit s3 (event.blkdev_issue_flush s3.journal.j_dev)
    else s3
  let s5 :=
    if jbd2_has_feature_async_commit s4.journal ∧ s4.journal.j_flags.JBD2_BARRIER then
      emit s4 (event.blkdev_issue_flush s4.journal.j_dev)
    else s4
  let s6 := if s5.err ≠ 0 then jbd2_journal_abort s5 s5.err else s5
  if s6.update_tail ≠ 0 then emit s6 (event.jbd2_update_log_tail s6.first_tid s6.first_block)
  else s6

/-- Commit record, device flush and tail update (commit.c 926-963). -/
def commit_jflush (env : commit_env) (s0 : commit_state) : commit_state :=
  let s1 := set_t_state s0 t_state.T_COMMIT_JFLUSH
  let s2 : commit_state :=
    if !jbd2_has_feature_async_commit s1.journal then submit_commit_record_step env s1 else s1
  commit_jflush_tail env s2

/-- Rotation of the snapshots of a buffer taken off the forget list
(commit.c 1013-1025). -/
def forget_rotate (jh : journal_head) : journal_head :=
  match jh.b_committed_data with
  | some _ =>
    let jh1 := { jh with b_committed_data := none }
    match jh1.b_frozen_data with
    | some f =>
      { jh1 with b_committed_data := some f, b_frozen_data := none, b_frozen_triggers := false }
    | none => jh1
  | none =>
    match jh.b_frozen_data with
    | some _ => { jh with b_frozen_data := none, b_frozen_triggers := false }
    | none => jh

/-- One pass of `while (commit_transaction->t_forget)` (commit.c 983-1106). -/
def commit_forget_one (s : commit_state) (jh0 : journal_head) : commit_state :=
  let jh1 := forget_rotate jh0
  let jh2 := if jh1.b_cp_transaction then { jh1 with b_cp_transaction := false } else jh1
  let jh3 :=
    if jh2.freed ∧ ¬ jh2.b_next_transaction then { jh2 with freed := false, jbddirty := false }
    else jh2
  let s1 : commit_state := { s with t_forget := s.t_forget.tail }
  if jh3.jbddirty then
    let s2 := emit s1 (event.insert_checkpoint jh3.b_blocknr)
    let jh4 := if is_journal_aborted s2.journal then { jh3 with jbddirty := false } else jh3
    let s3 : commit_state := { s2 with t_checkpoint_list := s2.t_checkpoint_list ++ [jh4] }
    emit s3 (event.jbd2_journal_refile_buffer jh4.b_blocknr)
  else
    let s2 := emit s1 (event.jbd2_journal_refile_buffer jh3.b_blocknr)
    if ¬ jh3.b_next_transaction then emit s2 (event.release_buffer_page jh3.b_blocknr) else s2

/-- Checkpoint processing and the end of the commit (commit.c 977-1224). -/
def commit_finish (env : commit_env) (s0 : commit_state) : commit_state :=
  let s1 := s0.t_forget.foldl commit_forget_one s0
  let s2 : commit_state := { s1 with journal := { s1.journal with j_checkpoint_transactions := true } }
  let s3 := set_t_state s2 t_state.T_COMMIT_CALLBACK
  let s4 : commit_state := { s3 with journal := { s3.journal with
    j_commit_sequence := s3.t_tid,
    j_average_commit_time :=
      if s3.journal.j_average_commit_time ≠ 0 then
        (env.commit_time + s3.journal.j_average_commit_time * 3) / 4
      else env.commit_time } }
  let s5 := if s4.journal.j_commit_callback then emit s4 (event.j_commit_callback s4.t_tid) else s4
  let s6 :=
    if s5.journal.j_fc_cleanup_callback then emit s5 (event.j_fc_cleanup_callback s5.t_tid) else s5
  let s7 : commit_state := { s6 with journal := { s6.journal with
    j_flags := { s6.journal.j_flags with
      JBD2_FULL_COMMIT_ONGOING := false, JBD2_FAST_COMMIT_ONGOING := false } } }
  let s8 := set_t_state s7 t_state.T_FINISHED
  if s8.t_checkpoint_list = [] ∧ s8.t_checkpoint_io_list = [] then
    emit s8 (event.drop_transaction s8.t_tid)
  else s8

/-- The part of `jbd2_journal_commit_transaction` behind the metadata loop
(commit.c 794-1224). -/
def commit_after_loop (env : commit_env) (s : commit_state) : commit_state :=
  commit_finish env (commit_jflush env (commit_wait_io env (commit_dflush env s)))

/-- The function `jbd2_journal_commit_transaction`: `none` only if the
metadata loop were not to end within `commit_loop_fuel` passes. -/
def jbd2_journal_commit_transaction (env : commit_env) (s0 : commit_state) :
    Option commit_state :=
  let s1 := commit_prologue env s0
  match commit_loop env false (commit_loop_fuel s1) s1 with
  | none => none
  | some s2 => some (commit_after_loop env s2)

/-! ### `jbd2_journal_barrier_flush_transaction` (commit.c 1912-2317) -/

/-- The macros of the pipelined commit whose definitions are not part of the
sources: `MAX_JH_VERSION`, and `COMPOUND_FLUSH` (`none` when it is not
defined). -/
structure barrier_config where
  MAX_JH_VERSION : Nat
  COMPOUND_FLUSH : Option Nat
  deriving DecidableEq, Repr

/-- Rotation of the snapshots in the slot `b_jh_entry[ver_tid]`
(commit.c 2120-2132); line 2124 reads `jh->b_frozen_data`. -/
def forget_rotate_entry (jh : journal_head) (e : jh_entry) : jh_entry :=
  match e.b_committed_data with
  | some _ =>
    let e1 := { e with b_committed_data := none }
    match e1.b_frozen_data with
    | some _ =>
      { e1 with b_committed_data := jh.b_frozen_data, b_frozen_data := none,
                b_frozen_triggers := false }
    | none => e1
  | none =>
    match e.b_frozen_data with
    | some _ => { e with b_frozen_data := none, b_frozen_triggers := false }
    | none => e

/-- One pass of `while (commit_transaction->t_forget)` in the flush stage
(commit.c 2090-2214). -/
def flush_forget_one (ver_tid : Nat) (s : commit_state) (jh0 : journal_head) : commit_state :=
  let jh1 := { jh0 with b_jh_entry := jh0.b_jh_entry.modify (forget_rotate_entry jh0) ver_tid }
  let jh2 := if jh1.b_cp_transaction then { jh1 with b_cp_transaction := false } else jh1
  let jh3 :=
    if jh2.freed ∧ jh2.b_ver_count = 1 then { jh2 with freed := false, jbddirty := false }
    else jh2
  let s1 : commit_state := { s with t_forget := s.t_forget.tail }
  if jh3.jbddirty then
    let s2 := emit s1 (event.insert_checkpoint jh3.b_blocknr)
    let jh4 := if is_journal_aborted s2.journal then { jh3 with jbddirty := false } else jh3
    let s3 : commit_state := { s2 with t_checkpoint_list := s2.t_checkpoint_list ++ [jh4] }
    emit s3 (event.jbd2_journal_refile_buffer jh4.b_blocknr)
  else
    let s2 := emit s1 (event.jbd2_journal_refile_buffer jh3.b_blocknr)
    if jh3.b_ver_count = 1 then emit s2 (event.release_buffer_page jh3.b_blocknr) else s2

/-- The flush stage from the change to `T_COMMIT_JFLUSH` to the update of the
log tail (commit.c 2026-2069); `do_flush` tells whether this transaction
flushes the device (always, unless `COMPOUND_FLUSH` is defined). -/
def flush_jflush (env : commit_env) (do_flush : Bool) (s1 : commit_state) : commit_state :=
  let s2 := set_t_state s1 t_state.T_COMMIT_JFLUSH
  let s3 : commit_state :=
    match s2.cbh with
    | some cbh =>
      let r := journal_wait_on_commit_record env s2 cbh
      { r.1 with err := r.2 }
    | none => s2
  let s4 :=
    if s3.journal.j_flags.JBD2_BARRIER ∧ do_flush then
      emit s3 (event.blkdev_issue_flush s3.journal.j_dev)
    else s3
  let s5 := if s4.err ≠ 0 then jbd2_journal_abort s4 s4.err else s4
  if s5.update_tail ≠ 0 then
    emit s5 (event.jbd2_update_log_tail s5.first_tid s5.first_block)
  else s5

/-- The flush stage from the forget loop to the end (commit.c 2084-2283). -/
def flush_finish (env : commit_env) (cfg : barrier_config) (do_flush : Bool) (ver_tid : Nat)
    (s6 : commit_state) : commit_state :=
  let s7 := s6.t_forget.foldl (flush_forget_one ver_tid) s6
  let s8 : commit_state := { s7 with journal := { s7.journal with
    j_transfer_sequence :=
      if cfg.COMPOUND_FLUSH.isSome then s7.t_tid else s7.journal.j_transfer_sequence,
    j_flush_sequence := if do_flush then s7.t_tid else s7.journal.j_flush_sequence,
    j_checkpoint_transactions := true } }
  let s9 : commit_state := { s8 with journal := { s8.journal with
    j_flags := { s8.journal.j_flags with
      JBD2_FULL_COMMIT_ONGOING := false, JBD2_FAST_COMMIT_ONGOING := false } } }
  let s10 := set_t_state s9 t_state.T_FINISHED
  let s11 :=
    if s10.t_checkpoint_list = [] ∧ s10.t_checkpoint_io_list = [] then
      emit s10 (event.drop_transaction s10.t_tid)
    else s10
  { s11 with journal := { s11.journal with
    j_average_commit_time :=
      if s11.journal.j_average_commit_time ≠ 0 then
        (env.commit_time + s11.journal.j_average_commit_time * 3) / 4
      else env.commit_time } }

/-- The function `jbd2_journal_barrier_flush_transaction`.  `q` is the flush
queue and `s0` the state of the transaction at its head, whose fields
`t_io_bufs`, `t_log_bufs`, `t_cbh` and `t_update_tail` are the components
`io_bufs`, `log_bufs`, `cbh` and `update_tail`. -/
def jbd2_journal_barrier_flush_transaction (env : commit_env) (cfg : barrier_config)
    (q : flush_queue) (s0 : commit_state) : flush_queue × commit_state :=
  match flush_pick q with
  | none => (q, s0)
  | some commit_transaction =>
    let ver_tid := s0.t_tid % cfg.MAX_JH_VERSION
    let flush_tid := cfg.COMPOUND_FLUSH.map (fun c => s0.t_tid % c)
    let commit_empty : Bool :=
      q.j_flushing_transactions = some (q.mem commit_transaction).t_flushnext
    let do_flush : Bool :=
      match flush_tid with
      | some f => f = 0 ∨ commit_empty
      | none => true
    let s1 := commit_wait_io env { s0 with err := 0 }
    let s6 := flush_jflush env do_flush s1
    let s12 := flush_finish env cfg do_flush ver_tid s6
    (flush_dequeue q commit_transaction, s12)

/-! ### Sample inputs -/

/-- A dirty metadata buffer with home block `n`. -/
def sample_jh (n : Nat) : journal_head :=
  { b_blocknr := n, b_data := [n % 256], jbddirty := true, freed := false,
    b_frozen_data := none, b_committed_data := none, b_frozen_triggers := false,
    b_next_transaction := false, b_cp_transaction := false, b_jh_entry := [],
    b_ver_count := 1 }

/-- A journal of 1 KiB blocks on one device, log blocks 1 to 99, head at 10,
with write barriers and the v1 checksum feature. -/
def sample_journal : journal_t :=
  { j_flags :=
      { JBD2_ABORT := false, JBD2_FLUSHED := false, JBD2_BARRIER := true,
        JBD2_ABORT_ON_SYNCDATA_ERR := false, JBD2_FAST_COMMIT_ONGOING := false,
        JBD2_FULL_COMMIT_ONGOING := false },
    j_csum := csum_version.v1, feature_async_commit := false, feature_64bit := false,
    j_csum_seed := 0, j_blocksize := 1024, j_wbufsize := 8, tag_bytes := 8,
    j_uuid := List.replicate 16 7, j_fs_dev := 1, j_dev := 1, j_first := 1, j_last := 100,
    j_head := 10, j_tail := 5, j_tail_sequence := 40, j_commit_sequence := 41,
    j_transfer_sequence := 41, j_flush_sequence := 41, j_reserved_credits := 0,
    j_average_commit_time := 0, j_commit_callback := true, j_fc_cleanup_callback := true,
    j_submit_inode_data_buffers := true, j_finish_inode_data_buffers := true,
    j_checkpoint_transactions := false }

/-- An environment in which every call succeeds and every write completes. -/
def sample_env : commit_env :=
  { submit_inode_data := fun _ => 0, finish_inode_data := fun _ => 0, revoke_blocks := 0,
    bmap_err := fun _ => 0, getblk_ok := fun _ => true, write_metadata_flags := fun _ => 0,
    io_uptodate := fun _ => true, submit_bh_ret := 0, get_log_tail := (0, 0, 0),
    max_txn_bufs := 16, block_bytes := fun bh => [bh.b_blocknr % 256],
    crc32_be := fun c l => (c * 31 + l.sum) % 4294967296,
    jbd2_chksum := fun c l => (c * 33 + l.sum) % 4294967296,
    now := (1000, 5), commit_time := 3,
    blank_tag :=
      { t_blocknr := [0, 0, 0, 0], t_blocknr_high := [0, 0, 0, 0], t_flags := [0, 0],
        t_checksum := [0, 0], uuid := none } }

/-- The running transaction 42 of `journal` with the metadata buffers
`bufs` on `t_buffers` and nothing else pending. -/
def sample_state (journal : journal_t) (bufs : List journal_head) : commit_state :=
  { journal := journal, t_tid := 42, t_state := t_state.T_RUNNING, t_reserved_list := [],
    t_inode_list := [], t_buffers := bufs, t_shadow_list := [], t_forget := [],
    t_checkpoint_list := [], t_checkpoint_io_list := [], t_nr_buffers := bufs.length,
    t_outstanding_credits := bufs.length + 8, t_need_data_flush := false, t_log_start := 0,
    err := 0, wbuf := [], descriptor := false, space_left := 0, first_tag := false,
    crc32_sum := 0, io_bufs := [], log_bufs := [], cbh := none, update_tail := 0,
    first_tid := 0, first_block := 0, trace := [] }

/-- As `sample_env`, but log position 12 cannot be mapped to a block. -/
def bmap_fail_env : commit_env :=
  { sample_env with bmap_err := fun b => if b = 12 then -5 else 0 }

/-- The sample transaction on a journal whose filesystem is on another device
(device 2), with data to be flushed there. -/
def external_journal_state : commit_state :=
  { sample_state { sample_journal with j_fs_dev := 2 } [sample_jh 100] with
    t_need_data_flush := true }

/-! ### Reading a trace -/

/-- The calls `submit_bh` of the batch loop for `wbuf[i .. bufs)`. -/
def io_events (t_buffers : List journal_head) (bufs : Nat) : Nat → List buffer_head → List event
  | _, [] => []
  | i, bh :: rest =>
    event.submit_bh (journal_io_flags t_buffers i bufs) bh :: io_events t_buffers bufs (i + 1) rest

/-- The values assigned to `t_state`, in order. -/
def t_states (tr : List event) : List t_state :=
  tr.filterMap (fun e => match e with
    | event.set_t_state st => some st
    | _ => none)

/-- The devices flushed with `blkdev_issue_flush`, in order. -/
def flushes (tr : List event) : List Nat :=
  tr.filterMap (fun e => match e with
    | event.blkdev_issue_flush dev => some dev
    | _ => none)

/-- The buffers passed to `submit_bh`, in order. -/
def submitted (tr : List event) : List buffer_head :=
  tr.filterMap (fun e => match e with
    | event.submit_bh _ bh => some bh
    | _ => none)

/-- The errnos passed to `jbd2_journal_abort`, in order. -/
def aborts (tr : List event) : List Int :=
  tr.filterMap (fun e => match e with
    | event.jbd2_journal_abort errno => some errno
    | _ => none)

/-- The log blocks waited for with `wait_on_buffer`, in order. -/
def waited (tr : List event) : List Nat :=
  tr.filterMap (fun e => match e with
    | event.wait_on_buffer b => some b
    | _ => none)

/-- Whether a log buffer is a descriptor block. -/
def is_descriptor (bh : buffer_head) : Bool :=
  match bh.b_data with
  | block_data.descriptor _ _ => true
  | _ => false

/-- Whether a log buffer is a commit block. -/
def is_commit (bh : buffer_head) : Bool :=
  match bh.b_data with
  | block_data.commit _ => true
  | _ => false

/-- The tags of a descriptor block (none for other blocks). -/
def tags_of (bh : buffer_head) : List journal_block_tag_t :=
  match bh.b_data with
  | block_data.descriptor tags _ => tags
  | _ => []

/-- Whether the flag `JBD2_FLAG_LAST_TAG` is set in a tag. -/
def tag_is_last (tag : journal_block_tag_t) : Bool :=
  be16_to_cpu tag.t_flags &&& JBD2_FLAG_LAST_TAG ≠ 0

/-- The events of the abort branch of the metadata loop for the buffers `l`. -/
def release_events (barrier : Bool) : List journal_head → List event
  | [] => []
  | jh :: rest =>
    [event.clear_buffer_jbddirty jh.b_blocknr, event.jbd2_buffer_abort_trigger jh.b_blocknr,
      if barrier then event.jbd2_journal_unfile_buffer_entry jh.b_blocknr
      else event.jbd2_journal_refile_buffer jh.b_blocknr] ++ release_events barrier rest

/-- The log position after `p` (the cursor of `jbd2_journal_next_log_block`). -/
def log_next (j : journal_t) (p : Nat) : Nat :=
  if p + 1 = j.j_last then j.j_first else p + 1

/-- The number that decreases with every pass of the metadata loop: twice the
length of `t_buffers`, plus one while the journal is not aborted. -/
def commit_loop_measure (s : commit_state) : Nat :=
  2 * s.t_buffers.length + (if is_journal_aborted s.journal then 0 else 1)

/-- The state after the cursor has handed out one log block. -/
def log_advance (s : commit_state) : commit_state :=
  { s with journal := { s.journal with j_head := log_next s.journal s.journal.j_head } }

/-- Whether the next log block can be had for a descriptor, revoke or commit
block. -/
def desc_alloc_ok (env : commit_env) (s : commit_state) : Bool :=
  env.bmap_err s.journal.j_head = 0 ∧ env.getblk_ok s.journal.j_head

/-- The fresh descriptor block obtained in state `s`. -/
def fresh_descriptor (s : commit_state) : buffer_head :=
  { b_blocknr := s.journal.j_head, b_size := s.journal.j_blocksize,
    b_data := block_data.descriptor [] none }

/-- The state after a descriptor block has been obtained and stored in
`wbuf[0]` (commit.c 665-676). -/
def open_descriptor (s : commit_state) : commit_state :=
  { log_advance s with
    descriptor := true,
    space_left := (s.journal.j_blocksize : Int) - sizeof_journal_header_t,
    first_tag := true,
    wbuf := s.wbuf ++ [fresh_descriptor s],
    log_bufs := s.log_bufs ++ [s.journal.j_head] }

/-- The temporary buffer made for `jh` by `jbd2_journal_write_metadata_buffer`
in state `s`. -/
def metadata_bh (env : commit_env) (s : commit_state) (jh : journal_head) : buffer_head :=
  { b_blocknr := s.journal.j_head, b_size := s.journal.j_blocksize,
    b_data := block_data.metadata jh (env.write_metadata_flags jh.b_blocknr % 2 = 1) }

/-- The state after `jh` has been given a log block and a temporary buffer
(commit.c 681-713). -/
def log_buffer (s : commit_state) (jh : journal_head) (rest : List journal_head) :
    commit_state :=
  { log_advance s with
    err := 0,
    t_outstanding_credits := s.t_outstanding_credits - 1,
    t_buffers := rest,
    t_shadow_list := s.t_shadow_list ++ [jh],
    io_bufs := s.io_bufs ++ [s.journal.j_head] }

/-- The buffers staged in `wbuf` as the code at `start_journal_io` submits
them: the descriptor, if there is one, gets its checksum first. -/
def staged (env : commit_env) (s : commit_state) : List buffer_head :=
  if s.descriptor then on_descriptor (jbd2_descriptor_block_csum_set env s.journal) s.wbuf
  else s.wbuf

/-- The buffers passed to `submit_bh` after the first call of
`jbd2_journal_abort`. -/
def submitted_after_abort (tr : List event) : List buffer_head :=
  submitted (tr.dropWhile (fun e => match e with
    | event.jbd2_journal_abort _ => false
    | _ => true))

/-- The commit block built by `journal_submit_commit_record` in state `s`
for the running checksum `crc32_sum` (commit.c 136-146). -/
def commit_record_bh (env : commit_env) (s : commit_state) (crc32_sum : Nat) : buffer_head :=
  jbd2_commit_block_csum_set env s.journal
    { b_blocknr := s.journal.j_head, b_size := s.journal.j_blocksize,
      b_data := block_data.commit
        { h_blocktype := JBD2_COMMIT_BLOCK, h_sequence := s.t_tid,
          h_chksum_type := if jbd2_has_feature_checksum s.journal then JBD2_CRC32_CHKSUM else 0,
          h_chksum_size :=
            if jbd2_has_feature_checksum s.journal then JBD2_CRC32_CHKSUM_SIZE else 0,
          h_chksum0 :=
            if jbd2_has_feature_checksum s.journal then cpu_to_be32 crc32_sum
            else cpu_to_be32 0,
          h_commit_sec := cpu_to_be64 env.now.1, h_commit_nsec := cpu_to_be32 env.now.2 } }

/-- The request flags of the commit block (commit.c 154-159). -/
def commit_record_flags (j : journal_t) : req_flags :=
  if j.j_flags.JBD2_BARRIER && !jbd2_has_feature_async_commit j then
    { REQ_SYNC := true, REQ_ORDERED := true, REQ_BARRIER := true }
  else { REQ_SYNC := true, REQ_ORDERED := false, REQ_BARRIER := false }

/-- Events that are neither a state change, nor an abort, nor a log write,
nor a device flush. -/
def is_quiet : event → Bool
  | event.set_t_state _ => false
  | event.jbd2_journal_abort _ => false
  | event.submit_bh _ _ => false
  | event.blkdev_issue_flush _ => false
  | _ => true

/-- The state changes, aborts, log writes and device flushes of a trace. -/
def loud (tr : List event) : List event :=
  tr.filter (fun e => !is_quiet e)

/-- The settings of a journal that a commit reads but never changes. -/
def journal_config (j : journal_t) :
    Bool × Bool × csum_version × Bool × Bool × Nat × Nat × Nat × Int × List Nat × Nat × Nat ×
      Nat × Nat × Bool × Bool :=
  (j.j_flags.JBD2_BARRIER, j.j_flags.JBD2_ABORT_ON_SYNCDATA_ERR, j.j_csum,
    j.feature_async_commit, j.feature_64bit, j.j_csum_seed, j.j_blocksize, j.j_wbufsize,
    j.tag_bytes, j.j_uuid, j.j_fs_dev, j.j_dev, j.j_first, j.j_last, j.j_commit_callback,
    j.j_fc_cleanup_callback)

/-- The result of `journal_submit_data_buffers` in the commit of `s`. -/
def submit_data_err (env : commit_env) (s : commit_state) : Int :=
  journal_submit_data_buffers env
    { s.journal with j_flags := { s.journal.j_flags with JBD2_FULL_COMMIT_ONGOING := true } }
    s.t_inode_list 0

/-- The result of `journal_finish_inode_data_buffers` in the commit of `s`. -/
def finish_data_err (env : commit_env) (s : commit_state) : Int :=
  journal_finish_inode_data_buffers env s.journal s.t_inode_list 0

/-- The value of `err` after the commit record has been waited for
(commit.c 938-939). -/
def commit_record_err (env : commit_env) (s : commit_state) : Int :=
  match s.cbh with
  | some cbh => if env.io_uptodate cbh.b_blocknr then 0 else - EIO
  | none => s.err

/-- The buffers the two wait loops wait for, in order. -/
def wait_order (s : commit_state) : List Nat :=
  s.io_bufs.reverse ++ s.log_bufs.reverse

/-- The value of `err` after the two wait loops (commit.c 861-921). -/
def wait_err (env : commit_env) (s : commit_state) : Int :=
  if (wait_order s).all (fun b => env.io_uptodate b) then s.err else - EIO

/-- The kinds of call the metadata loop makes. -/
def is_loop_event : event → Bool
  | event.submit_bh _ _ => true
  | event.jbd2_journal_abort _ => true
  | event.clear_buffer_jbddirty _ => true
  | event.jbd2_buffer_abort_trigger _ => true
  | event.jbd2_journal_refile_buffer _ => true
  | event.jbd2_journal_unfile_buffer_entry _ => true
  | _ => false

/-- The fields of the commit state that the metadata loop never touches. -/
def loop_frame (s : commit_state) :
    Nat × t_state × List jbd2_inode × List journal_head × List journal_head ×
      List journal_head × List journal_head × Int × Bool × Nat × Option buffer_head × Int ×
      Nat × Nat :=
  (s.t_tid, s.t_state, s.t_inode_list, s.t_reserved_list, s.t_forget, s.t_checkpoint_list,
    s.t_checkpoint_io_list, s.t_nr_buffers, s.t_need_data_flush, s.t_log_start, s.cbh,
    s.update_tail, s.first_tid, s.first_block)

/-! ### Reading a trace: what follows a wait -/

/-- Whether `jbd2_journal_abort(journal, errno)` is called after the wait for
the buffer of log block `b`. -/
def aborted_after_wait (tr : List event) (b : Nat) (errno : Int) : Prop :=
  event.jbd2_journal_abort errno ∈
    tr.dropWhile (fun e => decide (e ≠ event.wait_on_buffer b))

instance (tr : List event) (b : Nat) (errno : Int) :
    Decidable (aborted_after_wait tr b errno) :=
  inferInstanceAs (Decidable (event.jbd2_journal_abort errno ∈
    tr.dropWhile (fun e => decide (e ≠ event.wait_on_buffer b))))

/-- As `sample_env`, but the write to log block 11 fails. -/
def io_fail_env : commit_env :=
  { sample_env with io_uptodate := fun b => decide (b ≠ 11) }

/-- A flush queue holding the single transaction at address 7. -/
def sample_queue : flush_queue :=
  { j_flushing_transactions := some 7,
    mem := fun _ => { t_tid := 42, t_flushnext := 7, t_flushprev := 7 } }

/-- The transaction 42 as the dispatch stage leaves it after logging one
buffer: descriptor at log block 10, metadata at 11, commit record at 12. -/
def dispatched_state : commit_state :=
  { sample_state sample_journal [] with
    t_state := t_state.T_COMMIT_DFLUSH,
    t_shadow_list := [sample_jh 100], io_bufs := [11], log_bufs := [10],
    cbh := some (commit_record_bh sample_env (sample_state sample_journal []) 0) }

/-- The settings of the pipelined commit used in the samples. -/
def sample_config : barrier_config :=
  { MAX_JH_VERSION := 4, COMPOUND_FLUSH := none }

/-! ### Reading a log block -/

/-- What a log block holds: a descriptor block with so many tags, the copy of a
metadata buffer, a commit block or a revoke block. -/
inductive block_kind where
  | descriptor (ntags : Nat)
  | metadata (jh : journal_head)
  | commit
  | revoke
  deriving DecidableEq, Repr

/-- The kind of a log buffer. -/
def kind_of (bh : buffer_head) : block_kind :=
  match bh.b_data with
  | block_data.descriptor tags _ => block_kind.descriptor tags.length
  | block_data.metadata jh _ => block_kind.metadata jh
  | block_data.commit _ => block_kind.commit
  | block_data.revoke => block_kind.revoke

/-- The log block of a log buffer and what it holds. -/
def log_image (bh : buffer_head) : Nat × block_kind :=
  (bh.b_blocknr, kind_of bh)

/-- The log blocks taken by the metadata buffers `l`, one after the other from
log position `p` on. -/
def metadata_images (j : journal_t) : Nat → List journal_head → List (Nat × block_kind)
  | _, [] => []
  | p, jh :: l => (p, block_kind.metadata jh) :: metadata_images j (log_next j p) l

/-- No call made by the commit fails in `env`, and every write completes. -/
def env_ok (env : commit_env) : Prop :=
  (∀ i, env.submit_inode_data i = 0) ∧ (∀ i, env.finish_inode_data i = 0) ∧
  (∀ b, env.bmap_err b = 0) ∧ (∀ b, env.getblk_ok b = true) ∧
  (∀ b, 0 ≤ env.write_metadata_flags b) ∧ (∀ b, env.io_uptodate b = true) ∧
  env.submit_bh_ret = 0

/-! ### The last-tag flag of a descriptor block -/

/-- Whether the tags of a descriptor block are marked as the journal format
asks: there is a tag, the final one carries `JBD2_FLAG_LAST_TAG` and no
earlier one does. -/
def last_tag_marked : List journal_block_tag_t → Bool
  | [] => false
  | [t] => tag_is_last t
  | t :: rest => !tag_is_last t && last_tag_marked rest

/-- Whether no tag carries `JBD2_FLAG_LAST_TAG`. -/
def no_tag_marked (tags : List journal_block_tag_t) : Bool :=
  tags.all (fun t => !tag_is_last t)

/-- The flags of a tag as the metadata loop first writes them (commit.c
718-728): at most `JBD2_FLAG_ESCAPE` and `JBD2_FLAG_SAME_UUID`. -/
def fresh_flags (tag : journal_block_tag_t) : Prop :=
  ∃ f, f < 4 ∧ tag.t_flags = cpu_to_be16 f

/-- The shape of `wbuf` between two passes of the metadata loop: empty while
no descriptor is open; otherwise the open descriptor block, whose tags are as
first written, followed by blocks that are no descriptors. -/
def wbuf_shape (s : commit_state) : Prop :=
  (s.descriptor = false → s.wbuf = []) ∧
  (s.descriptor = true → ∃ d ms, s.wbuf = d :: ms ∧ is_descriptor d = true ∧
    (∀ t ∈ tags_of d, fresh_flags t) ∧ (∀ m ∈ ms, is_descriptor m = false))

/-- Every descriptor block submitted so far has its tags marked as the format
asks, or, the journal being aborted, has no tag marked. -/
def descriptors_marked (s : commit_state) : Prop :=
  ∀ d ∈ submitted s.trace, is_descriptor d = true →
    last_tag_marked (tags_of d) = true ∨
      (is_journal_aborted s.journal = true ∧ no_tag_marked (tags_of d) = true)

/-- Whether a block kind is that of a descriptor block. -/
def is_descriptor_kind : block_kind → Bool
  | block_kind.descriptor _ => true
  | _ => false

/-- The log blocks taken by the metadata buffers `l` from log position `p` on
when every buffer gets a descriptor block of its own. -/
def pair_images (j : journal_t) : Nat → List journal_head → List (Nat × block_kind)
  | _, [] => []
  | p, jh :: l =>
    (p, block_kind.descriptor 1) :: (log_next j p, block_kind.metadata jh) ::
      pair_images j (log_next j (log_next j p)) l

/-- The sample transaction of five buffers on a journal with `j_wbufsize` 2. -/
def batch_two_state : commit_state :=
  sample_state { sample_journal with j_wbufsize := 2 }
    [sample_jh 100, sample_jh 200, sample_jh 300, sample_jh 400, sample_jh 500]

/-! ### The running checksum -/

/-- The value `crc32_be` folds, starting from `~0`, over the bytes of the
blocks `l` in order. -/
def running_crc (env : commit_env) (l : List buffer_head) : Nat :=
  l.foldl (fun crc bh => env.crc32_be crc (env.block_bytes bh)) 4294967295

/-- The running checksum `crc32_sum` covers the blocks submitted so far, on a
journal with the checksum feature. -/
def crc_covers (env : commit_env) (s : commit_state) : Prop :=
  jbd2_has_feature_checksum s.journal = true ∧
  s.crc32_sum = running_crc env (submitted s.trace)

/-- The checksum fields of a commit block: `h_chksum_type`, `h_chksum_size`
and `h_chksum[0]` (`none` for other blocks). -/
def commit_chksum (bh : buffer_head) : Option (Nat × Nat × List Nat) :=
  match bh.b_data with
  | block_data.commit h => some (h.h_chksum_type, h.h_chksum_size, h.h_chksum0)
  | _ => none

/-! ### More sample inputs -/

/-- As `sample_env`, with a journal checksum that can be computed piece by
piece, as crc32c can. -/
def chained_env : commit_env :=
  { sample_env with
    jbd2_chksum := fun c l => l.foldl (fun a x => (a * 33 + x) % 4294967296) c }

/-- The sample journal with the v3 checksum feature. -/
def csum3_journal : journal_t :=
  { sample_journal with j_csum := csum_version.v3, j_csum_seed := 99 }

/-- A log buffer holding the copy of the sample metadata buffer 100 at log
block 11. -/
def sample_bh : buffer_head :=
  { b_blocknr := 11, b_size := 1024, b_data := block_data.metadata (sample_jh 100) false }

/-! ### The tags of a descriptor block and the blocks they describe -/

/-- Whether the bits `flag` are set in the `t_flags` of a tag. -/
def tag_has_flag (flag : Nat) (tag : journal_block_tag_t) : Bool :=
  be16_to_cpu tag.t_flags &&& flag ≠ 0

/-- The tag `t` describes the log block `m` as the metadata loop writes it:
`m` is the copy of a metadata buffer, `JBD2_FLAG_ESCAPE` is set exactly when
`jbd2_journal_write_metadata_buffer` reported (bit 0 of its result) that the
buffer was escaped, `JBD2_FLAG_SAME_UUID` is clear and the journal UUID follows
the tag when it is the first tag of its descriptor, and the flag is set and no
UUID follows otherwise. -/
def tag_matches (env : commit_env) (uuid : List Nat) (first : Bool)
    (t : journal_block_tag_t) (m : buffer_head) : Prop :=
  ∃ jh, m.b_data = block_data.metadata jh (decide (env.write_metadata_flags jh.b_blocknr % 2 = 1)) ∧
    (tag_has_flag JBD2_FLAG_ESCAPE t = true ↔ env.write_metadata_flags jh.b_blocknr % 2 = 1) ∧
    tag_has_flag JBD2_FLAG_SAME_UUID t = !first ∧
    t.uuid = (if first then some uuid else none)

/-- The tags of a descriptor block describe, one by one and in order, the
blocks that follow it; `first` tells whether the first tag of the list is the
first tag of the descriptor. -/
def tags_match (env : commit_env) (uuid : List Nat) :
    Bool → List journal_block_tag_t → List buffer_head → Prop
  | _, [], [] => True
  | first, t :: ts, m :: ms => tag_matches env uuid first t m ∧ tags_match env uuid false ts ms
  | _, _, _ => False

/-- A sequence of log blocks made of batches, each a descriptor block followed
by the blocks its tags describe. -/
inductive log_batches (env : commit_env) (uuid : List Nat) : List buffer_head → Prop where
  | nil : log_batches env uuid []
  | batch (d : buffer_head) (ms rest : List buffer_head) :
      is_descriptor d = true → tags_match env uuid true (tags_of d) ms →
      log_batches env uuid rest → log_batches env uuid (d :: ms ++ rest)

/-- The state of the tags between two passes of the metadata loop: the tags of
the open descriptor describe the blocks staged behind it, they are as first
written, `first_tag` is set exactly while there is no tag, and the blocks
submitted so far are made of batches. -/
def tags_inv (env : commit_env) (uuid : List Nat) (s : commit_state) : Prop :=
  s.journal.j_uuid = uuid ∧
  (s.descriptor = false → s.wbuf = []) ∧
  (s.descriptor = true → ∃ d ms, s.wbuf = d :: ms ∧ is_descriptor d = true ∧
    tags_match env uuid true (tags_of d) ms ∧ (∀ t ∈ tags_of d, fresh_flags t) ∧
    (s.first_tag = true ↔ tags_of d = [])) ∧
  log_batches env uuid (submitted s.trace)

/-- The tags of one descriptor block as to the UUID: the first tag has
`JBD2_FLAG_SAME_UUID` clear and the UUID behind it, every later tag has the
flag set and no UUID. -/
def uuid_shape (uuid : List Nat) : List journal_block_tag_t → Prop
  | [] => True
  | t :: rest =>
    tag_has_flag JBD2_FLAG_SAME_UUID t = false ∧ t.uuid = some uuid ∧
      ∀ r ∈ rest, tag_has_flag JBD2_FLAG_SAME_UUID r = true ∧ r.uuid = none

/-! ### The credit counter in the metadata loop -/

/-- The credits left in a loop that started with `c0` credits and `n0`
buffers: none have been added, and at most one has been taken for every buffer
that has left `t_buffers`; once the journal is aborted no more are taken. -/
def credits_inv (c0 : Int) (n0 : Nat) (s : commit_state) : Prop :=
  s.t_outstanding_credits ≤ c0 ∧
  (is_journal_aborted s.journal = false →
    c0 - ((n0 : Int) - (s.t_buffers.length : Int)) ≤ s.t_outstanding_credits) ∧
  (is_journal_aborted s.journal = true → c0 - (n0 : Int) ≤ s.t_outstanding_credits)

/-! ### Sample inputs for the error paths -/

/-- As `sample_env`, but the writeback of file data cannot be submitted
(`journal->j_submit_inode_data_buffers` returns `- EIO`). -/
def submit_fail_env : commit_env :=
  { sample_env with submit_inode_data := fun _ => -5 }

/-- As `sample_env`, but the wait for the file data reports an I/O error
(`journal->j_finish_inode_data_buffers` returns `- EIO`). -/
def wait_fail_env : commit_env :=
  { sample_env with finish_inode_data := fun _ => -5 }

/-- The sample transaction with one buffer and one inode whose data is to be
written and waited for; `JBD2_ABORT_ON_SYNCDATA_ERR` is clear. -/
def data_state : commit_state :=
  { sample_state sample_journal [sample_jh 100] with
    t_inode_list :=
      [{ i_ino := 12, JI_WRITE_DATA := true, JI_WAIT_DATA := true, i_next_transaction := false }] }

/-- As `sample_env`, but no buffer can be had for a log block (`__getblk`
gives NULL). -/
def getblk_fail_env : commit_env :=
  { sample_env with getblk_ok := fun _ => false }

/-! ### The barrier request flag -/

/-- The flag `REQ_BARRIER` of every call of `submit_bh`, in order. -/
def barrier_flags (tr : List event) : List Bool :=
  tr.filterMap (fun e => match e with
    | event.submit_bh f _ => some f.REQ_BARRIER
    | _ => none)

/-- The sample journal with write barriers disabled (`JBD2_BARRIER` clear). -/
def nobarrier_journal : journal_t :=
  { sample_journal with j_flags := { sample_journal.j_flags with JBD2_BARRIER := false } }

/-- What holds of the flags `REQ_BARRIER` between two passes of the metadata
loop started in `s0`: while `t_buffers` is not empty no call of `submit_bh`
made by the loop carries the flag; at most the last call carries it; and when
the loop has emptied `t_buffers` without an abort, the last call carries it. -/
def barrier_inv (s0 x : commit_state) : Prop :=
  ∃ evs, x.trace = s0.trace ++ evs ∧
    (x.t_buffers ≠ [] → ∀ b ∈ barrier_flags evs, b = false) ∧
    (∀ b ∈ (barrier_flags evs).dropLast, b = false) ∧
    (s0.t_buffers ≠ [] → x.t_buffers = [] → is_journal_aborted x.journal = false →
      (barrier_flags evs).getLast? = some true)

/-- Settings of the pipelined commit with `COMPOUND_FLUSH` defined as 4. -/
def compound_config : barrier_config :=
  { MAX_JH_VERSION := 4, COMPOUND_FLUSH := some 4 }

/-! ### `jbd2_journal_barrier_commit_transaction` (commit.c 1258-1896)

The dispatch stage of the pipelined commit.  The components `io_bufs` and
`log_bufs` of the state are the local lists `t_io_bufs` and `t_log_bufs` until
the dispatch of the blocks has been waited for, and from then on the lists
`commit_transaction->t_io_bufs` and `commit_transaction->t_log_bufs`, which
nothing in `commit.c` fills before; `cbh`, `crc32_sum` and `update_tail`
are the fields `t_cbh`, `t_crc32_sum` and `t_update_tail`.  The waits for
`t_conflict_count` to become zero are blocking waits and no steps of the
embedding: the transaction is taken to have `t_conflict_count` zero where the
code reads it (commit.c 1352, 1399, 1410), so that, with `OP_COALESCING`
defined, the branches that wait, set `t_state` back to `T_RUNNING` and start
over at the label `op_coalescing` (1352-1358, 1399-1407) are not taken, and
without it the loop at 1410-1413 does not wait.  The runs of a build with
`OP_COALESCING` that do take the branch at 1399-1407 are those of
`jbd2_journal_barrier_commit_transaction_coalescing` below.

The embedding is that of the thread running the dispatch stage.  From commit.c
1833-1848 on the transaction is on `j_flushing_transactions`, and the thread
running `jbd2_journal_barrier_flush_transaction` may change its state, or free
it, while the dispatch stage goes on to line 1892; what that thread does is
not part of the state handed on here. -/

/-- The loop `while (commit_transaction->t_reserved_list)` of the dispatch
stage (commit.c 1448-1463). -/
def dispatch_release_reserved_list : List journal_head → commit_state → commit_state
  | [], s => { s with t_reserved_list := [] }
  | jh :: rest, s =>
    dispatch_release_reserved_list rest
      (emit { s with t_reserved_list := rest }
        (event.jbd2_journal_refile_buffer_entry jh.b_blocknr))

/-- From the entry of `jbd2_journal_barrier_commit_transaction` to the
submission of the data buffers (commit.c 1284-1517). -/
def dispatch_lock_down (env : commit_env) (s : commit_state) : commit_state :=
  let s0 : commit_state := { s with
    space_left := 0, first_tag := false, io_bufs := [], log_bufs := [] }
  let s1 := if s0.journal.j_flags.JBD2_FLUSHED then emit s0 event.update_sb_log_tail else s0
  let s2 : commit_state := { s1 with journal := { s1.journal with
    j_flags := { s1.journal.j_flags with JBD2_FULL_COMMIT_ONGOING := true } } }
  let s3 := set_t_state s2 t_state.T_LOCKED
  let s4 := set_t_state s3 t_state.T_SWITCH
  let s5 := dispatch_release_reserved_list s4.t_reserved_list s4
  let s6 : commit_state := { s5 with
    t_outstanding_credits := s5.t_outstanding_credits - s5.journal.j_reserved_credits }
  let s7 := set_t_state s6 t_state.T_FLUSH
  let s8 : commit_state := { s7 with t_log_start := s7.journal.j_head }
  let err := journal_submit_data_buffers env s8.journal s8.t_inode_list 0
  let s9 : commit_state := { s8 with err := err }
  if err ≠ 0 then jbd2_journal_abort s9 err else s9

/-- From the entry of `jbd2_journal_barrier_commit_transaction` to the start
of the metadata loop (commit.c 1284-1547). -/
def dispatch_prologue (env : commit_env) (s : commit_state) : commit_state :=
  let s10 := dispatch_lock_down env s
  let s11 := jbd2_journal_write_revoke_records env env.revoke_blocks s10
  let s12 := set_t_state s11 t_state.T_COMMIT
  { s12 with err := 0, wbuf := [], descriptor := false }

/-- One pass of the loops that wait for the dispatch of the log blocks
(commit.c 1796-1813): the buffer `bh` at the tail of the local list is waited
for with `wait_on_buffer_dispatch` and filed at the tail of the list of the
transaction, `r.1`. -/
def dispatch_wait_buf (r : List Nat × commit_state) (bh : Nat) : List Nat × commit_state :=
  (r.1 ++ [bh], emit r.2 (event.wait_on_buffer_dispatch bh))

/-- The two loops that wait for the dispatch of the log blocks (commit.c
1796-1813). -/
def dispatch_wait (s0 : commit_state) : commit_state :=
  let r1 := s0.io_bufs.reverse.foldl dispatch_wait_buf ([], s0)
  let r2 := s0.log_bufs.reverse.foldl dispatch_wait_buf ([], r1.2)
  { r2.2 with io_bufs := r1.1, log_bufs := r2.1 }

/-- Source function `journal_wait_on_dispatch_of_commit_record` (commit.c
185-191). -/
def journal_wait_on_dispatch_of_commit_record (s : commit_state) (bh : buffer_head) :
    commit_state × Int :=
  (emit s (event.wait_on_buffer_dispatch bh.b_blocknr), 0)

/-- The commit record of the dispatch stage when it is not written
asynchronously, and the wait for its dispatch (commit.c 1815-1826). -/
def dispatch_commit_record (env : commit_env) (s0 : commit_state) : commit_state :=
  let s1 :=
    if !jbd2_has_feature_async_commit s0.journal then submit_commit_record_step env s0 else s0
  match s1.cbh with
  | some cbh =>
    let r := journal_wait_on_dispatch_of_commit_record s1 cbh
    { r.1 with err := r.2 }
  | none => s1

/-- The end of the dispatch stage behind the insertion into the flush queue
(commit.c 1852-1892). -/
def dispatch_finish (s0 : commit_state) : commit_state :=
  let s1 : commit_state := { s0 with journal := { s0.journal with
    j_commit_sequence := s0.t_tid } }
  let s2 := if s1.journal.j_commit_callback then emit s1 (event.j_commit_callback s1.t_tid) else s1
  if s2.journal.j_fc_cleanup_callback then emit s2 (event.j_fc_cleanup_callback s2.t_tid) else s2

/-- The part of `jbd2_journal_barrier_commit_transaction` behind the metadata
loop (commit.c 1730-1892) on the state of the transaction; lines 1730-1784
are the code of lines 794-846. -/
def dispatch_after_loop (env : commit_env) (s : commit_state) : commit_state :=
  dispatch_finish (dispatch_commit_record env (dispatch_wait (commit_dflush env s)))

/-- The function `jbd2_journal_barrier_commit_transaction`.  `q` is the
flush queue and `commit_transaction` the address of the running transaction,
whose state is `s0`; `none` only if the metadata loop were not to end within
`commit_loop_fuel` passes.  The trace holds the calls of this thread in their
order; the state returned is the one this thread leaves, the flush stage not
having touched the transaction. -/
def jbd2_journal_barrier_commit_transaction (env : commit_env) (q : flush_queue)
    (commit_transaction : Nat) (s0 : commit_state) : Option (flush_queue × commit_state) :=
  let s1 := dispatch_prologue env s0
  match commit_loop env true (commit_loop_fuel s1) s1 with
  | none => none
  | some s2 => some (flush_enqueue q commit_transaction, dispatch_after_loop env s2)

/-! ### States at the callbacks -/

/-- The calls of the two completion callbacks in a trace, each with the
state of the transaction (`t_state`) at the call; `st` is the state at the
start of the trace. -/
def callback_states : t_state → List event → List (event × t_state)
  | _, [] => []
  | _, event.set_t_state st2 :: tr => callback_states st2 tr
  | st, event.j_commit_callback tid :: tr =>
    (event.j_commit_callback tid, st) :: callback_states st tr
  | st, event.j_fc_cleanup_callback tid :: tr =>
    (event.j_fc_cleanup_callback tid, st) :: callback_states st tr
  | st, _ :: tr => callback_states st tr

/-- The state changes and the calls of the two completion callbacks. -/
def is_milestone : event → Bool
  | event.set_t_state _ => true
  | event.j_commit_callback _ => true
  | event.j_fc_cleanup_callback _ => true
  | _ => false

/-- The state changes and callback calls of a trace, in order. -/
def milestones (tr : List event) : List event :=
  tr.filter is_milestone

/-- An empty flush queue. -/
def empty_queue : flush_queue :=
  { j_flushing_transactions := none,
    mem := fun _ => { t_tid := 0, t_flushnext := 0, t_flushprev := 0 } }

/-- The sample transaction on a journal whose filesystem is on another device
(device 2), without file data to be flushed (`t_need_data_flush` clear). -/
def external_journal_no_data : commit_state :=
  { external_journal_state with t_need_data_flush := false }

/-! ### The generation slot of a transaction -/

/-- The statement `ver_tid = commit_transaction->t_tid % MAX_JH_VERSION`
(commit.c 1342 in the dispatch stage, 1936 in the flush stage); `t_tid` is a
`tid_t`, an unsigned 32-bit number. -/
def ver_tid (cfg : barrier_config) (t_tid : Nat) : Nat :=
  t_tid % cfg.MAX_JH_VERSION

/-- The distance from the transaction id `t1` to `t2` in 32-bit arithmetic,
`(t2 - t1) mod 2^32`. -/
def tid_distance (t1 t2 : Nat) : Nat :=
  (t2 + 4294967296 - t1) % 4294967296

/-- Settings of the pipelined commit with three generation slots. -/
def three_slot_config : barrier_config :=
  { MAX_JH_VERSION := 3, COMPOUND_FLUSH := none }

/-! ### The passes of the metadata loop -/

/-- The states at the top of the passes of the metadata loop, in order, for
at most `fuel` passes; the last one is the state after the last pass. -/
def loop_states (env : commit_env) (barrier : Bool) : Nat → commit_state → List commit_state
  | 0, s => [s]
  | fuel + 1, s =>
    if s.t_buffers = [] then [s]
    else s :: loop_states env barrier fuel (commit_loop_iter env barrier s)

/-! ### Snapshot rotation in the flush stage -/

/-- A buffer of transaction 42 (slot `42 mod 4 = 2`) whose slot holds
committed data `[5]` and frozen data `[7]`, while the field `b_frozen_data` of
the journal head itself is NULL. -/
def rotating_jh : journal_head :=
  { sample_jh 100 with
    b_frozen_data := none,
    b_jh_entry :=
      [{ b_frozen_data := none, b_committed_data := none, b_frozen_triggers := false },
       { b_frozen_data := none, b_committed_data := none, b_frozen_triggers := false },
       { b_frozen_data := some [7], b_committed_data := some [5], b_frozen_triggers := true },
       { b_frozen_data := none, b_committed_data := none, b_frozen_triggers := false }] }

/-- What the rotation of the snapshots is to leave in a slot whose frozen and
committed data were `frozen` and `committed` (comment at commit.c 1000-1011):
no frozen data, and the former frozen data as committed data if there was
committed data. -/
def rotated_committed (frozen committed : Option (List Nat)) : Option (List Nat) :=
  match committed with
  | some _ => frozen
  | none => none

/-! ### The advance of the log tail -/

/-- The pairs `(first_tid, first_block)` passed to `jbd2_update_log_tail`, in
order. -/
def tail_updates (tr : List event) : List (Nat × Nat) :=
  tr.filterMap (fun e => match e with
    | event.jbd2_update_log_tail first_tid first_block => some (first_tid, first_block)
    | _ => none)

/-- The value of a 64-bit pattern read as a `long`. -/
def as_long (x : Int) : Int :=
  if x % 18446744073709551616 < 9223372036854775808 then x % 18446744073709551616
  else x % 18446744073709551616 - 18446744073709551616

/-- The value of `freed` (commit.c 816-819) in the 64-bit arithmetic of the
C code: the difference of two `unsigned long` stored in a `long`, and the sum
computed modulo 2^64. -/
def log_tail_freed_long (j : journal_t) (first_block : Nat) : Int :=
  let freed : Int := as_long ((first_block : Int) - (j.j_tail : Int))
  if first_block < j.j_tail then as_long (freed + ((j.j_last : Int) - (j.j_first : Int)))
  else freed

/-- As `sample_env`, but `jbd2_journal_get_log_tail` reports that the oldest
transaction in the log is transaction 41 at block 80, and a transaction may
have at most 16 buffers. -/
def tail_env : commit_env :=
  { sample_env with get_log_tail := (1, 41, 80) }

/-! ### The durability requests of the filesystem layer (fs/ext4/fsync.c) -/

/-- The errno `EROFS`. -/
def EROFS : Int := 30

/-- The calls `ext4_sync_file` and `ext4_fbarrier_file` make to the page
cache, the journal and the block device, and the store to
`current->barrier_fail`. -/
inductive fsync_call where
  | file_write_and_wait_range
  | filemap_write_and_dispatch_range
  | filemap_ordered_write_range
  | filemap_fdatadispatch_range
  | sync_mapping_buffers
  | sync_inode_metadata
  | sync_parent_mapping_buffers (depth : Nat)
  | sync_parent_inode_metadata (depth : Nat)
  | ext4_force_commit
  | jbd2_trans_will_send_data_barrier
  | ext4_fc_commit
  | blkdev_issue_flush
  | file_check_and_advance_wb_err
  | clear_barrier_fail
  deriving DecidableEq, Repr

/-- A directory on the way from the file to the root, as `ext4_sync_parent`
sees it: whether it carries `EXT4_STATE_NEWENTRY`, and what
`sync_mapping_buffers` and `sync_inode_metadata` return for it. -/
structure parent_dir where
  newentry : Bool
  sync_mapping_buffers : Int
  sync_inode_metadata : Int
  deriving DecidableEq, Repr

/-- What the functions outside fsync.c report during one durability request on
a file: the state of the filesystem and of the inode, and the return value of
every call. -/
structure fsync_env where
  /-- Result of `ext4_forced_shutdown(sbi)`. -/
  forced_shutdown : Bool
  /-- Result of `sb_rdonly(inode->i_sb)`. -/
  sb_rdonly : Bool
  /-- Mount flag `EXT4_MF_FS_ABORTED`. -/
  fs_aborted : Bool
  file_write_and_wait_range : Int
  filemap_write_and_dispatch_range : Int
  filemap_ordered_write_range : Int
  /-- Value of `current->barrier_fail` behind `filemap_ordered_write_range`. -/
  barrier_fail : Bool
  /-- Whether `sbi->s_journal` is set. -/
  s_journal : Bool
  should_journal_data : Bool
  ext4_force_commit : Int
  sync_mapping_buffers : Int
  /-- Whether `inode->i_state & I_DIRTY_ALL` is non-zero. -/
  i_dirty_all : Bool
  /-- Whether `inode->i_state & I_DIRTY_DATASYNC` is non-zero. -/
  i_dirty_datasync : Bool
  sync_inode_metadata : Int
  /-- Whether the inode carries `EXT4_STATE_NEWENTRY`. -/
  newentry : Bool
  /-- Whether `d_find_any_alias(inode)` finds a dentry. -/
  has_alias : Bool
  /-- The directories from the parent of the file up to the root. -/
  parents : List parent_dir
  /-- Mount option `BARRIER`. -/
  test_opt_barrier : Bool
  /-- Journal flag `JBD2_BARRIER`. -/
  jbd2_barrier : Bool
  will_send_data_barrier : Bool
  ext4_fc_commit : Int
  blkdev_issue_flush : Int
  /-- Result of `file_check_and_advance_wb_err(file)`. -/
  wb_err : Int

/-- The loop of `ext4_sync_parent` (fsync.c 56-77): while the current inode
carries `EXT4_STATE_NEWENTRY`, clear it, step to the parent directory and sync
its buffers and its inode, leaving the loop at the first error.  `newentry` is
the flag of the current inode, `dirs` the directories above it, parent first,
and `depth` counts the steps taken.  The chain of directories is finite; its
end is the root directory, which is its own parent and is taken not to be
freshly created, so that the walk stops there at the latest. -/
def ext4_sync_parent_loop : Bool → List parent_dir → Nat → Int → Int × List fsync_call
  | _, [], _, ret => (ret, [])
  | newentry, d :: dirs, depth, ret =>
    if newentry then
      if d.sync_mapping_buffers ≠ 0 then
        (d.sync_mapping_buffers, [fsync_call.sync_parent_mapping_buffers depth])
      else if d.sync_inode_metadata ≠ 0 then
        (d.sync_inode_metadata,
          [fsync_call.sync_parent_mapping_buffers depth,
           fsync_call.sync_parent_inode_metadata depth])
      else
        let r := ext4_sync_parent_loop d.newentry dirs (depth + 1) d.sync_inode_metadata
        (r.1, [fsync_call.sync_parent_mapping_buffers depth,
               fsync_call.sync_parent_inode_metadata depth] ++ r.2)
    else (ret, [])

/-- The function `ext4_sync_parent` (fsync.c 46-80). -/
def ext4_sync_parent (env : fsync_env) : Int × List fsync_call :=
  if !env.newentry then (0, [])
  else if !env.has_alias then (0, [])
  else ext4_sync_parent_loop env.newentry env.parents 0 0

/-- The function `ext4_fsync_nojournal` (fsync.c 82-103): the return value,
the value of `*needs_barrier` behind the call, and the calls made. -/
def ext4_fsync_nojournal (env : fsync_env) (datasync : Bool) (needs_barrier : Bool) :
    Int × Bool × List fsync_call :=
  let ret : Int := env.sync_mapping_buffers
  if !env.i_dirty_all then (ret, needs_barrier, [fsync_call.sync_mapping_buffers])
  else if datasync && !env.i_dirty_datasync then
    (ret, needs_barrier, [fsync_call.sync_mapping_buffers])
  else
    let err : Int := env.sync_inode_metadata
    let ret1 : Int := if ret = 0 then err else ret
    let p : Int × List fsync_call := if ret1 = 0 then ext4_sync_parent env else (ret1, [])
    (p.1, if env.test_opt_barrier then true else needs_barrier,
      [fsync_call.sync_mapping_buffers, fsync_call.sync_inode_metadata] ++ p.2)

/-- The function `ext4_fsync_journal` (fsync.c 105-117): the return value, the
value of `*needs_barrier` behind the call, and the calls made.  In C the
second operand of `&&` is evaluated only when `JBD2_BARRIER` is set. -/
def ext4_fsync_journal (env : fsync_env) (needs_barrier : Bool) :
    Int × Bool × List fsync_call :=
  if env.jbd2_barrier then
    (env.ext4_fc_commit, if !env.will_send_data_barrier then true else needs_barrier,
      [fsync_call.jbd2_trans_will_send_data_barrier, fsync_call.ext4_fc_commit])
  else (env.ext4_fc_commit, needs_barrier, [fsync_call.ext4_fc_commit])

/-- The code of `ext4_sync_file` from the label `out` on (fsync.c 229-248). -/
def sync_file_out (env : fsync_env) (ret : Int) (calls : List fsync_call) :
    Int × List fsync_call :=
  let err : Int := env.wb_err
  (if ret = 0 then err else ret, calls ++ [fsync_call.file_check_and_advance_wb_err])

/-- The function `ext4_sync_file` (fsync.c 138-249): the value returned and the
calls made, in order. -/
def ext4_sync_file (env : fsync_env) (datasync : Bool) : Int × List fsync_call :=
  if env.forced_shutdown then (- EIO, [])
  else if env.sb_rdonly then
    sync_file_out env (if env.fs_aborted then - EROFS else 0) []
  else
    let w : Int × List fsync_call :=
      if datasync then (env.file_write_and_wait_range, [fsync_call.file_write_and_wait_range])
      else (env.filemap_write_and_dispatch_range, [fsync_call.filemap_write_and_dispatch_range])
    if w.1 ≠ 0 then sync_file_out env w.1 w.2
    else
      let j : Int × Bool × List fsync_call :=
        if !env.s_journal then ext4_fsync_nojournal env datasync false
        else if env.should_journal_data then
          (env.ext4_force_commit, false, [fsync_call.ext4_force_commit])
        else ext4_fsync_journal env false
      if j.2.1 then
        let err : Int := env.blkdev_issue_flush
        sync_file_out env (if j.1 = 0 then err else j.1)
          (w.2 ++ j.2.2 ++ [fsync_call.blkdev_issue_flush])
      else sync_file_out env j.1 (w.2 ++ j.2.2)

/-- The code of `ext4_fbarrier_file` from the label `out` on (fsync.c
309-314).  `err` is the local variable of that name: `none` while nothing has
been assigned to it, and then its value is indeterminate, which the result
`none` stands for. -/
def fbarrier_file_out (err : Option Int) (ret : Int) (calls : List fsync_call) :
    Option Int × List fsync_call :=
  (if ret = 0 then err else some ret, calls)

/-- The function `ext4_fbarrier_file` (fsync.c 252-315): the value returned
(`none`: the indeterminate value of a variable that was never assigned) and the
calls made, in order.  The declaration `int ret = 0, err;` gives `err` no
value, and no statement of the function assigns to it: the call of
`file_check_and_advance_wb_err` at line 310 and the call of `ext4_fsync_journal`
at line 307 are commented out. -/
def ext4_fbarrier_file (env : fsync_env) (datasync : Bool) : Option Int × List fsync_call :=
  let err : Option Int := none
  if env.forced_shutdown then (some (- EIO), [])
  else if env.sb_rdonly then
    fbarrier_file_out err (if env.fs_aborted then - EROFS else 0) []
  else
    let w : Int × Bool × List fsync_call :=
      if datasync then
        (env.filemap_ordered_write_range, env.barrier_fail,
          [fsync_call.clear_barrier_fail, fsync_call.filemap_ordered_write_range,
           fsync_call.filemap_fdatadispatch_range])
      else
        (env.filemap_write_and_dispatch_range, false,
          [fsync_call.filemap_write_and_dispatch_range])
    if w.1 ≠ 0 then fbarrier_file_out err w.1 w.2.2
    else if !env.s_journal then
      let j := ext4_fsync_nojournal env datasync w.2.1
      fbarrier_file_out err j.1 (w.2.2 ++ j.2.2)
    else if env.should_journal_data then
      fbarrier_file_out err env.ext4_force_commit (w.2.2 ++ [fsync_call.ext4_force_commit])
    else if datasync && w.2.1 then
      fbarrier_file_out err w.1 (w.2.2 ++ [fsync_call.clear_barrier_fail])
    else fbarrier_file_out err w.1 w.2.2

/-- The calls that start data or metadata writeback, a journal commit or a
flush of the device: every call but the check of the recorded writeback error
and the store to `current->barrier_fail`. -/
def starts_io (c : fsync_call) : Bool :=
  match c with
  | fsync_call.file_check_and_advance_wb_err => false
  | fsync_call.clear_barrier_fail => false
  | _ => true

/-- A healthy filesystem with a journal in ordered mode and write barriers:
every call succeeds and no writeback error is recorded for the file. -/
def healthy_fs : fsync_env :=
  { forced_shutdown := false, sb_rdonly := false, fs_aborted := false,
    file_write_and_wait_range := 0, filemap_write_and_dispatch_range := 0,
    filemap_ordered_write_range := 0, barrier_fail := false, s_journal := true,
    should_journal_data := false, ext4_force_commit := 0, sync_mapping_buffers := 0,
    i_dirty_all := true, i_dirty_datasync := true, sync_inode_metadata := 0,
    newentry := false, has_alias := true, parents := [], test_opt_barrier := true,
    jbd2_barrier := true, will_send_data_barrier := false, ext4_fc_commit := 0,
    blkdev_issue_flush := 0, wb_err := 0 }

/-- As `healthy_fs`, mounted read-only (and not aborted). -/
def rdonly_fs : fsync_env :=
  { healthy_fs with sb_rdonly := true }

/-- As `healthy_fs`, after a forced shutdown. -/
def shutdown_fs : fsync_env :=
  { healthy_fs with forced_shutdown := true }

/-! ### The lifetime of the transaction at the end of a commit -/

/-- The fields of `transaction_t` touched at the end of the commit and of the
flush stage. -/
inductive txn_field where
  | t_state
  | t_checkpoint_list
  | t_checkpoint_io_list
  | t_commit_start_time
  | commit_time
  | stats
  | t_flushnext
  | t_flushprev
  deriving DecidableEq, Repr

/-- What the code does with the object `*commit_transaction`: it reads or
writes one of its fields, hands it to `__jbd2_journal_drop_transaction`, or
frees it with `jbd2_journal_free_transaction`. -/
inductive txn_access where
  | read (f : txn_field)
  | write (f : txn_field)
  | drop
  | free
  deriving DecidableEq, Repr

/-- The test `t_checkpoint_list == NULL && t_checkpoint_io_list == NULL` and
the release of the transaction under it (commit.c 1197-1203 and 2264-2269);
the second operand of `&&` is evaluated only when the first holds. -/
def drop_accesses (s : commit_state) : List txn_access :=
  [txn_access.read txn_field.t_checkpoint_list] ++
  (if s.t_checkpoint_list = [] then [txn_access.read txn_field.t_checkpoint_io_list] else []) ++
  (if s.t_checkpoint_list = [] ∧ s.t_checkpoint_io_list = [] then
    [txn_access.drop, txn_access.free] else [])

/-- The accesses to `*commit_transaction` of `jbd2_journal_commit_transaction`
from the assignment of `T_FINISHED` to the end of the function (commit.c
1195-1224): the statistics filed behind the release are those of the local
variable `stats`. -/
def commit_end_accesses (s : commit_state) : List txn_access :=
  [txn_access.write txn_field.t_state] ++ drop_accesses s

/-- The accesses to `*commit_transaction` of
`jbd2_journal_barrier_flush_transaction` from the assignment of `T_FINISHED`
to the end of the function (commit.c 2263-2316), in the order of the
statements: the release of the transaction, the commit time (2272-2279), the
ten statistics (2288-2297) and the removal from the flush queue `q`
(2306-2313), where the neighbours of the transaction in the ring may be the
transaction itself. -/
def flush_end_accesses (q : flush_queue) (commit_transaction : Nat) (s : commit_state) :
    List txn_access :=
  [txn_access.write txn_field.t_state] ++ drop_accesses s ++
  [txn_access.read txn_field.t_commit_start_time, txn_access.write txn_field.commit_time,
   txn_access.read txn_field.commit_time] ++
  List.replicate 10 (txn_access.read txn_field.stats) ++
  [txn_access.read txn_field.t_flushnext, txn_access.read txn_field.t_flushprev] ++
  (if (q.mem commit_transaction).t_flushnext = commit_transaction then
    [txn_access.write txn_field.t_flushprev] else []) ++
  [txn_access.read txn_field.t_flushprev, txn_access.read txn_field.t_flushnext] ++
  (if (set_flushprev q.mem (q.mem commit_transaction).t_flushnext
        (q.mem commit_transaction).t_flushprev commit_transaction).t_flushprev =
      commit_transaction then
    [txn_access.write txn_field.t_flushnext] else []) ++
  (if q.j_flushing_transactions = some commit_transaction then
    [txn_access.read txn_field.t_flushnext] else [])

/-- The accesses that follow the first `jbd2_journal_free_transaction`; none
if the transaction is not freed. -/
def after_free : List txn_access → List txn_access
  | [] => []
  | txn_access.free :: rest => rest
  | _ :: rest => after_free rest

/-- The accesses to `*commit_transaction` at the end of one run of the flush
stage on the queue `q` and the transaction state `s0`.  The checkpoint lists
tested at line 2264 are those of the final state: the statements behind the
test do not change them. -/
def flush_transaction_accesses (env : commit_env) (cfg : barrier_config) (q : flush_queue)
    (s0 : commit_state) : List txn_access :=
  match flush_pick q with
  | none => []
  | some commit_transaction =>
    flush_end_accesses q commit_transaction
      (jbd2_journal_barrier_flush_transaction env cfg q s0).2

/-- The transaction 42 as the dispatch stage leaves it when it holds no
metadata buffer: only the commit record, at log block 10, is in flight. -/
def empty_dispatched_state : commit_state :=
  { sample_state sample_journal [] with
    t_state := t_state.T_COMMIT_DFLUSH,
    cbh := some (commit_record_bh sample_env (sample_state sample_journal []) 0) }

/-! ### The filling of `wbuf` and of the descriptor blocks -/

/-- The bytes of a descriptor block taken by the header, `k` tags and the UUID
behind the first tag. -/
def descriptor_bytes (tag_bytes : Int) (k : Nat) : Int :=
  sizeof_journal_header_t + (k : Int) * tag_bytes + (if k = 0 then 0 else 16)

/-- A sequence of log blocks made of batches, each a descriptor block `d`
followed by blocks `ms`, with `P d ms`. -/
inductive batches_of (P : buffer_head → List buffer_head → Prop) : List buffer_head → Prop where
  | nil : batches_of P []
  | batch (d : buffer_head) (ms rest : List buffer_head) :
      P d ms → batches_of P rest → batches_of P (d :: ms ++ rest)

/-- The descriptor block `d` of a journal with blocks of `B` bytes and the
blocks `ms` staged or submitted behind it: `d` is a descriptor block of `B`
bytes, none of `ms` is, and `d` has one tag for each of them. -/
def batch_shape (B : Nat) (d : buffer_head) (ms : List buffer_head) : Prop :=
  is_descriptor d = true ∧ d.b_size = B ∧ (∀ m ∈ ms, is_descriptor m = false) ∧
  (tags_of d).length = ms.length

/-- A batch as it is submitted, for `j_wbufsize = n`, blocks of `B` bytes, tags
of `tb` bytes and `csum_size = cs`: if `n >= 2` it has at most `n` buffers, and
if a block has room for the header, one tag, the UUID and the block tail, then
the header, the tags and the UUID of a descriptor with tags leave `cs` bytes
free at the end of the block. -/
def batch_fits (n B : Nat) (tb cs : Int) (d : buffer_head) (ms : List buffer_head) : Prop :=
  batch_shape B d ms ∧ (2 ≤ n → ms.length + 1 ≤ n) ∧
  (sizeof_journal_header_t + tb + 16 + cs ≤ (B : Int) → ms ≠ [] →
    descriptor_bytes tb ms.length + cs ≤ (B : Int))

/-- Why a batch is closed while buffers remain (commit.c 743-745): `wbuf` is
full, or fewer than `tag_bytes + 16 + csum_size` bytes are left in the
descriptor block. -/
def batch_closed (n B : Nat) (tb cs : Int) (ms : List buffer_head) : Prop :=
  ms.length + 1 = n ∨ (B : Int) - descriptor_bytes tb ms.length < tb + 16 + cs

/-- The open descriptor `d` and the blocks `ms` staged behind it between two
passes of the metadata loop: `first_tag` is set exactly while there is no tag,
`space_left` is what the header, the tags and the UUID leave of the block, if
`n >= 2` there is room in `wbuf` for one more buffer, and if a block has room
for the header, one tag, the UUID and the block tail then there is room for one
more tag, 16 bytes and the block tail. -/
def open_batch (n B : Nat) (tb cs : Int) (first_tag : Bool) (space_left : Int)
    (d : buffer_head) (ms : List buffer_head) : Prop :=
  batch_shape B d ms ∧ (first_tag = true ↔ ms = []) ∧
  space_left = (B : Int) - descriptor_bytes tb ms.length ∧
  (2 ≤ n → ms.length + 1 < n) ∧
  (sizeof_journal_header_t + tb + 16 + cs ≤ (B : Int) →
    tb + 16 + cs ≤ space_left ∧ (ms ≠ [] → cs ≤ space_left))

/-- The settings of the journal the filling depends on. -/
def fill_cfg (n B : Nat) (tb cs : Int) (j : journal_t) : Prop :=
  j.j_wbufsize = n ∧ j.j_blocksize = B ∧ j.tag_bytes = tb ∧ csum_size j = cs

/-- The state of `wbuf` between two passes of the metadata loop: empty while
there is no descriptor, and else the open descriptor and the blocks staged
behind it. -/
def fill_open (n B : Nat) (tb cs : Int) (s : commit_state) : Prop :=
  (s.descriptor = false → s.wbuf = []) ∧
  (s.descriptor = true → ∃ d ms, s.wbuf = d :: ms ∧
    open_batch n B tb cs s.first_tag s.space_left d ms)

/-- The blocks submitted so far: batches closed while buffers remained, and
behind them, once `t_buffers` is empty, the batch submitted last. -/
def fill_done (n B : Nat) (tb cs : Int) (s : commit_state) : Prop :=
  ∃ L last, submitted s.trace = L ++ last ∧
    batches_of (fun d ms => batch_fits n B tb cs d ms ∧ batch_closed n B tb cs ms) L ∧
    (last = [] ∨ (s.t_buffers = [] ∧ ∃ d ms, last = d :: ms ∧ batch_fits n B tb cs d ms))

/-- The filling of `wbuf` and of the descriptor blocks between two passes of
the metadata loop. -/
def fill_inv (n B : Nat) (tb cs : Int) (s : commit_state) : Prop :=
  fill_cfg n B tb cs s.journal ∧ fill_open n B tb cs s ∧ fill_done n B tb cs s

/-- A journal with blocks of 60 bytes: 12 for the header of a descriptor
block, 16 for the UUID, and 32 for four tags of 8 bytes. -/
def small_block_journal : journal_t :=
  { sample_journal with j_blocksize := 60 }

/-- The sample transaction of five buffers on `small_block_journal`. -/
def small_block_state : commit_state :=
  sample_state small_block_journal
    [sample_jh 100, sample_jh 200, sample_jh 300, sample_jh 400, sample_jh 500]

/-- The sample transaction of three buffers on `small_block_journal`: the
header, three tags and the UUID take 52 of the 60 bytes of a block. -/
def small_block_three : commit_state :=
  sample_state small_block_journal [sample_jh 100, sample_jh 200, sample_jh 300]

/-! ### The calls of the completion callbacks -/

/-- Whether an event is a call of `j_commit_callback` or of
`j_fc_cleanup_callback`. -/
def is_callback : event → Bool
  | event.j_commit_callback _ => true
  | event.j_fc_cleanup_callback _ => true
  | _ => false

/-- The calls of the two completion callbacks in a trace, in order. -/
def callbacks (tr : List event) : List event :=
  tr.filter is_callback

/-- The number of calls of `j_commit_callback` in a trace. -/
def commit_callback_calls (tr : List event) : Nat :=
  (callbacks tr).countP (fun e => match e with
    | event.j_commit_callback _ => true
    | _ => false)

/-- The number of calls of `j_fc_cleanup_callback` in a trace. -/
def fc_cleanup_callback_calls (tr : List event) : Nat :=
  (callbacks tr).countP (fun e => match e with
    | event.j_fc_cleanup_callback _ => true
    | _ => false)

/-! ### The dispatch stage in a build with `OP_COALESCING`

With `OP_COALESCING` defined the dispatch stage, having set the transaction
`T_LOCKED` and `T_SWITCH`, reads `t_conflict_count` (commit.c 1399); if it is
not zero the stage sets the transaction back to `T_RUNNING`, waits, and starts
over at the label `op_coalescing` (1350).  `conflicts` is the number of times
this happens in a run; it is 0 in a build without `OP_COALESCING`. -/

/-- From the entry of `jbd2_journal_barrier_commit_transaction` to the label
`op_coalescing` (commit.c 1284-1348). -/
def dispatch_entry (s : commit_state) : commit_state :=
  let s0 : commit_state := { s with
    space_left := 0, first_tag := false, io_bufs := [], log_bufs := [] }
  let s1 := if s0.journal.j_flags.JBD2_FLUSHED then emit s0 event.update_sb_log_tail else s0
  { s1 with journal := { s1.journal with
    j_flags := { s1.journal.j_flags with JBD2_FULL_COMMIT_ONGOING := true } } }

/-- One pass from the label `op_coalescing` to the `goto op_coalescing` of
line 1406 (commit.c 1350-1406): the transaction is set `T_LOCKED`, `T_SWITCH`
and, `t_conflict_count` not being zero, `T_RUNNING` again. -/
def coalescing_pass (s : commit_state) : commit_state :=
  set_t_state (set_t_state (set_t_state s t_state.T_LOCKED) t_state.T_SWITCH) t_state.T_RUNNING

/-- The first `conflicts` passes from the label `op_coalescing`, which end
with `goto op_coalescing`. -/
def coalescing_passes : Nat → commit_state → commit_state
  | 0, s => s
  | conflicts + 1, s => coalescing_passes conflicts (coalescing_pass s)

/-- The last pass from the label `op_coalescing`, up to the submission of the
data buffers (commit.c 1350-1517): `t_conflict_count` is zero at line
1399. -/
def dispatch_lock (env : commit_env) (s2 : commit_state) : commit_state :=
  let s3 := set_t_state s2 t_state.T_LOCKED
  let s4 := set_t_state s3 t_state.T_SWITCH
  let s5 := dispatch_release_reserved_list s4.t_reserved_list s4
  let s6 : commit_state := { s5 with
    t_outstanding_credits := s5.t_outstanding_credits - s5.journal.j_reserved_credits }
  let s7 := set_t_state s6 t_state.T_FLUSH
  let s8 : commit_state := { s7 with t_log_start := s7.journal.j_head }
  let err := journal_submit_data_buffers env s8.journal s8.t_inode_list 0
  let s9 : commit_state := { s8 with err := err }
  if err ≠ 0 then jbd2_journal_abort s9 err else s9

/-- From the entry of `jbd2_journal_barrier_commit_transaction` to the start
of the metadata loop (commit.c 1284-1547) in a run that starts over at
`op_coalescing` `conflicts` times. -/
def dispatch_prologue_coalescing (env : commit_env) (conflicts : Nat) (s : commit_state) :
    commit_state :=
  let s10 := dispatch_lock env (coalescing_passes conflicts (dispatch_entry s))
  let s11 := jbd2_journal_write_revoke_records env env.revoke_blocks s10
  let s12 := set_t_state s11 t_state.T_COMMIT
  { s12 with err := 0, wbuf := [], descriptor := false }

/-- The function `jbd2_journal_barrier_commit_transaction` in a run that
starts over at `op_coalescing` `conflicts` times; with `conflicts = 0` it is
`jbd2_journal_barrier_commit_transaction`. -/
def jbd2_journal_barrier_commit_transaction_coalescing (env : commit_env) (q : flush_queue)
    (commit_transaction : Nat) (conflicts : Nat) (s0 : commit_state) :
    Option (flush_queue × commit_state) :=
  let s1 := dispatch_prologue_coalescing env conflicts s0
  match commit_loop env true (commit_loop_fuel s1) s1 with
  | none => none
  | some s2 => some (flush_enqueue q commit_transaction, dispatch_after_loop env s2)

/-- The values assigned to `t_state` by `conflicts` passes that end with
`goto op_coalescing`. -/
def coalescing_states : Nat → List t_state
  | 0 => []
  | conflicts + 1 =>
    [t_state.T_LOCKED, t_state.T_SWITCH, t_state.T_RUNNING] ++ coalescing_states conflicts

/-! ### The assertions of `jbd2_journal_commit_transaction`

`J_ASSERT(c)` (jbd2.h, not part of the sources) is `BUG_ON(!(c))`, and so are
`J_ASSERT_BH` and `J_ASSERT_JH`: when `c` does not hold the thread stops
there.  `WARN_ON_ONCE` (commit.c 954) does not stop it.  An assertion has no
effect on the state, so a run with its assertions is the run without them as
far as the first assertion that fails.  The assertions executed by a run are
listed in the order of their execution, each with the state in which it is
executed.  The assertions are those of `commit.c`; the functions called that
are not part of the sources (`jbd2_journal_next_log_block`,
`jbd2_journal_write_metadata_buffer` and the others of journal.c, revoke.c and
transaction.c) are taken to return. -/

/-- What the assertions of the commit read of the state that `commit_state`
does not hold. -/
structure assert_env where
  /-- The pointer `journal->j_running_transaction` at the entry, NULL being
  `none`. -/
  j_running_transaction : Option Nat
  /-- The pointer `journal->j_committing_transaction` at the entry. -/
  j_committing_transaction : Option Nat
  j_max_transaction_buffers : Int
  /-- Whether `jinode->i_transaction` of the inode `i_ino` is the committing
  transaction (commit.c 270). -/
  i_transaction_ok : Nat → Bool
  /-- The count `b_count` of the temporary buffer of a log block behind
  `__brelse` (commit.c 879-880). -/
  b_count : Nat → Nat
  /-- Whether `BH_Shadow` is set on the buffer of a block when the write of its
  copy has been waited for (commit.c 888). -/
  buffer_shadow : Nat → Bool
  /-- Whether `jh->b_transaction` of the buffer of a block is the committing
  transaction (commit.c 998). -/
  b_transaction_ok : Nat → Bool
  /-- Whether `BH_Dirty` is set on the buffer of a block (commit.c 1083). -/
  buffer_dirty : Nat → Bool

/-- One execution of an assertion: the line of the `J_ASSERT`, the state in
which it is executed, and whether its condition holds. -/
structure assertion where
  line : Nat
  state : commit_state
  holds : Bool

/-- How a run ends: the function returns, or the thread stops at a line (a
`J_ASSERT` whose condition does not hold, or the dereference of a NULL
pointer); `s` is the state at that point. -/
inductive commit_outcome where
  | returned (s : commit_state)
  | bug (line : Nat) (s : commit_state)
  deriving DecidableEq, Repr

/-- The state in which a run ends. -/
def commit_outcome.state : commit_outcome → commit_state
  | commit_outcome.returned s => s
  | commit_outcome.bug _ s => s

/-- The line at which a run stops, if it does not return. -/
def commit_outcome.line : commit_outcome → Option Nat
  | commit_outcome.returned _ => none
  | commit_outcome.bug line _ => some line

/-- The end of a run that executes the assertions `l` and, if none fails,
ends in `s`. -/
def first_bug : List assertion → commit_state → commit_outcome
  | [], s => commit_outcome.returned s
  | a :: rest, s => if a.holds then first_bug rest s else commit_outcome.bug a.line a.state

/-- The elements of `l` as a loop `s = f s a` processes them, each with the
state at the start of its pass. -/
def fold_states {σ α : Type} (f : σ → α → σ) : List α → σ → List (α × σ)
  | [], _ => []
  | a :: l, s => (a, s) :: fold_states f l (f s a)

/-- The state at the assertions of lines 448 and 449: the locals are
initialised and the superblock has been updated if `JBD2_FLUSHED` is set
(commit.c 421-446). -/
def lock_down_entry (s : commit_state) : commit_state :=
  let s0 : commit_state := { s with
    space_left := 0, first_tag := false, cbh := none, crc32_sum := 4294967295,
    io_bufs := [], log_bufs := [] }
  if s0.journal.j_flags.JBD2_FLUSHED then emit s0 event.update_sb_log_tail else s0

/-- The state at the assertion of line 482: `JBD2_FULL_COMMIT_ONGOING` is
set (commit.c 451-481). -/
def lock_down_flagged (s : commit_state) : commit_state :=
  let s1 := lock_down_entry s
  { s1 with journal := { s1.journal with
    j_flags := { s1.journal.j_flags with JBD2_FULL_COMMIT_ONGOING := true } } }

/-- The state at the assertion of line 501: the transaction is `T_LOCKED` and
then `T_SWITCH` (commit.c 483-499). -/
def lock_down_switched (s : commit_state) : commit_state :=
  set_t_state (set_t_state (lock_down_flagged s) t_state.T_LOCKED) t_state.T_SWITCH

/-- The state in which `journal_submit_data_buffers` is called and the
assertion of line 270 executed: the reserved buffers are released, the
reserved credits given back, the transaction is `T_FLUSH` (commit.c
522-580). -/
def lock_down_flushing (s : commit_state) : commit_state :=
  let s4 := lock_down_switched s
  let s5 := release_reserved_list s4.t_reserved_list s4
  let s6 : commit_state := { s5 with
    t_outstanding_credits := s5.t_outstanding_credits - s5.journal.j_reserved_credits }
  let s7 := set_t_state s6 t_state.T_FLUSH
  { s7 with t_log_start := s7.journal.j_head }

/-- The state at the assertion of lines 614-615: the revoke records are
written and the transaction is `T_COMMIT`. -/
def prologue_committing (env : commit_env) (s : commit_state) : commit_state :=
  set_t_state
    (jbd2_journal_write_revoke_records env env.revoke_blocks (commit_lock_down env s))
    t_state.T_COMMIT

/-- The assertions from the entry of `jbd2_journal_commit_transaction` to the
start of the metadata loop (commit.c 448, 449, 482, 501, 270 for every inode
with `JI_WRITE_DATA`, 614). -/
def prologue_asserts (env : commit_env) (a : assert_env) (s : commit_state) :
    List assertion :=
  [{ line := 448, state := lock_down_entry s, holds := a.j_running_transaction.isSome },
   { line := 449, state := lock_down_entry s, holds := a.j_committing_transaction.isNone },
   { line := 482, state := lock_down_flagged s,
     holds := decide ((lock_down_flagged s).t_state = t_state.T_RUNNING) },
   { line := 501, state := lock_down_switched s,
     holds := decide ((lock_down_switched s).t_outstanding_credits ≤
       a.j_max_transaction_buffers) }] ++
  ((lock_down_flushing s).t_inode_list.filter (fun jinode => jinode.JI_WRITE_DATA)).map
    (fun jinode =>
      { line := 270, state := lock_down_flushing s,
        holds := a.i_transaction_ok jinode.i_ino }) ++
  [{ line := 614, state := prologue_committing env s,
     holds := decide ((prologue_committing env s).t_nr_buffers ≤
       (prologue_committing env s).t_outstanding_credits) }]

/-- Whether a pass of the metadata loop that starts in state `x` executes the
assertion of line 650: it has a buffer to log, the journal is not aborted and
there is no descriptor (commit.c 620, 629, 649). -/
def needs_descriptor (x : commit_state) : Bool :=
  decide (x.t_buffers ≠ []) && !is_journal_aborted x.journal && !x.descriptor

/-- The assertion `J_ASSERT (bufs == 0)` of line 650 as the passes of the
metadata loop that start in the states `l` execute it; `bufs` is the number of
buffers in `wbuf`. -/
def loop_asserts (l : List commit_state) : List assertion :=
  (l.filter needs_descriptor).map (fun x =>
    { line := 650, state := x, holds := decide (x.wbuf.length = 0) })

/-- The state at the assertions of one pass of `while (!list_empty(&io_bufs))`
for the buffer `bh` (commit.c 866-880): the buffer has been waited for and
taken off the list. -/
def wait_io_head (env : commit_env) (s : commit_state) (bh : Nat) : commit_state :=
  let s1 := emit s (event.wait_on_buffer bh)
  let s2 : commit_state := if !env.io_uptodate bh then { s1 with err := - EIO } else s1
  { s2 with io_bufs := s2.io_bufs.dropLast }

/-- The assertions of the loop `while (!list_empty(&io_bufs))` started in
state `s` (commit.c 880, 887, 888), `jh` being the last buffer of the shadow
list.  The thread stops at line 884 as well, where `t_shadow_list` is
dereferenced, if the shadow list is NULL. -/
def wait_io_asserts (env : commit_env) (a : assert_env) (s : commit_state) : List assertion :=
  (fold_states (wait_io_buf env) s.io_bufs.reverse s).flatMap (fun p =>
    [{ line := 880, state := wait_io_head env p.2 p.1, holds := decide (a.b_count p.1 = 0) },
     { line := 884, state := wait_io_head env p.2 p.1,
       holds := (p.2.t_shadow_list.getLast?).isSome },
     { line := 887, state := wait_io_head env p.2 p.1,
       holds := match p.2.t_shadow_list.getLast? with
         | some jh => jh.jbddirty
         | none => true },
     { line := 888, state := wait_io_head env p.2 p.1,
       holds := match p.2.t_shadow_list.getLast? with
         | some jh => !a.buffer_shadow jh.b_blocknr
         | none => true }])

/-- The buffer taken off the forget list as it is when `buffer_jbddirty` is
tested at line 1076 (commit.c 1013-1074). -/
def forget_prepared (jh0 : journal_head) : journal_head :=
  let jh1 := forget_rotate jh0
  let jh2 := if jh1.b_cp_transaction then { jh1 with b_cp_transaction := false } else jh1
  if jh2.freed ∧ ¬ jh2.b_next_transaction then { jh2 with freed := false, jbddirty := false }
  else jh2

/-- The assertions of the loop `while (commit_transaction->t_forget)` started
in state `s`: that of line 998 in every pass, and that of line 1083 in the
pass of a buffer that is not `jbddirty` at line 1077. -/
def forget_asserts (a : assert_env) (s : commit_state) : List assertion :=
  (fold_states commit_forget_one s.t_forget s).flatMap (fun p =>
    { line := 998, state := p.2, holds := a.b_transaction_ok p.1.b_blocknr } ::
      (if (forget_prepared p.1).jbddirty then []
       else [{ line := 1083, state := p.2, holds := !a.buffer_dirty p.1.b_blocknr }]))

/-- The assertions behind the metadata loop, which ended in state `s2`
(commit.c 824, 880-888, 900, 928, 972-975, 998, 1083, 1149, 1166).  The
assertion of line 1149 stands behind the insertion of the transaction into
the checkpoint list, that of line 1166 behind the assignment of
`T_COMMIT_CALLBACK`.  At line
1166 `commit_transaction` is the pointer read from `j_running_transaction` at
line 474, and `j_committing_transaction` the value assigned at line 576. -/
def after_loop_asserts (env : commit_env) (a : assert_env) (s2 : commit_state) :
    List assertion :=
  let s3 := log_tail_step env (finish_inode_data_step env s2)
  let s4 := commit_dflush env s2
  let s5 := s4.io_bufs.reverse.foldl (wait_io_buf env) s4
  let s6 := commit_wait_io env s4
  let s7 := commit_jflush env s6
  let s8 := s7.t_forget.foldl commit_forget_one s7
  let s9 : commit_state := { s8 with journal := { s8.journal with j_checkpoint_transactions := true } }
  let s10 := set_t_state s9 t_state.T_COMMIT_CALLBACK
  let commit_transaction := a.j_running_transaction
  let j_committing_transaction := commit_transaction
  [{ line := 824, state := s3, holds := decide (s3.t_state = t_state.T_COMMIT) }] ++
  wait_io_asserts env a s4 ++
  [{ line := 900, state := s5, holds := decide (s5.t_shadow_list = []) },
   { line := 928, state := s6, holds := decide (s6.t_state = t_state.T_COMMIT_DFLUSH) },
   { line := 972, state := s7, holds := decide (s7.t_inode_list = []) },
   { line := 973, state := s7, holds := decide (s7.t_buffers = []) },
   { line := 974, state := s7, holds := decide (s7.t_checkpoint_list = []) },
   { line := 975, state := s7, holds := decide (s7.t_shadow_list = []) }] ++
  forget_asserts a s7 ++
  [{ line := 1149, state := s9, holds := decide (s9.t_state = t_state.T_COMMIT_JFLUSH) },
   { line := 1166, state := s10,
     holds := decide (commit_transaction = j_committing_transaction) }]

/-- The function `jbd2_journal_commit_transaction` with its assertions: the
run of `jbd2_journal_commit_transaction env s0` as far as the first assertion
that fails; `none` only if the metadata loop were not to end within
`commit_loop_fuel` passes. -/
def jbd2_journal_commit_transaction_asserting (env : commit_env) (a : assert_env)
    (s0 : commit_state) : Option commit_outcome :=
  let s1 := commit_prologue env s0
  match commit_loop env false (commit_loop_fuel s1) s1 with
  | none => none
  | some s2 =>
    some (first_bug
      (prologue_asserts env a s0 ++
        loop_asserts (loop_states env false (commit_loop_fuel s1) s1) ++
        after_loop_asserts env a s2)
      (commit_after_loop env s2))

/-- The eight states a commit assigns to `t_state`, in order. -/
def commit_states : List t_state :=
  [t_state.T_LOCKED, t_state.T_SWITCH, t_state.T_FLUSH, t_state.T_COMMIT,
    t_state.T_COMMIT_DFLUSH, t_state.T_COMMIT_JFLUSH, t_state.T_COMMIT_CALLBACK,
    t_state.T_FINISHED]

/-- Conditions under which no assertion of the commit of `s0` fails: the
conditions of lines 448, 449, 501 and 614 on the entry state, no buffer on the
shadow list or on the checkpoint list at the entry (900, 974, 975), every
buffer to be logged `jbddirty` (887), and the conditions on the inodes and
buffers read from `a` (270, 880, 888, 998, 1083). -/
def asserts_hold (a : assert_env) (s0 : commit_state) : Prop :=
  a.j_running_transaction.isSome = true ∧ a.j_committing_transaction = none ∧
  s0.t_outstanding_credits ≤ a.j_max_transaction_buffers ∧
  s0.t_nr_buffers ≤ s0.t_outstanding_credits - s0.journal.j_reserved_credits ∧
  s0.t_shadow_list = [] ∧ s0.t_checkpoint_list = [] ∧
  (∀ jh ∈ s0.t_buffers, jh.jbddirty = true) ∧
  (∀ i, a.i_transaction_ok i = true) ∧ (∀ b, a.b_count b = 0) ∧
  (∀ b, a.buffer_shadow b = false) ∧ (∀ b, a.b_transaction_ok b = true) ∧
  (∀ b, a.buffer_dirty b = false)

/-- An instance of `assert_env` in which every condition read from it
holds. -/
def sample_asserts : assert_env :=
  { j_running_transaction := some 7, j_committing_transaction := none,
    j_max_transaction_buffers := 1024, i_transaction_ok := fun _ => true,
    b_count := fun _ => 0, buffer_shadow := fun _ => false,
    b_transaction_ok := fun _ => true, buffer_dirty := fun _ => false }

/-- The sample transaction of three buffers with credits for two blocks
only. -/
def short_credit_state : commit_state :=
  { sample_state sample_journal [sample_jh 100, sample_jh 200, sample_jh 300] with
    t_outstanding_credits := 2 }

/-- The values assigned to `t_state` between the states `s0` and `x` are the
first `k` of the eight states of the commit. -/
def states_taken (s0 x : commit_state) (k : Nat) : Prop :=
  t_states x.trace = t_states s0.trace ++ commit_states.take k

/-! ## Part II. Lemmas and theorems -/

/-! ### Flush queue -/

@[simp] theorem set_flushnext_next (m : Nat → flush_links) (p v x : Nat) :
    (set_flushnext m p v x).t_flushnext = if x = p then v else (m x).t_flushnext := by
  unfold set_flushnext
  by_cases h : x = p
  · subst h; simp
  · simp [Function.update_noteq h, h]

@[simp] theorem set_flushnext_prev (m : Nat → flush_links) (p v x : Nat) :
    (set_flushnext m p v x).t_flushprev = (m x).t_flushprev := by
  unfold set_flushnext
  by_cases h : x = p
  · subst h; simp
  · simp [Function.update_noteq h]

@[simp] theorem set_flushnext_tid (m : Nat → flush_links) (p v x : Nat) :
    (set_flushnext m p v x).t_tid = (m x).t_tid := by
  unfold set_flushnext
  by_cases h : x = p
  · subst h; simp
  · simp [Function.update_noteq h]

@[simp] theorem set_flushprev_prev (m : Nat → flush_links) (p v x : Nat) :
    (set_flushprev m p v x).t_flushprev = if x = p then v else (m x).t_flushprev := by
  unfold set_flushprev
  by_cases h : x = p
  · subst h; simp
  · simp [Function.update_noteq h, h]

@[simp] theorem set_flushprev_next (m : Nat → flush_links) (p v x : Nat) :
    (set_flushprev m p v x).t_flushnext = (m x).t_flushnext := by
  unfold set_flushprev
  by_cases h : x = p
  · subst h; simp
  · simp [Function.update_noteq h]

@[simp] theorem set_flushprev_tid (m : Nat → flush_links) (p v x : Nat) :
    (set_flushprev m p v x).t_tid = (m x).t_tid := by
  unfold set_flushprev
  by_cases h : x = p
  · subst h; simp
  · simp [Function.update_noteq h]

/-- The last element of the non-empty list `a :: l`. -/
theorem flush_seg_end (m : Nat → flush_links) :
    ∀ (l : List Nat) (a b : Nat), flush_seg m a l b →
      (m ((a :: l).getLast (List.cons_ne_nil a l))).t_flushnext = b ∧
      (m b).t_flushprev = (a :: l).getLast (List.cons_ne_nil a l) := by
  intro l
  induction l with
  | nil => intro a b h; simpa [flush_seg] using h
  | cons x l ih =>
    intro a b h
    obtain ⟨_, _, h3⟩ := h
    have := ih x b h3
    simpa [List.getLast_cons] using this

/-- Moving the far end of a segment: when the new memory keeps every forward
link except the one of the last element, and every backward link inside the
segment, the segment now ends in `t`. -/
theorem flush_seg_retarget (m m2 : Nat → flush_links) (t : Nat) :
    ∀ (l : List Nat) (a b : Nat), flush_seg m a l b →
      (∀ x ∈ (a :: l).dropLast, (m2 x).t_flushnext = (m x).t_flushnext) →
      (∀ y ∈ l, (m2 y).t_flushprev = (m y).t_flushprev) →
      (m2 ((a :: l).getLast (List.cons_ne_nil a l))).t_flushnext = t →
      (m2 t).t_flushprev = (a :: l).getLast (List.cons_ne_nil a l) →
      flush_seg m2 a l t := by
  intro l
  induction l with
  | nil =>
    intro a b _ _ _ h4 h5
    exact ⟨by simpa using h4, by simpa using h5⟩
  | cons x l ih =>
    intro a b h h2 h3 h4 h5
    obtain ⟨e1, e2, e3⟩ := h
    refine ⟨?_, ?_, ?_⟩
    · rw [h2 a (by simp [List.dropLast])]; exact e1
    · rw [h3 x (by simp)]; exact e2
    · apply ih x b e3
      · intro y hy
        apply h2
        simp only [List.dropLast_cons₂, List.mem_cons]
        exact Or.inr hy
      · intro y hy
        exact h3 y (List.mem_cons_of_mem _ hy)
      · simpa [List.getLast_cons] using h4
      · simpa [List.getLast_cons] using h5

theorem getLast_not_mem_dropLast {l : List Nat} (hl : l ≠ []) (hnd : l.Nodup) :
    l.getLast hl ∉ l.dropLast := by
  intro hmem
  have h := List.dropLast_append_getLast hl
  rw [← h] at hnd
  have := List.nodup_append.mp hnd
  exact this.2.2 hmem (by simp)

/-- Removing the head of the ring: `flush_dequeue` turns `a :: l` into `l`. -/
theorem flush_ring_dequeue (j : flush_queue) (a : Nat) (l : List Nat)
    (hr : flush_ring j (a :: l)) : flush_ring (flush_dequeue j a) l := by
  obtain ⟨hh, hnd, hseg⟩ := hr
  cases l with
  | nil =>
    obtain ⟨h1, h2⟩ := hseg
    simp [flush_dequeue, hh, flush_ring, h1, h2]
  | cons x l =>
    obtain ⟨e1, e2, e3⟩ := hseg
    have hend := flush_seg_end j.mem l x a e3
    have hnd2 : (x :: l).Nodup := (List.nodup_cons.mp hnd).2
    have hax : a ≠ x := by
      intro h
      exact (List.nodup_cons.mp hnd).1 (by simp [h])
    have hza : (x :: l).getLast (List.cons_ne_nil x l) ≠ a := by
      intro h
      exact (List.nodup_cons.mp hnd).1 (h ▸ List.getLast_mem _)
    refine ⟨?_, hnd2, ?_⟩
    · simp [flush_dequeue, hh, e1, hax, hend.2, hza.symm, hax.symm]
    · simp only [flush_dequeue]
      apply flush_seg_retarget j.mem _ x l x a e3
      · intro y hy
        have hyz : y ≠ (x :: l).getLast (List.cons_ne_nil x l) := by
          intro h
          exact getLast_not_mem_dropLast (List.cons_ne_nil x l) hnd2 (h ▸ hy)
        simp [e1, hax, hend.2, hyz]
      · intro y hy
        have hyx : y ≠ x := by
          intro h
          exact (List.nodup_cons.mp hnd2).1 (h ▸ hy)
        simp [e1, hyx]
      · simp [e1, hax, hend.2]
      · simpa [e1] using hend.2

theorem flush_ring_head (j : flush_queue) (q : List Nat) (hr : flush_ring j q) :
    j.j_flushing_transactions = q.head? := by
  cases q with
  | nil => exact hr
  | cons a l => exact hr.1

@[simp] theorem set_tid_next (m : Nat → flush_links) (p t x : Nat) :
    (set_tid m p t x).t_flushnext = (m x).t_flushnext := by
  unfold set_tid
  by_cases h : x = p
  · subst h; simp
  · simp [Function.update_noteq h]

@[simp] theorem set_tid_prev (m : Nat → flush_links) (p t x : Nat) :
    (set_tid m p t x).t_flushprev = (m x).t_flushprev := by
  unfold set_tid
  by_cases h : x = p
  · subst h; simp
  · simp [Function.update_noteq h]

@[simp] theorem set_tid_tid (m : Nat → flush_links) (p t x : Nat) :
    (set_tid m p t x).t_tid = if x = p then t else (m x).t_tid := by
  unfold set_tid
  by_cases h : x = p
  · subst h; simp
  · simp [Function.update_noteq h, h]

theorem journal_io_loop_eq (env : commit_env) (bufs : Nat) :
    ∀ (l : List buffer_head) (i : Nat) (s : commit_state),
      journal_io_loop env bufs i l s =
        { s with
          crc32_sum :=
            if jbd2_has_feature_checksum s.journal then
              l.foldl (jbd2_checksum_data env) s.crc32_sum
            else s.crc32_sum,
          trace := s.trace ++ io_events s.t_buffers bufs i l } := by
  intro l
  induction l with
  | nil => intro i s; simp [journal_io_loop, io_events]
  | cons bh rest ih =>
    intro i s
    rw [journal_io_loop, ih]
    by_cases h : jbd2_has_feature_checksum s.journal = true
    · simp [h, emit, io_events]
    · simp [h, emit, io_events]

theorem start_journal_io_eq (env : commit_env) (s : commit_state) :
    start_journal_io env s =
      { s with
        descriptor := false, wbuf := [],
        crc32_sum :=
          if jbd2_has_feature_checksum s.journal then
            (if s.descriptor then
              on_descriptor (jbd2_descriptor_block_csum_set env s.journal) s.wbuf
             else s.wbuf).foldl (jbd2_checksum_data env) s.crc32_sum
          else s.crc32_sum,
        trace := s.trace ++ io_events s.t_buffers
          (if s.descriptor then
              on_descriptor (jbd2_descriptor_block_csum_set env s.journal) s.wbuf
            else s.wbuf).length 0
          (if s.descriptor then
              on_descriptor (jbd2_descriptor_block_csum_set env s.journal) s.wbuf
            else s.wbuf) } := by
  by_cases h : s.descriptor = true <;> simp [start_journal_io, journal_io_loop_eq, h]


/-! ### Termination of the metadata loop -/

theorem loop_release_t_buffers (env : commit_env) (barrier : Bool) (s : commit_state)
    (jh : journal_head) (rest : List journal_head) :
    (loop_release env barrier s jh rest).t_buffers = rest ∧
    (loop_release env barrier s jh rest).journal = s.journal := by
  unfold loop_release
  simp only [start_journal_io_eq]
  cases barrier <;> by_cases h : rest = [] <;> simp [emit, h]

theorem loop_descriptor_frame (env : commit_env) (s : commit_state) :
    (loop_descriptor env s).1.t_buffers = s.t_buffers ∧
    ((loop_descriptor env s).2 = false → is_journal_aborted (loop_descriptor env s).1.journal = true) ∧
    ((loop_descriptor env s).2 = true →
      is_journal_aborted (loop_descriptor env s).1.journal = is_journal_aborted s.journal) := by
  unfold loop_descriptor
  by_cases hd : s.descriptor = true
  · simp [hd]
  · simp only [hd]
    cases hr : (jbd2_journal_get_descriptor_buffer env s JBD2_DESCRIPTOR_BLOCK).2 with
    | none =>
      simp [jbd2_journal_abort, is_journal_aborted, jbd2_journal_get_descriptor_buffer,
        jbd2_journal_next_log_block]
      split_ifs <;> rfl
    | some d =>
      simp [is_journal_aborted, jbd2_journal_get_descriptor_buffer,
        jbd2_journal_next_log_block]
      split_ifs <;> exact ⟨rfl, rfl⟩

theorem next_log_block_eq (env : commit_env) (s : commit_state) :
    jbd2_journal_next_log_block env s =
      (log_advance s, env.bmap_err s.journal.j_head, s.journal.j_head) := rfl

theorem get_descriptor_buffer_fst (env : commit_env) (s : commit_state) (type : Nat) :
    (jbd2_journal_get_descriptor_buffer env s type).1 = log_advance s := by
  unfold jbd2_journal_get_descriptor_buffer
  simp only [next_log_block_eq]
  split_ifs <;> rfl

theorem get_descriptor_buffer_snd (env : commit_env) (s : commit_state) :
    (jbd2_journal_get_descriptor_buffer env s JBD2_DESCRIPTOR_BLOCK).2 =
      if desc_alloc_ok env s then some (fresh_descriptor s) else none := by
  unfold jbd2_journal_get_descriptor_buffer desc_alloc_ok
  simp only [next_log_block_eq]
  by_cases h1 : env.bmap_err s.journal.j_head = 0 <;>
    by_cases h2 : env.getblk_ok s.journal.j_head = true <;>
    simp [h1, h2, fresh_descriptor, JBD2_DESCRIPTOR_BLOCK, JBD2_COMMIT_BLOCK]

/-- The three ways through `if (!descriptor) { ... }`. -/
theorem loop_descriptor_eq (env : commit_env) (s : commit_state) :
    loop_descriptor env s =
      if s.descriptor then (s, true)
      else if desc_alloc_ok env s then (open_descriptor s, true)
      else (jbd2_journal_abort (log_advance s) (- EIO), false) := by
  unfold loop_descriptor
  by_cases hd : s.descriptor = true
  · simp [hd]
  · simp only [hd, get_descriptor_buffer_snd, get_descriptor_buffer_fst]
    by_cases ha : desc_alloc_ok env s = true
    · simp [ha, open_descriptor, fresh_descriptor, log_advance]
    · simp [ha]

/-- The three ways through the loop body from `jbd2_journal_next_log_block` on. -/
theorem loop_log_eq (env : commit_env) (s : commit_state) (jh : journal_head)
    (rest : List journal_head) :
    loop_log env s jh rest =
      if env.bmap_err s.journal.j_head ≠ 0 then
        jbd2_journal_abort { log_advance s with err := env.bmap_err s.journal.j_head }
          (env.bmap_err s.journal.j_head)
      else if env.write_metadata_flags jh.b_blocknr < 0 then
        jbd2_journal_abort
          { log_advance s with
            err := 0, t_outstanding_credits := s.t_outstanding_credits - 1 }
          (env.write_metadata_flags jh.b_blocknr)
      else
        loop_submit env
          (loop_tag env (log_buffer s jh rest) jh (metadata_bh env s jh)
            (env.write_metadata_flags jh.b_blocknr)) := by
  unfold loop_log
  simp only [next_log_block_eq]
  by_cases h1 : env.bmap_err s.journal.j_head = 0
  · by_cases h2 : env.write_metadata_flags jh.b_blocknr < 0
    · simp [h1, h2, log_advance]
    · simp [h1, h2, log_advance, log_buffer, metadata_bh]
  · simp [h1]

theorem loop_release_eq (env : commit_env) (barrier : Bool) (s : commit_state)
    (jh : journal_head) (rest : List journal_head) :
    loop_release env barrier s jh rest =
      if rest = [] then
        start_journal_io env
          { s with t_buffers := [], trace := s.trace ++ release_events barrier [jh] }
      else { s with t_buffers := rest, trace := s.trace ++ release_events barrier [jh] } := by
  unfold loop_release
  cases barrier <;> by_cases h : rest = [] <;> simp [emit, h, release_events]

theorem loop_tag_eq (env : commit_env) (s : commit_state) (jh : journal_head)
    (new_bh : buffer_head) (flags : Int) :
    loop_tag env s jh new_bh flags =
      { s with
        wbuf := on_descriptor (descriptor_add_tag (loop_make_tag env s jh new_bh flags)) s.wbuf
          ++ [new_bh],
        space_left := s.space_left - s.journal.tag_bytes - (if s.first_tag then 16 else 0),
        first_tag := false } := by
  unfold loop_tag
  by_cases h : s.first_tag = true
  · simp [h]
  · have h2 : s.first_tag = false := by simpa using h
    simp [h2]

/-- Case analysis of one pass of the metadata loop. -/
theorem commit_loop_iter_cases (env : commit_env) (barrier : Bool) (P : commit_state → Prop)
    (s : commit_state) (jh : journal_head) (rest : List journal_head)
    (hs : s.t_buffers = jh :: rest)
    (h_release : is_journal_aborted s.journal = true → P (loop_release env barrier s jh rest))
    (h_nodesc : is_journal_aborted s.journal = false → s.descriptor = false →
      desc_alloc_ok env s = false → P (jbd2_journal_abort (log_advance s) (- EIO)))
    (h_noblock : is_journal_aborted s.journal = false → ∀ s1,
      ((s.descriptor = true ∧ s1 = s) ∨
        (s.descriptor = false ∧ desc_alloc_ok env s = true ∧ s1 = open_descriptor s)) →
      env.bmap_err s1.journal.j_head ≠ 0 →
      P (jbd2_journal_abort { log_advance s1 with err := env.bmap_err s1.journal.j_head }
          (env.bmap_err s1.journal.j_head)))
    (h_nowrite : is_journal_aborted s.journal = false → ∀ s1,
      ((s.descriptor = true ∧ s1 = s) ∨
        (s.descriptor = false ∧ desc_alloc_ok env s = true ∧ s1 = open_descriptor s)) →
      env.bmap_err s1.journal.j_head = 0 → env.write_metadata_flags jh.b_blocknr < 0 →
      P (jbd2_journal_abort
          { log_advance s1 with
            err := 0, t_outstanding_credits := s1.t_outstanding_credits - 1 }
          (env.write_metadata_flags jh.b_blocknr)))
    (h_logged : is_journal_aborted s.journal = false → ∀ s1,
      ((s.descriptor = true ∧ s1 = s) ∨
        (s.descriptor = false ∧ desc_alloc_ok env s = true ∧ s1 = open_descriptor s)) →
      env.bmap_err s1.journal.j_head = 0 → 0 ≤ env.write_metadata_flags jh.b_blocknr →
      P (loop_submit env
          (loop_tag env (log_buffer s1 jh rest) jh (metadata_bh env s1 jh)
            (env.write_metadata_flags jh.b_blocknr)))) :
    P (commit_loop_iter env barrier s) := by
  unfold commit_loop_iter
  rw [hs]
  simp only
  by_cases ha : is_journal_aborted s.journal = true
  · simp only [ha, if_true]
    exact h_release ha
  · have ha2 : is_journal_aborted s.journal = false := by simpa using ha
    simp only [ha2, loop_descriptor_eq]
    have key : ∀ s1, ((s.descriptor = true ∧ s1 = s) ∨
        (s.descriptor = false ∧ desc_alloc_ok env s = true ∧ s1 = open_descriptor s)) →
        P (loop_log env s1 jh rest) := by
      intro s1 h1
      rw [loop_log_eq]
      by_cases hb : env.bmap_err s1.journal.j_head = 0
      · by_cases hw : env.write_metadata_flags jh.b_blocknr < 0
        · simp only [hb, hw, ne_eq, not_true_eq_false, if_false, if_true]
          exact h_nowrite ha2 s1 h1 hb hw
        · simp only [hb, hw, ne_eq, not_true_eq_false, if_false]
          exact h_logged ha2 s1 h1 hb (not_lt.mp hw)
      · simp only [hb, ne_eq, not_false_eq_true, if_true]
        exact h_noblock ha2 s1 h1 hb
    by_cases hd : s.descriptor = true
    · simp only [hd, if_true, Bool.not_true, Bool.false_eq_true, if_false]
      exact key s (Or.inl ⟨hd, rfl⟩)
    · have hd2 : s.descriptor = false := by simpa using hd
      by_cases hok : desc_alloc_ok env s = true
      · simp only [hd2, hok, if_true, Bool.false_eq_true, if_false, Bool.not_true]
        exact key _ (Or.inr ⟨hd2, hok, rfl⟩)
      · have hok2 : desc_alloc_ok env s = false := by simpa using hok
        simp only [hd2, hok2, Bool.false_eq_true, if_false, Bool.not_false, if_true]
        exact h_nodesc ha2 hd2 hok2

theorem start_journal_io_frame (env : commit_env) (s : commit_state) :
    (start_journal_io env s).t_buffers = s.t_buffers ∧
    (start_journal_io env s).journal = s.journal ∧
    (start_journal_io env s).io_bufs = s.io_bufs ∧
    (start_journal_io env s).log_bufs = s.log_bufs ∧
    (start_journal_io env s).t_outstanding_credits = s.t_outstanding_credits ∧
    (start_journal_io env s).t_shadow_list = s.t_shadow_list ∧
    (start_journal_io env s).wbuf = [] ∧
    (start_journal_io env s).descriptor = false := by
  rw [start_journal_io_eq]
  simp

theorem loop_submit_frame (env : commit_env) (s : commit_state) :
    (loop_submit env s).t_buffers = s.t_buffers ∧
    (loop_submit env s).journal = s.journal ∧
    (loop_submit env s).io_bufs = s.io_bufs ∧
    (loop_submit env s).log_bufs = s.log_bufs ∧
    (loop_submit env s).t_outstanding_credits = s.t_outstanding_credits ∧
    (loop_submit env s).t_shadow_list = s.t_shadow_list := by
  unfold loop_submit
  by_cases h : loop_batch_full s = true
  · simp only [h, if_true]
    have := start_journal_io_frame env { s with wbuf := on_descriptor descriptor_mark_last s.wbuf }
    exact ⟨this.1, this.2.1, this.2.2.1, this.2.2.2.1, this.2.2.2.2.1, this.2.2.2.2.2.1⟩
  · simp [h]

theorem commit_loop_iter_measure (env : commit_env) (barrier : Bool) (s : commit_state)
    (h : s.t_buffers ≠ []) :
    commit_loop_measure (commit_loop_iter env barrier s) < commit_loop_measure s := by
  cases hs : s.t_buffers with
  | nil => exact absurd hs h
  | cons jh rest =>
    apply commit_loop_iter_cases env barrier
      (fun x => commit_loop_measure x < commit_loop_measure s) s jh rest hs
    · intro ha
      have := loop_release_t_buffers env barrier s jh rest
      simp only [commit_loop_measure, this.1, this.2, hs, List.length_cons]
      omega
    · intro ha _ _
      simp [commit_loop_measure, jbd2_journal_abort, log_advance, is_journal_aborted, hs] at ha ⊢
      simp [ha]
    · intro ha s1 h1 _
      rcases h1 with ⟨_, rfl⟩ | ⟨_, _, rfl⟩ <;>
        simp [commit_loop_measure, jbd2_journal_abort, log_advance, is_journal_aborted, hs,
          open_descriptor] at ha ⊢ <;> simp [ha]
    · intro ha s1 h1 _ _
      rcases h1 with ⟨_, rfl⟩ | ⟨_, _, rfl⟩ <;>
        simp [commit_loop_measure, jbd2_journal_abort, log_advance, is_journal_aborted, hs,
          open_descriptor] at ha ⊢ <;> simp [ha]
    · intro ha s1 h1 _ _
      have hf := loop_submit_frame env
        (loop_tag env (log_buffer s1 jh rest) jh (metadata_bh env s1 jh)
          (env.write_metadata_flags jh.b_blocknr))
      show commit_loop_measure (loop_submit env _) < _
      unfold commit_loop_measure
      rw [hf.1, hf.2.1]
      simp only [loop_tag_eq]
      rcases h1 with ⟨_, rfl⟩ | ⟨_, _, rfl⟩ <;>
        simp [log_buffer, log_advance, is_journal_aborted, hs, open_descriptor] at ha ⊢

/-- The metadata loop ends: with at least `commit_loop_measure` passes allowed
it returns a state, and `t_buffers` is empty in it. -/
theorem commit_loop_total (env : commit_env) (barrier : Bool) :
    ∀ (fuel : Nat) (s : commit_state), commit_loop_measure s ≤ fuel →
      ∃ s2, commit_loop env barrier fuel s = some s2 ∧ s2.t_buffers = [] := by
  intro fuel
  induction fuel with
  | zero =>
    intro s h
    have : s.t_buffers = [] := by
      cases hs : s.t_buffers with
      | nil => rfl
      | cons a l => simp [commit_loop_measure, hs] at h
    exact ⟨s, by simp [commit_loop, this], this⟩
  | succ n ih =>
    intro s h
    by_cases hs : s.t_buffers = []
    · exact ⟨s, by simp [commit_loop, hs], hs⟩
    · have hm := commit_loop_iter_measure env barrier s hs
      obtain ⟨s2, h2, h3⟩ := ih (commit_loop_iter env barrier s) (by omega)
      exact ⟨s2, by simp [commit_loop, hs, h2], h3⟩

theorem commit_loop_fuel_enough (s : commit_state) :
    commit_loop_measure s ≤ commit_loop_fuel s := by
  unfold commit_loop_measure commit_loop_fuel
  split_ifs <;> omega

/-- Invariant rule for the metadata loop. -/
theorem commit_loop_rule (env : commit_env) (barrier : Bool) (P : commit_state → Prop)
    (hstep : ∀ s, P s → s.t_buffers ≠ [] → P (commit_loop_iter env barrier s)) :
    ∀ (fuel : Nat) (s s2 : commit_state), P s → commit_loop env barrier fuel s = some s2 →
      P s2 := by
  intro fuel
  induction fuel with
  | zero =>
    intro s s2 hP h
    by_cases hs : s.t_buffers = []
    · simp [commit_loop, hs] at h
      exact h ▸ hP
    · simp [commit_loop, hs] at h
  | succ n ih =>
    intro s s2 hP h
    by_cases hs : s.t_buffers = []
    · simp [commit_loop, hs] at h
      exact h ▸ hP
    · simp only [commit_loop, hs, if_false] at h
      exact ih _ s2 (hstep s hP hs) h

/-! ### The metadata loop in abort mode -/

theorem commit_loop_iter_aborted (env : commit_env) (barrier : Bool) (s : commit_state)
    (jh : journal_head) (rest : List journal_head) (hs : s.t_buffers = jh :: rest)
    (ha : is_journal_aborted s.journal = true) :
    commit_loop_iter env barrier s = loop_release env barrier s jh rest := by
  unfold commit_loop_iter
  rw [hs]
  simp [ha]

theorem commit_loop_done (env : commit_env) (barrier : Bool) (fuel : Nat) (s : commit_state)
    (hs : s.t_buffers = []) : commit_loop env barrier fuel s = some s := by
  cases fuel <;> simp [commit_loop, hs]

/-- In abort mode the loop releases every remaining buffer and then runs the
code at `start_journal_io` once. -/
theorem commit_loop_aborted (env : commit_env) (barrier : Bool) :
    ∀ (l : List journal_head) (s : commit_state) (fuel : Nat),
      is_journal_aborted s.journal = true → s.t_buffers = l → l ≠ [] → l.length ≤ fuel →
      commit_loop env barrier fuel s =
        some (start_journal_io env
          { s with t_buffers := [], trace := s.trace ++ release_events barrier l }) := by
  intro l
  induction l with
  | nil => intro s fuel _ _ h; exact absurd rfl h
  | cons jh rest ih =>
    intro s fuel ha hs _ hfuel
    cases fuel with
    | zero => simp at hfuel
    | succ n =>
      have hne : s.t_buffers ≠ [] := by simp [hs]
      simp only [commit_loop, hne, if_false]
      rw [commit_loop_iter_aborted env barrier s jh rest hs ha, loop_release_eq]
      by_cases hr : rest = []
      · subst hr
        simp only [if_true]
        apply commit_loop_done
        exact (start_journal_io_frame env _).1
      · simp only [hr, if_false]
        rw [ih { s with t_buffers := rest, trace := s.trace ++ release_events barrier [jh] }
          n ha rfl hr (by simpa using hfuel)]
        simp [release_events, List.append_assoc]

theorem submitted_append (a b : List event) : submitted (a ++ b) = submitted a ++ submitted b := by
  simp [submitted, List.filterMap_append]

theorem submitted_release_events (barrier : Bool) (l : List journal_head) :
    submitted (release_events barrier l) = [] := by
  induction l with
  | nil => rfl
  | cons jh rest ih =>
    simp only [release_events, submitted_append, ih]
    cases barrier <;> rfl

theorem submitted_io_events (tb : List journal_head) (bufs : Nat) :
    ∀ (l : List buffer_head) (i : Nat), submitted (io_events tb bufs i l) = l := by
  intro l
  induction l with
  | nil => intro i; rfl
  | cons bh rest ih =>
    intro i
    have := ih (i + 1)
    simp only [io_events, submitted, List.filterMap_cons] at this ⊢
    rw [this]

theorem mem_release_events (barrier : Bool) (jh : journal_head) :
    ∀ (l : List journal_head), jh ∈ l →
      event.clear_buffer_jbddirty jh.b_blocknr ∈ release_events barrier l ∧
      (if barrier then event.jbd2_journal_unfile_buffer_entry jh.b_blocknr
        else event.jbd2_journal_refile_buffer jh.b_blocknr) ∈ release_events barrier l := by
  intro l
  induction l with
  | nil => intro h; cases h
  | cons x rest ih =>
    intro h
    rcases List.mem_cons.mp h with rfl | h2
    · simp [release_events]
    · have := ih h2
      simp only [release_events, List.mem_append]
      exact ⟨Or.inr this.1, Or.inr this.2⟩

/-- C5: in abort mode the remaining metadata buffers are released, not
logged.  From any state of the metadata loop (ordinary commit or dispatch
stage) in which the journal is aborted and `t_buffers` is not empty, the loop
ends with `t_buffers` empty; what it does is, for each remaining buffer in
order, clear its jbddirty flag, fire the abort trigger and release it
(`jbd2_journal_refile_buffer`, in the dispatch stage
`jbd2_journal_unfile_buffer_entry`), and then submit the buffers that were
already staged in `wbuf`; the log cursor and the journal, the credit counter,
`io_bufs`, `log_bufs` and the shadow list are as before, so no remaining
buffer gets a log block, costs a credit or is written. -/
theorem abort_mode_releases_buffers (env : commit_env) (barrier : Bool) (s : commit_state)
    (ha : is_journal_aborted s.journal = true) (hne : s.t_buffers ≠ []) :
    ∃ s2, commit_loop env barrier (commit_loop_fuel s) s = some s2 ∧
      s2.t_buffers = [] ∧
      s2.trace = s.trace ++ release_events barrier s.t_buffers ++
        io_events [] (staged env s).length 0 (staged env s) ∧
      (∀ jh ∈ s.t_buffers,
        event.clear_buffer_jbddirty jh.b_blocknr ∈ s2.trace ∧
        (if barrier then event.jbd2_journal_unfile_buffer_entry jh.b_blocknr
          else event.jbd2_journal_refile_buffer jh.b_blocknr) ∈ s2.trace) ∧
      submitted s2.trace = submitted s.trace ++ staged env s ∧
      s2.journal = s.journal ∧
      s2.t_outstanding_credits = s.t_outstanding_credits ∧
      s2.io_bufs = s.io_bufs ∧ s2.log_bufs = s.log_bufs ∧
      s2.t_shadow_list = s.t_shadow_list := by
  have h := commit_loop_aborted env barrier s.t_buffers s (commit_loop_fuel s) ha rfl hne
    (by unfold commit_loop_fuel; omega)
  refine ⟨_, h, ?_⟩
  have htr : (start_journal_io env
      { s with t_buffers := [], trace := s.trace ++ release_events barrier s.t_buffers }).trace =
      s.trace ++ release_events barrier s.t_buffers ++
        io_events [] (staged env s).length 0 (staged env s) := by
    rw [start_journal_io_eq]
    simp [staged]
  have hf := start_journal_io_frame env
      { s with t_buffers := [], trace := s.trace ++ release_events barrier s.t_buffers }
  refine ⟨hf.1, htr, ?_, ?_, hf.2.1, hf.2.2.2.2.1, hf.2.2.1, hf.2.2.2.1, hf.2.2.2.2.2.1⟩
  · intro jh hjh
    rw [htr]
    have := mem_release_events barrier jh s.t_buffers hjh
    exact ⟨by simp [this.1], by simp [this.2]⟩
  · rw [htr]
    simp [submitted_append, submitted_release_events, submitted_io_events]

/-- C5 at a concrete input: an aborted journal with two buffers left on
`t_buffers`. -/
theorem abort_mode_releases_buffers_witness :
    ∃ s2, commit_loop sample_env false 5
        (sample_state { sample_journal with
            j_flags := { sample_journal.j_flags with JBD2_ABORT := true } }
          [sample_jh 100, sample_jh 200]) = some s2 ∧
      s2.t_buffers = [] ∧
      s2.trace =
        [event.clear_buffer_jbddirty 100, event.jbd2_buffer_abort_trigger 100,
          event.jbd2_journal_refile_buffer 100, event.clear_buffer_jbddirty 200,
          event.jbd2_buffer_abort_trigger 200, event.jbd2_journal_refile_buffer 200] := by
  obtain ⟨s2, h1, h2, h3, _⟩ := abort_mode_releases_buffers sample_env false
    (sample_state { sample_journal with
        j_flags := { sample_journal.j_flags with JBD2_ABORT := true } }
      [sample_jh 100, sample_jh 200]) rfl (by simp [sample_state])
  exact ⟨s2, h1, h2, h3⟩

/-! ### The commit record -/

theorem get_descriptor_buffer_snd_commit (env : commit_env) (s : commit_state) :
    (jbd2_journal_get_descriptor_buffer env s JBD2_COMMIT_BLOCK).2 =
      if desc_alloc_ok env s then
        some { b_blocknr := s.journal.j_head, b_size := s.journal.j_blocksize,
               b_data := block_data.commit
                { h_blocktype := JBD2_COMMIT_BLOCK, h_sequence := s.t_tid, h_chksum_type := 0,
                  h_chksum_size := 0, h_chksum0 := cpu_to_be32 0,
                  h_commit_sec := cpu_to_be64 0, h_commit_nsec := cpu_to_be32 0 } }
      else none := by
  unfold jbd2_journal_get_descriptor_buffer desc_alloc_ok
  simp only [next_log_block_eq]
  by_cases h1 : env.bmap_err s.journal.j_head = 0 <;>
    by_cases h2 : env.getblk_ok s.journal.j_head = true <;>
    simp [h1, h2]

theorem commit_block_csum_set_congr (env : commit_env) (j j2 : journal_t) (bh : buffer_head)
    (h1 : j.j_csum = j2.j_csum) (h2 : j.j_csum_seed = j2.j_csum_seed) :
    jbd2_commit_block_csum_set env j bh = jbd2_commit_block_csum_set env j2 bh := by
  unfold jbd2_commit_block_csum_set jbd2_journal_has_csum_v2or3
  rw [h1, h2]

/-- The three ways through `journal_submit_commit_record`. -/
theorem journal_submit_commit_record_eq (env : commit_env) (s : commit_state) (crc32_sum : Nat) :
    journal_submit_commit_record env s crc32_sum =
      if is_journal_aborted s.journal then ({ s with cbh := none }, 0)
      else if desc_alloc_ok env s then
        ({ log_advance s with
            cbh := some (commit_record_bh env s crc32_sum),
            trace := s.trace ++
              [event.submit_bh (commit_record_flags s.journal)
                (commit_record_bh env s crc32_sum)] },
          env.submit_bh_ret)
      else ({ log_advance s with cbh := none }, 1) := by
  unfold journal_submit_commit_record
  by_cases ha : is_journal_aborted s.journal = true
  · simp [ha]
  · simp only [ha, get_descriptor_buffer_fst, get_descriptor_buffer_snd_commit]
    have hok : desc_alloc_ok env { s with cbh := none } = desc_alloc_ok env s := rfl
    rw [hok]
    by_cases h : desc_alloc_ok env s = true
    · simp only [h, if_true, Bool.false_eq_true, if_false]
      have hc : jbd2_commit_block_csum_set env (log_advance { s with cbh := none }).journal =
          jbd2_commit_block_csum_set env s.journal := by
        funext bh
        exact commit_block_csum_set_congr env _ _ bh rfl rfl
      simp only [hc]
      by_cases h3 : s.journal.j_csum = csum_version.v1
      · simp [h3, jbd2_has_feature_checksum, commit_record_bh, commit_record_flags, emit,
          log_advance, jbd2_has_feature_async_commit]
      · simp [h3, jbd2_has_feature_checksum, commit_record_bh, commit_record_flags, emit,
          log_advance, jbd2_has_feature_async_commit]
    · simp [h, log_advance]

/-! ### The loops around the metadata loop -/

theorem release_reserved_list_eq :
    ∀ (l : List journal_head) (s : commit_state),
      release_reserved_list l s =
        { s with
          t_reserved_list := [],
          trace := s.trace ++ l.map (fun jh => event.jbd2_journal_refile_buffer jh.b_blocknr) } := by
  intro l
  induction l with
  | nil => intro s; simp [release_reserved_list]
  | cons jh rest ih =>
    intro s
    rw [release_reserved_list, ih]
    simp [emit]

theorem write_revoke_records_eq (env : commit_env) :
    ∀ (n : Nat) (s : commit_state), ∃ (h : Nat) (lb : List Nat) (evs : List event),
      jbd2_journal_write_revoke_records env n s =
        { s with
          journal := { s.journal with j_head := h },
          log_bufs := lb,
          trace := s.trace ++ evs } ∧
      (∀ e ∈ evs, is_quiet e = true) ∧
      (n = 0 → h = s.journal.j_head ∧ lb = s.log_bufs ∧ evs = []) ∧
      (is_journal_aborted s.journal = true → h = s.journal.j_head ∧ lb = s.log_bufs ∧ evs = []) := by
  intro n
  induction n with
  | zero =>
    intro s
    exact ⟨s.journal.j_head, s.log_bufs, [], by simp [jbd2_journal_write_revoke_records],
      by simp, fun _ => ⟨rfl, rfl, rfl⟩, fun _ => ⟨rfl, rfl, rfl⟩⟩
  | succ n ih =>
    intro s
    by_cases ha : is_journal_aborted s.journal = true
    · exact ⟨s.journal.j_head, s.log_bufs, [], by simp [jbd2_journal_write_revoke_records, ha],
        by simp, fun _ => ⟨rfl, rfl, rfl⟩, fun _ => ⟨rfl, rfl, rfl⟩⟩
    · simp only [jbd2_journal_write_revoke_records, ha, get_descriptor_buffer_fst]
      cases hr : (jbd2_journal_get_descriptor_buffer env s 5).2 with
      | none =>
        refine ⟨log_next s.journal s.journal.j_head, s.log_bufs, [], ?_, by simp,
          fun h => by simp at h, fun h => by simp at h⟩
        simp [log_advance]
      | some bh =>
        obtain ⟨h, lb, evs, h1, h2, _, _⟩ := ih
          (emit { log_advance s with log_bufs := (log_advance s).log_bufs ++ [bh.b_blocknr] }
            (event.write_revoke_record bh))
        refine ⟨h, lb, event.write_revoke_record bh :: evs, ?_, ?_,
          fun h => by simp at h, fun h => by simp at h⟩
        · simp only [Bool.false_eq_true, if_false]
          rw [h1]
          simp [emit, log_advance]
        · intro e he
          rcases List.mem_cons.mp he with rfl | he2
          · rfl
          · exact h2 e he2

theorem wait_io_fold_eq (env : commit_env) :
    ∀ (l : List Nat) (s : commit_state), ∃ (io : List Nat) (sh fg : List journal_head),
      l.foldl (wait_io_buf env) s =
        { s with
          err := if l.all (fun b => env.io_uptodate b) then s.err else - EIO,
          io_bufs := io, t_shadow_list := sh, t_forget := fg,
          trace := s.trace ++ l.map event.wait_on_buffer } := by
  intro l
  induction l with
  | nil => intro s; exact ⟨s.io_bufs, s.t_shadow_list, s.t_forget, by simp⟩
  | cons b rest ih =>
    intro s
    obtain ⟨io, sh, fg, h⟩ := ih (wait_io_buf env s b)
    refine ⟨io, sh, fg, ?_⟩
    rw [List.foldl_cons, h]
    unfold wait_io_buf
    by_cases hu : env.io_uptodate b = true <;>
      cases hl : s.t_shadow_list.getLast? <;>
      simp [hu, hl, emit]

theorem wait_log_fold_eq (env : commit_env) :
    ∀ (l : List Nat) (s : commit_state), ∃ (lb : List Nat),
      l.foldl (wait_log_buf env) s =
        { s with
          err := if l.all (fun b => env.io_uptodate b) then s.err else - EIO,
          log_bufs := lb,
          trace := s.trace ++ l.map event.wait_on_buffer } := by
  intro l
  induction l with
  | nil => intro s; exact ⟨s.log_bufs, by simp⟩
  | cons b rest ih =>
    intro s
    obtain ⟨lb, h⟩ := ih (wait_log_buf env s b)
    refine ⟨lb, ?_⟩
    rw [List.foldl_cons, h]
    unfold wait_log_buf
    by_cases hu : env.io_uptodate b = true <;> simp [hu, emit]

theorem commit_forget_one_eq (s : commit_state) (jh : journal_head) :
    ∃ (fg cp : List journal_head) (evs : List event),
      commit_forget_one s jh =
        { s with t_forget := fg, t_checkpoint_list := cp, trace := s.trace ++ evs } ∧
      ∀ e ∈ evs, is_quiet e = true := by
  unfold commit_forget_one
  simp only []
  generalize (if (if (forget_rotate jh).b_cp_transaction = true then
        { forget_rotate jh with b_cp_transaction := false } else forget_rotate jh).freed = true ∧
      ¬(if (forget_rotate jh).b_cp_transaction = true then
        { forget_rotate jh with b_cp_transaction := false }
          else forget_rotate jh).b_next_transaction = true
    then { (if (forget_rotate jh).b_cp_transaction = true then
        { forget_rotate jh with b_cp_transaction := false } else forget_rotate jh) with
        freed := false, jbddirty := false }
    else (if (forget_rotate jh).b_cp_transaction = true then
        { forget_rotate jh with b_cp_transaction := false } else forget_rotate jh)) = jh3
  by_cases h1 : jh3.jbddirty = true
  · simp only [h1, if_true, emit]
    refine ⟨s.t_forget.tail,
      s.t_checkpoint_list ++
        [if is_journal_aborted s.journal = true then { jh3 with jbddirty := false } else jh3],
      [event.insert_checkpoint jh3.b_blocknr,
        event.jbd2_journal_refile_buffer
          (if is_journal_aborted s.journal = true then { jh3 with jbddirty := false }
            else jh3).b_blocknr], by simp, ?_⟩
    intro e he
    simp only [List.mem_cons, List.mem_singleton, List.not_mem_nil, or_false] at he
    rcases he with rfl | rfl <;> rfl
  · by_cases h2 : jh3.b_next_transaction = true
    · simp only [h1, h2, emit]
      refine ⟨s.t_forget.tail, s.t_checkpoint_list,
        [event.jbd2_journal_refile_buffer jh3.b_blocknr], by simp, ?_⟩
      intro e he
      simp only [List.mem_singleton] at he
      subst he
      rfl
    · simp only [h1, h2, emit]
      refine ⟨s.t_forget.tail, s.t_checkpoint_list,
        [event.jbd2_journal_refile_buffer jh3.b_blocknr,
          event.release_buffer_page jh3.b_blocknr], by simp, ?_⟩
      intro e he
      simp only [List.mem_cons, List.mem_singleton, List.not_mem_nil, or_false] at he
      rcases he with rfl | rfl <;> rfl

theorem forget_fold_eq :
    ∀ (l : List journal_head) (s : commit_state),
      ∃ (fg cp : List journal_head) (evs : List event),
        l.foldl commit_forget_one s =
          { s with t_forget := fg, t_checkpoint_list := cp, trace := s.trace ++ evs } ∧
        ∀ e ∈ evs, is_quiet e = true := by
  intro l
  induction l with
  | nil => intro s; exact ⟨s.t_forget, s.t_checkpoint_list, [], by simp, by simp⟩
  | cons jh rest ih =>
    intro s
    obtain ⟨fg1, cp1, evs1, h1, hq1⟩ := commit_forget_one_eq s jh
    obtain ⟨fg, cp, evs, h, hq⟩ := ih (commit_forget_one s jh)
    refine ⟨fg, cp, evs1 ++ evs, ?_, ?_⟩
    · rw [List.foldl_cons, h, h1]
      simp
    · intro e he
      rcases List.mem_append.mp he with he1 | he2
      · exact hq1 e he1
      · exact hq e he2

/-! ### Projections of a trace -/

theorem loud_append (a b : List event) : loud (a ++ b) = loud a ++ loud b := by
  simp [loud]

theorem loud_of_quiet (evs : List event) (h : ∀ e ∈ evs, is_quiet e = true) : loud evs = [] := by
  simp only [loud, List.filter_eq_nil_iff]
  intro e he
  simp [h e he]

theorem loud_nil : loud [] = [] := rfl

theorem loud_cons (e : event) (l : List event) :
    loud (e :: l) = if is_quiet e then loud l else e :: loud l := by
  by_cases h : is_quiet e = true <;> simp [loud, List.filter_cons, h]

theorem loud_map_refile (l : List journal_head) :
    loud (l.map (fun jh => event.jbd2_journal_refile_buffer jh.b_blocknr)) = [] := by
  apply loud_of_quiet
  intro e he
  obtain ⟨jh, _, rfl⟩ := List.mem_map.mp he
  rfl

theorem loud_map_wait (l : List Nat) : loud (l.map event.wait_on_buffer) = [] := by
  apply loud_of_quiet
  intro e he
  obtain ⟨b, _, rfl⟩ := List.mem_map.mp he
  rfl

theorem t_states_loud (tr : List event) : t_states (loud tr) = t_states tr := by
  induction tr with
  | nil => rfl
  | cons e rest ih =>
    cases e <;> simp_all [t_states, loud, is_quiet, List.filter_cons]

theorem flushes_loud (tr : List event) : flushes (loud tr) = flushes tr := by
  induction tr with
  | nil => rfl
  | cons e rest ih =>
    cases e <;> simp_all [flushes, loud, is_quiet, List.filter_cons]

theorem submitted_loud (tr : List event) : submitted (loud tr) = submitted tr := by
  induction tr with
  | nil => rfl
  | cons e rest ih =>
    cases e <;> simp_all [submitted, loud, is_quiet, List.filter_cons]

theorem aborts_loud (tr : List event) : aborts (loud tr) = aborts tr := by
  induction tr with
  | nil => rfl
  | cons e rest ih =>
    cases e <;> simp_all [aborts, loud, is_quiet, List.filter_cons]

/-! ### The phases of the commit outside the metadata loop -/

theorem submit_commit_record_step_eq (env : commit_env) (s : commit_state) :
    submit_commit_record_step env s =
      if is_journal_aborted s.journal then { s with cbh := none, err := 0 }
      else if desc_alloc_ok env s then
        if env.submit_bh_ret ≠ 0 then
          jbd2_journal_abort
            { log_advance s with
              cbh := some (commit_record_bh env s s.crc32_sum), err := env.submit_bh_ret,
              trace := s.trace ++
                [event.submit_bh (commit_record_flags s.journal)
                  (commit_record_bh env s s.crc32_sum)] } env.submit_bh_ret
        else
          { log_advance s with
            cbh := some (commit_record_bh env s s.crc32_sum), err := env.submit_bh_ret,
            trace := s.trace ++
              [event.submit_bh (commit_record_flags s.journal)
                (commit_record_bh env s s.crc32_sum)] }
      else jbd2_journal_abort { log_advance s with cbh := none, err := 1 } 1 := by
  unfold submit_commit_record_step
  rw [journal_submit_commit_record_eq]
  by_cases ha : is_journal_aborted s.journal = true
  · simp [ha]
  · by_cases hok : desc_alloc_ok env s = true
    · by_cases hr : env.submit_bh_ret = 0 <;> simp [ha, hok, hr]
    · simp [ha, hok]

/-- What `submit_commit_record_step` adds to the trace and leaves alone. -/
theorem submit_commit_record_step_facts (env : commit_env) (s : commit_state) :
    loud (submit_commit_record_step env s).trace = loud s.trace ++
      (if is_journal_aborted s.journal then []
       else if desc_alloc_ok env s then
        event.submit_bh (commit_record_flags s.journal) (commit_record_bh env s s.crc32_sum) ::
          (if env.submit_bh_ret ≠ 0 then [event.jbd2_journal_abort env.submit_bh_ret] else [])
       else [event.jbd2_journal_abort 1]) ∧
    journal_config (submit_commit_record_step env s).journal = journal_config s.journal ∧
    (is_journal_aborted s.journal = true →
      is_journal_aborted (submit_commit_record_step env s).journal = true ∧
      (submit_commit_record_step env s).cbh = none ∧
      (submit_commit_record_step env s).trace = s.trace ∧
      (submit_commit_record_step env s).journal = s.journal) ∧
    (submit_commit_record_step env s).io_bufs = s.io_bufs ∧
    (submit_commit_record_step env s).log_bufs = s.log_bufs ∧
    (submit_commit_record_step env s).t_shadow_list = s.t_shadow_list ∧
    (submit_commit_record_step env s).update_tail = s.update_tail ∧
    (submit_commit_record_step env s).t_need_data_flush = s.t_need_data_flush := by
  rw [submit_commit_record_step_eq]
  by_cases ha : is_journal_aborted s.journal = true
  · simp [ha]
  · by_cases hok : desc_alloc_ok env s = true
    · by_cases hr : env.submit_bh_ret = 0 <;>
        simp [ha, hok, hr, loud_append, loud, is_quiet, jbd2_journal_abort, log_advance,
          journal_config]
    · simp [ha, hok, loud_append, loud, is_quiet, jbd2_journal_abort, log_advance,
        journal_config]

theorem commit_lock_down_eq (env : commit_env) (s : commit_state) :
    commit_lock_down env s =
      { s with
        journal := { s.journal with j_flags := { s.journal.j_flags with
          JBD2_FULL_COMMIT_ONGOING := true,
          JBD2_ABORT := s.journal.j_flags.JBD2_ABORT || decide (submit_data_err env s ≠ 0) } },
        t_state := t_state.T_FLUSH,
        t_reserved_list := [],
        t_outstanding_credits := s.t_outstanding_credits - s.journal.j_reserved_credits,
        t_log_start := s.journal.j_head,
        err := submit_data_err env s,
        space_left := 0, first_tag := false, cbh := none, crc32_sum := 4294967295,
        io_bufs := [], log_bufs := [],
        trace := s.trace ++ (if s.journal.j_flags.JBD2_FLUSHED then [event.update_sb_log_tail]
            else []) ++
          [event.set_t_state t_state.T_LOCKED, event.set_t_state t_state.T_SWITCH] ++
          s.t_reserved_list.map (fun jh => event.jbd2_journal_refile_buffer jh.b_blocknr) ++
          [event.set_t_state t_state.T_FLUSH] ++
          (if submit_data_err env s ≠ 0 then [event.jbd2_journal_abort (submit_data_err env s)]
            else []) } := by
  unfold commit_lock_down
  simp only [release_reserved_list_eq]
  by_cases hf : s.journal.j_flags.JBD2_FLUSHED = true <;>
    by_cases he : submit_data_err env s = 0 <;>
    simp [hf, he, emit, set_t_state, jbd2_journal_abort, submit_data_err] at * <;>
    simp [he]

/-- The prologue in terms of `commit_lock_down` and the revoke records. -/
theorem commit_prologue_eq (env : commit_env) (s : commit_state) :
    ∃ (h : Nat) (lb : List Nat) (evs : List event),
      commit_prologue env s =
        { commit_lock_down env s with
          journal := { (commit_lock_down env s).journal with j_head := h },
          t_state := t_state.T_COMMIT,
          log_bufs := lb, err := 0, wbuf := [], descriptor := false,
          trace := (commit_lock_down env s).trace ++ evs ++
            [event.set_t_state t_state.T_COMMIT] } ∧
      (∀ e ∈ evs, is_quiet e = true) ∧
      (env.revoke_blocks = 0 → h = s.journal.j_head ∧ lb = [] ∧ evs = []) := by
  obtain ⟨h, lb, evs, h1, h2, h3, _⟩ :=
    write_revoke_records_eq env env.revoke_blocks (commit_lock_down env s)
  refine ⟨h, lb, evs, ?_, h2, ?_⟩
  · unfold commit_prologue
    simp only [h1, set_t_state]
  · intro h0
    have := h3 h0
    rw [commit_lock_down_eq] at this
    simpa using this

theorem commit_prologue_loud (env : commit_env) (s : commit_state) :
    loud (commit_prologue env s).trace = loud s.trace ++
      [event.set_t_state t_state.T_LOCKED, event.set_t_state t_state.T_SWITCH,
        event.set_t_state t_state.T_FLUSH] ++
      (if submit_data_err env s ≠ 0 then [event.jbd2_journal_abort (submit_data_err env s)]
        else []) ++
      [event.set_t_state t_state.T_COMMIT] := by
  obtain ⟨h, lb, evs, h1, h2, _⟩ := commit_prologue_eq env s
  rw [h1, commit_lock_down_eq]
  have hq := loud_of_quiet evs h2
  by_cases hf : s.journal.j_flags.JBD2_FLUSHED = true <;>
    by_cases he : submit_data_err env s = 0 <;>
    simp [loud_append, loud_cons, loud_nil, loud_map_refile, is_quiet, hq, hf, he]

theorem commit_prologue_frame (env : commit_env) (s : commit_state) :
    journal_config (commit_prologue env s).journal = journal_config s.journal ∧
    is_journal_aborted (commit_prologue env s).journal =
      (is_journal_aborted s.journal || decide (submit_data_err env s ≠ 0)) ∧
    (commit_prologue env s).wbuf = [] ∧
    (commit_prologue env s).descriptor = false ∧
    (commit_prologue env s).crc32_sum = 4294967295 ∧
    (commit_prologue env s).io_bufs = [] ∧
    (commit_prologue env s).cbh = none ∧
    (commit_prologue env s).t_buffers = s.t_buffers ∧
    (commit_prologue env s).t_shadow_list = s.t_shadow_list ∧
    (commit_prologue env s).t_tid = s.t_tid ∧
    (commit_prologue env s).t_need_data_flush = s.t_need_data_flush ∧
    (env.revoke_blocks = 0 →
      (commit_prologue env s).journal.j_head = s.journal.j_head ∧
      (commit_prologue env s).log_bufs = []) := by
  obtain ⟨h, lb, evs, h1, _, h3⟩ := commit_prologue_eq env s
  rw [h1, commit_lock_down_eq]
  refine ⟨by simp [journal_config], by simp [is_journal_aborted], rfl, rfl, rfl, rfl, rfl, rfl,
    rfl, rfl, rfl, ?_⟩
  intro h0
  have := h3 h0
  simp [this.1, this.2.1]

theorem finish_inode_data_step_eq (env : commit_env) (s : commit_state) :
    finish_inode_data_step env s =
      { s with
        journal :=
          if finish_data_err env s ≠ 0 ∧ s.journal.j_flags.JBD2_ABORT_ON_SYNCDATA_ERR = true then
            { s.journal with j_flags := { s.journal.j_flags with JBD2_ABORT := true } }
          else s.journal,
        err := 0, t_inode_list := [],
        trace := s.trace ++
          (if finish_data_err env s ≠ 0 ∧ s.journal.j_flags.JBD2_ABORT_ON_SYNCDATA_ERR = true
            then [event.jbd2_journal_abort (finish_data_err env s)] else []) } := by
  unfold finish_inode_data_step
  by_cases h1 : finish_data_err env s = 0
  · have h1b : journal_finish_inode_data_buffers env s.journal s.t_inode_list 0 = 0 := h1
    simp [h1, h1b]
  · have h1b : journal_finish_inode_data_buffers env s.journal s.t_inode_list 0 ≠ 0 := h1
    by_cases h2 : s.journal.j_flags.JBD2_ABORT_ON_SYNCDATA_ERR = true
    · simp [h1, h1b, h2, jbd2_journal_abort, finish_data_err]
    · have hA : ¬(finish_data_err env s ≠ 0 ∧
          s.journal.j_flags.JBD2_ABORT_ON_SYNCDATA_ERR = true) := fun h => h2 h.2
      simp only [ne_eq, h1b, not_false_eq_true, if_true, h2, Bool.false_eq_true, if_false,
        and_false, List.append_nil]

theorem log_tail_step_eq (env : commit_env) (s : commit_state) :
    log_tail_step env s =
      { s with
        update_tail :=
          if env.get_log_tail.1 ≠ 0 ∧
              log_tail_freed s.journal env.get_log_tail.2.2 < env.max_txn_bufs then 0
          else env.get_log_tail.1,
        first_tid := env.get_log_tail.2.1,
        first_block := env.get_log_tail.2.2 } := by
  unfold log_tail_step
  by_cases h1 : env.get_log_tail.1 = 0
  · simp [h1]
  · by_cases h2 : log_tail_freed s.journal env.get_log_tail.2.2 < env.max_txn_bufs <;>
      simp [h1, h2]

theorem commit_dflush_head_facts (env : commit_env) (s : commit_state) :
    loud (commit_dflush_head env s).trace = loud s.trace ++
      (if finish_data_err env s ≠ 0 ∧ s.journal.j_flags.JBD2_ABORT_ON_SYNCDATA_ERR = true then
        [event.jbd2_journal_abort (finish_data_err env s)] else []) ++
      [event.set_t_state t_state.T_COMMIT_DFLUSH] ++
      (if s.t_need_data_flush = true ∧ s.journal.j_fs_dev ≠ s.journal.j_dev ∧
          s.journal.j_flags.JBD2_BARRIER = true then
        [event.blkdev_issue_flush s.journal.j_fs_dev] else []) ∧
    journal_config (commit_dflush_head env s).journal = journal_config s.journal ∧
    (commit_dflush_head env s).journal.j_head = s.journal.j_head ∧
    is_journal_aborted (commit_dflush_head env s).journal =
      (is_journal_aborted s.journal ||
        decide (finish_data_err env s ≠ 0 ∧ s.journal.j_flags.JBD2_ABORT_ON_SYNCDATA_ERR = true)) ∧
    (commit_dflush_head env s).crc32_sum = s.crc32_sum ∧
    (commit_dflush_head env s).io_bufs = s.io_bufs ∧
    (commit_dflush_head env s).log_bufs = s.log_bufs ∧
    (commit_dflush_head env s).t_shadow_list = s.t_shadow_list ∧
    (commit_dflush_head env s).cbh = s.cbh ∧
    (commit_dflush_head env s).t_tid = s.t_tid ∧
    (commit_dflush_head env s).err = 0 ∧
    waited (commit_dflush_head env s).trace = waited s.trace := by
  unfold commit_dflush_head
  simp only [log_tail_step_eq, finish_inode_data_step_eq, set_t_state, emit]
  by_cases h1 : finish_data_err env s ≠ 0 ∧ s.journal.j_flags.JBD2_ABORT_ON_SYNCDATA_ERR = true <;>
    by_cases h5 : s.t_need_data_flush = true ∧ s.journal.j_fs_dev ≠ s.journal.j_dev ∧
      s.journal.j_flags.JBD2_BARRIER = true <;>
    simp [h1, h5, loud_append, loud_cons, loud_nil, is_quiet, journal_config,
      is_journal_aborted, waited]

theorem commit_wait_io_eq (env : commit_env) (s : commit_state) :
    ∃ (io lb : List Nat) (sh fg : List journal_head),
      commit_wait_io env s =
        { s with
          journal :=
            if wait_err env s ≠ 0 then
              { s.journal with j_flags := { s.journal.j_flags with JBD2_ABORT := true } }
            else s.journal,
          err := wait_err env s,
          io_bufs := io, log_bufs := lb, t_shadow_list := sh, t_forget := fg,
          trace := s.trace ++ (wait_order s).map event.wait_on_buffer ++
            (if wait_err env s ≠ 0 then [event.jbd2_journal_abort (wait_err env s)] else []) } := by
  obtain ⟨io, sh, fg, h1⟩ := wait_io_fold_eq env s.io_bufs.reverse s
  obtain ⟨lb, h2⟩ := wait_log_fold_eq env s.log_bufs.reverse
    (s.io_bufs.reverse.foldl (wait_io_buf env) s)
  refine ⟨io, lb, sh, fg, ?_⟩
  have hlog : (s.io_bufs.reverse.foldl (wait_io_buf env) s).log_bufs = s.log_bufs := by
    rw [h1]
  unfold commit_wait_io
  simp only [hlog, h2]
  simp only [h1]
  have herr : (if (s.log_bufs.reverse.all fun b => env.io_uptodate b) = true then
        (if (s.io_bufs.reverse.all fun b => env.io_uptodate b) = true then s.err else - EIO)
      else - EIO) = wait_err env s := by
    unfold wait_err wait_order
    rw [List.all_append]
    by_cases ha : (s.io_bufs.reverse.all fun b => env.io_uptodate b) = true <;>
      by_cases hb : (s.log_bufs.reverse.all fun b => env.io_uptodate b) = true <;>
      simp [ha, hb]
  simp only [herr]
  by_cases he : wait_err env s = 0
  · simp [he, wait_order]
  · simp [he, wait_order, jbd2_journal_abort]

theorem commit_jflush_tail_eq (env : commit_env) (s : commit_state) :
    commit_jflush_tail env s =
      { s with
        journal :=
          if commit_record_err env s ≠ 0 then
            { s.journal with j_flags := { s.journal.j_flags with JBD2_ABORT := true } }
          else s.journal,
        err := commit_record_err env s,
        trace := s.trace ++
          (match s.cbh with
            | some cbh => [event.wait_on_buffer cbh.b_blocknr]
            | none => []) ++
          (if s.journal.j_flags.JBD2_BARRIER = true then
            [event.blkdev_issue_flush s.journal.j_dev] else []) ++
          (if jbd2_has_feature_async_commit s.journal = true ∧
              s.journal.j_flags.JBD2_BARRIER = true then
            [event.blkdev_issue_flush s.journal.j_dev] else []) ++
          (if commit_record_err env s ≠ 0 then
            [event.jbd2_journal_abort (commit_record_err env s)] else []) ++
          (if s.update_tail ≠ 0 then
            [event.jbd2_update_log_tail s.first_tid s.first_block] else []) } := by
  unfold commit_jflush_tail commit_record_err journal_wait_on_commit_record
  cases hc : s.cbh with
  | none =>
    by_cases h1 : s.journal.j_flags.JBD2_BARRIER = true <;>
      by_cases h2 : jbd2_has_feature_async_commit s.journal = true <;>
      by_cases h3 : s.err = 0 <;>
      by_cases h4 : s.update_tail = 0 <;>
      simp [hc, h1, h2, h3, h4, emit, jbd2_journal_abort] <;>
      (cases s; simp_all)
  | some cbh =>
    by_cases h1 : s.journal.j_flags.JBD2_BARRIER = true <;>
      by_cases h2 : jbd2_has_feature_async_commit s.journal = true <;>
      by_cases h3 : env.io_uptodate cbh.b_blocknr = true <;>
      by_cases h4 : s.update_tail = 0 <;>
      simp [hc, h1, h2, h3, h4, emit, jbd2_journal_abort, EIO]

theorem commit_finish_facts (env : commit_env) (s : commit_state) :
    loud (commit_finish env s).trace = loud s.trace ++
      [event.set_t_state t_state.T_COMMIT_CALLBACK, event.set_t_state t_state.T_FINISHED] ∧
    journal_config (commit_finish env s).journal = journal_config s.journal ∧
    is_journal_aborted (commit_finish env s).journal = is_journal_aborted s.journal ∧
    (commit_finish env s).t_state = t_state.T_FINISHED := by
  obtain ⟨fg, cp, evs, h, hq⟩ := forget_fold_eq s.t_forget s
  have hl := loud_of_quiet evs hq
  unfold commit_finish
  simp only [h, set_t_state, emit]
  by_cases h1 : s.journal.j_commit_callback = true <;>
    by_cases h2 : s.journal.j_fc_cleanup_callback = true <;>
    by_cases h3 : cp = [] ∧ s.t_checkpoint_io_list = [] <;>
    simp [h1, h2, h3, loud_append, loud_cons, loud_nil, is_quiet, hl, journal_config,
      is_journal_aborted]

theorem commit_jflush_tail_facts (env : commit_env) (s : commit_state) :
    loud (commit_jflush_tail env s).trace = loud s.trace ++
      (if s.journal.j_flags.JBD2_BARRIER = true then
        [event.blkdev_issue_flush s.journal.j_dev] else []) ++
      (if jbd2_has_feature_async_commit s.journal = true ∧
          s.journal.j_flags.JBD2_BARRIER = true then
        [event.blkdev_issue_flush s.journal.j_dev] else []) ++
      (if commit_record_err env s ≠ 0 then
        [event.jbd2_journal_abort (commit_record_err env s)] else []) ∧
    journal_config (commit_jflush_tail env s).journal = journal_config s.journal ∧
    (is_journal_aborted s.journal = true →
      is_journal_aborted (commit_jflush_tail env s).journal = true) := by
  rw [commit_jflush_tail_eq]
  refine ⟨?_, ?_, ?_⟩
  · cases hc : s.cbh <;>
      by_cases h1 : s.journal.j_flags.JBD2_BARRIER = true <;>
      by_cases h2 : jbd2_has_feature_async_commit s.journal = true <;>
      by_cases h3 : commit_record_err env s = 0 <;>
      by_cases h4 : s.update_tail = 0 <;>
      simp [h1, h2, h3, h4, loud_append, loud_cons, loud_nil, is_quiet]
  · by_cases h3 : commit_record_err env s = 0 <;> simp [h3, journal_config]
  · intro ha
    by_cases h3 : commit_record_err env s = 0
    · simpa [h3] using ha
    · simp [h3, is_journal_aborted]

/-- The events of the commit record when it is submitted in state `s`. -/
theorem commit_jflush_loud (env : commit_env) (s : commit_state) :
    ∃ (L A : List event),
      loud (commit_jflush env s).trace = loud s.trace ++
        [event.set_t_state t_state.T_COMMIT_JFLUSH] ++ L ++
        (if s.journal.j_flags.JBD2_BARRIER = true then
          [event.blkdev_issue_flush s.journal.j_dev] else []) ++
        (if jbd2_has_feature_async_commit s.journal = true ∧
            s.journal.j_flags.JBD2_BARRIER = true then
          [event.blkdev_issue_flush s.journal.j_dev] else []) ++ A ∧
      L = (if jbd2_has_feature_async_commit s.journal = true then []
         else if is_journal_aborted s.journal = true then []
         else if desc_alloc_ok env s = true then
          event.submit_bh (commit_record_flags s.journal) (commit_record_bh env s s.crc32_sum) ::
            (if env.submit_bh_ret ≠ 0 then [event.jbd2_journal_abort env.submit_bh_ret] else [])
         else [event.jbd2_journal_abort 1]) ∧
      (∀ e ∈ A, ∃ n, e = event.jbd2_journal_abort n) ∧
      journal_config (commit_jflush env s).journal = journal_config s.journal ∧
      (is_journal_aborted s.journal = true →
        is_journal_aborted (commit_jflush env s).journal = true) := by
  have hA : ∀ (x : Int), ∀ e ∈ (if x ≠ 0 then [event.jbd2_journal_abort x] else []),
      ∃ n, e = event.jbd2_journal_abort n := by
    intro x e he
    by_cases hx : x = 0
    · simp [hx] at he
    · simp [hx] at he
      exact ⟨x, he⟩
  unfold commit_jflush
  by_cases hasync : jbd2_has_feature_async_commit s.journal = true
  · have h1 : jbd2_has_feature_async_commit
        (set_t_state s t_state.T_COMMIT_JFLUSH).journal = true := hasync
    simp only [h1, Bool.not_true, Bool.false_eq_true, if_false]
    obtain ⟨t1, t2, t3⟩ := commit_jflush_tail_facts env (set_t_state s t_state.T_COMMIT_JFLUSH)
    refine ⟨_, _, ?_, rfl,
      hA (commit_record_err env (set_t_state s t_state.T_COMMIT_JFLUSH)), t2, t3⟩
    rw [t1]
    simp [set_t_state, loud_append, loud_cons, loud_nil, is_quiet, hasync]
  · have h1 : jbd2_has_feature_async_commit
        (set_t_state s t_state.T_COMMIT_JFLUSH).journal = false := by simpa using hasync
    simp only [h1, Bool.not_false, if_true]
    obtain ⟨c1, c2, c3, _⟩ :=
      submit_commit_record_step_facts env (set_t_state s t_state.T_COMMIT_JFLUSH)
    obtain ⟨t1, t2, t3⟩ := commit_jflush_tail_facts env
      (submit_commit_record_step env (set_t_state s t_state.T_COMMIT_JFLUSH))
    have hcfg := c2
    simp only [journal_config, Prod.mk.injEq] at hcfg
    have hb : (submit_commit_record_step env (set_t_state s t_state.T_COMMIT_JFLUSH)).journal.j_flags.JBD2_BARRIER
        = s.journal.j_flags.JBD2_BARRIER := hcfg.1
    have hd : (submit_commit_record_step env (set_t_state s t_state.T_COMMIT_JFLUSH)).journal.j_dev
        = s.journal.j_dev := hcfg.2.2.2.2.2.2.2.2.2.2.2.1
    have hy : jbd2_has_feature_async_commit
        (submit_commit_record_step env (set_t_state s t_state.T_COMMIT_JFLUSH)).journal
        = jbd2_has_feature_async_commit s.journal := hcfg.2.2.2.1
    refine ⟨_, _, ?_, rfl, hA (commit_record_err env
      (submit_commit_record_step env (set_t_state s t_state.T_COMMIT_JFLUSH))), ?_, ?_⟩
    · rw [t1, c1, hb, hd, hy]
      have e1 : is_journal_aborted (set_t_state s t_state.T_COMMIT_JFLUSH).journal =
          is_journal_aborted s.journal := rfl
      have e2 : desc_alloc_ok env (set_t_state s t_state.T_COMMIT_JFLUSH) =
          desc_alloc_ok env s := rfl
      have e3 : commit_record_bh env (set_t_state s t_state.T_COMMIT_JFLUSH)
          (set_t_state s t_state.T_COMMIT_JFLUSH).crc32_sum =
          commit_record_bh env s s.crc32_sum := rfl
      have e4 : (set_t_state s t_state.T_COMMIT_JFLUSH).journal = s.journal := rfl
      rw [e1, e2, e3, e4]
      simp [set_t_state, loud_append, loud_cons, loud_nil, is_quiet, hasync]
    · rw [t2, c2]
      rfl
    · intro ha
      exact t3 (c3 ha).1

/-! ### What the metadata loop leaves alone -/

theorem io_events_loop_event (tb : List journal_head) (bufs : Nat) :
    ∀ (l : List buffer_head) (i : Nat), ∀ e ∈ io_events tb bufs i l, is_loop_event e = true := by
  intro l
  induction l with
  | nil => intro i e he; cases he
  | cons bh rest ih =>
    intro i e he
    simp only [io_events, List.mem_cons] at he
    rcases he with rfl | he
    · rfl
    · exact ih (i + 1) e he

theorem release_events_loop_event (barrier : Bool) :
    ∀ (l : List journal_head), ∀ e ∈ release_events barrier l, is_loop_event e = true := by
  intro l
  induction l with
  | nil => intro e he; cases he
  | cons jh rest ih =>
    intro e he
    simp only [release_events, List.mem_append, List.mem_cons, List.mem_singleton,
      List.not_mem_nil, or_false] at he
    rcases he with (rfl | rfl | rfl) | he
    · rfl
    · rfl
    · cases barrier <;> rfl
    · exact ih e he

/-- The basic facts about the code at `start_journal_io`. -/
theorem start_journal_io_basic (env : commit_env) (s : commit_state) :
    (start_journal_io env s).journal = s.journal ∧
    loop_frame (start_journal_io env s) = loop_frame s ∧
    ∃ evs, (start_journal_io env s).trace = s.trace ++ evs ∧
      ∀ e ∈ evs, is_loop_event e = true := by
  rw [start_journal_io_eq]
  exact ⟨rfl, rfl, _, rfl, io_events_loop_event _ _ _ _⟩

theorem loop_submit_basic (env : commit_env) (s : commit_state) :
    (loop_submit env s).journal = s.journal ∧
    loop_frame (loop_submit env s) = loop_frame s ∧
    ∃ evs, (loop_submit env s).trace = s.trace ++ evs ∧
      ∀ e ∈ evs, is_loop_event e = true := by
  unfold loop_submit
  by_cases h : loop_batch_full s = true
  · rw [if_pos h]
    exact start_journal_io_basic env { s with wbuf := on_descriptor descriptor_mark_last s.wbuf }
  · rw [if_neg h]
    exact ⟨rfl, rfl, [], by simp, by simp⟩

/-- One pass of the metadata loop keeps the settings of the journal and the
fields outside the loop, keeps an aborted journal aborted, and only adds
calls of the loop's kinds to the trace. -/
theorem commit_loop_iter_basic (env : commit_env) (barrier : Bool) (s : commit_state)
    (hne : s.t_buffers ≠ []) :
    journal_config (commit_loop_iter env barrier s).journal = journal_config s.journal ∧
    loop_frame (commit_loop_iter env barrier s) = loop_frame s ∧
    (is_journal_aborted s.journal = true →
      is_journal_aborted (commit_loop_iter env barrier s).journal = true) ∧
    ∃ evs, (commit_loop_iter env barrier s).trace = s.trace ++ evs ∧
      ∀ e ∈ evs, is_loop_event e = true := by
  cases hs : s.t_buffers with
  | nil => exact absurd hs hne
  | cons jh rest =>
    apply commit_loop_iter_cases env barrier
      (fun x => journal_config x.journal = journal_config s.journal ∧
        loop_frame x = loop_frame s ∧
        (is_journal_aborted s.journal = true → is_journal_aborted x.journal = true) ∧
        ∃ evs, x.trace = s.trace ++ evs ∧ ∀ e ∈ evs, is_loop_event e = true) s jh rest hs
    · intro ha
      rw [loop_release_eq]
      by_cases hr : rest = []
      · rw [if_pos hr]
        obtain ⟨b1, b2, evs, b3, b4⟩ := start_journal_io_basic env
          { s with t_buffers := [], trace := s.trace ++ release_events barrier [jh] }
        refine ⟨by rw [b1], by rw [b2]; rfl, fun _ => by rw [b1]; exact ha,
          release_events barrier [jh] ++ evs, by rw [b3]; simp, ?_⟩
        intro e he
        rcases List.mem_append.mp he with h1 | h2
        · exact release_events_loop_event barrier _ e h1
        · exact b4 e h2
      · rw [if_neg hr]
        exact ⟨rfl, rfl, fun _ => ha, _, rfl, release_events_loop_event barrier _⟩
    · intro ha _ _
      refine ⟨rfl, rfl, fun _ => rfl, [event.jbd2_journal_abort (- EIO)], rfl, ?_⟩
      intro e he
      simp only [List.mem_singleton] at he
      subst he; rfl
    · intro ha s1 h1 _
      rcases h1 with ⟨_, rfl⟩ | ⟨_, _, rfl⟩
      · refine ⟨rfl, rfl, fun _ => rfl, [event.jbd2_journal_abort _], rfl, ?_⟩
        intro e he
        simp only [List.mem_singleton] at he
        subst he; rfl
      · refine ⟨rfl, rfl, fun _ => rfl, [event.jbd2_journal_abort _], rfl, ?_⟩
        intro e he
        simp only [List.mem_singleton] at he
        subst he; rfl
    · intro ha s1 h1 _ _
      rcases h1 with ⟨_, rfl⟩ | ⟨_, _, rfl⟩
      · refine ⟨rfl, rfl, fun _ => rfl, [event.jbd2_journal_abort _], rfl, ?_⟩
        intro e he
        simp only [List.mem_singleton] at he
        subst he; rfl
      · refine ⟨rfl, rfl, fun _ => rfl, [event.jbd2_journal_abort _], rfl, ?_⟩
        intro e he
        simp only [List.mem_singleton] at he
        subst he; rfl
    · intro ha s1 h1 _ _
      obtain ⟨b1, b2, evs, b3, b4⟩ := loop_submit_basic env
        (loop_tag env (log_buffer s1 jh rest) jh (metadata_bh env s1 jh)
          (env.write_metadata_flags jh.b_blocknr))
      have hab : is_journal_aborted s.journal = true →
          is_journal_aborted (loop_submit env
            (loop_tag env (log_buffer s1 jh rest) jh (metadata_bh env s1 jh)
              (env.write_metadata_flags jh.b_blocknr))).journal = true := by
        intro h
        rw [ha] at h
        cases h
      rcases h1 with ⟨_, rfl⟩ | ⟨_, _, rfl⟩
      · exact ⟨by rw [b1, loop_tag_eq]; rfl, by rw [b2, loop_tag_eq]; rfl, hab,
          evs, by rw [b3, loop_tag_eq]; rfl, b4⟩
      · exact ⟨by rw [b1, loop_tag_eq]; rfl, by rw [b2, loop_tag_eq]; rfl, hab,
          evs, by rw [b3, loop_tag_eq]; rfl, b4⟩

theorem commit_loop_basic (env : commit_env) (barrier : Bool) (fuel : Nat)
    (s s2 : commit_state) (h : commit_loop env barrier fuel s = some s2) :
    journal_config s2.journal = journal_config s.journal ∧
    loop_frame s2 = loop_frame s ∧
    (is_journal_aborted s.journal = true → is_journal_aborted s2.journal = true) ∧
    ∃ evs, s2.trace = s.trace ++ evs ∧ ∀ e ∈ evs, is_loop_event e = true := by
  apply commit_loop_rule env barrier
    (fun x => journal_config x.journal = journal_config s.journal ∧
      loop_frame x = loop_frame s ∧
      (is_journal_aborted s.journal = true → is_journal_aborted x.journal = true) ∧
      ∃ evs, x.trace = s.trace ++ evs ∧ ∀ e ∈ evs, is_loop_event e = true) ?_ fuel s s2 ?_ h
  · intro x hx hne
    obtain ⟨x1, x2, x3, evs, x4, x5⟩ := hx
    obtain ⟨y1, y2, y3, evs2, y4, y5⟩ := commit_loop_iter_basic env barrier x hne
    refine ⟨y1.trans x1, y2.trans x2, fun ha => y3 (x3 ha), evs ++ evs2, ?_, ?_⟩
    · rw [y4, x4, List.append_assoc]
    · intro e he
      rcases List.mem_append.mp he with h1 | h2
      · exact x5 e h1
      · exact y5 e h2
  · exact ⟨rfl, rfl, fun ha => ha, [], by simp, by simp⟩

theorem t_states_append (a b : List event) : t_states (a ++ b) = t_states a ++ t_states b := by
  simp [t_states, List.filterMap_append]

theorem flushes_append (a b : List event) : flushes (a ++ b) = flushes a ++ flushes b := by
  simp [flushes, List.filterMap_append]

theorem t_states_loop_events (l : List event) (h : ∀ e ∈ l, is_loop_event e = true) :
    t_states l = [] := by
  induction l with
  | nil => rfl
  | cons e rest ih =>
    have h1 := h e (by simp)
    have h2 := ih (fun x hx => h x (List.mem_cons_of_mem _ hx))
    have h3 : t_states (e :: rest) = t_states [e] ++ t_states rest := t_states_append [e] rest
    rw [h3, h2, List.append_nil]
    cases e <;> first | rfl | exact Bool.noConfusion h1

theorem flushes_loop_events (l : List event) (h : ∀ e ∈ l, is_loop_event e = true) :
    flushes l = [] := by
  induction l with
  | nil => rfl
  | cons e rest ih =>
    have h1 := h e (by simp)
    have h2 := ih (fun x hx => h x (List.mem_cons_of_mem _ hx))
    have h3 : flushes (e :: rest) = flushes [e] ++ flushes rest := flushes_append [e] rest
    rw [h3, h2, List.append_nil]
    cases e <;> first | rfl | exact Bool.noConfusion h1

theorem loop_event_of_abort_list (x : Int) :
    ∀ e ∈ (if x ≠ 0 then [event.jbd2_journal_abort x] else []), is_loop_event e = true := by
  intro e he
  by_cases hx : x = 0
  · simp [hx] at he
  · simp [hx] at he
    subst he
    rfl

theorem loop_event_of_aborts (A : List event) (h : ∀ e ∈ A, ∃ n, e = event.jbd2_journal_abort n) :
    ∀ e ∈ A, is_loop_event e = true := by
  intro e he
  obtain ⟨n, rfl⟩ := h e he
  rfl

theorem commit_dflush_loud (env : commit_env) (s : commit_state) :
    ∃ (X1 X2 : List event),
      loud (commit_dflush env s).trace = loud s.trace ++ X1 ++
        [event.set_t_state t_state.T_COMMIT_DFLUSH] ++
        (if s.t_need_data_flush = true ∧ s.journal.j_fs_dev ≠ s.journal.j_dev ∧
            s.journal.j_flags.JBD2_BARRIER = true then
          [event.blkdev_issue_flush s.journal.j_fs_dev] else []) ++ X2 ∧
      (∀ e ∈ X1, is_loop_event e = true) ∧ (∀ e ∈ X2, is_loop_event e = true) ∧
      journal_config (commit_dflush env s).journal = journal_config s.journal ∧
      (is_journal_aborted s.journal = true →
        is_journal_aborted (commit_dflush env s).journal = true ∧
        submitted X1 = [] ∧ submitted X2 = []) := by
  obtain ⟨d1, d2, d3, d4, _⟩ := commit_dflush_head_facts env s
  unfold commit_dflush
  simp only []
  by_cases hasync : jbd2_has_feature_async_commit (commit_dflush_head env s).journal = true
  · rw [if_pos hasync]
    obtain ⟨c1, c2, c3, _⟩ := submit_commit_record_step_facts env (commit_dflush_head env s)
    refine ⟨(if finish_data_err env s ≠ 0 ∧
        s.journal.j_flags.JBD2_ABORT_ON_SYNCDATA_ERR = true then
        [event.jbd2_journal_abort (finish_data_err env s)] else []),
      (if is_journal_aborted (commit_dflush_head env s).journal = true then []
        else if desc_alloc_ok env (commit_dflush_head env s) = true then
          event.submit_bh (commit_record_flags (commit_dflush_head env s).journal)
              (commit_record_bh env (commit_dflush_head env s)
                (commit_dflush_head env s).crc32_sum) ::
            (if env.submit_bh_ret ≠ 0 then [event.jbd2_journal_abort env.submit_bh_ret] else [])
        else [event.jbd2_journal_abort 1]), ?_, ?_, ?_, c2.trans d2, ?_⟩
    · rw [c1, d1]
    · intro e he
      by_cases hA : finish_data_err env s ≠ 0 ∧
          s.journal.j_flags.JBD2_ABORT_ON_SYNCDATA_ERR = true
      · rw [if_pos hA] at he
        simp only [List.mem_singleton] at he
        subst he; rfl
      · rw [if_neg hA] at he
        cases he
    · intro e he
      split_ifs at he
      · cases he
      · simp only [List.mem_cons, List.mem_singleton, List.not_mem_nil, or_false] at he
        rcases he with rfl | rfl <;> rfl
      · simp only [List.mem_cons, List.mem_singleton, List.not_mem_nil, or_false] at he
        subst he; rfl
      · simp only [List.mem_singleton] at he
        subst he; rfl
    · intro ha
      have ha6 : is_journal_aborted (commit_dflush_head env s).journal = true := by
        rw [d4, ha]; rfl
      refine ⟨(c3 ha6).1, ?_, ?_⟩
      · split_ifs <;> rfl
      · rw [if_pos ha6]; rfl
  · rw [if_neg hasync]
    refine ⟨(if finish_data_err env s ≠ 0 ∧
        s.journal.j_flags.JBD2_ABORT_ON_SYNCDATA_ERR = true then
        [event.jbd2_journal_abort (finish_data_err env s)] else []), [],
      by rw [d1]; simp, ?_, by simp, d2, ?_⟩
    · intro e he
      by_cases hA : finish_data_err env s ≠ 0 ∧
          s.journal.j_flags.JBD2_ABORT_ON_SYNCDATA_ERR = true
      · rw [if_pos hA] at he
        simp only [List.mem_singleton] at he
        subst he; rfl
      · rw [if_neg hA] at he
        cases he
    · intro ha
      refine ⟨by rw [d4, ha]; rfl, ?_, rfl⟩
      split_ifs <;> rfl

theorem commit_wait_io_loud (env : commit_env) (s : commit_state) :
    loud (commit_wait_io env s).trace = loud s.trace ++
      (if wait_err env s ≠ 0 then [event.jbd2_journal_abort (wait_err env s)] else []) ∧
    journal_config (commit_wait_io env s).journal = journal_config s.journal ∧
    (is_journal_aborted s.journal = true →
      is_journal_aborted (commit_wait_io env s).journal = true) ∧
    (commit_wait_io env s).crc32_sum = s.crc32_sum ∧
    (commit_wait_io env s).cbh = s.cbh ∧
    (commit_wait_io env s).t_need_data_flush = s.t_need_data_flush ∧
    (commit_wait_io env s).journal.j_head = s.journal.j_head := by
  obtain ⟨io, lb, sh, fg, h⟩ := commit_wait_io_eq env s
  rw [h]
  by_cases he : wait_err env s = 0
  · simp [he, loud_append, loud_map_wait]
  · simp [he, loud_append, loud_map_wait, loud_cons, loud_nil, is_quiet, journal_config,
      is_journal_aborted]

/-- The state changes, aborts, log writes and flushes made behind the metadata
loop: the lists `X1` to `X5` hold aborts and the submission of the commit
record only. -/
theorem commit_after_loop_loud (env : commit_env) (s : commit_state) :
    ∃ (X1 X2 X3 X4 X5 : List event),
      loud (commit_after_loop env s).trace = loud s.trace ++ X1 ++
        [event.set_t_state t_state.T_COMMIT_DFLUSH] ++
        (if s.t_need_data_flush = true ∧ s.journal.j_fs_dev ≠ s.journal.j_dev ∧
            s.journal.j_flags.JBD2_BARRIER = true then
          [event.blkdev_issue_flush s.journal.j_fs_dev] else []) ++ X2 ++ X3 ++
        [event.set_t_state t_state.T_COMMIT_JFLUSH] ++ X4 ++
        (if s.journal.j_flags.JBD2_BARRIER = true then
          [event.blkdev_issue_flush s.journal.j_dev] else []) ++
        (if jbd2_has_feature_async_commit s.journal = true ∧
            s.journal.j_flags.JBD2_BARRIER = true then
          [event.blkdev_issue_flush s.journal.j_dev] else []) ++ X5 ++
        [event.set_t_state t_state.T_COMMIT_CALLBACK, event.set_t_state t_state.T_FINISHED] ∧
      (∀ e ∈ X1, is_loop_event e = true) ∧ (∀ e ∈ X2, is_loop_event e = true) ∧
      (∀ e ∈ X3, is_loop_event e = true) ∧ (∀ e ∈ X4, is_loop_event e = true) ∧
      (∀ e ∈ X5, is_loop_event e = true) ∧
      (commit_after_loop env s).t_state = t_state.T_FINISHED ∧
      journal_config (commit_after_loop env s).journal = journal_config s.journal := by
  obtain ⟨X1, X2, d1, d2, d3, d4, _⟩ := commit_dflush_loud env s
  obtain ⟨w1, w2, _⟩ := commit_wait_io_loud env (commit_dflush env s)
  obtain ⟨L, A, j1, jL, j2, j3, _⟩ :=
    commit_jflush_loud env (commit_wait_io env (commit_dflush env s))
  obtain ⟨f1, f2, _, f4⟩ :=
    commit_finish_facts env (commit_jflush env (commit_wait_io env (commit_dflush env s)))
  have hcfg : journal_config (commit_wait_io env (commit_dflush env s)).journal =
      journal_config s.journal := w2.trans d4
  have hc := hcfg
  simp only [journal_config, Prod.mk.injEq] at hc
  have hb : (commit_wait_io env (commit_dflush env s)).journal.j_flags.JBD2_BARRIER =
      s.journal.j_flags.JBD2_BARRIER := hc.1
  have hd : (commit_wait_io env (commit_dflush env s)).journal.j_dev = s.journal.j_dev :=
    hc.2.2.2.2.2.2.2.2.2.2.2.1
  have hy : jbd2_has_feature_async_commit (commit_wait_io env (commit_dflush env s)).journal =
      jbd2_has_feature_async_commit s.journal := hc.2.2.2.1
  rw [hb, hd, hy] at j1
  refine ⟨X1, X2,
    (if wait_err env (commit_dflush env s) ≠ 0 then
      [event.jbd2_journal_abort (wait_err env (commit_dflush env s))] else []), L, A, ?_, d2, d3,
    loop_event_of_abort_list (wait_err env (commit_dflush env s)), ?_,
    loop_event_of_aborts A j2, f4, (f2.trans j3).trans hcfg⟩
  · unfold commit_after_loop
    rw [f1, j1, w1, d1]
  · intro e he
    rw [jL] at he
    split_ifs at he
    · cases he
    · cases he
    · simp only [List.mem_cons, List.mem_singleton, List.not_mem_nil, or_false] at he
      rcases he with rfl | rfl <;> rfl
    · simp only [List.mem_cons, List.mem_singleton, List.not_mem_nil, or_false] at he
      subst he; rfl
    · simp only [List.mem_singleton] at he
      subst he; rfl

/-! ### The transaction states assigned by the commit -/

theorem t_states_flush_list (c : Prop) [Decidable c] (dev : Nat) :
    t_states (if c then [event.blkdev_issue_flush dev] else []) = [] := by
  split_ifs <;> rfl

theorem commit_after_loop_t_states (env : commit_env) (s : commit_state) :
    t_states (commit_after_loop env s).trace = t_states s.trace ++
      [t_state.T_COMMIT_DFLUSH, t_state.T_COMMIT_JFLUSH, t_state.T_COMMIT_CALLBACK,
        t_state.T_FINISHED] := by
  obtain ⟨X1, X2, X3, X4, X5, h, h1, h2, h3, h4, h5, _⟩ := commit_after_loop_loud env s
  rw [← t_states_loud, h]
  simp only [t_states_append, t_states_loop_events _ h1, t_states_loop_events _ h2,
    t_states_loop_events _ h3, t_states_loop_events _ h4, t_states_loop_events _ h5,
    t_states_flush_list, t_states_loud, List.append_nil, List.append_assoc]
  rfl

theorem commit_prologue_t_states (env : commit_env) (s : commit_state) :
    t_states (commit_prologue env s).trace = t_states s.trace ++
      [t_state.T_LOCKED, t_state.T_SWITCH, t_state.T_FLUSH, t_state.T_COMMIT] := by
  rw [← t_states_loud, commit_prologue_loud]
  simp only [t_states_append, t_states_loud,
    t_states_loop_events _ (loop_event_of_abort_list (submit_data_err env s)),
    List.append_nil, List.append_assoc]
  rfl

/-- The whole commit returns: the metadata loop ends within its fuel. -/
theorem commit_transaction_total (env : commit_env) (s0 : commit_state) :
    ∃ s2, commit_loop env false (commit_loop_fuel (commit_prologue env s0))
        (commit_prologue env s0) = some s2 ∧ s2.t_buffers = [] ∧
      jbd2_journal_commit_transaction env s0 = some (commit_after_loop env s2) := by
  obtain ⟨s2, h1, h2⟩ := commit_loop_total env false (commit_loop_fuel (commit_prologue env s0))
    (commit_prologue env s0) (commit_loop_fuel_enough _)
  refine ⟨s2, h1, h2, ?_⟩
  unfold jbd2_journal_commit_transaction
  simp only [h1]

/-! ### C3: a failed log write aborts the journal -/

theorem mem_dropWhile_append (p : event → Bool) (a : event) :
    ∀ (tr T : List event), a ∈ tr.dropWhile p → a ∈ (tr ++ T).dropWhile p := by
  intro tr
  induction tr with
  | nil => intro T h; simp at h
  | cons x tr ih =>
    intro T h
    rw [List.cons_append, List.dropWhile_cons]
    rw [List.dropWhile_cons] at h
    by_cases hx : p x = true
    · simp only [hx, if_true] at h ⊢
      exact ih T h
    · simp only [hx, if_false] at h ⊢
      rw [← List.cons_append]
      exact List.mem_append_left T h

theorem mem_dropWhile_prepend (p : event → Bool) (a : event) (tr : List event) :
    ∀ (P : List event), a ∈ tr.dropWhile p → a ∈ (P ++ tr).dropWhile p := by
  intro P
  induction P with
  | nil => intro h; simpa using h
  | cons x P ih =>
    intro h
    rw [List.cons_append, List.dropWhile_cons]
    by_cases hx : p x = true
    · simp only [hx, if_true]
      exact ih h
    · simp only [hx, if_false]
      exact List.mem_cons_of_mem x
        (List.mem_append_right P ((List.dropWhile_suffix p).subset h))

theorem after_wait_append (tr T : List event) (b : Nat) (errno : Int)
    (h : aborted_after_wait tr b errno) : aborted_after_wait (tr ++ T) b errno :=
  mem_dropWhile_append _ _ tr T h

theorem after_wait_prepend (P tr : List event) (b : Nat) (errno : Int)
    (h : aborted_after_wait tr b errno) : aborted_after_wait (P ++ tr) b errno :=
  mem_dropWhile_prepend _ _ tr P h

theorem after_wait_cons (b : Nat) (errno : Int) (R : List event)
    (h : event.jbd2_journal_abort errno ∈ R) :
    aborted_after_wait (event.wait_on_buffer b :: R) b errno := by
  unfold aborted_after_wait
  rw [List.dropWhile_cons]
  simp [h]

theorem wait_err_failed (env : commit_env) (s : commit_state) (b : Nat)
    (hb : env.io_uptodate b = false) (hm : b ∈ s.io_bufs ∨ b ∈ s.log_bufs) :
    wait_err env s = - EIO ∧ b ∈ wait_order s := by
  have hmem : b ∈ wait_order s := by
    unfold wait_order
    rcases hm with h | h
    · exact List.mem_append_left _ (List.mem_reverse.mpr h)
    · exact List.mem_append_right _ (List.mem_reverse.mpr h)
  refine ⟨?_, hmem⟩
  unfold wait_err
  rw [if_neg]
  intro hall
  have := List.all_eq_true.mp hall b hmem
  rw [hb] at this
  exact Bool.noConfusion this

/-- The wait loops: a buffer that is not uptodate makes them call
`jbd2_journal_abort` with `-EIO`. -/
theorem commit_wait_io_failed (env : commit_env) (s : commit_state) (b : Nat)
    (hb : env.io_uptodate b = false) (hm : b ∈ s.io_bufs ∨ b ∈ s.log_bufs) :
    aborted_after_wait (commit_wait_io env s).trace b (- EIO) ∧
      is_journal_aborted (commit_wait_io env s).journal = true := by
  obtain ⟨he, hmem⟩ := wait_err_failed env s b hb hm
  obtain ⟨io, lb, sh, fg, h⟩ := commit_wait_io_eq env s
  have hne : (- EIO : Int) ≠ 0 := by decide
  rw [h, he]
  simp only [hne, ne_eq, not_false_eq_true, if_true]
  refine ⟨?_, by simp [is_journal_aborted]⟩
  obtain ⟨A, B, hAB⟩ := List.append_of_mem hmem
  rw [hAB, List.map_append, List.map_cons, List.append_assoc, List.append_assoc]
  apply after_wait_prepend
  apply after_wait_prepend
  rw [List.cons_append]
  exact after_wait_cons b _ _ (by simp)

theorem submit_commit_record_step_ext (env : commit_env) (s : commit_state) :
    (∃ T, (submit_commit_record_step env s).trace = s.trace ++ T) ∧
    (is_journal_aborted s.journal = true →
      is_journal_aborted (submit_commit_record_step env s).journal = true) := by
  refine ⟨?_, fun h => ((submit_commit_record_step_facts env s).2.2.1 h).1⟩
  rw [submit_commit_record_step_eq]
  by_cases ha : is_journal_aborted s.journal = true
  · exact ⟨[], by simp [ha]⟩
  · by_cases hd : desc_alloc_ok env s = true
    · by_cases hr : env.submit_bh_ret = 0
      · exact ⟨_, by simp only [ha, hd, hr, if_true, if_false, ne_eq, not_true_eq_false]; rfl⟩
      · refine ⟨[event.submit_bh (commit_record_flags s.journal)
          (commit_record_bh env s s.crc32_sum), event.jbd2_journal_abort env.submit_bh_ret], ?_⟩
        simp [ha, hd, hr, jbd2_journal_abort]
    · refine ⟨[event.jbd2_journal_abort 1], ?_⟩
      simp [ha, hd, jbd2_journal_abort, log_advance]

/-- The wait for the commit record: a commit block that is not uptodate makes
the commit call `jbd2_journal_abort` with `-EIO`. -/
theorem commit_jflush_tail_failed (env : commit_env) (s : commit_state) :
    (∃ T, (commit_jflush_tail env s).trace = s.trace ++ T) ∧
    (commit_jflush_tail env s).cbh = s.cbh ∧
    (is_journal_aborted s.journal = true →
      is_journal_aborted (commit_jflush_tail env s).journal = true) ∧
    (∀ cbh, s.cbh = some cbh → env.io_uptodate cbh.b_blocknr = false →
      aborted_after_wait (commit_jflush_tail env s).trace cbh.b_blocknr (- EIO) ∧
      is_journal_aborted (commit_jflush_tail env s).journal = true) := by
  refine ⟨?_, ?_, (commit_jflush_tail_facts env s).2.2, ?_⟩
  · rw [commit_jflush_tail_eq]
    simp only [List.append_assoc]
    exact ⟨_, rfl⟩
  · rw [commit_jflush_tail_eq]
  · intro cbh hc hb
    have he : commit_record_err env s = - EIO := by simp [commit_record_err, hc, hb]
    have hne : (- EIO : Int) ≠ 0 := by decide
    rw [commit_jflush_tail_eq, he]
    simp only [hne, ne_eq, not_false_eq_true, if_true, hc]
    refine ⟨?_, by simp [is_journal_aborted]⟩
    simp only [List.append_assoc]
    apply after_wait_prepend
    rw [List.singleton_append]
    exact after_wait_cons _ _ _ (by simp)

theorem commit_jflush_failed (env : commit_env) (s : commit_state) :
    (∃ T, (commit_jflush env s).trace = s.trace ++ T) ∧
    (is_journal_aborted s.journal = true →
      is_journal_aborted (commit_jflush env s).journal = true) ∧
    (∀ cbh, (commit_jflush env s).cbh = some cbh → env.io_uptodate cbh.b_blocknr = false →
      aborted_after_wait (commit_jflush env s).trace cbh.b_blocknr (- EIO) ∧
      is_journal_aborted (commit_jflush env s).journal = true) := by
  unfold commit_jflush
  simp only []
  generalize hx : (if (!jbd2_has_feature_async_commit (set_t_state s t_state.T_COMMIT_JFLUSH).journal)
      = true then submit_commit_record_step env (set_t_state s t_state.T_COMMIT_JFLUSH)
      else set_t_state s t_state.T_COMMIT_JFLUSH) = x
  have hxt : (∃ T, x.trace = s.trace ++ T) ∧
      (is_journal_aborted s.journal = true → is_journal_aborted x.journal = true) := by
    rw [← hx]
    split_ifs
    · obtain ⟨⟨T, hT⟩, ha⟩ :=
        submit_commit_record_step_ext env (set_t_state s t_state.T_COMMIT_JFLUSH)
      exact ⟨⟨event.set_t_state t_state.T_COMMIT_JFLUSH :: T, by
        rw [hT]; simp [set_t_state]⟩, fun h => ha h⟩
    · exact ⟨⟨[event.set_t_state t_state.T_COMMIT_JFLUSH], rfl⟩, fun h => h⟩
  obtain ⟨⟨T1, hT1⟩, hc, ha, hf⟩ := commit_jflush_tail_failed env x
  obtain ⟨⟨T0, hT0⟩, ha0⟩ := hxt
  refine ⟨⟨T0 ++ T1, by rw [hT1, hT0, List.append_assoc]⟩, fun h => ha (ha0 h), ?_⟩
  intro cbh hcb hb
  rw [hc] at hcb
  exact hf cbh hcb hb

theorem commit_finish_ext (env : commit_env) (s : commit_state) :
    (∃ T, (commit_finish env s).trace = s.trace ++ T) ∧
    (commit_finish env s).cbh = s.cbh := by
  obtain ⟨fg, cp, evs, h, _⟩ := forget_fold_eq s.t_forget s
  unfold commit_finish
  simp only [h, set_t_state, emit]
  by_cases h1 : s.journal.j_commit_callback = true <;>
    by_cases h2 : s.journal.j_fc_cleanup_callback = true <;>
    by_cases h3 : cp = [] ∧ s.t_checkpoint_io_list = [] <;>
    simp [h1, h2, h3]

theorem commit_dflush_ext (env : commit_env) (s : commit_state) :
    (commit_dflush env s).io_bufs = s.io_bufs ∧
    (commit_dflush env s).log_bufs = s.log_bufs := by
  obtain ⟨_, _, _, _, _, h1, h2, _⟩ := commit_dflush_head_facts env s
  obtain ⟨_, _, _, h3, h4, _⟩ := submit_commit_record_step_facts env (commit_dflush_head env s)
  unfold commit_dflush
  simp only []
  split_ifs
  · exact ⟨h3.trans h1, h4.trans h2⟩
  · exact ⟨h1, h2⟩

theorem flush_forget_one_ext (ver_tid : Nat) (s : commit_state) (jh : journal_head) :
    (∃ T, (flush_forget_one ver_tid s jh).trace = s.trace ++ T) ∧
    (flush_forget_one ver_tid s jh).journal = s.journal ∧
    (flush_forget_one ver_tid s jh).t_tid = s.t_tid := by
  unfold flush_forget_one
  simp only [emit]
  split_ifs <;> exact ⟨⟨_, by simp only [List.append_assoc]; rfl⟩, rfl, rfl⟩

theorem flush_forget_fold_ext (ver_tid : Nat) :
    ∀ (l : List journal_head) (s : commit_state),
      (∃ T, (l.foldl (flush_forget_one ver_tid) s).trace = s.trace ++ T) ∧
      (l.foldl (flush_forget_one ver_tid) s).journal = s.journal ∧
      (l.foldl (flush_forget_one ver_tid) s).t_tid = s.t_tid := by
  intro l
  induction l with
  | nil => intro s; exact ⟨⟨[], by simp⟩, rfl, rfl⟩
  | cons jh rest ih =>
    intro s
    obtain ⟨⟨T1, h1⟩, j1, t1⟩ := flush_forget_one_ext ver_tid s jh
    obtain ⟨⟨T2, h2⟩, j2, t2⟩ := ih (flush_forget_one ver_tid s jh)
    rw [List.foldl_cons]
    exact ⟨⟨T1 ++ T2, by rw [h2, h1, List.append_assoc]⟩, j2.trans j1, t2.trans t1⟩

theorem flush_finish_ext (env : commit_env) (cfg : barrier_config) (do_flush : Bool)
    (ver_tid : Nat) (s : commit_state) :
    (∃ T, (flush_finish env cfg do_flush ver_tid s).trace = s.trace ++ T) ∧
    is_journal_aborted (flush_finish env cfg do_flush ver_tid s).journal =
      is_journal_aborted s.journal := by
  obtain ⟨⟨T, hT⟩, hj, _⟩ := flush_forget_fold_ext ver_tid s.t_forget s
  unfold flush_finish
  simp only [set_t_state, emit]
  generalize List.foldl (flush_forget_one ver_tid) s s.t_forget = f at hT hj ⊢
  by_cases h3 : f.t_checkpoint_list = [] ∧ f.t_checkpoint_io_list = []
  · rw [if_pos h3]
    exact ⟨⟨T ++ [event.set_t_state t_state.T_FINISHED, event.drop_transaction f.t_tid], by
      simp [hT]⟩, by simp [is_journal_aborted, hj]⟩
  · rw [if_neg h3]
    exact ⟨⟨T ++ [event.set_t_state t_state.T_FINISHED], by simp [hT]⟩, by
      simp [is_journal_aborted, hj]⟩

theorem flush_jflush_eq (env : commit_env) (do_flush : Bool) (s : commit_state) :
    flush_jflush env do_flush s =
      { s with
        t_state := t_state.T_COMMIT_JFLUSH,
        journal :=
          if commit_record_err env s ≠ 0 then
            { s.journal with j_flags := { s.journal.j_flags with JBD2_ABORT := true } }
          else s.journal,
        err := commit_record_err env s,
        trace := s.trace ++ [event.set_t_state t_state.T_COMMIT_JFLUSH] ++
          (match s.cbh with
            | some cbh => [event.wait_on_buffer cbh.b_blocknr]
            | none => []) ++
          (if s.journal.j_flags.JBD2_BARRIER = true ∧ do_flush = true then
            [event.blkdev_issue_flush s.journal.j_dev] else []) ++
          (if commit_record_err env s ≠ 0 then
            [event.jbd2_journal_abort (commit_record_err env s)] else []) ++
          (if s.update_tail ≠ 0 then
            [event.jbd2_update_log_tail s.first_tid s.first_block] else []) } := by
  unfold flush_jflush commit_record_err journal_wait_on_commit_record
  cases hc : s.cbh with
  | none =>
    by_cases h1 : s.journal.j_flags.JBD2_BARRIER = true ∧ do_flush = true <;>
      by_cases h3 : s.err = 0 <;>
      by_cases h4 : s.update_tail = 0 <;>
      simp [hc, h1, h3, h4, emit, jbd2_journal_abort, set_t_state]
  | some cbh =>
    by_cases h1 : s.journal.j_flags.JBD2_BARRIER = true ∧ do_flush = true <;>
      by_cases h3 : env.io_uptodate cbh.b_blocknr = true <;>
      by_cases h4 : s.update_tail = 0 <;>
      simp [hc, h1, h3, h4, emit, jbd2_journal_abort, EIO, set_t_state]

/-- The flush stage from `T_COMMIT_JFLUSH` on: a commit block that is not
uptodate makes it call `jbd2_journal_abort` with `-EIO`. -/
theorem flush_jflush_failed (env : commit_env) (do_flush : Bool) (s : commit_state) :
    (∃ T, (flush_jflush env do_flush s).trace = s.trace ++ T) ∧
    (is_journal_aborted s.journal = true →
      is_journal_aborted (flush_jflush env do_flush s).journal = true) ∧
    (∀ cbh, s.cbh = some cbh → env.io_uptodate cbh.b_blocknr = false →
      aborted_after_wait (flush_jflush env do_flush s).trace cbh.b_blocknr (- EIO) ∧
      is_journal_aborted (flush_jflush env do_flush s).journal = true) := by
  refine ⟨?_, ?_, ?_⟩
  · rw [flush_jflush_eq]
    simp only [List.append_assoc]
    exact ⟨_, rfl⟩
  · intro ha
    rw [flush_jflush_eq]
    by_cases he : commit_record_err env s = 0
    · simp only [he, ne_eq, not_true_eq_false, if_false]
      exact ha
    · simp [he, is_journal_aborted]
  · intro cbh hc hb
    have he : commit_record_err env s = - EIO := by simp [commit_record_err, hc, hb]
    have hne : (- EIO : Int) ≠ 0 := by decide
    rw [flush_jflush_eq, he]
    simp only [hne, ne_eq, not_false_eq_true, if_true, hc]
    refine ⟨?_, by simp [is_journal_aborted]⟩
    simp only [List.append_assoc]
    apply after_wait_prepend
    apply after_wait_prepend
    rw [List.singleton_append]
    exact after_wait_cons _ _ _ (by simp)

/-- C3: a failed log write aborts the journal.  If the buffer of log block `b`
is not uptodate after its write, then (ordinary commit) whenever `b` is on
`io_bufs` or `log_bufs` at the end of the metadata loop, or is the block of the
commit record `cbh`, the commit calls `jbd2_journal_abort` with `-EIO` after
the wait for `b` and ends with the journal aborted; and (flush stage) whenever
`b` is on `t_io_bufs` or `t_log_bufs` or is the block of `t_cbh` of the
transaction at the head of the flush queue, the flush stage does the same. -/
theorem failed_log_write_aborts (env : commit_env) (b : Nat)
    (hb : env.io_uptodate b = false) :
    (∀ s0 s2 : commit_state,
      commit_loop env false (commit_loop_fuel (commit_prologue env s0))
        (commit_prologue env s0) = some s2 →
      ∃ s, jbd2_journal_commit_transaction env s0 = some s ∧
        ((b ∈ s2.io_bufs ∨ b ∈ s2.log_bufs ∨ ∃ cbh, s.cbh = some cbh ∧ cbh.b_blocknr = b) →
          aborted_after_wait s.trace b (- EIO) ∧ is_journal_aborted s.journal = true)) ∧
    (∀ (cfg : barrier_config) (q : flush_queue) (s0 : commit_state),
      flush_pick q ≠ none →
      (b ∈ s0.io_bufs ∨ b ∈ s0.log_bufs ∨ ∃ cbh, s0.cbh = some cbh ∧ cbh.b_blocknr = b) →
      aborted_after_wait (jbd2_journal_barrier_flush_transaction env cfg q s0).2.trace b (- EIO) ∧
      is_journal_aborted (jbd2_journal_barrier_flush_transaction env cfg q s0).2.journal
        = true) := by
  constructor
  · intro s0 s2 hloop
    refine ⟨commit_after_loop env s2, ?_, ?_⟩
    · unfold jbd2_journal_commit_transaction
      simp only [hloop]
    · obtain ⟨hio, hlog⟩ := commit_dflush_ext env s2
      obtain ⟨⟨T1, hT1⟩, ha1, hf1⟩ :=
        commit_jflush_failed env (commit_wait_io env (commit_dflush env s2))
      obtain ⟨⟨T2, hT2⟩, hc2⟩ :=
        commit_finish_ext env (commit_jflush env (commit_wait_io env (commit_dflush env s2)))
      have ha2 := (commit_finish_facts env
        (commit_jflush env (commit_wait_io env (commit_dflush env s2)))).2.2.1
      intro hm
      unfold commit_after_loop
      rw [ha2, hT2]
      rcases hm with hm | hm | ⟨cbh, hc, rfl⟩
      · obtain ⟨w1, w2⟩ := commit_wait_io_failed env (commit_dflush env s2) b hb
          (Or.inl (hio ▸ hm))
        rw [hT1]
        exact ⟨after_wait_append _ _ _ _ (after_wait_append _ _ _ _ w1), ha1 w2⟩
      · obtain ⟨w1, w2⟩ := commit_wait_io_failed env (commit_dflush env s2) b hb
          (Or.inr (hlog ▸ hm))
        rw [hT1]
        exact ⟨after_wait_append _ _ _ _ (after_wait_append _ _ _ _ w1), ha1 w2⟩
      · have hc3 : (commit_jflush env (commit_wait_io env (commit_dflush env s2))).cbh
            = some cbh := by
          rw [← hc2]
          exact hc
        obtain ⟨w1, w2⟩ := hf1 cbh hc3 hb
        exact ⟨after_wait_append _ _ _ _ w1, w2⟩
  · intro cfg q s0 hq hm
    cases hp : flush_pick q with
    | none => exact absurd hp hq
    | some ct =>
      unfold jbd2_journal_barrier_flush_transaction
      simp only [hp]
      generalize (match Option.map (fun c => s0.t_tid % c) cfg.COMPOUND_FLUSH with
        | some f => decide (f = 0 ∨ (decide (q.j_flushing_transactions =
            some (q.mem ct).t_flushnext)) = true)
        | none => true) = do_flush
      obtain ⟨⟨T1, hT1⟩, ha1, hf1⟩ :=
        flush_jflush_failed env do_flush (commit_wait_io env { s0 with err := 0 })
      obtain ⟨⟨T2, hT2⟩, ha2⟩ := flush_finish_ext env cfg do_flush (s0.t_tid % cfg.MAX_JH_VERSION)
        (flush_jflush env do_flush (commit_wait_io env { s0 with err := 0 }))
      rw [ha2, hT2]
      rcases hm with hm | hm | ⟨cbh, hc, rfl⟩
      · obtain ⟨w1, w2⟩ := commit_wait_io_failed env { s0 with err := 0 } b hb (Or.inl hm)
        rw [hT1]
        exact ⟨after_wait_append _ _ _ _ (after_wait_append _ _ _ _ w1), ha1 w2⟩
      · obtain ⟨w1, w2⟩ := commit_wait_io_failed env { s0 with err := 0 } b hb (Or.inr hm)
        rw [hT1]
        exact ⟨after_wait_append _ _ _ _ (after_wait_append _ _ _ _ w1), ha1 w2⟩
      · have hc3 : (commit_wait_io env { s0 with err := 0 }).cbh = some cbh := by
          rw [(commit_wait_io_loud env { s0 with err := 0 }).2.2.2.2.1]
          exact hc
        obtain ⟨w1, w2⟩ := hf1 cbh hc3 hb
        exact ⟨after_wait_append _ _ _ _ w1, w2⟩

/-- C3 at concrete inputs: with the write to log block 11 failing, the
ordinary commit of one buffer (whose log copy is block 11) and the flush stage
of a dispatched transaction with block 11 on `t_io_bufs` both call
`jbd2_journal_abort` with `-EIO` after waiting for block 11. -/
theorem failed_log_write_aborts_witness :
    io_fail_env.io_uptodate 11 = false ∧
    (∃ s, jbd2_journal_commit_transaction io_fail_env
        (sample_state sample_journal [sample_jh 100]) = some s ∧
      aborted_after_wait s.trace 11 (- EIO) ∧ is_journal_aborted s.journal = true) ∧
    (aborted_after_wait (jbd2_journal_barrier_flush_transaction io_fail_env sample_config
        sample_queue dispatched_state).2.trace 11 (- EIO) ∧
      is_journal_aborted (jbd2_journal_barrier_flush_transaction io_fail_env sample_config
        sample_queue dispatched_state).2.journal = true) := by
  have hmap : (commit_loop io_fail_env false
      (commit_loop_fuel (commit_prologue io_fail_env (sample_state sample_journal [sample_jh 100])))
      (commit_prologue io_fail_env (sample_state sample_journal [sample_jh 100]))).map
        (fun s2 => decide (11 ∈ s2.io_bufs)) = some true := by decide
  refine ⟨rfl, ?_, ?_⟩
  · cases hl : commit_loop io_fail_env false
        (commit_loop_fuel
          (commit_prologue io_fail_env (sample_state sample_journal [sample_jh 100])))
        (commit_prologue io_fail_env (sample_state sample_journal [sample_jh 100])) with
    | none =>
      rw [hl] at hmap
      cases hmap
    | some s2 =>
      rw [hl] at hmap
      obtain ⟨s, h1, h2⟩ := (failed_log_write_aborts io_fail_env 11 rfl).1
        (sample_state sample_journal [sample_jh 100]) s2 hl
      exact ⟨s, h1, h2 (Or.inl (of_decide_eq_true (Option.some.inj hmap)))⟩
  · exact (failed_log_write_aborts io_fail_env 11 rfl).2 sample_config sample_queue
      dispatched_state (by simp [flush_pick, sample_queue]) (Or.inl (by decide))

/-! ### C4: log writes after an abort -/

theorem submitted_flush_list (c : Prop) [Decidable c] (dev : Nat) :
    submitted (if c then [event.blkdev_issue_flush dev] else []) = [] := by
  split_ifs <;> rfl

theorem submitted_abort_list (c : Prop) [Decidable c] (x : Int) :
    submitted (if c then [event.jbd2_journal_abort x] else []) = [] := by
  split_ifs <;> rfl

theorem submitted_aborts :
    ∀ (A : List event), (∀ e ∈ A, ∃ n, e = event.jbd2_journal_abort n) → submitted A = [] := by
  intro A
  induction A with
  | nil => intro _; rfl
  | cons a A ih =>
    intro h
    obtain ⟨n, hn⟩ := h a (List.mem_cons_self a A)
    subst hn
    have := ih (fun e he => h e (List.mem_cons_of_mem _ he))
    simpa [submitted] using this

/-- The part of the commit behind the metadata loop submits nothing when the
journal is aborted at the end of the loop. -/
theorem commit_after_loop_aborted (env : commit_env) (s : commit_state)
    (ha : is_journal_aborted s.journal = true) :
    submitted (commit_after_loop env s).trace = submitted s.trace := by
  obtain ⟨X1, X2, d1, _, _, _, d5⟩ := commit_dflush_loud env s
  obtain ⟨da, dx1, dx2⟩ := d5 ha
  obtain ⟨w1, _, w3, _⟩ := commit_wait_io_loud env (commit_dflush env s)
  have wa := w3 da
  obtain ⟨L, A, j1, j2, j3, _, _⟩ := commit_jflush_loud env (commit_wait_io env (commit_dflush env s))
  have hL : L = [] := by
    rw [j2]
    by_cases hy : jbd2_has_feature_async_commit
        (commit_wait_io env (commit_dflush env s)).journal = true
    · rw [if_pos hy]
    · rw [if_neg hy, if_pos wa]
  obtain ⟨f1, _⟩ := commit_finish_facts env
    (commit_jflush env (commit_wait_io env (commit_dflush env s)))
  unfold commit_after_loop
  rw [← submitted_loud, f1, j1, w1, d1, hL]
  simp only [submitted_append, submitted_flush_list, submitted_abort_list, dx1, dx2,
    submitted_aborts A j3, submitted_loud, List.append_nil]
  simp [submitted]

theorem staged_blocknr (env : commit_env) (s : commit_state) :
    (staged env s).map (fun bh => bh.b_blocknr) = s.wbuf.map (fun bh => bh.b_blocknr) := by
  unfold staged
  split_ifs
  · cases hw : s.wbuf with
    | nil => rfl
    | cons d rest =>
      simp only [on_descriptor, List.map_cons, List.cons.injEq, and_true]
      unfold jbd2_descriptor_block_csum_set
      split_ifs
      · rfl
      · cases d.b_data <;> rfl
  · rfl

/-- The metadata loop entered, or continued, with the journal aborted: it
ends, and the buffers it submits are those staged in `wbuf`. -/
theorem commit_loop_from_aborted (env : commit_env) (barrier : Bool) (s : commit_state)
    (ha : is_journal_aborted s.journal = true) :
    ∃ s2, commit_loop env barrier (commit_loop_fuel s) s = some s2 ∧
      submitted s2.trace = submitted s.trace ++ (if s.t_buffers = [] then [] else staged env s) ∧
      s2.journal = s.journal ∧ s2.io_bufs = s.io_bufs ∧ s2.log_bufs = s.log_bufs := by
  by_cases hne : s.t_buffers = []
  · refine ⟨s, commit_loop_done env barrier _ s hne, ?_, rfl, rfl, rfl⟩
    rw [if_pos hne, List.append_nil]
  · have h := commit_loop_aborted env barrier s.t_buffers s (commit_loop_fuel s) ha rfl hne
      (by unfold commit_loop_fuel; omega)
    have hf := start_journal_io_frame env
      { s with t_buffers := [], trace := s.trace ++ release_events barrier s.t_buffers }
    refine ⟨_, h, ?_, hf.2.1, hf.2.2.1, hf.2.2.2.1⟩
    rw [if_neg hne, start_journal_io_eq]
    simp [staged, submitted_append, submitted_release_events, submitted_io_events]

/-- C4, as stated, fails: the journal is aborted while the second buffer is
being logged (log position 12 cannot be mapped), and afterwards the descriptor
block at log block 10 and the metadata block at log block 11, staged before the
abort, are passed to `submit_bh`. -/
theorem no_log_write_after_abort_counterexample :
    is_journal_aborted (sample_state sample_journal [sample_jh 100, sample_jh 200]).journal
      = false ∧
    (jbd2_journal_commit_transaction bmap_fail_env
        (sample_state sample_journal [sample_jh 100, sample_jh 200])).map
      (fun s => (aborts s.trace,
        (submitted_after_abort s.trace).map (fun bh => (bh.b_blocknr, is_descriptor bh)))) =
      some ([-5], [(10, true), (11, false)]) := by
  decide

/-- C4, amended: once the journal is aborted, the commit prepares no new log
write.  If the journal is aborted at the top of a pass of the metadata loop,
the loop ends having passed to `submit_bh` only the buffers already staged in
`wbuf` (none when `t_buffers` is empty), without moving the log cursor or
adding to `io_bufs` or `log_bufs`, and the rest of the commit passes nothing to
`submit_bh`; `journal_submit_commit_record` on an aborted journal returns 0
without obtaining or submitting a commit block; and a commit entered with the
journal already aborted passes nothing to `submit_bh` at all. -/
theorem abort_stops_new_log_writes (env : commit_env) (s : commit_state)
    (ha : is_journal_aborted s.journal = true) :
    (∃ s2, commit_loop env false (commit_loop_fuel s) s = some s2 ∧
      submitted s2.trace = submitted s.trace ++ (if s.t_buffers = [] then [] else staged env s) ∧
      (staged env s).map (fun bh => bh.b_blocknr) = s.wbuf.map (fun bh => bh.b_blocknr) ∧
      s2.journal = s.journal ∧ s2.io_bufs = s.io_bufs ∧ s2.log_bufs = s.log_bufs ∧
      submitted (commit_after_loop env s2).trace = submitted s2.trace) ∧
    journal_submit_commit_record env s s.crc32_sum = ({ s with cbh := none }, 0) ∧
    (∃ s3, jbd2_journal_commit_transaction env s = some s3 ∧
      submitted s3.trace = submitted s.trace) := by
  refine ⟨?_, ?_, ?_⟩
  · obtain ⟨s2, h1, h2, h3, h4, h5⟩ := commit_loop_from_aborted env false s ha
    refine ⟨s2, h1, h2, staged_blocknr env s, h3, h4, h5, ?_⟩
    exact commit_after_loop_aborted env s2 (by rw [h3]; exact ha)
  · rw [journal_submit_commit_record_eq, if_pos ha]
  · obtain ⟨_, p2, p3, p4, _⟩ := commit_prologue_frame env s
    have pa : is_journal_aborted (commit_prologue env s).journal = true := by
      rw [p2, ha]; rfl
    obtain ⟨s2, h1, h2, h3, _⟩ := commit_loop_from_aborted env false (commit_prologue env s) pa
    have hst : staged env (commit_prologue env s) = [] := by
      simp [staged, p3, p4]
    have hpro : submitted (commit_prologue env s).trace = submitted s.trace := by
      rw [← submitted_loud, commit_prologue_loud]
      simp only [submitted_append, submitted_abort_list, submitted_loud, List.append_nil]
      simp [submitted]
    refine ⟨commit_after_loop env s2, ?_, ?_⟩
    · unfold jbd2_journal_commit_transaction
      simp only [h1]
    · rw [commit_after_loop_aborted env s2 (by rw [h3]; exact pa), h2, hst, hpro]
      simp

/-- C4, amended, at a concrete input: the commit of two buffers entered with
the journal already aborted passes nothing to `submit_bh`. -/
theorem abort_stops_new_log_writes_witness :
    ∃ s3, jbd2_journal_commit_transaction sample_env
        (sample_state { sample_journal with
            j_flags := { sample_journal.j_flags with JBD2_ABORT := true } }
          [sample_jh 100, sample_jh 200]) = some s3 ∧
      submitted s3.trace = [] := by
  obtain ⟨_, _, s3, h1, h2⟩ := abort_stops_new_log_writes sample_env
    (sample_state { sample_journal with
        j_flags := { sample_journal.j_flags with JBD2_ABORT := true } }
      [sample_jh 100, sample_jh 200]) rfl
  exact ⟨s3, h1, h2⟩

/-! ### C6: the blocks of a commit without failures -/

theorem submit_data_buffers_ok (env : commit_env) (j : journal_t)
    (h : ∀ i, env.submit_inode_data i = 0) :
    ∀ (l : List jbd2_inode), journal_submit_data_buffers env j l 0 = 0 := by
  intro l
  induction l with
  | nil => rfl
  | cons a l ih =>
    unfold journal_submit_data_buffers
    split_ifs <;> simp [h, ih]

theorem finish_inode_data_buffers_ok (env : commit_env) (j : journal_t)
    (h : ∀ i, env.finish_inode_data i = 0) :
    ∀ (l : List jbd2_inode), journal_finish_inode_data_buffers env j l 0 = 0 := by
  intro l
  induction l with
  | nil => rfl
  | cons a l ih =>
    unfold journal_finish_inode_data_buffers
    split_ifs <;> simp [h, ih]

theorem log_image_add_tag (tag : journal_block_tag_t) (d : buffer_head) (k : Nat) (hd : Nat)
    (h : log_image d = (hd, block_kind.descriptor k)) :
    log_image (descriptor_add_tag tag d) = (hd, block_kind.descriptor (k + 1)) := by
  unfold log_image kind_of at h
  unfold log_image kind_of descriptor_add_tag
  cases hb : d.b_data with
  | descriptor tags tail =>
    rw [hb] at h
    simp only [Prod.mk.injEq, block_kind.descriptor.injEq] at h
    simp [h.1, h.2]
  | metadata jh e => rw [hb] at h; simp at h
  | commit c => rw [hb] at h; simp at h
  | revoke => rw [hb] at h; simp at h

theorem mark_last_tag_length : ∀ (tags : List journal_block_tag_t),
    (mark_last_tag tags).length = tags.length := by
  intro tags
  induction tags with
  | nil => rfl
  | cons t rest ih =>
    cases rest with
    | nil => rfl
    | cons t2 rest2 =>
      simp only [mark_last_tag, List.length_cons] at ih ⊢
      rw [ih]

theorem log_image_mark_last (d : buffer_head) : log_image (descriptor_mark_last d) = log_image d := by
  unfold log_image kind_of descriptor_mark_last
  cases hb : d.b_data <;> simp [mark_last_tag_length, hb]

theorem log_image_descriptor_csum (env : commit_env) (j : journal_t) (d : buffer_head) :
    log_image (jbd2_descriptor_block_csum_set env j d) = log_image d := by
  unfold jbd2_descriptor_block_csum_set
  split_ifs
  · rfl
  · unfold log_image kind_of
    cases hb : d.b_data <;> simp [hb]

theorem log_image_commit_record (env : commit_env) (s : commit_state) (crc : Nat) :
    log_image (commit_record_bh env s crc) = (s.journal.j_head, block_kind.commit) := by
  unfold commit_record_bh jbd2_commit_block_csum_set
  split_ifs <;> rfl

theorem map_log_image_on_descriptor (f : buffer_head → buffer_head)
    (hf : ∀ d, log_image (f d) = log_image d) (l : List buffer_head) :
    (on_descriptor f l).map log_image = l.map log_image := by
  cases l with
  | nil => rfl
  | cons d rest => simp [on_descriptor, hf]

theorem map_log_image_staged (env : commit_env) (s : commit_state) :
    (staged env s).map log_image = s.wbuf.map log_image := by
  unfold staged
  split_ifs
  · exact map_log_image_on_descriptor _ (log_image_descriptor_csum env s.journal) _
  · rfl

/-- A pass of the metadata loop in which nothing fails logs the buffer at the
head of `t_buffers`. -/
theorem commit_loop_iter_logged (env : commit_env) (barrier : Bool) (s : commit_state)
    (jh : journal_head) (rest : List journal_head) (hs : s.t_buffers = jh :: rest)
    (hna : is_journal_aborted s.journal = false)
    (hb : ∀ b, env.bmap_err b = 0) (hg : ∀ b, env.getblk_ok b = true)
    (hw : 0 ≤ env.write_metadata_flags jh.b_blocknr) :
    commit_loop_iter env barrier s =
      loop_submit env
        (loop_tag env (log_buffer (if s.descriptor = true then s else open_descriptor s) jh rest)
          jh (metadata_bh env (if s.descriptor = true then s else open_descriptor s) jh)
          (env.write_metadata_flags jh.b_blocknr)) := by
  apply commit_loop_iter_cases env barrier
    (fun x => x = loop_submit env
        (loop_tag env (log_buffer (if s.descriptor = true then s else open_descriptor s) jh rest)
          jh (metadata_bh env (if s.descriptor = true then s else open_descriptor s) jh)
          (env.write_metadata_flags jh.b_blocknr))) s jh rest hs
  · intro ha
    rw [hna] at ha
    cases ha
  · intro _ _ hd
    simp [desc_alloc_ok, hb, hg] at hd
  · intro _ s1 _ h
    exact absurd (hb _) h
  · intro _ s1 _ _ h
    exact absurd hw (not_le.mpr h)
  · intro _ s1 h1 _ _
    rcases h1 with ⟨hd, rfl⟩ | ⟨hd, _, rfl⟩
    · rw [if_pos hd]
    · rw [if_neg (by rw [hd]; exact Bool.false_ne_true)]

theorem log_next_set_head (j : journal_t) (x p : Nat) :
    log_next { j with j_head := x } p = log_next j p := rfl

theorem metadata_images_set_head (j : journal_t) (x : Nat) :
    ∀ (l : List journal_head) (p : Nat),
      metadata_images { j with j_head := x } p l = metadata_images j p l := by
  intro l
  induction l with
  | nil => intro p; rfl
  | cons jh l ih =>
    intro p
    simp only [metadata_images, log_next_set_head, ih]

theorem metadata_images_length (j : journal_t) :
    ∀ (l : List journal_head) (p : Nat), (metadata_images j p l).length = l.length := by
  intro l
  induction l with
  | nil => intro p; rfl
  | cons jh l ih => intro p; simp [metadata_images, ih]

theorem log_image_metadata_bh (env : commit_env) (s : commit_state) (jh : journal_head) :
    log_image (metadata_bh env s jh) = (s.journal.j_head, block_kind.metadata jh) := rfl

/-- The buffers of `t_buffers` logged into the descriptor that is open, when
they all fit into it and into `wbuf`: the batch is submitted once, when
`t_buffers` is empty. -/
theorem open_run (env : commit_env) (barrier : Bool)
    (hb : ∀ b, env.bmap_err b = 0) (hg : ∀ b, env.getblk_ok b = true)
    (hw : ∀ b, 0 ≤ env.write_metadata_flags b) :
    ∀ (l : List journal_head) (s : commit_state) (fuel : Nat) (hd : Nat)
      (ms : List (Nat × block_kind)),
      l ≠ [] → s.t_buffers = l → is_journal_aborted s.journal = false →
      s.descriptor = true → s.first_tag = false →
      s.wbuf.map log_image = (hd, block_kind.descriptor ms.length) :: ms →
      ms.length + 1 + l.length ≤ s.journal.j_wbufsize →
      0 ≤ s.journal.tag_bytes →
      (l.length : Int) * s.journal.tag_bytes + 16 + csum_size s.journal ≤ s.space_left →
      l.length ≤ fuel →
      ∃ s2, commit_loop env barrier fuel s = some s2 ∧
        (submitted s2.trace).map log_image = (submitted s.trace).map log_image ++
          ((hd, block_kind.descriptor (ms.length + l.length)) :: ms ++
            metadata_images s.journal s.journal.j_head l) ∧
        s2.journal.j_head = (log_next s.journal)^[l.length] s.journal.j_head ∧
        is_journal_aborted s2.journal = false := by
  intro l
  induction l with
  | nil => intro s fuel hd ms hne; exact absurd rfl hne
  | cons jh rest ih =>
    intro s fuel hd ms _ hs hna hdesc hft hwbuf hsize htag hspace hfuel
    obtain ⟨fuel1, rfl⟩ : ∃ f, fuel = f + 1 := ⟨fuel - 1, by simp at hfuel; omega⟩
    have hiter := commit_loop_iter_logged env barrier s jh rest hs hna hb hg (hw _)
    rw [if_pos hdesc] at hiter
    have hne : s.t_buffers ≠ [] := by rw [hs]; simp
    have hloop : commit_loop env barrier (fuel1 + 1) s =
        commit_loop env barrier fuel1 (commit_loop_iter env barrier s) := by
      rw [commit_loop, if_neg hne]
    obtain ⟨d, w, hwd⟩ : ∃ d w, s.wbuf = d :: w := by
      cases hw0 : s.wbuf with
      | nil => rw [hw0] at hwbuf; simp at hwbuf
      | cons d w => exact ⟨d, w, rfl⟩
    have himg : log_image d = (hd, block_kind.descriptor ms.length) ∧ w.map log_image = ms := by
      rw [hwd] at hwbuf
      simpa using hwbuf
    have hlen : s.wbuf.length = ms.length + 1 := by
      have := congrArg List.length hwbuf
      simpa using this
    generalize hx : loop_tag env (log_buffer s jh rest) jh (metadata_bh env s jh)
      (env.write_metadata_flags jh.b_blocknr) = x at hiter
    have hxeq := hx
    rw [loop_tag_eq] at hxeq
    have x_tb : x.t_buffers = rest := by rw [← hxeq]; rfl
    have x_j : x.journal = (log_advance s).journal := by rw [← hxeq]; rfl
    have x_d : x.descriptor = true := by rw [← hxeq]; exact hdesc
    have x_ft : x.first_tag = false := by rw [← hxeq]
    have x_sp : x.space_left = s.space_left - s.journal.tag_bytes := by
      rw [← hxeq]
      show s.space_left - s.journal.tag_bytes - (if s.first_tag = true then 16 else 0) = _
      rw [hft]
      simp
    have x_tr : x.trace = s.trace := by rw [← hxeq]; rfl
    have x_w : x.wbuf = descriptor_add_tag (loop_make_tag env (log_buffer s jh rest) jh
        (metadata_bh env s jh) (env.write_metadata_flags jh.b_blocknr)) d :: w ++
        [metadata_bh env s jh] := by
      rw [← hxeq]
      show on_descriptor _ s.wbuf ++ _ = _
      rw [hwd]
      rfl
    have x_img : x.wbuf.map log_image =
        (hd, block_kind.descriptor (ms ++ [(s.journal.j_head, block_kind.metadata jh)]).length) ::
          (ms ++ [(s.journal.j_head, block_kind.metadata jh)]) := by
      rw [x_w]
      simp [log_image_add_tag _ d _ _ himg.1, himg.2, log_image_metadata_bh]
    have x_len : x.wbuf.length = ms.length + 2 := by
      have := congrArg List.length x_img
      simpa using this
    have x_na : is_journal_aborted x.journal = false := by rw [x_j]; exact hna
    by_cases hr : rest = []
    · -- the last buffer: the batch is submitted
      subst hr
      have hfull : loop_batch_full x = true := by
        simp [loop_batch_full, x_tb]
      have hres : commit_loop_iter env barrier s =
          start_journal_io env { x with wbuf := on_descriptor descriptor_mark_last x.wbuf } := by
        rw [hiter, loop_submit, if_pos hfull]
      have hf := start_journal_io_frame env
        { x with wbuf := on_descriptor descriptor_mark_last x.wbuf }
      refine ⟨start_journal_io env { x with wbuf := on_descriptor descriptor_mark_last x.wbuf },
        ?_, ?_, ?_, ?_⟩
      · rw [hloop, hres]
        exact commit_loop_done env barrier fuel1 _ (by rw [hf.1]; exact x_tb)
      · rw [start_journal_io_eq]
        simp only [submitted_append, submitted_io_events, List.map_append, x_tr]
        congr 1
        have := map_log_image_staged env
          { x with wbuf := on_descriptor descriptor_mark_last x.wbuf }
        unfold staged at this
        rw [this]
        show (on_descriptor descriptor_mark_last x.wbuf).map log_image = _
        rw [map_log_image_on_descriptor _ log_image_mark_last, x_img]
        simp [metadata_images]
      · rw [hf.2.1]
        show x.journal.j_head = _
        rw [x_j]
        rfl
      · rw [hf.2.1]
        exact x_na
    · -- more buffers follow: the descriptor stays open
      have hrl : 0 < rest.length := List.length_pos.mpr hr
      have hcs : csum_size x.journal = csum_size s.journal := by rw [x_j]; rfl
      have hnot : loop_batch_full x = false := by
        have h1 : x.wbuf.length ≠ x.journal.j_wbufsize := by
          rw [x_len, x_j]
          show ms.length + 2 ≠ s.journal.j_wbufsize
          simp only [List.length_cons] at hsize
          omega
        have h3 : ¬ x.space_left < x.journal.tag_bytes + 16 + csum_size x.journal := by
          rw [x_sp, hcs, x_j]
          show ¬ s.space_left - s.journal.tag_bytes < s.journal.tag_bytes + 16 + csum_size s.journal
          simp only [List.length_cons, Nat.cast_add, Nat.cast_one] at hspace
          have : (1 : Int) ≤ rest.length := by exact_mod_cast hrl
          nlinarith
        simp [loop_batch_full, h1, x_tb, hr, h3]
      have hres : commit_loop_iter env barrier s = x := by
        rw [hiter, loop_submit, hnot]
        simp
      have hsz : (ms ++ [(s.journal.j_head, block_kind.metadata jh)]).length + 1 + rest.length ≤
          x.journal.j_wbufsize := by
        rw [x_j]
        show _ ≤ s.journal.j_wbufsize
        simp only [List.length_cons, List.length_append, List.length_nil] at hsize ⊢
        omega
      have htg : 0 ≤ x.journal.tag_bytes := by rw [x_j]; exact htag
      have hsp : (rest.length : Int) * x.journal.tag_bytes + 16 + csum_size x.journal ≤
          x.space_left := by
        rw [x_sp, hcs, x_j]
        show (rest.length : Int) * s.journal.tag_bytes + 16 + csum_size s.journal ≤
          s.space_left - s.journal.tag_bytes
        simp only [List.length_cons, Nat.cast_add, Nat.cast_one] at hspace
        nlinarith
      obtain ⟨s2, g1, g2, g3, g4⟩ := ih x fuel1 hd
        (ms ++ [(s.journal.j_head, block_kind.metadata jh)]) hr x_tb x_na x_d x_ft x_img hsz htg
        hsp (by simp only [List.length_cons] at hfuel; omega)
      refine ⟨s2, by rw [hloop, hres]; exact g1, ?_, ?_, g4⟩
      · rw [g2, x_tr, x_j]
        show _ ++ ((hd, _) :: (ms ++ [_]) ++
          metadata_images (log_advance s).journal (log_next s.journal s.journal.j_head) rest) = _
        have : metadata_images (log_advance s).journal (log_next s.journal s.journal.j_head) rest
            = metadata_images s.journal (log_next s.journal s.journal.j_head) rest :=
          metadata_images_set_head s.journal _ rest _
        rw [this]
        simp [metadata_images, Nat.add_assoc, Nat.add_comm 1]
      · rw [g3, x_j]
        show (log_next s.journal)^[rest.length] (log_next s.journal s.journal.j_head) = _
        rw [List.length_cons, Function.iterate_succ_apply]

theorem metadata_images_congr (j j2 : journal_t) (h1 : j2.j_first = j.j_first)
    (h2 : j2.j_last = j.j_last) :
    ∀ (l : List journal_head) (p : Nat), metadata_images j2 p l = metadata_images j p l := by
  intro l
  induction l with
  | nil => intro p; rfl
  | cons jh l ih =>
    intro p
    simp only [metadata_images, ih, log_next, h1, h2]

theorem log_next_congr (j j2 : journal_t) (h1 : j2.j_first = j.j_first)
    (h2 : j2.j_last = j.j_last) : log_next j2 = log_next j := by
  funext p
  simp only [log_next, h1, h2]

/-- The buffers of `t_buffers` logged from a state without an open descriptor,
when they all fit into one descriptor and into `wbuf`: one descriptor block is
obtained, and the batch is submitted once. -/
theorem fresh_run (env : commit_env) (barrier : Bool)
    (hb : ∀ b, env.bmap_err b = 0) (hg : ∀ b, env.getblk_ok b = true)
    (hw : ∀ b, 0 ≤ env.write_metadata_flags b)
    (l : List journal_head) (s : commit_state) (fuel : Nat)
    (hne : l ≠ []) (hs : s.t_buffers = l) (hna : is_journal_aborted s.journal = false)
    (hdesc : s.descriptor = false) (hwbuf : s.wbuf = [])
    (hsize : 1 + l.length ≤ s.journal.j_wbufsize) (htag : 0 ≤ s.journal.tag_bytes)
    (hspace : 12 + (l.length : Int) * s.journal.tag_bytes + 32 + csum_size s.journal ≤
      s.journal.j_blocksize)
    (hfuel : l.length ≤ fuel) :
    ∃ s2, commit_loop env barrier fuel s = some s2 ∧
      (submitted s2.trace).map log_image = (submitted s.trace).map log_image ++
        ((s.journal.j_head, block_kind.descriptor l.length) ::
          metadata_images s.journal (log_next s.journal s.journal.j_head) l) ∧
      s2.journal.j_head = (log_next s.journal)^[l.length + 1] s.journal.j_head ∧
      is_journal_aborted s2.journal = false := by
  cases l with
  | nil => exact absurd rfl hne
  | cons jh rest =>
    obtain ⟨fuel1, rfl⟩ : ∃ f, fuel = f + 1 := ⟨fuel - 1, by simp at hfuel; omega⟩
    have hiter := commit_loop_iter_logged env barrier s jh rest hs hna hb hg (hw _)
    rw [if_neg (by rw [hdesc]; exact Bool.false_ne_true)] at hiter
    have hne2 : s.t_buffers ≠ [] := by rw [hs]; simp
    have hloop : commit_loop env barrier (fuel1 + 1) s =
        commit_loop env barrier fuel1 (commit_loop_iter env barrier s) := by
      rw [commit_loop, if_neg hne2]
    generalize hx : loop_tag env (log_buffer (open_descriptor s) jh rest) jh
      (metadata_bh env (open_descriptor s) jh) (env.write_metadata_flags jh.b_blocknr) = x
      at hiter
    have hxeq := hx
    rw [loop_tag_eq] at hxeq
    have x_tb : x.t_buffers = rest := by rw [← hxeq]; rfl
    have x_j : x.journal = (log_advance (log_advance s)).journal := by rw [← hxeq]; rfl
    have x_d : x.descriptor = true := by rw [← hxeq]; rfl
    have x_ft : x.first_tag = false := by rw [← hxeq]
    have x_sp : x.space_left =
        (s.journal.j_blocksize : Int) - sizeof_journal_header_t - s.journal.tag_bytes - 16 := by
      rw [← hxeq]; rfl
    have x_tr : x.trace = s.trace := by rw [← hxeq]; rfl
    have x_w : x.wbuf = [descriptor_add_tag (loop_make_tag env
        (log_buffer (open_descriptor s) jh rest) jh
        (metadata_bh env (open_descriptor s) jh) (env.write_metadata_flags jh.b_blocknr))
        (fresh_descriptor s), metadata_bh env (open_descriptor s) jh] := by
      rw [← hxeq]
      show on_descriptor _ (s.wbuf ++ [fresh_descriptor s]) ++ _ = _
      rw [hwbuf]
      rfl
    have hfresh : log_image (fresh_descriptor s) = (s.journal.j_head, block_kind.descriptor 0) :=
      rfl
    have x_img : x.wbuf.map log_image =
        (s.journal.j_head, block_kind.descriptor
          [(log_next s.journal s.journal.j_head, block_kind.metadata jh)].length) ::
          [(log_next s.journal s.journal.j_head, block_kind.metadata jh)] := by
      rw [x_w]
      simp only [List.map_cons, List.map_nil, log_image_add_tag _ _ _ _ hfresh,
        log_image_metadata_bh, List.length_singleton]
      rfl
    have x_na : is_journal_aborted x.journal = false := by rw [x_j]; exact hna
    have hcs : csum_size x.journal = csum_size s.journal := by rw [x_j]; rfl
    by_cases hr : rest = []
    · subst hr
      have hfull : loop_batch_full x = true := by
        simp [loop_batch_full, x_tb]
      have hres : commit_loop_iter env barrier s =
          start_journal_io env { x with wbuf := on_descriptor descriptor_mark_last x.wbuf } := by
        rw [hiter, loop_submit, if_pos hfull]
      have hf := start_journal_io_frame env
        { x with wbuf := on_descriptor descriptor_mark_last x.wbuf }
      refine ⟨start_journal_io env { x with wbuf := on_descriptor descriptor_mark_last x.wbuf },
        ?_, ?_, ?_, ?_⟩
      · rw [hloop, hres]
        exact commit_loop_done env barrier fuel1 _ (by rw [hf.1]; exact x_tb)
      · rw [start_journal_io_eq]
        simp only [submitted_append, submitted_io_events, List.map_append, x_tr]
        congr 1
        have := map_log_image_staged env
          { x with wbuf := on_descriptor descriptor_mark_last x.wbuf }
        unfold staged at this
        rw [this]
        show (on_descriptor descriptor_mark_last x.wbuf).map log_image = _
        rw [map_log_image_on_descriptor _ log_image_mark_last, x_img]
        simp [metadata_images]
      · rw [hf.2.1]
        show x.journal.j_head = _
        rw [x_j]
        rfl
      · rw [hf.2.1]
        exact x_na
    · have hrl : 0 < rest.length := List.length_pos.mpr hr
      have hnot : loop_batch_full x = false := by
        have h1 : x.wbuf.length ≠ x.journal.j_wbufsize := by
          rw [x_w, x_j]
          show 2 ≠ s.journal.j_wbufsize
          simp only [List.length_cons] at hsize
          omega
        have h3 : ¬ x.space_left < x.journal.tag_bytes + 16 + csum_size x.journal := by
          rw [x_sp, hcs, x_j]
          show ¬ (s.journal.j_blocksize : Int) - sizeof_journal_header_t - s.journal.tag_bytes
            - 16 < s.journal.tag_bytes + 16 + csum_size s.journal
          simp only [List.length_cons, Nat.cast_add, Nat.cast_one] at hspace
          have : (1 : Int) ≤ rest.length := by exact_mod_cast hrl
          unfold sizeof_journal_header_t
          nlinarith
        simp [loop_batch_full, h1, x_tb, hr, h3]
      have hres : commit_loop_iter env barrier s = x := by
        rw [hiter, loop_submit, hnot]
        simp
      have hsz : [(log_next s.journal s.journal.j_head, block_kind.metadata jh)].length + 1 +
          rest.length ≤ x.journal.j_wbufsize := by
        rw [x_j]
        show _ ≤ s.journal.j_wbufsize
        simp only [List.length_cons, List.length_nil] at hsize ⊢
        omega
      have htg : 0 ≤ x.journal.tag_bytes := by rw [x_j]; exact htag
      have hsp : (rest.length : Int) * x.journal.tag_bytes + 16 + csum_size x.journal ≤
          x.space_left := by
        rw [x_sp, hcs, x_j]
        show (rest.length : Int) * s.journal.tag_bytes + 16 + csum_size s.journal ≤
          (s.journal.j_blocksize : Int) - sizeof_journal_header_t - s.journal.tag_bytes - 16
        simp only [List.length_cons, Nat.cast_add, Nat.cast_one] at hspace
        unfold sizeof_journal_header_t
        nlinarith
      obtain ⟨s2, g1, g2, g3, g4⟩ := open_run env barrier hb hg hw rest x fuel1 s.journal.j_head
        [(log_next s.journal s.journal.j_head, block_kind.metadata jh)] hr x_tb x_na x_d x_ft
        x_img hsz htg hsp (by simp only [List.length_cons] at hfuel; omega)
      refine ⟨s2, by rw [hloop, hres]; exact g1, ?_, ?_, g4⟩
      · rw [g2, x_tr, x_j]
        have e1 : metadata_images (log_advance (log_advance s)).journal
            (log_advance (log_advance s)).journal.j_head rest =
            metadata_images s.journal
              (log_next s.journal (log_next s.journal s.journal.j_head)) rest :=
          metadata_images_congr s.journal (log_advance (log_advance s)).journal rfl rfl rest _
        rw [e1]
        simp [metadata_images, Nat.add_comm]
      · rw [g3, x_j]
        have e2 : log_next (log_advance (log_advance s)).journal = log_next s.journal :=
          log_next_congr s.journal (log_advance (log_advance s)).journal rfl rfl
        rw [e2]
        show (log_next s.journal)^[rest.length]
          (log_next s.journal (log_next s.journal s.journal.j_head)) = _
        rw [List.length_cons, Function.iterate_succ_apply, Function.iterate_succ_apply]

/-- The part of the commit behind the metadata loop, when nothing fails and
the journal is not aborted: the one block it submits is the commit block, at
the log position the cursor has reached. -/
theorem commit_after_loop_ok (env : commit_env) (s : commit_state) (hok : env_ok env)
    (hna : is_journal_aborted s.journal = false) :
    (submitted (commit_after_loop env s).trace).map log_image =
      (submitted s.trace).map log_image ++ [(s.journal.j_head, block_kind.commit)] := by
  obtain ⟨_, hfin, hbm, hgb, _, hio, hret⟩ := hok
  have hfd : finish_data_err env s = 0 := finish_inode_data_buffers_ok env _ hfin _
  obtain ⟨d1, d2, d3, d4, _, _, _, _, _, _, d11, _⟩ := commit_dflush_head_facts env s
  have hfalse : ¬ (finish_data_err env s ≠ 0 ∧
      s.journal.j_flags.JBD2_ABORT_ON_SYNCDATA_ERR = true) := by
    rw [hfd]; simp
  have ana : is_journal_aborted (commit_dflush_head env s).journal = false := by
    rw [d4, hna]
    simp [hfalse]
  have hasy : jbd2_has_feature_async_commit (commit_dflush_head env s).journal =
      jbd2_has_feature_async_commit s.journal := by
    have := d2
    simp only [journal_config, Prod.mk.injEq] at this
    exact this.2.2.2.1
  have halloc : ∀ x : commit_state, desc_alloc_ok env x = true := by
    intro x
    simp [desc_alloc_ok, hbm, hgb]
  rw [if_neg hfalse, List.append_nil] at d1
  unfold commit_after_loop
  by_cases hy : jbd2_has_feature_async_commit s.journal = true
  · -- asynchronous commit: the commit block is submitted before the waits
    have hdf : commit_dflush env s = submit_commit_record_step env (commit_dflush_head env s) := by
      unfold commit_dflush
      simp only [hasy, hy, if_true]
    obtain ⟨c1, c2, _⟩ := submit_commit_record_step_facts env (commit_dflush_head env s)
    rw [ana, halloc, hret] at c1
    simp only [Bool.false_eq_true, if_false, if_true, ne_eq, not_true_eq_false] at c1
    obtain ⟨w1, w2, _⟩ := commit_wait_io_loud env (commit_dflush env s)
    obtain ⟨L, A, j1, j2, j3, _, _⟩ :=
      commit_jflush_loud env (commit_wait_io env (commit_dflush env s))
    have hyw : jbd2_has_feature_async_commit (commit_wait_io env (commit_dflush env s)).journal
        = true := by
      have e1 := w2
      have e2 := c2
      rw [← hdf] at e2
      simp only [journal_config, Prod.mk.injEq] at e1 e2
      have e3 : jbd2_has_feature_async_commit
          (commit_wait_io env (commit_dflush env s)).journal =
          jbd2_has_feature_async_commit (commit_dflush env s).journal := e1.2.2.2.1
      have e4 : jbd2_has_feature_async_commit (commit_dflush env s).journal =
          jbd2_has_feature_async_commit (commit_dflush_head env s).journal := e2.2.2.2.1
      rw [e3, e4, hasy, hy]
    rw [if_pos hyw] at j2
    obtain ⟨f1, _⟩ := commit_finish_facts env
      (commit_jflush env (commit_wait_io env (commit_dflush env s)))
    rw [← submitted_loud, f1, j1, w1, hdf, c1, d1, j2]
    simp only [submitted_append, submitted_flush_list, submitted_abort_list,
      submitted_aborts A j3, submitted_loud, List.append_nil, List.map_append]
    simp [submitted, log_image_commit_record, d3]
  · -- the commit block is submitted after the waits
    have hdf : commit_dflush env s = commit_dflush_head env s := by
      unfold commit_dflush
      simp only [hasy, hy, Bool.false_eq_true, if_false]
    obtain ⟨w1, w2, _, _, _, _, w7⟩ := commit_wait_io_loud env (commit_dflush_head env s)
    have hwe : wait_err env (commit_dflush_head env s) = 0 := by
      unfold wait_err
      rw [if_pos (by simp [hio]), d11]
    obtain ⟨io, lb, sh, fg, hweq⟩ := commit_wait_io_eq env (commit_dflush_head env s)
    have wna : is_journal_aborted (commit_wait_io env (commit_dflush_head env s)).journal
        = false := by
      rw [hweq, hwe]
      simpa using ana
    obtain ⟨L, A, j1, j2, j3, _, _⟩ :=
      commit_jflush_loud env (commit_wait_io env (commit_dflush_head env s))
    have hyw : ¬ jbd2_has_feature_async_commit
        (commit_wait_io env (commit_dflush_head env s)).journal = true := by
      have e1 := w2
      simp only [journal_config, Prod.mk.injEq] at e1
      have e3 : jbd2_has_feature_async_commit
          (commit_wait_io env (commit_dflush_head env s)).journal =
          jbd2_has_feature_async_commit (commit_dflush_head env s).journal := e1.2.2.2.1
      rw [e3, hasy]
      exact hy
    rw [if_neg hyw, wna, halloc, hret] at j2
    simp only [Bool.false_eq_true, if_false, if_true, ne_eq, not_true_eq_false] at j2
    obtain ⟨f1, _⟩ := commit_finish_facts env
      (commit_jflush env (commit_wait_io env (commit_dflush_head env s)))
    rw [hdf, ← submitted_loud, f1, j1, w1, d1, j2, hwe]
    simp only [submitted_append, submitted_flush_list, submitted_abort_list,
      submitted_aborts A j3, submitted_loud, List.append_nil, List.map_append]
    simp [submitted, log_image_commit_record, w7, d3]

theorem csum_size_congr (j j2 : journal_t) (h : j2.j_csum = j.j_csum) :
    csum_size j2 = csum_size j := by
  unfold csum_size jbd2_journal_has_csum_v2or3
  rw [h]

theorem submit_data_err_ok (env : commit_env) (s : commit_state)
    (h : ∀ i, env.submit_inode_data i = 0) : submit_data_err env s = 0 :=
  submit_data_buffers_ok env _ h _

theorem commit_prologue_submitted (env : commit_env) (s : commit_state) :
    submitted (commit_prologue env s).trace = submitted s.trace := by
  rw [← submitted_loud, commit_prologue_loud]
  simp only [submitted_append, submitted_abort_list, submitted_loud, List.append_nil]
  simp [submitted]

/-- C6, as stated, fails: on a journal with blocks of 60 bytes and tags of 8
bytes one descriptor block is able to hold three tags (12 + 3 * 8 + 16 = 52
bytes), `j_wbufsize` is 8, there are no revoke records and nothing fails; yet
the commit of three buffers closes the first descriptor behind the second tag
(commit.c 743-745: fewer than `tag_bytes + 16 + csum_size` = 24 bytes are left)
and submits six log blocks, two of them descriptor blocks. -/
theorem scenario_a_counterexample :
    descriptor_bytes small_block_journal.tag_bytes 3 + csum_size small_block_journal ≤
      (small_block_journal.j_blocksize : Int) ∧
    4 ≤ small_block_journal.j_wbufsize ∧
    sample_env.revoke_blocks = 0 ∧
    is_journal_aborted small_block_journal = false ∧
    (jbd2_journal_commit_transaction sample_env small_block_three).map
      (fun s => (submitted s.trace).map log_image) =
      some [(10, block_kind.descriptor 2), (11, block_kind.metadata (sample_jh 100)),
        (12, block_kind.metadata (sample_jh 200)), (13, block_kind.descriptor 1),
        (14, block_kind.metadata (sample_jh 300)), (15, block_kind.commit)] := by
  decide

/-- C6, amended: scenario A, block order.  A commit of exactly three metadata
buffers `jh1`, `jh2`, `jh3` in which nothing fails (no revoke records, journal
not aborted, `j_wbufsize` at least 4, and a block of at least
`sizeof(journal_header_t) + 3 * tag_bytes + 32 + csum_size` bytes, so that the
descriptor is not closed before the third tag) submits exactly five log
blocks: one descriptor block with three tags, the copies of `jh1`, `jh2`,
`jh3` in that order, and one commit block; they lie at the five consecutive
positions the log cursor hands out from `j_head` on, in that order. -/
theorem scenario_a_block_order (env : commit_env) (s0 : commit_state)
    (jh1 jh2 jh3 : journal_head)
    (hbufs : s0.t_buffers = [jh1, jh2, jh3]) (htr : s0.trace = [])
    (hrev : env.revoke_blocks = 0) (hok : env_ok env)
    (hna : is_journal_aborted s0.journal = false)
    (hsize : 4 ≤ s0.journal.j_wbufsize) (htag : 0 ≤ s0.journal.tag_bytes)
    (hspace : 12 + 3 * s0.journal.tag_bytes + 32 + csum_size s0.journal ≤
      s0.journal.j_blocksize) :
    ∃ s, jbd2_journal_commit_transaction env s0 = some s ∧
      (submitted s.trace).map log_image =
        [(s0.journal.j_head, block_kind.descriptor 3),
          ((log_next s0.journal)^[1] s0.journal.j_head, block_kind.metadata jh1),
          ((log_next s0.journal)^[2] s0.journal.j_head, block_kind.metadata jh2),
          ((log_next s0.journal)^[3] s0.journal.j_head, block_kind.metadata jh3),
          ((log_next s0.journal)^[4] s0.journal.j_head, block_kind.commit)] := by
  obtain ⟨p1, p2, p3, p4, _, _, _, p8, _, _, _, p12⟩ := commit_prologue_frame env s0
  obtain ⟨phead, _⟩ := p12 hrev
  have hcfg := p1
  simp only [journal_config, Prod.mk.injEq] at hcfg
  have pna : is_journal_aborted (commit_prologue env s0).journal = false := by
    rw [p2, hna, submit_data_err_ok env s0 hok.1]
    rfl
  have hnext : log_next (commit_prologue env s0).journal = log_next s0.journal :=
    log_next_congr _ _ hcfg.2.2.2.2.2.2.2.2.2.2.2.2.1 hcfg.2.2.2.2.2.2.2.2.2.2.2.2.2.1
  obtain ⟨s2, g1, g2, g3, g4⟩ := fresh_run env false hok.2.2.1 hok.2.2.2.1 hok.2.2.2.2.1
    [jh1, jh2, jh3] (commit_prologue env s0) (commit_loop_fuel (commit_prologue env s0))
    (by simp) (by rw [p8, hbufs]) pna p4 p3
    (by rw [hcfg.2.2.2.2.2.2.2.1]; simpa using hsize)
    (by rw [hcfg.2.2.2.2.2.2.2.2.1]; exact htag)
    (by
      rw [hcfg.2.2.2.2.2.2.2.2.1, hcfg.2.2.2.2.2.2.1, csum_size_congr _ _ hcfg.2.2.1]
      simpa using hspace)
    (by unfold commit_loop_fuel; rw [p8, hbufs]; simp)
  refine ⟨commit_after_loop env s2, ?_, ?_⟩
  · unfold jbd2_journal_commit_transaction
    simp only [g1]
  · rw [commit_after_loop_ok env s2 hok g4, g2, g3, commit_prologue_submitted, htr, hnext, phead,
      metadata_images_congr _ _ hcfg.2.2.2.2.2.2.2.2.2.2.2.2.1
        hcfg.2.2.2.2.2.2.2.2.2.2.2.2.2.1]
    simp [submitted, metadata_images]

/-- C6, amended, at a concrete input: the sample transaction of three buffers
on blocks of 1 KiB, log head at block 10. -/
theorem scenario_a_block_order_witness :
    ∃ s, jbd2_journal_commit_transaction sample_env
        (sample_state sample_journal [sample_jh 100, sample_jh 200, sample_jh 300]) = some s ∧
      (submitted s.trace).map log_image =
        [(10, block_kind.descriptor 3), (11, block_kind.metadata (sample_jh 100)),
          (12, block_kind.metadata (sample_jh 200)), (13, block_kind.metadata (sample_jh 300)),
          (14, block_kind.commit)] := by
  obtain ⟨s, h1, h2⟩ := scenario_a_block_order sample_env
    (sample_state sample_journal [sample_jh 100, sample_jh 200, sample_jh 300])
    (sample_jh 100) (sample_jh 200) (sample_jh 300) rfl rfl rfl
    ⟨fun _ => rfl, fun _ => rfl, fun _ => rfl, fun _ => rfl, fun _ => le_refl (0 : Int), fun _ => rfl,
      rfl⟩ rfl (by decide) (by decide) (by decide)
  exact ⟨s, h1, h2.trans (by decide)⟩

/-! ### C7: device flushes of one commit -/

theorem flushes_flush_list (c : Prop) [Decidable c] (dev : Nat) :
    flushes (if c then [event.blkdev_issue_flush dev] else []) = if c then [dev] else [] := by
  split_ifs <;> rfl

/-- The device flushes of one ordinary commit, in order. -/
theorem commit_flushes (env : commit_env) (s0 : commit_state) :
    ∃ s, jbd2_journal_commit_transaction env s0 = some s ∧
      flushes s.trace = flushes s0.trace ++
        (if s0.t_need_data_flush = true ∧ s0.journal.j_fs_dev ≠ s0.journal.j_dev ∧
            s0.journal.j_flags.JBD2_BARRIER = true then [s0.journal.j_fs_dev] else []) ++
        (if s0.journal.j_flags.JBD2_BARRIER = true then [s0.journal.j_dev] else []) ++
        (if jbd2_has_feature_async_commit s0.journal = true ∧
            s0.journal.j_flags.JBD2_BARRIER = true then [s0.journal.j_dev] else []) := by
  obtain ⟨s2, h1, _, h3⟩ := commit_transaction_total env s0
  obtain ⟨b1, b2, _, evs, b4, b5⟩ := commit_loop_basic env false _ _ _ h1
  obtain ⟨p1, _, _, _, _, _, _, _, _, _, p2, _⟩ := commit_prologue_frame env s0
  have hcfg : journal_config s2.journal = journal_config s0.journal := b1.trans p1
  simp only [journal_config, Prod.mk.injEq] at hcfg
  have hb : s2.journal.j_flags.JBD2_BARRIER = s0.journal.j_flags.JBD2_BARRIER := hcfg.1
  have hd : s2.journal.j_dev = s0.journal.j_dev := hcfg.2.2.2.2.2.2.2.2.2.2.2.1
  have hf : s2.journal.j_fs_dev = s0.journal.j_fs_dev := hcfg.2.2.2.2.2.2.2.2.2.2.1
  have hy : jbd2_has_feature_async_commit s2.journal =
      jbd2_has_feature_async_commit s0.journal := hcfg.2.2.2.1
  have hn : s2.t_need_data_flush = s0.t_need_data_flush := by
    have := b2
    simp only [loop_frame, Prod.mk.injEq] at this
    exact this.2.2.2.2.2.2.2.2.1.trans p2
  have hpro : flushes (commit_prologue env s0).trace = flushes s0.trace := by
    rw [← flushes_loud, commit_prologue_loud]
    simp only [flushes_append, flushes_loud,
      flushes_loop_events _ (loop_event_of_abort_list (submit_data_err env s0)),
      List.append_nil]
    simp [flushes]
  obtain ⟨X1, X2, X3, X4, X5, h, x1, x2, x3, x4, x5, _⟩ := commit_after_loop_loud env s2
  refine ⟨_, h3, ?_⟩
  rw [← flushes_loud, h, hb, hd, hf, hy, hn]
  simp only [flushes_append, flushes_loop_events _ x1, flushes_loop_events _ x2,
    flushes_loop_events _ x3, flushes_loop_events _ x4, flushes_loop_events _ x5,
    flushes_flush_list, flushes_loud, List.append_nil, b4, flushes_loop_events _ b5, hpro]
  simp [flushes]

/-- C7, as stated, fails: with write barriers enabled, a journal on a device
other than the filesystem's and data to be flushed, one ordinary commit issues
two device flushes, first of the filesystem device, then of the journal
device. -/
theorem flush_count_counterexample :
    external_journal_state.journal.j_flags.JBD2_BARRIER = true ∧
    (jbd2_journal_commit_transaction sample_env external_journal_state).map
      (fun s => flushes s.trace) = some [2, 1] := by
  decide

/-- C7, amended: with write barriers enabled and the asynchronous-commit
feature off, one ordinary commit flushes the journal device exactly once, and
before that the filesystem device once when the journal is on another device
and the transaction has data to flush; with write barriers disabled it issues
no device flush. -/
theorem flush_count (env : commit_env) (s0 : commit_state) (htr : s0.trace = []) :
    ∃ s, jbd2_journal_commit_transaction env s0 = some s ∧
      (s0.journal.j_flags.JBD2_BARRIER = false → flushes s.trace = []) ∧
      (s0.journal.j_flags.JBD2_BARRIER = true →
        jbd2_has_feature_async_commit s0.journal = false →
        flushes s.trace =
          (if s0.t_need_data_flush = true ∧ s0.journal.j_fs_dev ≠ s0.journal.j_dev then
            [s0.journal.j_fs_dev] else []) ++ [s0.journal.j_dev] ∧
        (flushes s.trace).count s0.journal.j_dev = 1) := by
  obtain ⟨s, h1, h2⟩ := commit_flushes env s0
  refine ⟨s, h1, ?_, ?_⟩
  · intro hb
    rw [h2, htr]
    simp [hb, flushes]
  · intro hb hy
    rw [h2, htr]
    by_cases hc : s0.t_need_data_flush = true ∧ s0.journal.j_fs_dev ≠ s0.journal.j_dev
    · simp [hb, hy, hc, flushes, List.count_cons]
    · simp only [not_and_or] at hc
      rcases hc with hc | hc <;> simp [hb, hy, hc, flushes]

/-- C7, amended, at a concrete input: the sample transaction (barriers on, no
asynchronous commit, journal on the filesystem device) gets one flush. -/
theorem flush_count_witness :
    ∃ s, jbd2_journal_commit_transaction sample_env
        (sample_state sample_journal [sample_jh 100, sample_jh 200, sample_jh 300]) = some s ∧
      flushes s.trace = [1] := by
  obtain ⟨s, h1, _, h3⟩ := flush_count sample_env
    (sample_state sample_journal [sample_jh 100, sample_jh 200, sample_jh 300]) rfl
  exact ⟨s, h1, (h3 rfl rfl).1⟩

/-! ### C9: the last-tag flag -/

theorem fresh_flags_not_last (t : journal_block_tag_t) (h : fresh_flags t) :
    tag_is_last t = false := by
  obtain ⟨f, hf, he⟩ := h
  unfold tag_is_last
  rw [he]
  interval_cases f <;> decide

theorem fresh_flags_marked (t : journal_block_tag_t) (h : fresh_flags t) :
    tag_is_last { t with t_flags := be_or t.t_flags (cpu_to_be16 JBD2_FLAG_LAST_TAG) } = true := by
  obtain ⟨f, hf, he⟩ := h
  unfold tag_is_last
  simp only [he]
  interval_cases f <;> decide

theorem mark_last_tag_ne_nil (t : journal_block_tag_t) (l : List journal_block_tag_t) :
    mark_last_tag (t :: l) ≠ [] := by
  intro h
  have := congrArg List.length h
  rw [mark_last_tag_length] at this
  simp at this

theorem last_tag_marked_mark :
    ∀ (ts : List journal_block_tag_t) (t : journal_block_tag_t),
      (∀ x ∈ ts, fresh_flags x) → fresh_flags t →
      last_tag_marked (mark_last_tag (ts ++ [t])) = true := by
  intro ts
  induction ts with
  | nil =>
    intro t _ ht
    simp only [List.nil_append, mark_last_tag, last_tag_marked]
    exact fresh_flags_marked t ht
  | cons a ts ih =>
    intro t hts ht
    have ha := fresh_flags_not_last a (hts a (List.mem_cons_self a ts))
    have hrec := ih t (fun x hx => hts x (List.mem_cons_of_mem a hx)) ht
    cases hl : ts ++ [t] with
    | nil => simp at hl
    | cons b r =>
      rw [hl] at hrec
      rw [List.cons_append, hl]
      simp only [mark_last_tag]
      cases hm : mark_last_tag (b :: r) with
      | nil => exact absurd hm (mark_last_tag_ne_nil b r)
      | cons y z =>
        rw [hm] at hrec
        simp only [last_tag_marked, ha, hrec, Bool.not_false, Bool.and_self]

theorem no_tag_marked_fresh (ts : List journal_block_tag_t) (h : ∀ x ∈ ts, fresh_flags x) :
    no_tag_marked ts = true := by
  unfold no_tag_marked
  rw [List.all_eq_true]
  intro x hx
  rw [fresh_flags_not_last x (h x hx)]
  rfl

theorem loop_make_tag_fresh (env : commit_env) (s : commit_state) (jh : journal_head)
    (new_bh : buffer_head) (flags : Int) :
    fresh_flags (loop_make_tag env s jh new_bh flags) := by
  have h1 : (loop_make_tag env s jh new_bh flags).t_flags =
      cpu_to_be16 ((if flags % 2 = 1 then JBD2_FLAG_ESCAPE else 0) |||
        (if (!s.first_tag) = true then JBD2_FLAG_SAME_UUID else 0)) := by
    unfold loop_make_tag jbd2_block_tag_csum_set write_tag_block
    simp only []
    split_ifs <;> rfl
  refine ⟨_, ?_, h1⟩
  unfold JBD2_FLAG_ESCAPE JBD2_FLAG_SAME_UUID
  split_ifs <;> decide

theorem tags_of_add_tag (t : journal_block_tag_t) (d : buffer_head)
    (hd : is_descriptor d = true) :
    tags_of (descriptor_add_tag t d) = tags_of d ++ [t] ∧
    is_descriptor (descriptor_add_tag t d) = true := by
  unfold tags_of is_descriptor descriptor_add_tag
  unfold is_descriptor at hd
  cases hb : d.b_data <;> simp_all

theorem tags_of_mark_last (d : buffer_head) (hd : is_descriptor d = true) :
    tags_of (descriptor_mark_last d) = mark_last_tag (tags_of d) ∧
    is_descriptor (descriptor_mark_last d) = true := by
  unfold tags_of is_descriptor descriptor_mark_last
  unfold is_descriptor at hd
  cases hb : d.b_data <;> simp_all

theorem tags_of_descriptor_csum (env : commit_env) (j : journal_t) (d : buffer_head) :
    tags_of (jbd2_descriptor_block_csum_set env j d) = tags_of d ∧
    is_descriptor (jbd2_descriptor_block_csum_set env j d) = is_descriptor d := by
  unfold jbd2_descriptor_block_csum_set
  split_ifs
  · exact ⟨rfl, rfl⟩
  · unfold tags_of is_descriptor
    cases hb : d.b_data <;> simp [hb]

theorem start_journal_io_submitted (env : commit_env) (s : commit_state) :
    submitted (start_journal_io env s).trace = submitted s.trace ++ staged env s := by
  rw [start_journal_io_eq]
  simp [staged, submitted_append, submitted_io_events]

/-- A step that leaves `wbuf`, the open descriptor and the submitted blocks
alone keeps the shape of `wbuf` and the marking of the descriptors. -/
theorem marked_frame (s s2 : commit_state) (hw : s2.wbuf = s.wbuf)
    (hd : s2.descriptor = s.descriptor) (ht : submitted s2.trace = submitted s.trace)
    (ha : is_journal_aborted s.journal = true → is_journal_aborted s2.journal = true)
    (h : wbuf_shape s ∧ descriptors_marked s) : wbuf_shape s2 ∧ descriptors_marked s2 := by
  obtain ⟨⟨w1, w2⟩, dm⟩ := h
  refine ⟨⟨?_, ?_⟩, ?_⟩
  · intro h0
    rw [hw]
    exact w1 (hd ▸ h0)
  · intro h1
    rw [hw]
    exact w2 (hd ▸ h1)
  · intro d hmem hdesc
    rw [ht] at hmem
    rcases dm d hmem hdesc with hl | ⟨hab, hn⟩
    · exact Or.inl hl
    · exact Or.inr ⟨ha hab, hn⟩

/-- The clean-up submission of an aborted commit: the open descriptor goes
out with no tag marked. -/
theorem marked_submit_aborted (env : commit_env) (s : commit_state)
    (ha : is_journal_aborted s.journal = true)
    (h : wbuf_shape s ∧ descriptors_marked s) :
    wbuf_shape (start_journal_io env s) ∧ descriptors_marked (start_journal_io env s) := by
  obtain ⟨⟨w1, w2⟩, dm⟩ := h
  have hf := start_journal_io_frame env s
  refine ⟨⟨fun _ => hf.2.2.2.2.2.2.1, fun h1 => ?_⟩, ?_⟩
  · rw [hf.2.2.2.2.2.2.2] at h1
    cases h1
  · intro d hmem hdesc
    rw [start_journal_io_submitted] at hmem
    rw [hf.2.1]
    rcases List.mem_append.mp hmem with hold | hnew
    · exact dm d hold hdesc
    · right
      refine ⟨ha, ?_⟩
      unfold staged at hnew
      by_cases hdsc : s.descriptor = true
      · obtain ⟨d0, ms, hwb, hd0, hfresh, hms⟩ := w2 hdsc
        rw [if_pos hdsc, hwb] at hnew
        simp only [on_descriptor, List.mem_cons] at hnew
        rcases hnew with rfl | hm
        · rw [(tags_of_descriptor_csum env s.journal d0).1]
          exact no_tag_marked_fresh _ hfresh
        · rw [hms d hm] at hdesc
          cases hdesc
      · have hd0 : s.descriptor = false := by simpa using hdsc
        rw [if_neg hdsc, w1 hd0] at hnew
        cases hnew

theorem marked_open (s : commit_state) (hd : s.descriptor = false)
    (h : wbuf_shape s ∧ descriptors_marked s) :
    wbuf_shape (open_descriptor s) ∧ descriptors_marked (open_descriptor s) := by
  obtain ⟨⟨w1, _⟩, dm⟩ := h
  refine ⟨⟨fun h0 => (by cases h0), fun _ => ?_⟩, ?_⟩
  · refine ⟨fresh_descriptor s, [], ?_, rfl, ?_, ?_⟩
    · show s.wbuf ++ [fresh_descriptor s] = _
      rw [w1 hd]
      rfl
    · intro t ht
      cases ht
    · intro m hm
      cases hm
  · intro d hmem hdesc
    exact dm d hmem hdesc

/-- Logging one buffer into the open descriptor: when the batch is closed the
descriptor goes out with its last tag, and only that one, marked. -/
theorem marked_logged (env : commit_env) (s1 : commit_state) (jh : journal_head)
    (rest : List journal_head) (m : buffer_head) (flags : Int)
    (hd : s1.descriptor = true) (hm : is_descriptor m = false)
    (h : wbuf_shape s1 ∧ descriptors_marked s1) :
    wbuf_shape (loop_submit env (loop_tag env (log_buffer s1 jh rest) jh m flags)) ∧
    descriptors_marked (loop_submit env (loop_tag env (log_buffer s1 jh rest) jh m flags)) := by
  obtain ⟨⟨_, w2⟩, dm⟩ := h
  obtain ⟨d0, ms, hwb, hd0, hfresh, hms⟩ := w2 hd
  have htag := loop_make_tag_fresh env (log_buffer s1 jh rest) jh m flags
  generalize hx : loop_tag env (log_buffer s1 jh rest) jh m flags = x
  have hxeq := hx
  rw [loop_tag_eq] at hxeq
  have x_j : x.journal = (log_advance s1).journal := by rw [← hxeq]; rfl
  have x_d : x.descriptor = true := by rw [← hxeq]; exact hd
  have x_tr : x.trace = s1.trace := by rw [← hxeq]; rfl
  have x_w : x.wbuf = descriptor_add_tag (loop_make_tag env (log_buffer s1 jh rest) jh m flags)
      d0 :: (ms ++ [m]) := by
    rw [← hxeq]
    show on_descriptor _ s1.wbuf ++ _ = _
    rw [hwb]
    rfl
  obtain ⟨ht1, ht2⟩ := tags_of_add_tag (loop_make_tag env (log_buffer s1 jh rest) jh m flags)
    d0 hd0
  have hfresh2 : ∀ t ∈ tags_of (descriptor_add_tag
      (loop_make_tag env (log_buffer s1 jh rest) jh m flags) d0), fresh_flags t := by
    intro t ht
    rw [ht1] at ht
    rcases List.mem_append.mp ht with h1 | h2
    · exact hfresh t h1
    · simp only [List.mem_singleton] at h2
      rw [h2]
      exact htag
  have hms2 : ∀ b ∈ ms ++ [m], is_descriptor b = false := by
    intro b hb
    rcases List.mem_append.mp hb with h1 | h2
    · exact hms b h1
    · simp only [List.mem_singleton] at h2
      rw [h2]
      exact hm
  have hab : is_journal_aborted x.journal = is_journal_aborted s1.journal := by rw [x_j]; rfl
  unfold loop_submit
  by_cases hfull : loop_batch_full x = true
  · rw [if_pos hfull]
    have hf := start_journal_io_frame env
      { x with wbuf := on_descriptor descriptor_mark_last x.wbuf }
    refine ⟨⟨fun _ => hf.2.2.2.2.2.2.1, fun h1 => ?_⟩, ?_⟩
    · rw [hf.2.2.2.2.2.2.2] at h1
      cases h1
    · intro d hmem hdesc
      rw [start_journal_io_submitted] at hmem
      rw [hf.2.1]
      rcases List.mem_append.mp hmem with hold | hnew
      · have hold2 : d ∈ submitted s1.trace := by
          rw [← x_tr]
          exact hold
        rcases dm d hold2 hdesc with hl | ⟨ha, hn⟩
        · exact Or.inl hl
        · exact Or.inr ⟨by show is_journal_aborted x.journal = true; rw [hab]; exact ha, hn⟩
      · left
        unfold staged at hnew
        simp only [x_d, if_true, x_w, on_descriptor, List.mem_cons] at hnew
        rcases hnew with rfl | hm2
        · rw [(tags_of_descriptor_csum env _ _).1, (tags_of_mark_last _ ht2).1, ht1]
          exact last_tag_marked_mark _ _ hfresh htag
        · rw [hms2 d hm2] at hdesc
          cases hdesc
  · rw [if_neg hfull]
    refine ⟨⟨fun h0 => ?_, fun _ => ⟨_, _, x_w, ht2, hfresh2, hms2⟩⟩, ?_⟩
    · rw [x_d] at h0
      cases h0
    · intro d hmem hdesc
      rw [x_tr] at hmem
      rw [hab]
      exact dm d hmem hdesc

theorem marked_abort (s x : commit_state) (errno : Int) (hw : x.wbuf = s.wbuf)
    (hd : x.descriptor = s.descriptor) (ht : submitted x.trace = submitted s.trace)
    (h : wbuf_shape s ∧ descriptors_marked s) :
    wbuf_shape (jbd2_journal_abort x errno) ∧ descriptors_marked (jbd2_journal_abort x errno) := by
  apply marked_frame s (jbd2_journal_abort x errno) hw hd ?_ (fun _ => rfl) h
  show submitted (x.trace ++ [event.jbd2_journal_abort errno]) = _
  rw [submitted_append, ht]
  simp [submitted]

/-- One pass of the metadata loop keeps the shape of `wbuf` and the marking of
the descriptors submitted so far. -/
theorem commit_loop_iter_marked (env : commit_env) (barrier : Bool) (s : commit_state)
    (hne : s.t_buffers ≠ []) (h : wbuf_shape s ∧ descriptors_marked s) :
    wbuf_shape (commit_loop_iter env barrier s) ∧
    descriptors_marked (commit_loop_iter env barrier s) := by
  cases hs : s.t_buffers with
  | nil => exact absurd hs hne
  | cons jh rest =>
    have hopen : ∀ s1, ((s.descriptor = true ∧ s1 = s) ∨
        (s.descriptor = false ∧ desc_alloc_ok env s = true ∧ s1 = open_descriptor s)) →
        (wbuf_shape s1 ∧ descriptors_marked s1) ∧ s1.descriptor = true := by
      intro s1 h1
      rcases h1 with ⟨hd, rfl⟩ | ⟨hd, _, rfl⟩
      · exact ⟨h, hd⟩
      · exact ⟨marked_open s hd h, rfl⟩
    apply commit_loop_iter_cases env barrier
      (fun x => wbuf_shape x ∧ descriptors_marked x) s jh rest hs
    · intro ha
      rw [loop_release_eq]
      have hrel :
          wbuf_shape
            { s with t_buffers := rest, trace := s.trace ++ release_events barrier [jh] } ∧
          descriptors_marked
            { s with t_buffers := rest, trace := s.trace ++ release_events barrier [jh] } := by
        refine marked_frame s _ rfl rfl ?_ (fun x => x) h
        show submitted (s.trace ++ release_events barrier [jh]) = _
        rw [submitted_append, submitted_release_events, List.append_nil]
      by_cases hr : rest = []
      · rw [if_pos hr]
        rw [hr] at hrel
        exact marked_submit_aborted env _ ha hrel
      · rw [if_neg hr]
        exact hrel
    · intro _ _ _
      exact marked_abort s (log_advance s) _ rfl rfl rfl h
    · intro _ s1 h1 _
      obtain ⟨hi, _⟩ := hopen s1 h1
      exact marked_abort s1 _ _ rfl rfl rfl hi
    · intro _ s1 h1 _ _
      obtain ⟨hi, _⟩ := hopen s1 h1
      exact marked_abort s1 _ _ rfl rfl rfl hi
    · intro _ s1 h1 _ _
      obtain ⟨hi, hd⟩ := hopen s1 h1
      exact marked_logged env s1 jh rest _ _ hd rfl hi

theorem commit_loop_marked (env : commit_env) (barrier : Bool) (fuel : Nat)
    (s s2 : commit_state) (h : wbuf_shape s ∧ descriptors_marked s)
    (hl : commit_loop env barrier fuel s = some s2) :
    wbuf_shape s2 ∧ descriptors_marked s2 :=
  commit_loop_rule env barrier (fun x => wbuf_shape x ∧ descriptors_marked x)
    (fun x hx hne => commit_loop_iter_marked env barrier x hne hx) fuel s s2 h hl

theorem is_commit_commit_record (env : commit_env) (s : commit_state) (crc : Nat) :
    is_commit (commit_record_bh env s crc) = true := by
  unfold commit_record_bh jbd2_commit_block_csum_set
  split_ifs <;> rfl

theorem not_descriptor_of_commit (bh : buffer_head) (h : is_commit bh = true) :
    is_descriptor bh = false := by
  unfold is_commit at h
  unfold is_descriptor
  cases hb : bh.b_data <;> simp_all

theorem submitted_record_list (env : commit_env) (a : commit_state) :
    ∀ bh ∈ submitted (if is_journal_aborted a.journal = true then []
      else if desc_alloc_ok env a = true then
        event.submit_bh (commit_record_flags a.journal) (commit_record_bh env a a.crc32_sum) ::
          (if env.submit_bh_ret ≠ 0 then [event.jbd2_journal_abort env.submit_bh_ret] else [])
      else [event.jbd2_journal_abort 1]), is_commit bh = true := by
  intro bh hbh
  by_cases h1 : is_journal_aborted a.journal = true
  · rw [if_pos h1] at hbh
    cases hbh
  · rw [if_neg h1] at hbh
    by_cases h2 : desc_alloc_ok env a = true
    · rw [if_pos h2] at hbh
      by_cases h3 : env.submit_bh_ret ≠ 0
      · rw [if_pos h3] at hbh
        simp [submitted] at hbh
        rw [hbh]; exact is_commit_commit_record env a _
      · rw [if_neg h3] at hbh
        simp [submitted] at hbh
        rw [hbh]; exact is_commit_commit_record env a _
    · rw [if_neg h2] at hbh
      simp [submitted] at hbh

/-- The part of the commit behind the metadata loop submits commit blocks
only, and keeps an aborted journal aborted. -/
theorem commit_after_loop_commit_only (env : commit_env) (s : commit_state) :
    (∃ C, submitted (commit_after_loop env s).trace = submitted s.trace ++ C ∧
      ∀ bh ∈ C, is_commit bh = true) ∧
    (is_journal_aborted s.journal = true →
      is_journal_aborted (commit_after_loop env s).journal = true) := by
  obtain ⟨d1, _, _, _⟩ := commit_dflush_head_facts env s
  obtain ⟨c1, _⟩ := submit_commit_record_step_facts env (commit_dflush_head env s)
  obtain ⟨X1, X2, _, _, _, _, dab⟩ := commit_dflush_loud env s
  obtain ⟨w1, _, wab, _⟩ := commit_wait_io_loud env (commit_dflush env s)
  obtain ⟨L, A, j1, j2, j3, _, jab⟩ :=
    commit_jflush_loud env (commit_wait_io env (commit_dflush env s))
  obtain ⟨f1, _, fab, _⟩ := commit_finish_facts env
    (commit_jflush env (commit_wait_io env (commit_dflush env s)))
  constructor
  · have hdf : ∃ C1, submitted (commit_dflush env s).trace = submitted s.trace ++ C1 ∧
        ∀ bh ∈ C1, is_commit bh = true := by
      have hhead : submitted (commit_dflush_head env s).trace = submitted s.trace := by
        rw [← submitted_loud, d1]
        simp only [submitted_append, submitted_flush_list, submitted_abort_list,
          submitted_loud, List.append_nil]
        simp [submitted]
      unfold commit_dflush
      simp only []
      split_ifs
      · refine ⟨_, ?_, submitted_record_list env (commit_dflush_head env s)⟩
        rw [← submitted_loud, c1, submitted_append, submitted_loud, hhead]
      · exact ⟨[], by rw [hhead, List.append_nil], by simp⟩
    obtain ⟨C1, hC1, hC1c⟩ := hdf
    refine ⟨C1 ++ submitted L, ?_, ?_⟩
    · unfold commit_after_loop
      rw [← submitted_loud, f1, j1, w1]
      simp only [submitted_append, submitted_flush_list, submitted_abort_list,
        submitted_aborts A j3, submitted_loud, List.append_nil, hC1]
      simp [submitted]
    · intro bh hbh
      rcases List.mem_append.mp hbh with h1 | h2
      · exact hC1c bh h1
      · rw [j2] at h2
        by_cases hy : jbd2_has_feature_async_commit
            (commit_wait_io env (commit_dflush env s)).journal = true
        · rw [if_pos hy] at h2
          cases h2
        · rw [if_neg hy] at h2
          exact submitted_record_list env (commit_wait_io env (commit_dflush env s)) bh h2
  · intro ha
    unfold commit_after_loop
    rw [fab]
    exact jab (wab (dab ha).1)

/-- The descriptors a whole commit submits: each has its tags marked as the
format asks, or, the journal being aborted, has no tag marked. -/
theorem commit_descriptors_marked (env : commit_env) (s0 : commit_state) (htr : s0.trace = []) :
    ∃ s2, commit_loop env false (commit_loop_fuel (commit_prologue env s0))
        (commit_prologue env s0) = some s2 ∧
      jbd2_journal_commit_transaction env s0 = some (commit_after_loop env s2) ∧
      descriptors_marked (commit_after_loop env s2) := by
  obtain ⟨s2, h1, _, h3⟩ := commit_transaction_total env s0
  obtain ⟨_, _, p3, p4, _⟩ := commit_prologue_frame env s0
  have hinit : wbuf_shape (commit_prologue env s0) ∧ descriptors_marked (commit_prologue env s0) := by
    refine ⟨⟨fun _ => p3, fun h => ?_⟩, ?_⟩
    · rw [p4] at h
      cases h
    · intro d hd
      rw [commit_prologue_submitted, htr] at hd
      cases hd
  obtain ⟨_, hm⟩ := commit_loop_marked env false _ _ s2 hinit h1
  obtain ⟨⟨C, hC, hCc⟩, hab⟩ := commit_after_loop_commit_only env s2
  refine ⟨s2, h1, h3, ?_⟩
  intro d hd hdesc
  rw [hC] at hd
  rcases List.mem_append.mp hd with hold | hnew
  · rcases hm d hold hdesc with hl | ⟨ha, hn⟩
    · exact Or.inl hl
    · exact Or.inr ⟨hab ha, hn⟩
  · rw [not_descriptor_of_commit d (hCc d hnew)] at hdesc
    cases hdesc

/-- C9, as stated, fails: in the commit that aborts while its second buffer
is being logged, the descriptor block at log block 10 is submitted by the
clean-up with one tag, and that tag does not carry `JBD2_FLAG_LAST_TAG`. -/
theorem last_tag_counterexample :
    (jbd2_journal_commit_transaction bmap_fail_env
        (sample_state sample_journal [sample_jh 100, sample_jh 200])).map
      (fun s => ((submitted s.trace).filter is_descriptor).map
        (fun d => (d.b_blocknr, (tags_of d).map tag_is_last))) = some [(10, [false])] := by
  decide

/-- C9, amended: every descriptor block submitted by a commit that ends with
the journal not aborted has at least one tag, its final tag carries
`JBD2_FLAG_LAST_TAG` and no earlier tag does; in a commit that ends with the
journal aborted a descriptor block may instead have been submitted with no tag
marked at all (the batch staged when the journal was found aborted). -/
theorem descriptors_last_tag_marked (env : commit_env) (s0 : commit_state)
    (htr : s0.trace = []) :
    ∃ s, jbd2_journal_commit_transaction env s0 = some s ∧
      (is_journal_aborted s.journal = false →
        ∀ d ∈ submitted s.trace, is_descriptor d = true →
          last_tag_marked (tags_of d) = true) ∧
      (∀ d ∈ submitted s.trace, is_descriptor d = true →
        last_tag_marked (tags_of d) = true ∨
          (is_journal_aborted s.journal = true ∧ no_tag_marked (tags_of d) = true)) := by
  obtain ⟨s2, _, h2, h3⟩ := commit_descriptors_marked env s0 htr
  refine ⟨commit_after_loop env s2, h2, ?_, h3⟩
  intro hna d hd hdesc
  rcases h3 d hd hdesc with hl | ⟨ha, _⟩
  · exact hl
  · rw [hna] at ha
    cases ha

/-- C9, amended, at a concrete input: the sample commit of three buffers ends
with the journal not aborted, and every descriptor block it submits is marked. -/
theorem descriptors_last_tag_marked_witness :
    ∃ s, jbd2_journal_commit_transaction sample_env
        (sample_state sample_journal [sample_jh 100, sample_jh 200, sample_jh 300]) = some s ∧
      ∀ d ∈ submitted s.trace, is_descriptor d = true → last_tag_marked (tags_of d) = true := by
  have hmap : (jbd2_journal_commit_transaction sample_env
      (sample_state sample_journal [sample_jh 100, sample_jh 200, sample_jh 300])).map
        (fun s => is_journal_aborted s.journal) = some false := by decide
  obtain ⟨s, h1, h2, _⟩ := descriptors_last_tag_marked sample_env
    (sample_state sample_journal [sample_jh 100, sample_jh 200, sample_jh 300]) rfl
  rw [h1] at hmap
  exact ⟨s, h1, h2 (Option.some.inj hmap)⟩

/-! ### C8: a batch size of two -/

theorem pair_images_congr (j j2 : journal_t) (h1 : j2.j_first = j.j_first)
    (h2 : j2.j_last = j.j_last) :
    ∀ (l : List journal_head) (p : Nat), pair_images j2 p l = pair_images j p l := by
  intro l
  induction l with
  | nil => intro p; rfl
  | cons jh l ih =>
    intro p
    simp only [pair_images, ih, log_next, h1, h2]

/-- With `j_wbufsize` equal to 2 every buffer is logged with a descriptor
block of its own: the descriptor and the copy of the buffer fill `wbuf`. -/
theorem pair_run (env : commit_env) (barrier : Bool)
    (hb : ∀ b, env.bmap_err b = 0) (hg : ∀ b, env.getblk_ok b = true)
    (hw : ∀ b, 0 ≤ env.write_metadata_flags b) :
    ∀ (l : List journal_head) (s : commit_state) (fuel : Nat),
      s.t_buffers = l → is_journal_aborted s.journal = false →
      s.descriptor = false → s.wbuf = [] → s.journal.j_wbufsize = 2 → l.length ≤ fuel →
      ∃ s2, commit_loop env barrier fuel s = some s2 ∧
        (submitted s2.trace).map log_image = (submitted s.trace).map log_image ++
          pair_images s.journal s.journal.j_head l ∧
        s2.journal.j_head = (log_next s.journal)^[2 * l.length] s.journal.j_head ∧
        is_journal_aborted s2.journal = false := by
  intro l
  induction l with
  | nil =>
    intro s fuel hs hna _ _ _ _
    exact ⟨s, commit_loop_done env barrier fuel s hs, by simp [pair_images], rfl, hna⟩
  | cons jh rest ih =>
    intro s fuel hs hna hdesc hwbuf hsize hfuel
    obtain ⟨fuel1, rfl⟩ : ∃ f, fuel = f + 1 := ⟨fuel - 1, by simp at hfuel; omega⟩
    have hiter := commit_loop_iter_logged env barrier s jh rest hs hna hb hg (hw _)
    rw [if_neg (by rw [hdesc]; exact Bool.false_ne_true)] at hiter
    have hne2 : s.t_buffers ≠ [] := by rw [hs]; simp
    have hloop : commit_loop env barrier (fuel1 + 1) s =
        commit_loop env barrier fuel1 (commit_loop_iter env barrier s) := by
      rw [commit_loop, if_neg hne2]
    generalize hx : loop_tag env (log_buffer (open_descriptor s) jh rest) jh
      (metadata_bh env (open_descriptor s) jh) (env.write_metadata_flags jh.b_blocknr) = x
      at hiter
    have hxeq := hx
    rw [loop_tag_eq] at hxeq
    have x_tb : x.t_buffers = rest := by rw [← hxeq]; rfl
    have x_j : x.journal = (log_advance (log_advance s)).journal := by rw [← hxeq]; rfl
    have x_tr : x.trace = s.trace := by rw [← hxeq]; rfl
    have x_w : x.wbuf = [descriptor_add_tag (loop_make_tag env
        (log_buffer (open_descriptor s) jh rest) jh
        (metadata_bh env (open_descriptor s) jh) (env.write_metadata_flags jh.b_blocknr))
        (fresh_descriptor s), metadata_bh env (open_descriptor s) jh] := by
      rw [← hxeq]
      show on_descriptor _ (s.wbuf ++ [fresh_descriptor s]) ++ _ = _
      rw [hwbuf]
      rfl
    have hfresh : log_image (fresh_descriptor s) = (s.journal.j_head, block_kind.descriptor 0) :=
      rfl
    have x_img : x.wbuf.map log_image =
        [(s.journal.j_head, block_kind.descriptor 1),
          (log_next s.journal s.journal.j_head, block_kind.metadata jh)] := by
      rw [x_w]
      simp only [List.map_cons, List.map_nil, log_image_add_tag _ _ _ _ hfresh,
        log_image_metadata_bh]
      rfl
    have x_na : is_journal_aborted x.journal = false := by rw [x_j]; exact hna
    have hfull : loop_batch_full x = true := by
      have : x.wbuf.length = x.journal.j_wbufsize := by
        rw [x_w, x_j]
        show 2 = s.journal.j_wbufsize
        rw [hsize]
      simp [loop_batch_full, this]
    have hres : commit_loop_iter env barrier s =
        start_journal_io env { x with wbuf := on_descriptor descriptor_mark_last x.wbuf } := by
      rw [hiter, loop_submit, if_pos hfull]
    have hf := start_journal_io_frame env
      { x with wbuf := on_descriptor descriptor_mark_last x.wbuf }
    have hsub : (submitted (start_journal_io env
        { x with wbuf := on_descriptor descriptor_mark_last x.wbuf }).trace).map log_image =
        (submitted s.trace).map log_image ++
          [(s.journal.j_head, block_kind.descriptor 1),
            (log_next s.journal s.journal.j_head, block_kind.metadata jh)] := by
      rw [start_journal_io_submitted, List.map_append, map_log_image_staged]
      show (submitted x.trace).map log_image ++
        (on_descriptor descriptor_mark_last x.wbuf).map log_image = _
      rw [map_log_image_on_descriptor _ log_image_mark_last, x_img, x_tr]
    have hj : (start_journal_io env
        { x with wbuf := on_descriptor descriptor_mark_last x.wbuf }).journal =
        (log_advance (log_advance s)).journal := by
      rw [hf.2.1]
      exact x_j
    obtain ⟨s2, g1, g2, g3, g4⟩ := ih (start_journal_io env
        { x with wbuf := on_descriptor descriptor_mark_last x.wbuf }) fuel1
      (by rw [hf.1]; exact x_tb) (by rw [hj]; exact hna) hf.2.2.2.2.2.2.2 hf.2.2.2.2.2.2.1
      (by rw [hj]; exact hsize) (by simp only [List.length_cons] at hfuel; omega)
    refine ⟨s2, by rw [hloop, hres]; exact g1, ?_, ?_, g4⟩
    · rw [g2, hsub, hj]
      have e1 : pair_images (log_advance (log_advance s)).journal
          (log_advance (log_advance s)).journal.j_head rest =
          pair_images s.journal (log_next s.journal (log_next s.journal s.journal.j_head)) rest :=
        pair_images_congr s.journal (log_advance (log_advance s)).journal rfl rfl rest _
      rw [e1]
      simp [pair_images]
    · rw [g3, hj]
      have e2 : log_next (log_advance (log_advance s)).journal = log_next s.journal :=
        log_next_congr s.journal (log_advance (log_advance s)).journal rfl rfl
      rw [e2]
      show (log_next s.journal)^[2 * rest.length]
        (log_next s.journal (log_next s.journal s.journal.j_head)) = _
      rw [List.length_cons, Nat.mul_succ, Function.iterate_succ_apply,
        Function.iterate_succ_apply]

/-- C8, as stated, fails: with `j_wbufsize` 2 the commit of five buffers, in
which nothing fails, submits five descriptor blocks (at log blocks 10, 12, 14,
16 and 18), each with one tag carrying `JBD2_FLAG_LAST_TAG`; the descriptor
takes one of the two slots of `wbuf`. -/
theorem scenario_b_counterexample :
    batch_two_state.journal.j_wbufsize = 2 ∧ batch_two_state.t_buffers.length = 5 ∧
    (jbd2_journal_commit_transaction sample_env batch_two_state).map
      (fun s => (is_journal_aborted s.journal,
        ((submitted s.trace).filter is_descriptor).map
          (fun d => (d.b_blocknr, (tags_of d).map tag_is_last)))) =
      some (false, [(10, [true]), (12, [true]), (14, [true]), (16, [true]), (18, [true])]) := by
  decide

theorem is_descriptor_eq_kind (bh : buffer_head) :
    is_descriptor bh = is_descriptor_kind (log_image bh).2 := by
  unfold is_descriptor log_image kind_of is_descriptor_kind
  cases hb : bh.b_data <;> simp

theorem kind_of_descriptor (d : buffer_head) (h : is_descriptor d = true) :
    (log_image d).2 = block_kind.descriptor (tags_of d).length := by
  unfold is_descriptor at h
  unfold log_image kind_of tags_of
  cases hb : d.b_data <;> simp_all

theorem filter_descriptor_length :
    ∀ (l : List buffer_head), (l.filter is_descriptor).length =
      ((l.map log_image).filter (fun i => is_descriptor_kind i.2)).length := by
  intro l
  induction l with
  | nil => rfl
  | cons a l ih =>
    simp only [List.map_cons, List.filter_cons, is_descriptor_eq_kind a]
    split_ifs <;> simp [ih]

theorem pair_images_descriptors (j : journal_t) :
    ∀ (l : List journal_head) (p : Nat),
      ((pair_images j p l).filter (fun i => is_descriptor_kind i.2)).length = l.length ∧
      ∀ i ∈ pair_images j p l, ∀ n, i.2 = block_kind.descriptor n → n = 1 := by
  intro l
  induction l with
  | nil => intro p; exact ⟨rfl, fun i hi => by cases hi⟩
  | cons jh l ih =>
    intro p
    obtain ⟨h1, h2⟩ := ih (log_next j (log_next j p))
    refine ⟨?_, ?_⟩
    · simp only [pair_images, List.filter_cons]
      rw [show is_descriptor_kind (block_kind.descriptor 1) = true from rfl,
        show is_descriptor_kind (block_kind.metadata jh) = false from rfl]
      simp [h1]
    intro i hi n hn
    simp only [pair_images, List.mem_cons] at hi
    rcases hi with rfl | rfl | hi
    · simp only [block_kind.descriptor.injEq] at hn
      exact hn.symm
    · cases hn
    · exact h2 i hi n hn

/-- C8, amended: with `j_wbufsize` 2 a commit of five metadata buffers in which
nothing fails submits exactly five descriptor blocks, one in front of the copy
of each buffer (the descriptor takes one of the two slots of `wbuf`), followed
by the commit block; each descriptor block has one tag, and that tag carries
`JBD2_FLAG_LAST_TAG`. -/
theorem scenario_b_five_descriptors (env : commit_env) (s0 : commit_state)
    (hlen : s0.t_buffers.length = 5) (htr : s0.trace = [])
    (hrev : env.revoke_blocks = 0) (hok : env_ok env)
    (hna : is_journal_aborted s0.journal = false)
    (hsize : s0.journal.j_wbufsize = 2) :
    ∃ s, jbd2_journal_commit_transaction env s0 = some s ∧
      (submitted s.trace).map log_image =
        pair_images s0.journal s0.journal.j_head s0.t_buffers ++
          [((log_next s0.journal)^[10] s0.journal.j_head, block_kind.commit)] ∧
      ((submitted s.trace).filter is_descriptor).length = 5 ∧
      ∀ d ∈ submitted s.trace, is_descriptor d = true →
        (tags_of d).length = 1 ∧ last_tag_marked (tags_of d) = true := by
  obtain ⟨p1, p2, p3, p4, _, _, _, p8, _, _, _, p12⟩ := commit_prologue_frame env s0
  obtain ⟨phead, _⟩ := p12 hrev
  have hcfg := p1
  simp only [journal_config, Prod.mk.injEq] at hcfg
  have pna : is_journal_aborted (commit_prologue env s0).journal = false := by
    rw [p2, hna, submit_data_err_ok env s0 hok.1]
    rfl
  have hnext : log_next (commit_prologue env s0).journal = log_next s0.journal :=
    log_next_congr _ _ hcfg.2.2.2.2.2.2.2.2.2.2.2.2.1 hcfg.2.2.2.2.2.2.2.2.2.2.2.2.2.1
  obtain ⟨s2, g1, g2, g3, g4⟩ := pair_run env false hok.2.2.1 hok.2.2.2.1 hok.2.2.2.2.1
    s0.t_buffers (commit_prologue env s0) (commit_loop_fuel (commit_prologue env s0))
    p8 pna p4 p3 (by rw [hcfg.2.2.2.2.2.2.2.1]; exact hsize)
    (by unfold commit_loop_fuel; rw [p8]; omega)
  have hinit : wbuf_shape (commit_prologue env s0) ∧
      descriptors_marked (commit_prologue env s0) := by
    refine ⟨⟨fun _ => p3, fun h => ?_⟩, ?_⟩
    · rw [p4] at h
      cases h
    · intro d hd
      rw [commit_prologue_submitted, htr] at hd
      cases hd
  obtain ⟨_, hm⟩ := commit_loop_marked env false _ _ s2 hinit g1
  obtain ⟨⟨C, hC, hCc⟩, _⟩ := commit_after_loop_commit_only env s2
  have himg : (submitted (commit_after_loop env s2).trace).map log_image =
      pair_images s0.journal s0.journal.j_head s0.t_buffers ++
        [((log_next s0.journal)^[10] s0.journal.j_head, block_kind.commit)] := by
    rw [commit_after_loop_ok env s2 hok g4, g2, g3, commit_prologue_submitted, htr, hnext, phead,
      pair_images_congr _ _ hcfg.2.2.2.2.2.2.2.2.2.2.2.2.1 hcfg.2.2.2.2.2.2.2.2.2.2.2.2.2.1, hlen]
    simp [submitted]
  obtain ⟨q1, q2⟩ := pair_images_descriptors s0.journal s0.t_buffers s0.journal.j_head
  refine ⟨commit_after_loop env s2, ?_, himg, ?_, ?_⟩
  · unfold jbd2_journal_commit_transaction
    simp only [g1]
  · rw [filter_descriptor_length, himg, List.filter_append, List.length_append, q1, hlen]
    simp [is_descriptor_kind]
  · intro d hd hdesc
    constructor
    · have hmem : log_image d ∈ (submitted (commit_after_loop env s2).trace).map log_image :=
        List.mem_map_of_mem log_image hd
      rw [himg] at hmem
      have hk := kind_of_descriptor d hdesc
      rcases List.mem_append.mp hmem with h1 | h2
      · exact q2 _ h1 _ hk
      · simp only [List.mem_singleton] at h2
        rw [h2] at hk
        cases hk
    · rw [hC] at hd
      rcases List.mem_append.mp hd with hold | hnew
      · rcases hm d hold hdesc with hl | ⟨ha, _⟩
        · exact hl
        · rw [g4] at ha
          cases ha
      · rw [not_descriptor_of_commit d (hCc d hnew)] at hdesc
        cases hdesc

/-- C8, amended, at a concrete input: the sample transaction of five buffers
on a journal with `j_wbufsize` 2. -/
theorem scenario_b_five_descriptors_witness :
    ∃ s, jbd2_journal_commit_transaction sample_env batch_two_state = some s ∧
      ((submitted s.trace).filter is_descriptor).length = 5 := by
  obtain ⟨s, h1, _, h3, _⟩ := scenario_b_five_descriptors sample_env batch_two_state rfl rfl rfl
    ⟨fun _ => rfl, fun _ => rfl, fun _ => rfl, fun _ => rfl, fun _ => le_refl (0 : Int),
      fun _ => rfl, rfl⟩ rfl rfl
  exact ⟨s, h1, h3⟩

/-! ### C10: the checksum in the commit block -/

theorem commit_record_bh_csum (env : commit_env) (s : commit_state) (crc : Nat)
    (h : jbd2_has_feature_checksum s.journal = true) :
    ∃ hd, (commit_record_bh env s crc).b_data = block_data.commit hd ∧
      hd.h_chksum_type = JBD2_CRC32_CHKSUM ∧ hd.h_chksum_size = JBD2_CRC32_CHKSUM_SIZE ∧
      hd.h_chksum0 = cpu_to_be32 crc := by
  have hv : s.journal.j_csum = csum_version.v1 := by
    simpa [jbd2_has_feature_checksum] using h
  have h23 : jbd2_journal_has_csum_v2or3 s.journal = false := by
    simp [jbd2_journal_has_csum_v2or3, hv]
  unfold commit_record_bh jbd2_commit_block_csum_set
  simp only [h23, h, Bool.not_false, if_true]
  exact ⟨_, rfl, rfl, rfl, rfl⟩

theorem running_crc_append (env : commit_env) (l1 l2 : List buffer_head) :
    l2.foldl (jbd2_checksum_data env) (running_crc env l1) = running_crc env (l1 ++ l2) := by
  unfold running_crc
  rw [List.foldl_append]
  rfl

theorem crc_covers_frame (env : commit_env) (s x : commit_state)
    (hj : x.journal.j_csum = s.journal.j_csum) (hc : x.crc32_sum = s.crc32_sum)
    (ht : submitted x.trace = submitted s.trace) (h : crc_covers env s) : crc_covers env x := by
  obtain ⟨h1, h2⟩ := h
  refine ⟨?_, by rw [hc, ht, h2]⟩
  unfold jbd2_has_feature_checksum at h1 ⊢
  rw [hj]
  exact h1

theorem crc_covers_abort (env : commit_env) (s x : commit_state) (errno : Int)
    (hj : x.journal.j_csum = s.journal.j_csum) (hc : x.crc32_sum = s.crc32_sum)
    (ht : submitted x.trace = submitted s.trace) (h : crc_covers env s) :
    crc_covers env (jbd2_journal_abort x errno) := by
  refine crc_covers_frame env s _ hj hc ?_ h
  show submitted (x.trace ++ [event.jbd2_journal_abort errno]) = _
  rw [submitted_append, ht]
  simp [submitted]

theorem crc_covers_start_io (env : commit_env) (s : commit_state) (h : crc_covers env s) :
    crc_covers env (start_journal_io env s) := by
  obtain ⟨h1, h2⟩ := h
  have hf := start_journal_io_frame env s
  refine ⟨by rw [hf.2.1]; exact h1, ?_⟩
  rw [start_journal_io_submitted, ← running_crc_append, ← h2, start_journal_io_eq]
  simp only [h1, if_true]
  rfl

/-- One pass of the metadata loop keeps the running checksum in step with the
blocks submitted. -/
theorem commit_loop_iter_crc (env : commit_env) (barrier : Bool) (s : commit_state)
    (hne : s.t_buffers ≠ []) (h : crc_covers env s) :
    crc_covers env (commit_loop_iter env barrier s) := by
  cases hs : s.t_buffers with
  | nil => exact absurd hs hne
  | cons jh rest =>
    have hopen : ∀ s1, ((s.descriptor = true ∧ s1 = s) ∨
        (s.descriptor = false ∧ desc_alloc_ok env s = true ∧ s1 = open_descriptor s)) →
        crc_covers env s1 := by
      intro s1 h1
      rcases h1 with ⟨_, rfl⟩ | ⟨_, _, rfl⟩
      · exact h
      · exact crc_covers_frame env s _ rfl rfl rfl h
    apply commit_loop_iter_cases env barrier (fun x => crc_covers env x) s jh rest hs
    · intro _
      rw [loop_release_eq]
      have hrel : ∀ l : List journal_head, crc_covers env
          { s with t_buffers := l, trace := s.trace ++ release_events barrier [jh] } := by
        intro l
        refine crc_covers_frame env s _ rfl rfl ?_ h
        show submitted (s.trace ++ release_events barrier [jh]) = _
        rw [submitted_append, submitted_release_events, List.append_nil]
      by_cases hr : rest = []
      · rw [if_pos hr]
        exact crc_covers_start_io env _ (hrel [])
      · rw [if_neg hr]
        exact hrel rest
    · intro _ _ _
      exact crc_covers_abort env s (log_advance s) _ rfl rfl rfl h
    · intro _ s1 h1 _
      exact crc_covers_abort env s1 _ _ rfl rfl rfl (hopen s1 h1)
    · intro _ s1 h1 _ _
      exact crc_covers_abort env s1 _ _ rfl rfl rfl (hopen s1 h1)
    · intro _ s1 h1 _ _
      have hx : crc_covers env (loop_tag env (log_buffer s1 jh rest) jh (metadata_bh env s1 jh)
          (env.write_metadata_flags jh.b_blocknr)) := by
        rw [loop_tag_eq]
        exact crc_covers_frame env s1 _ rfl rfl rfl (hopen s1 h1)
      unfold loop_submit
      split_ifs
      · exact crc_covers_start_io env _ (crc_covers_frame env _ _ rfl rfl rfl hx)
      · exact hx

theorem commit_loop_crc (env : commit_env) (barrier : Bool) (fuel : Nat)
    (s s2 : commit_state) (h : crc_covers env s)
    (hl : commit_loop env barrier fuel s = some s2) : crc_covers env s2 :=
  commit_loop_rule env barrier (fun x => crc_covers env x)
    (fun x hx hne => commit_loop_iter_crc env barrier x hne hx) fuel s s2 h hl

theorem submitted_record_list_eq (env : commit_env) (a : commit_state) :
    ∀ bh ∈ submitted (if is_journal_aborted a.journal = true then []
      else if desc_alloc_ok env a = true then
        event.submit_bh (commit_record_flags a.journal) (commit_record_bh env a a.crc32_sum) ::
          (if env.submit_bh_ret ≠ 0 then [event.jbd2_journal_abort env.submit_bh_ret] else [])
      else [event.jbd2_journal_abort 1]), bh = commit_record_bh env a a.crc32_sum := by
  intro bh hbh
  by_cases h1 : is_journal_aborted a.journal = true
  · rw [if_pos h1] at hbh
    cases hbh
  · rw [if_neg h1] at hbh
    by_cases h2 : desc_alloc_ok env a = true
    · rw [if_pos h2] at hbh
      by_cases h3 : env.submit_bh_ret ≠ 0
      · rw [if_pos h3] at hbh
        simp [submitted] at hbh
        exact hbh
      · rw [if_neg h3] at hbh
        simp [submitted] at hbh
        exact hbh
    · rw [if_neg h2] at hbh
      simp [submitted] at hbh

/-- The blocks submitted behind the metadata loop are commit blocks built by
`journal_submit_commit_record` from the running checksum the loop has left. -/
theorem commit_after_loop_records (env : commit_env) (s : commit_state) :
    ∃ C, submitted (commit_after_loop env s).trace = submitted s.trace ++ C ∧
      ∀ bh ∈ C, ∃ a : commit_state, bh = commit_record_bh env a s.crc32_sum ∧
        a.journal.j_csum = s.journal.j_csum := by
  obtain ⟨d1, d2, _, _, d5, _⟩ := commit_dflush_head_facts env s
  obtain ⟨c1, _⟩ := submit_commit_record_step_facts env (commit_dflush_head env s)
  obtain ⟨w1, w2, _, w4, _⟩ := commit_wait_io_loud env (commit_dflush env s)
  obtain ⟨L, A, j1, j2, j3, _, _⟩ :=
    commit_jflush_loud env (commit_wait_io env (commit_dflush env s))
  obtain ⟨f1, _⟩ := commit_finish_facts env
    (commit_jflush env (commit_wait_io env (commit_dflush env s)))
  have hcs : (commit_dflush_head env s).journal.j_csum = s.journal.j_csum := by
    have := d2
    simp only [journal_config, Prod.mk.injEq] at this
    exact this.2.2.1
  have hasy : jbd2_has_feature_async_commit (commit_dflush_head env s).journal =
      jbd2_has_feature_async_commit s.journal := by
    have := d2
    simp only [journal_config, Prod.mk.injEq] at this
    exact this.2.2.2.1
  have hhead : submitted (commit_dflush_head env s).trace = submitted s.trace := by
    rw [← submitted_loud, d1]
    simp only [submitted_append, submitted_flush_list, submitted_abort_list,
      submitted_loud, List.append_nil]
    simp [submitted]
  by_cases hy : jbd2_has_feature_async_commit s.journal = true
  · -- asynchronous commit: the record is submitted in front of the waits
    have hdf : commit_dflush env s = submit_commit_record_step env (commit_dflush_head env s) := by
      unfold commit_dflush
      simp only [hasy, hy, if_true]
    have hyw : jbd2_has_feature_async_commit (commit_wait_io env (commit_dflush env s)).journal
        = true := by
      obtain ⟨_, c2, _⟩ := submit_commit_record_step_facts env (commit_dflush_head env s)
      have e1 := w2
      have e2 := c2
      rw [← hdf] at e2
      simp only [journal_config, Prod.mk.injEq] at e1 e2
      have e3 : jbd2_has_feature_async_commit
          (commit_wait_io env (commit_dflush env s)).journal =
          jbd2_has_feature_async_commit (commit_dflush env s).journal := e1.2.2.2.1
      have e4 : jbd2_has_feature_async_commit (commit_dflush env s).journal =
          jbd2_has_feature_async_commit (commit_dflush_head env s).journal := e2.2.2.2.1
      rw [e3, e4, hasy, hy]
    rw [if_pos hyw] at j2
    refine ⟨submitted (if is_journal_aborted (commit_dflush_head env s).journal = true then []
      else if desc_alloc_ok env (commit_dflush_head env s) = true then
        event.submit_bh (commit_record_flags (commit_dflush_head env s).journal)
            (commit_record_bh env (commit_dflush_head env s)
              (commit_dflush_head env s).crc32_sum) ::
          (if env.submit_bh_ret ≠ 0 then [event.jbd2_journal_abort env.submit_bh_ret] else [])
      else [event.jbd2_journal_abort 1]), ?_, ?_⟩
    · unfold commit_after_loop
      rw [← submitted_loud, f1, j1, w1, j2, hdf, c1]
      simp only [submitted_append, submitted_flush_list, submitted_abort_list,
        submitted_aborts A j3, submitted_loud, List.append_nil, hhead]
      simp [submitted]
    · intro bh hbh
      refine ⟨commit_dflush_head env s, ?_, hcs⟩
      rw [← d5]
      exact submitted_record_list_eq env (commit_dflush_head env s) bh hbh
  · -- the record is submitted behind the waits
    have hdf : commit_dflush env s = commit_dflush_head env s := by
      unfold commit_dflush
      simp only [hasy, hy, Bool.false_eq_true, if_false]
    have hyw : ¬ jbd2_has_feature_async_commit
        (commit_wait_io env (commit_dflush env s)).journal = true := by
      have e1 := w2
      simp only [journal_config, Prod.mk.injEq] at e1
      have e3 : jbd2_has_feature_async_commit
          (commit_wait_io env (commit_dflush env s)).journal =
          jbd2_has_feature_async_commit (commit_dflush env s).journal := e1.2.2.2.1
      rw [e3, hdf, hasy]
      exact hy
    rw [if_neg hyw] at j2
    refine ⟨submitted L, ?_, ?_⟩
    · unfold commit_after_loop
      rw [← submitted_loud, f1, j1, w1, hdf]
      simp only [submitted_append, submitted_flush_list, submitted_abort_list,
        submitted_aborts A j3, submitted_loud, List.append_nil, hhead]
      simp [submitted]
    · intro bh hbh
      rw [j2] at hbh
      refine ⟨commit_wait_io env (commit_dflush env s), ?_, ?_⟩
      · have hcrc : (commit_wait_io env (commit_dflush env s)).crc32_sum = s.crc32_sum := by
          rw [w4, hdf, d5]
        rw [← hcrc]
        exact submitted_record_list_eq env _ bh hbh
      · have e1 := w2
        simp only [journal_config, Prod.mk.injEq] at e1
        rw [e1.2.2.1, hdf, hcs]

/-- C10: with the checksum feature enabled, the commit block that
`journal_submit_commit_record` submits for the running checksum `crc` has
`h_chksum_type = JBD2_CRC32_CHKSUM`, `h_chksum_size = JBD2_CRC32_CHKSUM_SIZE`
and `h_chksum[0]` the big-endian encoding of `crc`; and in
`jbd2_journal_commit_transaction` every block submitted behind the metadata
loop is such a commit block for the value `crc32_be` folds, starting from `~0`,
over the blocks the metadata loop has submitted, in submission order. -/
theorem commit_record_checksum (env : commit_env) (s0 : commit_state)
    (htr : s0.trace = []) (hcs : jbd2_has_feature_checksum s0.journal = true) :
    (∀ crc, is_journal_aborted s0.journal = false → desc_alloc_ok env s0 = true →
      ∃ bh, (journal_submit_commit_record env s0 crc).1.cbh = some bh ∧
        submitted (journal_submit_commit_record env s0 crc).1.trace = [bh] ∧
        commit_chksum bh =
          some (JBD2_CRC32_CHKSUM, JBD2_CRC32_CHKSUM_SIZE, cpu_to_be32 crc)) ∧
    (∃ s2 s C, commit_loop env false (commit_loop_fuel (commit_prologue env s0))
        (commit_prologue env s0) = some s2 ∧
      jbd2_journal_commit_transaction env s0 = some s ∧
      submitted s.trace = submitted s2.trace ++ C ∧
      ∀ bh ∈ C, commit_chksum bh =
        some (JBD2_CRC32_CHKSUM, JBD2_CRC32_CHKSUM_SIZE,
          cpu_to_be32 (running_crc env (submitted s2.trace)))) := by
  have hfield : ∀ (a : commit_state) (crc : Nat), a.journal.j_csum = s0.journal.j_csum →
      commit_chksum (commit_record_bh env a crc) =
        some (JBD2_CRC32_CHKSUM, JBD2_CRC32_CHKSUM_SIZE, cpu_to_be32 crc) := by
    intro a crc ha
    have hfa : jbd2_has_feature_checksum a.journal = true := by
      unfold jbd2_has_feature_checksum at hcs ⊢
      rw [ha]
      exact hcs
    obtain ⟨hd, e1, e2, e3, e4⟩ := commit_record_bh_csum env a crc hfa
    unfold commit_chksum
    rw [e1]
    simp only [e2, e3, e4]
  constructor
  · intro crc hna hal
    refine ⟨commit_record_bh env s0 crc, ?_, ?_, hfield s0 crc rfl⟩
    · rw [journal_submit_commit_record_eq, hna, hal]
      rfl
    · rw [journal_submit_commit_record_eq, hna, hal]
      show submitted (s0.trace ++ _) = _
      rw [htr]
      rfl
  · obtain ⟨s2, h1, _, h3⟩ := commit_transaction_total env s0
    obtain ⟨p1, _, _, _, p5, _⟩ := commit_prologue_frame env s0
    have hcfg := p1
    simp only [journal_config, Prod.mk.injEq] at hcfg
    have hinit : crc_covers env (commit_prologue env s0) := by
      refine ⟨?_, ?_⟩
      · unfold jbd2_has_feature_checksum at hcs ⊢
        rw [hcfg.2.2.1]
        exact hcs
      · rw [p5, commit_prologue_submitted, htr]
        rfl
    obtain ⟨hf2, hcrc⟩ := commit_loop_crc env false _ _ s2 hinit h1
    obtain ⟨b1, _⟩ := commit_loop_basic env false _ _ s2 h1
    have hcfg2 := b1
    simp only [journal_config, Prod.mk.injEq] at hcfg2
    obtain ⟨C, hC, hCr⟩ := commit_after_loop_records env s2
    refine ⟨s2, commit_after_loop env s2, C, h1, h3, hC, ?_⟩
    intro bh hbh
    obtain ⟨a, rfl, ha⟩ := hCr bh hbh
    rw [hcrc]
    exact hfield a _ (by rw [ha, hcfg2.2.2.1, hcfg.2.2.1])

/-- C10 at a concrete input: the sample commit of three buffers on a journal
with the checksum feature submits one commit block, whose checksum fields hold
the checksum of the four blocks submitted before it. -/
theorem commit_record_checksum_witness :
    (∃ s2 s C, commit_loop sample_env false
        (commit_loop_fuel (commit_prologue sample_env
          (sample_state sample_journal [sample_jh 100, sample_jh 200, sample_jh 300])))
        (commit_prologue sample_env
          (sample_state sample_journal [sample_jh 100, sample_jh 200, sample_jh 300])) = some s2 ∧
      jbd2_journal_commit_transaction sample_env
        (sample_state sample_journal [sample_jh 100, sample_jh 200, sample_jh 300]) = some s ∧
      submitted s.trace = submitted s2.trace ++ C ∧
      ∀ bh ∈ C, commit_chksum bh =
        some (JBD2_CRC32_CHKSUM, JBD2_CRC32_CHKSUM_SIZE,
          cpu_to_be32 (running_crc sample_env (submitted s2.trace)))) ∧
    (jbd2_journal_commit_transaction sample_env
        (sample_state sample_journal [sample_jh 100, sample_jh 200, sample_jh 300])).map
      (fun s => ((submitted s.trace).filter is_commit).map commit_chksum ==
        [some (JBD2_CRC32_CHKSUM, JBD2_CRC32_CHKSUM_SIZE,
          cpu_to_be32 (running_crc sample_env
            ((submitted s.trace).filter (fun bh => !is_commit bh))))]) = some true :=
  ⟨(commit_record_checksum sample_env
    (sample_state sample_journal [sample_jh 100, sample_jh 200, sample_jh 300]) rfl rfl).2,
    by decide⟩

/-! ### C11, C12: the fields of a block tag -/

theorem be32_roundtrip (x : Nat) : be32_to_cpu (cpu_to_be32 x) = x % 4294967296 := by
  unfold be32_to_cpu cpu_to_be32
  simp only []
  omega

theorem be16_roundtrip (x : Nat) : be16_to_cpu (cpu_to_be16 x) = x % 65536 := by
  unfold be16_to_cpu cpu_to_be16
  simp only []
  omega

/-- C11: `jbd2_block_tag_csum_set`.  Without checksum v2 or v3 the tag is left
unchanged.  With v2 or v3 only `t_checksum` is written: the checksum is
`jbd2_chksum`, seeded with `j_csum_seed`, taken over the four bytes of the
big-endian sequence number and continued over the bytes of the block (which,
for a checksum that can be computed piece by piece, is the checksum of the
sequence bytes followed by the block bytes); with v3 the 32-bit value is stored
big-endian, otherwise its low 16 bits are, so that the v2 value is the v3
value modulo 2^16. -/
theorem block_tag_csum_set_spec (env : commit_env) (j : journal_t) (tag : journal_block_tag_t)
    (bh : buffer_head) (sequence : Nat) :
    (jbd2_journal_has_csum_v2or3 j = false →
      jbd2_block_tag_csum_set env j tag bh sequence = tag) ∧
    (jbd2_journal_has_csum_v2or3 j = true →
      jbd2_block_tag_csum_set env j tag bh sequence =
        { tag with t_checksum :=
          if jbd2_has_feature_csum3 j = true then
            cpu_to_be32 (env.jbd2_chksum (env.jbd2_chksum j.j_csum_seed (cpu_to_be32 sequence))
              (env.block_bytes bh))
          else
            cpu_to_be16 (env.jbd2_chksum (env.jbd2_chksum j.j_csum_seed (cpu_to_be32 sequence))
              (env.block_bytes bh)) }) ∧
    (cpu_to_be32 sequence).length = 4 ∧
    ((∀ c a b, env.jbd2_chksum (env.jbd2_chksum c a) b = env.jbd2_chksum c (a ++ b)) →
      env.jbd2_chksum (env.jbd2_chksum j.j_csum_seed (cpu_to_be32 sequence)) (env.block_bytes bh)
        = env.jbd2_chksum j.j_csum_seed (cpu_to_be32 sequence ++ env.block_bytes bh)) ∧
    (∀ c, be32_to_cpu (cpu_to_be32 c) = c % 4294967296 ∧
      be16_to_cpu (cpu_to_be16 c) = c % 65536 ∧
      be16_to_cpu (cpu_to_be16 c) = be32_to_cpu (cpu_to_be32 c) % 65536) := by
  refine ⟨?_, ?_, rfl, fun h => h _ _ _, ?_⟩
  · intro h
    unfold jbd2_block_tag_csum_set
    simp [h]
  · intro h
    unfold jbd2_block_tag_csum_set
    simp only [h, Bool.not_true, Bool.false_eq_true, if_false]
    split_ifs <;> rfl
  · intro c
    refine ⟨be32_roundtrip c, be16_roundtrip c, ?_⟩
    rw [be32_roundtrip, be16_roundtrip]
    omega

/-- C11 at a concrete input: the tag checksum of the sample block on a journal
with checksum v3, for the sequence number 42. -/
theorem block_tag_csum_set_spec_witness :
    (jbd2_block_tag_csum_set chained_env csum3_journal sample_env.blank_tag sample_bh 42).t_checksum
      = cpu_to_be32 (chained_env.jbd2_chksum 99 ([0, 0, 0, 42] ++ chained_env.block_bytes sample_bh))
      := by
  have h := block_tag_csum_set_spec chained_env csum3_journal sample_env.blank_tag sample_bh 42
  exact (congrArg journal_block_tag_t.t_checksum (h.2.1 rfl)).trans (by decide)

/-- C12: `write_tag_block` round trip.  For a block number `b` below 2^64:
with the 64-bit feature the two decoded fields give `b` back,
`t_blocknr_high * 2^32 + t_blocknr = b`, and the double shift `(b >> 31) >> 1`
is `b >> 32`; without the feature `t_blocknr` holds `b mod 2^32` and
`t_blocknr_high` is not written.  The other fields of the tag are not
touched. -/
theorem write_tag_block_roundtrip (j : journal_t) (tag : journal_block_tag_t) (b : Nat)
    (hb : b < 18446744073709551616) :
    (jbd2_has_feature_64bit j = true →
      be32_to_cpu (write_tag_block j tag b).t_blocknr_high * 4294967296 +
        be32_to_cpu (write_tag_block j tag b).t_blocknr = b) ∧
    (b >>> 31) >>> 1 = b >>> 32 ∧
    (jbd2_has_feature_64bit j = false →
      be32_to_cpu (write_tag_block j tag b).t_blocknr = b % 4294967296 ∧
      (write_tag_block j tag b).t_blocknr_high = tag.t_blocknr_high) ∧
    (write_tag_block j tag b).t_flags = tag.t_flags ∧
    (write_tag_block j tag b).t_checksum = tag.t_checksum ∧
    (write_tag_block j tag b).uuid = tag.uuid := by
  have hand : b &&& 4294967295 = b % 4294967296 := by
    have := Nat.and_pow_two_sub_one_eq_mod b 32
    simpa using this
  have hshift : (b >>> 31) >>> 1 = b / 4294967296 := by
    rw [← Nat.shiftRight_add, Nat.shiftRight_eq_div_pow]
  refine ⟨?_, by rw [← Nat.shiftRight_add], ?_, ?_, ?_, ?_⟩
  · intro h
    unfold write_tag_block
    simp only [h, if_true, be32_roundtrip, hand, hshift]
    omega
  · intro h
    unfold write_tag_block
    simp only [h, Bool.false_eq_true, if_false, be32_roundtrip, hand]
    refine ⟨by omega, ?_⟩
    trivial
  · unfold write_tag_block
    split_ifs <;> rfl
  · unfold write_tag_block
    split_ifs <;> rfl
  · unfold write_tag_block
    split_ifs <;> rfl

/-- C12 at a concrete input: the block number 2^40 + 7 on a journal with the
64-bit feature. -/
theorem write_tag_block_roundtrip_witness :
    be32_to_cpu (write_tag_block { sample_journal with feature_64bit := true }
        sample_env.blank_tag 1099511627783).t_blocknr_high * 4294967296 +
      be32_to_cpu (write_tag_block { sample_journal with feature_64bit := true }
        sample_env.blank_tag 1099511627783).t_blocknr = 1099511627783 :=
  (write_tag_block_roundtrip { sample_journal with feature_64bit := true }
    sample_env.blank_tag 1099511627783 (by decide)).1 rfl

/-! ### C13: the flags and the UUID of the tags -/

theorem loop_make_tag_fields (env : commit_env) (s : commit_state) (jh : journal_head)
    (new_bh : buffer_head) (flags : Int) :
    (loop_make_tag env s jh new_bh flags).t_flags =
      cpu_to_be16 ((if flags % 2 = 1 then JBD2_FLAG_ESCAPE else 0) |||
        (if (!s.first_tag) = true then JBD2_FLAG_SAME_UUID else 0)) ∧
    (loop_make_tag env s jh new_bh flags).uuid =
      (if s.first_tag = true then some s.journal.j_uuid else none) := by
  unfold loop_make_tag jbd2_block_tag_csum_set write_tag_block
  simp only []
  constructor
  · split_ifs <;> rfl
  · split_ifs <;> rfl

/-- The flags of the tag the loop writes for a buffer. -/
theorem loop_make_tag_flags (env : commit_env) (s : commit_state) (jh : journal_head)
    (new_bh : buffer_head) (flags : Int) :
    (tag_has_flag JBD2_FLAG_ESCAPE (loop_make_tag env s jh new_bh flags) = true ↔
      flags % 2 = 1) ∧
    tag_has_flag JBD2_FLAG_SAME_UUID (loop_make_tag env s jh new_bh flags) = !s.first_tag ∧
    tag_has_flag JBD2_FLAG_LAST_TAG (loop_make_tag env s jh new_bh flags) = false := by
  obtain ⟨h1, _⟩ := loop_make_tag_fields env s jh new_bh flags
  unfold tag_has_flag
  rw [h1]
  by_cases hf : flags % 2 = 1 <;> cases hs : s.first_tag <;> simp [hf] <;> decide

theorem tag_has_flag_mark (flag : Nat) (hflag : flag = 1 ∨ flag = 2) (t : journal_block_tag_t)
    (h : fresh_flags t) :
    tag_has_flag flag { t with t_flags := be_or t.t_flags (cpu_to_be16 JBD2_FLAG_LAST_TAG) } =
      tag_has_flag flag t := by
  obtain ⟨f, hf, he⟩ := h
  unfold tag_has_flag
  simp only [he]
  rcases hflag with rfl | rfl <;> interval_cases f <;> decide

theorem tag_matches_mark (env : commit_env) (uuid : List Nat) (first : Bool)
    (t : journal_block_tag_t) (m : buffer_head) (h : tag_matches env uuid first t m)
    (hf : fresh_flags t) :
    tag_matches env uuid first
      { t with t_flags := be_or t.t_flags (cpu_to_be16 JBD2_FLAG_LAST_TAG) } m := by
  obtain ⟨jh, h1, h2, h3, h4⟩ := h
  refine ⟨jh, h1, ?_, ?_, h4⟩
  · rw [tag_has_flag_mark JBD2_FLAG_ESCAPE (Or.inl rfl) t hf]
    exact h2
  · rw [tag_has_flag_mark JBD2_FLAG_SAME_UUID (Or.inr rfl) t hf]
    exact h3

theorem tags_match_mark (env : commit_env) (uuid : List Nat) :
    ∀ (ts : List journal_block_tag_t) (first : Bool) (ms : List buffer_head),
      tags_match env uuid first ts ms → (∀ t ∈ ts, fresh_flags t) →
      tags_match env uuid first (mark_last_tag ts) ms := by
  intro ts
  induction ts with
  | nil => intro first ms h _; exact h
  | cons t rest ih =>
    intro first ms h hf
    cases ms with
    | nil => exact absurd h (by simp [tags_match])
    | cons m ms =>
      obtain ⟨h1, h2⟩ := h
      cases rest with
      | nil =>
        exact ⟨tag_matches_mark env uuid first t m h1 (hf t (List.mem_cons_self t [])), h2⟩
      | cons t2 r =>
        exact ⟨h1, ih false ms h2 (fun x hx => hf x (List.mem_cons_of_mem t hx))⟩

theorem tags_match_snoc (env : commit_env) (uuid : List Nat) (t : journal_block_tag_t)
    (m : buffer_head) :
    ∀ (ts : List journal_block_tag_t) (first : Bool) (ms : List buffer_head),
      tags_match env uuid first ts ms →
      (ts = [] → tag_matches env uuid first t m) →
      (ts ≠ [] → tag_matches env uuid false t m) →
      tags_match env uuid first (ts ++ [t]) (ms ++ [m]) := by
  intro ts
  induction ts with
  | nil =>
    intro first ms h h1 _
    cases ms with
    | nil => exact ⟨h1 rfl, trivial⟩
    | cons b ms => exact absurd h (by simp [tags_match])
  | cons a r ih =>
    intro first ms h _ h2
    cases ms with
    | nil => exact absurd h (by simp [tags_match])
    | cons b ms =>
      obtain ⟨g1, g2⟩ := h
      have ht := h2 (by simp)
      exact ⟨g1, ih false ms g2 (fun _ => ht) (fun _ => ht)⟩

theorem log_batches_append (env : commit_env) (uuid : List Nat) (l1 l2 : List buffer_head)
    (h1 : log_batches env uuid l1) (h2 : log_batches env uuid l2) :
    log_batches env uuid (l1 ++ l2) := by
  induction h1 with
  | nil => exact h2
  | batch d ms rest hd hm _ ih =>
    have : d :: ms ++ rest ++ l2 = d :: ms ++ (rest ++ l2) := by simp
    rw [this]
    exact log_batches.batch d ms (rest ++ l2) hd hm ih

/-- A step that leaves `wbuf`, the open descriptor, `first_tag`, the UUID and
the submitted blocks alone keeps the state of the tags. -/
theorem tags_inv_frame (env : commit_env) (uuid : List Nat) (s x : commit_state)
    (hj : x.journal.j_uuid = s.journal.j_uuid) (hw : x.wbuf = s.wbuf)
    (hd : x.descriptor = s.descriptor) (hf : x.first_tag = s.first_tag)
    (ht : submitted x.trace = submitted s.trace) (h : tags_inv env uuid s) :
    tags_inv env uuid x := by
  obtain ⟨h1, h2, h3, h4⟩ := h
  refine ⟨hj.trans h1, ?_, ?_, by rw [ht]; exact h4⟩
  · intro h0
    rw [hw]
    exact h2 (hd ▸ h0)
  · intro h0
    rw [hw, hf]
    exact h3 (hd ▸ h0)

theorem tags_inv_abort (env : commit_env) (uuid : List Nat) (s x : commit_state) (errno : Int)
    (hj : x.journal.j_uuid = s.journal.j_uuid) (hw : x.wbuf = s.wbuf)
    (hd : x.descriptor = s.descriptor) (hf : x.first_tag = s.first_tag)
    (ht : submitted x.trace = submitted s.trace) (h : tags_inv env uuid s) :
    tags_inv env uuid (jbd2_journal_abort x errno) := by
  refine tags_inv_frame env uuid s _ hj hw hd hf ?_ h
  show submitted (x.trace ++ [event.jbd2_journal_abort errno]) = _
  rw [submitted_append, ht]
  simp [submitted]

/-- The code at `start_journal_io` submits a batch: the open descriptor, if
there is one, and the blocks its tags describe. -/
theorem tags_inv_start_io (env : commit_env) (uuid : List Nat) (s : commit_state)
    (hj : s.journal.j_uuid = uuid) (hw : s.descriptor = false → s.wbuf = [])
    (hd : s.descriptor = true → ∃ d ms, s.wbuf = d :: ms ∧ is_descriptor d = true ∧
      tags_match env uuid true (tags_of d) ms)
    (hb : log_batches env uuid (submitted s.trace)) :
    tags_inv env uuid (start_journal_io env s) := by
  have hf := start_journal_io_frame env s
  refine ⟨by rw [hf.2.1]; exact hj, fun _ => hf.2.2.2.2.2.2.1, fun h1 => ?_, ?_⟩
  · rw [hf.2.2.2.2.2.2.2] at h1
    cases h1
  · rw [start_journal_io_submitted]
    apply log_batches_append env uuid _ _ hb
    unfold staged
    by_cases hdsc : s.descriptor = true
    · obtain ⟨d, ms, hwb, hd0, hm⟩ := hd hdsc
      rw [if_pos hdsc, hwb]
      simp only [on_descriptor]
      have := log_batches.batch (jbd2_descriptor_block_csum_set env s.journal d) ms []
        (by rw [(tags_of_descriptor_csum env s.journal d).2]; exact hd0)
        (by rw [(tags_of_descriptor_csum env s.journal d).1]; exact hm)
        (log_batches.nil)
      simpa using this
    · have hd0 : s.descriptor = false := by simpa using hdsc
      rw [if_neg hdsc, hw hd0]
      exact log_batches.nil

theorem tags_inv_open (env : commit_env) (uuid : List Nat) (s : commit_state)
    (hd : s.descriptor = false) (h : tags_inv env uuid s) :
    tags_inv env uuid (open_descriptor s) := by
  obtain ⟨h1, h2, _, h4⟩ := h
  refine ⟨h1, fun h0 => (by cases h0), fun _ => ?_, h4⟩
  refine ⟨fresh_descriptor s, [], ?_, rfl, trivial, ?_, ?_⟩
  · show s.wbuf ++ [fresh_descriptor s] = _
    rw [h2 hd]
    rfl
  · intro t ht
    cases ht
  · exact ⟨fun _ => rfl, fun _ => rfl⟩

/-- Logging one buffer: its tag is appended to the open descriptor and
describes the copy staged behind it. -/
theorem tags_inv_logged (env : commit_env) (uuid : List Nat) (s1 : commit_state)
    (jh : journal_head) (rest : List journal_head) (hd : s1.descriptor = true)
    (h : tags_inv env uuid s1) :
    tags_inv env uuid (loop_submit env (loop_tag env (log_buffer s1 jh rest) jh
      (metadata_bh env s1 jh) (env.write_metadata_flags jh.b_blocknr))) := by
  obtain ⟨hj, _, h3, hb⟩ := h
  obtain ⟨d0, ms, hwb, hd0, hm, hfresh, hfirst⟩ := h3 hd
  obtain ⟨tf1, tf2⟩ := loop_make_tag_fields env (log_buffer s1 jh rest) jh
    (metadata_bh env s1 jh) (env.write_metadata_flags jh.b_blocknr)
  obtain ⟨fl1, fl2, _⟩ := loop_make_tag_flags env (log_buffer s1 jh rest) jh
    (metadata_bh env s1 jh) (env.write_metadata_flags jh.b_blocknr)
  have htag := loop_make_tag_fresh env (log_buffer s1 jh rest) jh (metadata_bh env s1 jh)
    (env.write_metadata_flags jh.b_blocknr)
  generalize htg : loop_make_tag env (log_buffer s1 jh rest) jh (metadata_bh env s1 jh)
    (env.write_metadata_flags jh.b_blocknr) = tag at tf1 tf2 fl1 fl2 htag
  have hmatch : ∀ first : Bool, s1.first_tag = first →
      tag_matches env uuid first tag (metadata_bh env s1 jh) := by
    intro first hfe
    refine ⟨jh, rfl, fl1, ?_, ?_⟩
    · rw [fl2]
      show (!s1.first_tag) = _
      rw [hfe]
    · rw [tf2]
      show (if s1.first_tag = true then some s1.journal.j_uuid else none) = _
      rw [hfe, hj]
  generalize hx : loop_tag env (log_buffer s1 jh rest) jh (metadata_bh env s1 jh)
    (env.write_metadata_flags jh.b_blocknr) = x
  have hxeq := hx
  rw [loop_tag_eq, htg] at hxeq
  have x_j : x.journal.j_uuid = uuid := by rw [← hxeq]; exact hj
  have x_d : x.descriptor = true := by rw [← hxeq]; exact hd
  have x_f : x.first_tag = false := by rw [← hxeq]
  have x_tr : x.trace = s1.trace := by rw [← hxeq]; rfl
  have x_w : x.wbuf = descriptor_add_tag tag d0 :: (ms ++ [metadata_bh env s1 jh]) := by
    rw [← hxeq]
    show on_descriptor _ s1.wbuf ++ _ = _
    rw [hwb]
    rfl
  obtain ⟨ht1, ht2⟩ := tags_of_add_tag tag d0 hd0
  have hm2 : tags_match env uuid true (tags_of (descriptor_add_tag tag d0))
      (ms ++ [metadata_bh env s1 jh]) := by
    rw [ht1]
    apply tags_match_snoc env uuid tag _ _ true ms hm
    · intro he
      exact hmatch true (hfirst.mpr he)
    · intro hne
      refine hmatch false ?_
      cases hft : s1.first_tag with
      | false => rfl
      | true => exact absurd (hfirst.mp hft) hne
  have hfresh2 : ∀ t ∈ tags_of (descriptor_add_tag tag d0), fresh_flags t := by
    intro t ht
    rw [ht1] at ht
    rcases List.mem_append.mp ht with h1 | h2
    · exact hfresh t h1
    · simp only [List.mem_singleton] at h2
      rw [h2]
      exact htag
  unfold loop_submit
  by_cases hfull : loop_batch_full x = true
  · rw [if_pos hfull]
    refine tags_inv_start_io env uuid
      { x with wbuf := on_descriptor descriptor_mark_last x.wbuf } x_j ?_ ?_ ?_
    · intro h0
      have h1 : x.descriptor = false := h0
      rw [x_d] at h1
      cases h1
    · intro _
      refine ⟨descriptor_mark_last (descriptor_add_tag tag d0), ms ++ [metadata_bh env s1 jh],
        ?_, (tags_of_mark_last _ ht2).2, ?_⟩
      · show on_descriptor descriptor_mark_last x.wbuf = _
        rw [x_w]
        rfl
      · rw [(tags_of_mark_last _ ht2).1]
        exact tags_match_mark env uuid _ true _ hm2 hfresh2
    · show log_batches env uuid (submitted x.trace)
      rw [x_tr]
      exact hb
  · rw [if_neg hfull]
    refine ⟨x_j, fun h0 => ?_, fun _ => ⟨_, _, x_w, ht2, hm2, hfresh2, ?_⟩, ?_⟩
    · rw [x_d] at h0
      cases h0
    · rw [x_f, ht1]
      constructor
      · intro h0
        cases h0
      · intro h0
        simp at h0
    · rw [x_tr]
      exact hb

/-- One pass of the metadata loop keeps the state of the tags. -/
theorem commit_loop_iter_tags (env : commit_env) (barrier : Bool) (uuid : List Nat)
    (s : commit_state) (hne : s.t_buffers ≠ []) (h : tags_inv env uuid s) :
    tags_inv env uuid (commit_loop_iter env barrier s) := by
  cases hs : s.t_buffers with
  | nil => exact absurd hs hne
  | cons jh rest =>
    have hopen : ∀ s1, ((s.descriptor = true ∧ s1 = s) ∨
        (s.descriptor = false ∧ desc_alloc_ok env s = true ∧ s1 = open_descriptor s)) →
        tags_inv env uuid s1 ∧ s1.descriptor = true := by
      intro s1 h1
      rcases h1 with ⟨hd, rfl⟩ | ⟨hd, _, rfl⟩
      · exact ⟨h, hd⟩
      · exact ⟨tags_inv_open env uuid s hd h, rfl⟩
    apply commit_loop_iter_cases env barrier (fun x => tags_inv env uuid x) s jh rest hs
    · intro _
      rw [loop_release_eq]
      have hrel : ∀ l : List journal_head, tags_inv env uuid
          { s with t_buffers := l, trace := s.trace ++ release_events barrier [jh] } := by
        intro l
        refine tags_inv_frame env uuid s _ rfl rfl rfl rfl ?_ h
        show submitted (s.trace ++ release_events barrier [jh]) = _
        rw [submitted_append, submitted_release_events, List.append_nil]
      by_cases hr : rest = []
      · rw [if_pos hr]
        obtain ⟨r1, r2, r3, r4⟩ := hrel []
        exact tags_inv_start_io env uuid _ r1 r2
          (fun h0 => by
            obtain ⟨d, ms, e1, e2, e3, _⟩ := r3 h0
            exact ⟨d, ms, e1, e2, e3⟩) r4
      · rw [if_neg hr]
        exact hrel rest
    · intro _ _ _
      exact tags_inv_abort env uuid s (log_advance s) _ rfl rfl rfl rfl rfl h
    · intro _ s1 h1 _
      exact tags_inv_abort env uuid s1 _ _ rfl rfl rfl rfl rfl (hopen s1 h1).1
    · intro _ s1 h1 _ _
      exact tags_inv_abort env uuid s1 _ _ rfl rfl rfl rfl rfl (hopen s1 h1).1
    · intro _ s1 h1 _ _
      obtain ⟨hi, hd⟩ := hopen s1 h1
      exact tags_inv_logged env uuid s1 jh rest hd hi

theorem commit_loop_tags (env : commit_env) (barrier : Bool) (uuid : List Nat) (fuel : Nat)
    (s s2 : commit_state) (h : tags_inv env uuid s)
    (hl : commit_loop env barrier fuel s = some s2) : tags_inv env uuid s2 :=
  commit_loop_rule env barrier (fun x => tags_inv env uuid x)
    (fun x hx hne => commit_loop_iter_tags env barrier uuid x hne hx) fuel s s2 h hl

theorem tags_match_later (env : commit_env) (uuid : List Nat) :
    ∀ (ts : List journal_block_tag_t) (ms : List buffer_head),
      tags_match env uuid false ts ms →
      ∀ r ∈ ts, tag_has_flag JBD2_FLAG_SAME_UUID r = true ∧ r.uuid = none := by
  intro ts
  induction ts with
  | nil => intro ms _ r hr; cases hr
  | cons t rest ih =>
    intro ms h r hr
    cases ms with
    | nil => exact absurd h (by simp [tags_match])
    | cons m ms =>
      obtain ⟨⟨_, _, _, h3, h4⟩, h2⟩ := h
      rcases List.mem_cons.mp hr with rfl | hr2
      · exact ⟨h3, h4⟩
      · exact ih ms h2 r hr2

theorem tags_match_shape (env : commit_env) (uuid : List Nat) (ts : List journal_block_tag_t)
    (ms : List buffer_head) (h : tags_match env uuid true ts ms) : uuid_shape uuid ts := by
  cases ts with
  | nil => trivial
  | cons t rest =>
    cases ms with
    | nil => exact absurd h (by simp [tags_match])
    | cons m ms =>
      obtain ⟨⟨_, _, _, h3, h4⟩, h2⟩ := h
      exact ⟨h3, h4, tags_match_later env uuid rest ms h2⟩

theorem tags_match_metadata (env : commit_env) (uuid : List Nat) :
    ∀ (ts : List journal_block_tag_t) (first : Bool) (ms : List buffer_head),
      tags_match env uuid first ts ms → ∀ m ∈ ms, is_descriptor m = false := by
  intro ts
  induction ts with
  | nil =>
    intro first ms h m hm
    cases ms with
    | nil => cases hm
    | cons b ms => exact absurd h (by simp [tags_match])
  | cons t rest ih =>
    intro first ms h m hm
    cases ms with
    | nil => cases hm
    | cons b ms =>
      obtain ⟨⟨jh, h1, _⟩, h2⟩ := h
      rcases List.mem_cons.mp hm with rfl | hm2
      · unfold is_descriptor
        rw [h1]
      · exact ih false ms h2 m hm2

theorem log_batches_shape (env : commit_env) (uuid : List Nat) (l : List buffer_head)
    (h : log_batches env uuid l) :
    ∀ d ∈ l, is_descriptor d = true → uuid_shape uuid (tags_of d) := by
  induction h with
  | nil => intro d hd; cases hd
  | batch d0 ms rest hd0 hm _ ih =>
    intro d hd hdesc
    rcases List.mem_cons.mp hd with rfl | hd2
    · exact tags_match_shape env uuid _ ms hm
    · rcases List.mem_append.mp hd2 with h1 | h2
      · rw [tags_match_metadata env uuid _ true ms hm d h1] at hdesc
        cases hdesc
      · exact ih d h2 hdesc

/-- C13: the flags and the UUID of the tags.  The tag the metadata loop writes
for a buffer has `JBD2_FLAG_ESCAPE` set exactly when bit 0 of the result of
`jbd2_journal_write_metadata_buffer` is set, has `JBD2_FLAG_SAME_UUID` set
exactly when it is not the first tag of its descriptor, and is followed by the
journal UUID exactly when it is the first.  In every run of
`jbd2_journal_commit_transaction` the blocks submitted by the metadata loop
are batches of a descriptor block and the blocks its tags describe in this way,
one by one; so in every descriptor block submitted the first tag has
`JBD2_FLAG_SAME_UUID` clear and carries `j_uuid`, and every later tag has the
flag set and carries no UUID. -/
theorem tag_flags_and_uuid (env : commit_env) (s0 : commit_state) (htr : s0.trace = []) :
    (∀ (s : commit_state) (jh : journal_head) (new_bh : buffer_head) (flags : Int),
      (tag_has_flag JBD2_FLAG_ESCAPE (loop_make_tag env s jh new_bh flags) = true ↔
        flags % 2 = 1) ∧
      tag_has_flag JBD2_FLAG_SAME_UUID (loop_make_tag env s jh new_bh flags) = !s.first_tag ∧
      (loop_make_tag env s jh new_bh flags).uuid =
        (if s.first_tag = true then some s.journal.j_uuid else none)) ∧
    (∃ s L C, jbd2_journal_commit_transaction env s0 = some s ∧
      submitted s.trace = L ++ C ∧ (∀ c ∈ C, is_commit c = true) ∧
      log_batches env s0.journal.j_uuid L ∧
      ∀ d ∈ submitted s.trace, is_descriptor d = true →
        uuid_shape s0.journal.j_uuid (tags_of d)) := by
  constructor
  · intro s jh new_bh flags
    obtain ⟨f1, f2, _⟩ := loop_make_tag_flags env s jh new_bh flags
    exact ⟨f1, f2, (loop_make_tag_fields env s jh new_bh flags).2⟩
  · obtain ⟨s2, h1, _, h3⟩ := commit_transaction_total env s0
    obtain ⟨p1, _, p3, p4, _⟩ := commit_prologue_frame env s0
    have hcfg := p1
    simp only [journal_config, Prod.mk.injEq] at hcfg
    have hinit : tags_inv env s0.journal.j_uuid (commit_prologue env s0) := by
      refine ⟨hcfg.2.2.2.2.2.2.2.2.2.1, fun _ => p3, fun h => ?_, ?_⟩
      · rw [p4] at h
        cases h
      · rw [commit_prologue_submitted, htr]
        exact log_batches.nil
    obtain ⟨_, _, _, hb⟩ := commit_loop_tags env false _ _ _ s2 hinit h1
    obtain ⟨⟨C, hC, hCc⟩, _⟩ := commit_after_loop_commit_only env s2
    refine ⟨commit_after_loop env s2, submitted s2.trace, C, h3, hC, hCc, hb, ?_⟩
    intro d hd hdesc
    rw [hC] at hd
    rcases List.mem_append.mp hd with hold | hnew
    · exact log_batches_shape env _ _ hb d hold hdesc
    · rw [not_descriptor_of_commit d (hCc d hnew)] at hdesc
      cases hdesc

/-- C13 at a concrete input: the sample commit of three buffers. -/
theorem tag_flags_and_uuid_witness :
    (∃ s, jbd2_journal_commit_transaction sample_env
        (sample_state sample_journal [sample_jh 100, sample_jh 200, sample_jh 300]) = some s ∧
      ∀ d ∈ submitted s.trace, is_descriptor d = true →
        uuid_shape sample_journal.j_uuid (tags_of d)) ∧
    (jbd2_journal_commit_transaction sample_env
        (sample_state sample_journal [sample_jh 100, sample_jh 200, sample_jh 300])).map
      (fun s => ((submitted s.trace).filter is_descriptor).map (fun d => (tags_of d).map
        (fun t => (tag_has_flag JBD2_FLAG_SAME_UUID t, t.uuid.isSome,
          tag_has_flag JBD2_FLAG_ESCAPE t)))) =
      some [[(false, true, false), (true, false, false), (true, false, false)]] := by
  obtain ⟨s, L, C, h1, _, _, _, h5⟩ := (tag_flags_and_uuid sample_env
    (sample_state sample_journal [sample_jh 100, sample_jh 200, sample_jh 300]) rfl).2
  exact ⟨⟨s, h1, h5⟩, by decide⟩

/-! ### C14: the credit counter -/

theorem credits_inv_abort (c0 : Int) (n0 : Nat) (x : commit_state) (errno : Int)
    (h1 : x.t_outstanding_credits ≤ c0) (h2 : c0 - (n0 : Int) ≤ x.t_outstanding_credits) :
    credits_inv c0 n0 (jbd2_journal_abort x errno) := by
  refine ⟨h1, fun h => ?_, fun _ => h2⟩
  have h0 : true = false := h
  cases h0

/-- One pass of the metadata loop takes at most one credit, and none once the
journal is aborted. -/
theorem commit_loop_iter_credits (env : commit_env) (barrier : Bool) (c0 : Int) (n0 : Nat)
    (s : commit_state) (hne : s.t_buffers ≠ []) (h : credits_inv c0 n0 s) :
    credits_inv c0 n0 (commit_loop_iter env barrier s) := by
  obtain ⟨h1, h2, h3⟩ := h
  cases hs : s.t_buffers with
  | nil => exact absurd hs hne
  | cons jh rest =>
    have hlen : (s.t_buffers.length : Int) = (rest.length : Int) + 1 := by
      rw [hs]
      simp
    have hopen : ∀ s1, ((s.descriptor = true ∧ s1 = s) ∨
        (s.descriptor = false ∧ desc_alloc_ok env s = true ∧ s1 = open_descriptor s)) →
        s1.t_outstanding_credits = s.t_outstanding_credits := by
      intro s1 h1
      rcases h1 with ⟨_, rfl⟩ | ⟨_, _, rfl⟩ <;> rfl
    apply commit_loop_iter_cases env barrier (fun x => credits_inv c0 n0 x) s jh rest hs
    · intro ha
      have hrel := loop_release_t_buffers env barrier s jh rest
      have hcr : (loop_release env barrier s jh rest).t_outstanding_credits =
          s.t_outstanding_credits := by
        rw [loop_release_eq]
        split_ifs
        · rw [(start_journal_io_frame env _).2.2.2.2.1]
        · rfl
      refine ⟨by rw [hcr]; exact h1, fun hf => ?_, fun _ => by rw [hcr]; exact h3 ha⟩
      rw [hrel.2, ha] at hf
      cases hf
    · intro ha _ _
      have := h2 ha
      exact credits_inv_abort c0 n0 _ _ h1 (by
        show c0 - (n0 : Int) ≤ s.t_outstanding_credits
        omega)
    · intro ha s1 ho _
      have := h2 ha
      have e := hopen s1 ho
      exact credits_inv_abort c0 n0 _ _ (by show s1.t_outstanding_credits ≤ c0; rw [e]; exact h1)
        (by
          show c0 - (n0 : Int) ≤ s1.t_outstanding_credits
          rw [e]
          omega)
    · intro ha s1 ho _ _
      have := h2 ha
      have e := hopen s1 ho
      exact credits_inv_abort c0 n0 _ _
        (by show s1.t_outstanding_credits - 1 ≤ c0; rw [e]; omega)
        (by
          show c0 - (n0 : Int) ≤ s1.t_outstanding_credits - 1
          rw [e]
          omega)
    · intro ha s1 ho _ _
      have := h2 ha
      have e := hopen s1 ho
      have hf := loop_submit_frame env (loop_tag env (log_buffer s1 jh rest) jh
        (metadata_bh env s1 jh) (env.write_metadata_flags jh.b_blocknr))
      have hcr : (loop_submit env (loop_tag env (log_buffer s1 jh rest) jh
          (metadata_bh env s1 jh) (env.write_metadata_flags jh.b_blocknr))).t_outstanding_credits
          = s.t_outstanding_credits - 1 := by
        rw [hf.2.2.2.2.1, loop_tag_eq]
        show s1.t_outstanding_credits - 1 = _
        rw [e]
      have htb : (loop_submit env (loop_tag env (log_buffer s1 jh rest) jh
          (metadata_bh env s1 jh) (env.write_metadata_flags jh.b_blocknr))).t_buffers = rest := by
        rw [hf.1, loop_tag_eq]
        rfl
      have hjn : is_journal_aborted (loop_submit env (loop_tag env (log_buffer s1 jh rest) jh
          (metadata_bh env s1 jh) (env.write_metadata_flags jh.b_blocknr))).journal = false := by
        rw [hf.2.1, loop_tag_eq]
        show is_journal_aborted s1.journal = false
        rcases ho with ⟨_, rfl⟩ | ⟨_, _, rfl⟩
        · exact ha
        · exact ha
      refine ⟨by rw [hcr]; omega, fun _ => ?_, fun hab => ?_⟩
      · rw [hcr, htb]
        omega
      · rw [hjn] at hab
        cases hab

theorem commit_loop_credits (env : commit_env) (barrier : Bool) (c0 : Int) (n0 : Nat)
    (fuel : Nat) (s s2 : commit_state) (h : credits_inv c0 n0 s)
    (hl : commit_loop env barrier fuel s = some s2) : credits_inv c0 n0 s2 :=
  commit_loop_rule env barrier (fun x => credits_inv c0 n0 x)
    (fun x hx hne => commit_loop_iter_credits env barrier c0 n0 x hne hx) fuel s s2 h hl

theorem submit_commit_record_step_credits (env : commit_env) (s : commit_state) :
    (submit_commit_record_step env s).t_outstanding_credits = s.t_outstanding_credits := by
  rw [submit_commit_record_step_eq]
  split_ifs <;> rfl

theorem commit_dflush_credits (env : commit_env) (s : commit_state) :
    (commit_dflush env s).t_outstanding_credits = s.t_outstanding_credits := by
  have hh : (commit_dflush_head env s).t_outstanding_credits = s.t_outstanding_credits := by
    unfold commit_dflush_head
    simp only [log_tail_step_eq, finish_inode_data_step_eq, set_t_state, emit]
    split_ifs <;> rfl
  unfold commit_dflush
  simp only []
  split_ifs
  · rw [submit_commit_record_step_credits, hh]
  · exact hh

theorem commit_wait_io_credits (env : commit_env) (s : commit_state) :
    (commit_wait_io env s).t_outstanding_credits = s.t_outstanding_credits := by
  obtain ⟨io, lb, sh, fg, h⟩ := commit_wait_io_eq env s
  rw [h]

theorem commit_jflush_tail_credits (env : commit_env) (s : commit_state) :
    (commit_jflush_tail env s).t_outstanding_credits = s.t_outstanding_credits := by
  rw [commit_jflush_tail_eq]

theorem commit_jflush_credits (env : commit_env) (s : commit_state) :
    (commit_jflush env s).t_outstanding_credits = s.t_outstanding_credits := by
  unfold commit_jflush
  simp only []
  rw [commit_jflush_tail_credits]
  split_ifs
  · exact submit_commit_record_step_credits env _
  · rfl

theorem commit_finish_credits (env : commit_env) (s : commit_state) :
    (commit_finish env s).t_outstanding_credits = s.t_outstanding_credits := by
  obtain ⟨fg, cp, evs, h, _⟩ := forget_fold_eq s.t_forget s
  unfold commit_finish
  simp only [h, set_t_state, emit]
  split_ifs <;> rfl

theorem commit_after_loop_credits (env : commit_env) (s : commit_state) :
    (commit_after_loop env s).t_outstanding_credits = s.t_outstanding_credits := by
  unfold commit_after_loop
  rw [commit_finish_credits, commit_jflush_credits, commit_wait_io_credits,
    commit_dflush_credits]

/-- C14: credit non-negativity across the metadata loop.  If at the entry of
the loop `t_buffers` holds exactly `t_nr_buffers` buffers and `t_nr_buffers <=
t_outstanding_credits` (the `J_ASSERT` in front of the loop), then the loop
ends, it has taken at most one credit for every buffer and none has been
added, the counter is not negative at its end, and the rest of the commit
leaves the counter alone, so that the condition of the `WARN_ON_ONCE` is
false. -/
theorem credits_nonnegative (env : commit_env) (barrier : Bool) (s : commit_state)
    (hn : (s.t_buffers.length : Int) = s.t_nr_buffers)
    (hc : s.t_nr_buffers ≤ s.t_outstanding_credits) :
    ∃ s2, commit_loop env barrier (commit_loop_fuel s) s = some s2 ∧
      s.t_outstanding_credits - (s.t_buffers.length : Int) ≤ s2.t_outstanding_credits ∧
      s2.t_outstanding_credits ≤ s.t_outstanding_credits ∧
      0 ≤ s2.t_outstanding_credits ∧
      ¬ (commit_after_loop env s2).t_outstanding_credits < 0 := by
  obtain ⟨s2, h1, h2⟩ := commit_loop_total env barrier (commit_loop_fuel s) s
    (commit_loop_fuel_enough s)
  have hinit : credits_inv s.t_outstanding_credits s.t_buffers.length s :=
    ⟨le_refl _, fun _ => by omega, fun _ => by omega⟩
  obtain ⟨c1, c2, c3⟩ := commit_loop_credits env barrier _ _ _ s s2 hinit h1
  have hlow : s.t_outstanding_credits - (s.t_buffers.length : Int) ≤ s2.t_outstanding_credits := by
    cases ha : is_journal_aborted s2.journal with
    | false =>
      have := c2 ha
      rw [h2] at this
      simp only [List.length_nil, Nat.cast_zero, sub_zero] at this
      exact this
    | true => exact c3 ha
  refine ⟨s2, h1, hlow, c1, by omega, ?_⟩
  rw [commit_after_loop_credits]
  omega

/-- C14 at a concrete input: the sample transaction with three buffers and
eleven credits ends the loop with eight credits. -/
theorem credits_nonnegative_witness :
    ∃ s2, commit_loop sample_env false
        (commit_loop_fuel (sample_state sample_journal
          [sample_jh 100, sample_jh 200, sample_jh 300]))
        (sample_state sample_journal [sample_jh 100, sample_jh 200, sample_jh 300]) = some s2 ∧
      0 ≤ s2.t_outstanding_credits ∧
      (11 : Int) - 3 ≤ s2.t_outstanding_credits := by
  obtain ⟨s2, h1, h2, _, h4, _⟩ := credits_nonnegative sample_env false
    (sample_state sample_journal [sample_jh 100, sample_jh 200, sample_jh 300])
    (by decide) (by decide)
  exact ⟨s2, h1, h4, h2⟩

/-! ### C15: errors of the file-data writeback -/

theorem aborts_append (a b : List event) : aborts (a ++ b) = aborts a ++ aborts b := by
  simp [aborts]

/-- C15, as stated, fails: with `JBD2_ABORT_ON_SYNCDATA_ERR` clear, an error
of `journal_submit_data_buffers` makes the commit call `jbd2_journal_abort`
with that error. -/
theorem syncdata_error_counterexample :
    data_state.journal.j_flags.JBD2_ABORT_ON_SYNCDATA_ERR = false ∧
    submit_data_err submit_fail_env data_state = -5 ∧
    (jbd2_journal_commit_transaction submit_fail_env data_state).map
      (fun s => aborts s.trace) = some [-5] := by
  decide

/-- C15, amended: an error of `journal_finish_inode_data_buffers` aborts the
journal only when escalation is configured.  With `JBD2_ABORT_ON_SYNCDATA_ERR`
clear the commit makes no call and leaves the journal as it is, whatever the
wait returns, sets `err` to 0 and goes on to `T_COMMIT_DFLUSH` without a call
of `jbd2_journal_abort`; with the flag set and an error it calls
`jbd2_journal_abort` with that error.  An error of
`journal_submit_data_buffers` is passed to `jbd2_journal_abort` whatever the
flag says, and without such an error that step makes no such call.  In every
case the commit goes on to its end. -/
theorem syncdata_error_escalation (env : commit_env) (s0 s : commit_state) :
    (s.journal.j_flags.JBD2_ABORT_ON_SYNCDATA_ERR = false →
      (finish_inode_data_step env s).trace = s.trace ∧
      (finish_inode_data_step env s).journal = s.journal ∧
      (finish_inode_data_step env s).err = 0 ∧
      aborts (commit_dflush_head env s).trace = aborts s.trace ∧
      is_journal_aborted (commit_dflush_head env s).journal = is_journal_aborted s.journal) ∧
    (s.journal.j_flags.JBD2_ABORT_ON_SYNCDATA_ERR = true → finish_data_err env s ≠ 0 →
      (finish_inode_data_step env s).trace =
        s.trace ++ [event.jbd2_journal_abort (finish_data_err env s)] ∧
      is_journal_aborted (finish_inode_data_step env s).journal = true ∧
      (finish_inode_data_step env s).err = 0) ∧
    (submit_data_err env s0 ≠ 0 →
      aborts (commit_lock_down env s0).trace = aborts s0.trace ++ [submit_data_err env s0] ∧
      is_journal_aborted (commit_lock_down env s0).journal = true) ∧
    (submit_data_err env s0 = 0 →
      aborts (commit_lock_down env s0).trace = aborts s0.trace ∧
      is_journal_aborted (commit_lock_down env s0).journal = is_journal_aborted s0.journal) ∧
    ∃ s2, jbd2_journal_commit_transaction env s0 = some s2 ∧
      s2.t_state = t_state.T_FINISHED := by
  refine ⟨fun hf => ?_, fun hf he => ?_, fun he => ?_, fun he => ?_, ?_⟩
  · obtain ⟨d1, _, _, d4, _⟩ := commit_dflush_head_facts env s
    have hno : ¬ (finish_data_err env s ≠ 0 ∧
        s.journal.j_flags.JBD2_ABORT_ON_SYNCDATA_ERR = true) := by
      rw [hf]; simp
    refine ⟨?_, ?_, ?_, ?_, ?_⟩
    · rw [finish_inode_data_step_eq]
      simp only [if_neg hno, List.append_nil]
    · rw [finish_inode_data_step_eq]
      simp only [if_neg hno]
    · rw [finish_inode_data_step_eq]
    · have h := congrArg aborts d1
      rw [aborts_loud, if_neg hno] at h
      rw [h]
      simp only [aborts_append, aborts_loud, List.append_nil]
      split_ifs <;> simp [aborts]
    · rw [d4]; simp [hno]
  · have hyes : finish_data_err env s ≠ 0 ∧
        s.journal.j_flags.JBD2_ABORT_ON_SYNCDATA_ERR = true := ⟨he, hf⟩
    refine ⟨?_, ?_, ?_⟩
    · rw [finish_inode_data_step_eq]
      simp only [if_pos hyes]
    · rw [finish_inode_data_step_eq]
      simp only [if_pos hyes]
      rfl
    · rw [finish_inode_data_step_eq]
  · rw [commit_lock_down_eq]
    refine ⟨?_, ?_⟩
    · simp only [aborts_append, if_pos he]
      split_ifs <;> simp [aborts]
    · simp [is_journal_aborted, he]
  · rw [commit_lock_down_eq]
    refine ⟨?_, ?_⟩
    · simp only [aborts_append, he, ne_eq, not_true_eq_false, if_false]
      split_ifs <;> simp [aborts]
    · simp [is_journal_aborted, he]
  · obtain ⟨s2, _, _, h3⟩ := commit_transaction_total env s0
    obtain ⟨_, _, _, _, _, _, _, _, _, _, _, hfin, _⟩ := commit_after_loop_loud env s2
    exact ⟨_, h3, hfin⟩

/-- C15, amended, at a concrete input: the wait for the file data of inode
12 fails with `- EIO`, escalation is not configured, and the commit neither
calls `jbd2_journal_abort` nor aborts the journal. -/
theorem syncdata_error_escalation_witness :
    finish_data_err wait_fail_env data_state = -5 ∧
    (finish_inode_data_step wait_fail_env data_state).trace = data_state.trace ∧
    (finish_inode_data_step wait_fail_env data_state).err = 0 ∧
    is_journal_aborted (commit_dflush_head wait_fail_env data_state).journal = false := by
  obtain ⟨h1, h2, h3, h4, h5⟩ :=
    (syncdata_error_escalation wait_fail_env data_state data_state).1 (by decide)
  exact ⟨by decide, h1, h3, h5.trans (by decide)⟩

/-! ### C16: a log block that cannot be allocated -/

theorem abort_is_aborted (s : commit_state) (errno : Int) :
    is_journal_aborted (jbd2_journal_abort s errno).journal = true := rfl

theorem commit_loop_stays_aborted (env : commit_env) (barrier : Bool) (s s2 : commit_state)
    (fuel : Nat) (hne : s.t_buffers ≠ [])
    (hit : is_journal_aborted (commit_loop_iter env barrier s).journal = true)
    (hl : commit_loop env barrier fuel s = some s2) (he : s2.t_buffers = []) :
    is_journal_aborted s2.journal = true := by
  have h := commit_loop_rule env barrier
    (fun x => x = s ∨ is_journal_aborted x.journal = true)
    (fun x hx hxne => by
      rcases hx with h1 | h2
      · rw [h1]; exact Or.inr hit
      · exact Or.inr ((commit_loop_iter_basic env barrier x hxne).2.2.1 h2))
    fuel s s2 (Or.inl rfl) hl
  rcases h with h1 | h2
  · rw [h1] at he
    exact absurd he hne
  · exact h2

/-- C16: buffer allocation failure is journal-fatal.  When
`jbd2_journal_get_descriptor_buffer` gives NULL for a descriptor block, the
pass of the metadata loop (either copy) ends with the call
`jbd2_journal_abort(journal, - EIO)`, the journal is aborted and the loop ends
with the journal aborted.  When it gives NULL for the commit block,
`journal_submit_commit_record` returns 1 with `*cbh = NULL`, having
submitted nothing, and its caller calls `jbd2_journal_abort(journal, 1)`.
On a journal that is already aborted `journal_submit_commit_record` returns 0
with `*cbh = NULL` and does nothing else. -/
theorem allocation_failure_fatal (env : commit_env) (barrier : Bool) (s : commit_state)
    (crc32_sum : Nat) :
    (∀ jh rest, s.t_buffers = jh :: rest → is_journal_aborted s.journal = false →
      s.descriptor = false →
      (jbd2_journal_get_descriptor_buffer env s JBD2_DESCRIPTOR_BLOCK).2 = none →
      commit_loop_iter env barrier s =
        jbd2_journal_abort (jbd2_journal_get_descriptor_buffer env s JBD2_DESCRIPTOR_BLOCK).1
          (- EIO) ∧
      is_journal_aborted (commit_loop_iter env barrier s).journal = true ∧
      ∃ s2, commit_loop env barrier (commit_loop_fuel s) s = some s2 ∧
        is_journal_aborted s2.journal = true) ∧
    (is_journal_aborted s.journal = false →
      (jbd2_journal_get_descriptor_buffer env s JBD2_COMMIT_BLOCK).2 = none →
      (journal_submit_commit_record env s crc32_sum).2 = 1 ∧
      (journal_submit_commit_record env s crc32_sum).1.cbh = none ∧
      (journal_submit_commit_record env s crc32_sum).1.trace = s.trace ∧
      (submit_commit_record_step env s).trace = s.trace ++ [event.jbd2_journal_abort 1] ∧
      is_journal_aborted (submit_commit_record_step env s).journal = true) ∧
    (is_journal_aborted s.journal = true →
      journal_submit_commit_record env s crc32_sum = ({ s with cbh := none }, 0)) := by
  refine ⟨fun jh rest hs hna hd hnull => ?_, fun hna hnull => ?_, fun ha => ?_⟩
  · have hok : desc_alloc_ok env s = false := by
      rw [get_descriptor_buffer_snd] at hnull
      cases h : desc_alloc_ok env s with
      | false => rfl
      | true => rw [h] at hnull; simp at hnull
    have hit : commit_loop_iter env barrier s =
        jbd2_journal_abort (jbd2_journal_get_descriptor_buffer env s JBD2_DESCRIPTOR_BLOCK).1
          (- EIO) := by
      unfold commit_loop_iter
      rw [hs]
      simp only [hna, loop_descriptor_eq, hd, hok, get_descriptor_buffer_fst]
      simp
    have hab : is_journal_aborted (commit_loop_iter env barrier s).journal = true := by
      rw [hit]; rfl
    refine ⟨hit, hab, ?_⟩
    obtain ⟨s2, h1, h2⟩ := commit_loop_total env barrier (commit_loop_fuel s) s
      (commit_loop_fuel_enough s)
    have hne : s.t_buffers ≠ [] := by rw [hs]; simp
    exact ⟨s2, h1, commit_loop_stays_aborted env barrier s s2 _ hne hab h1 h2⟩
  · have hok : desc_alloc_ok env s = false := by
      rw [get_descriptor_buffer_snd_commit] at hnull
      cases h : desc_alloc_ok env s with
      | false => rfl
      | true => rw [h] at hnull; simp at hnull
    rw [submit_commit_record_step_eq, journal_submit_commit_record_eq]
    simp only [hna, hok, Bool.false_eq_true, if_false]
    refine ⟨?_, ?_, ?_, ?_, ?_⟩ <;> trivial
  · rw [journal_submit_commit_record_eq, if_pos ha]

/-- C16 at a concrete input: no buffer can be had for log block 10, and the
first pass of the loop aborts the journal with `- EIO`. -/
theorem allocation_failure_fatal_witness :
    aborts (commit_loop_iter getblk_fail_env false
        (sample_state sample_journal [sample_jh 100])).trace = [-5] ∧
    is_journal_aborted (commit_loop_iter getblk_fail_env false
        (sample_state sample_journal [sample_jh 100])).journal = true := by
  obtain ⟨h1, h2, _⟩ :=
    (allocation_failure_fatal getblk_fail_env false
      (sample_state sample_journal [sample_jh 100]) 0).1
      (sample_jh 100) [] rfl (by decide) rfl (by decide)
  exact ⟨by rw [h1]; decide, h2⟩

/-! ### C18: the barrier request flag in the metadata loop -/

theorem barrier_flags_append (a b : List event) :
    barrier_flags (a ++ b) = barrier_flags a ++ barrier_flags b := by
  simp [barrier_flags]

theorem barrier_flags_release_events (barrier : Bool) :
    ∀ l : List journal_head, barrier_flags (release_events barrier l) = [] := by
  intro l
  induction l with
  | nil => rfl
  | cons jh rest ih =>
    rw [release_events, barrier_flags_append, ih]
    cases barrier <;> rfl

/-- While `t_buffers` is not empty no block of a batch carries `REQ_BARRIER`. -/
theorem barrier_flags_io_events_more (tb : List journal_head) (htb : tb ≠ []) (bufs : Nat) :
    ∀ (l : List buffer_head) (i : Nat), ∀ b ∈ barrier_flags (io_events tb bufs i l), b = false := by
  intro l
  induction l with
  | nil => intro i b hb; cases hb
  | cons bh rest ih =>
    intro i b hb
    simp only [io_events, barrier_flags, List.filterMap_cons, List.mem_cons] at hb
    rcases hb with rfl | hb
    · simp [journal_io_flags, htb]
    · exact ih (i + 1) b hb

/-- With `t_buffers` empty the last block of a batch, and no other, carries
`REQ_BARRIER`. -/
theorem barrier_flags_io_events_last (bufs : Nat) :
    ∀ (l : List buffer_head) (i : Nat), i + l.length = bufs →
      barrier_flags (io_events [] bufs i l) =
        List.replicate (l.length - 1) false ++ (if l = [] then [] else [true]) := by
  intro l
  induction l with
  | nil => intro i _; rfl
  | cons bh rest ih =>
    intro i hi
    have hrest := ih (i + 1) (by simp only [List.length_cons] at hi; omega)
    simp only [io_events, barrier_flags, List.filterMap_cons] at hrest ⊢
    rw [hrest]
    cases rest with
    | nil =>
      have : i = bufs - 1 := by simp only [List.length_cons, List.length_nil] at hi; omega
      simp [journal_io_flags, this]
    | cons r rs =>
      have : i ≠ bufs - 1 := by simp only [List.length_cons] at hi; omega
      simp [journal_io_flags, this, List.replicate_succ]

/-- The flags `REQ_BARRIER` of the calls made at `start_journal_io`. -/
theorem start_journal_io_barrier (env : commit_env) (s : commit_state) :
    ∃ evs, (start_journal_io env s).trace = s.trace ++ evs ∧
      (s.t_buffers ≠ [] → ∀ b ∈ barrier_flags evs, b = false) ∧
      (∀ b ∈ (barrier_flags evs).dropLast, b = false) ∧
      (s.t_buffers = [] → s.wbuf ≠ [] → (barrier_flags evs).getLast? = some true) := by
  rw [start_journal_io_eq]
  generalize hl : (if s.descriptor = true then
      on_descriptor (jbd2_descriptor_block_csum_set env s.journal) s.wbuf else s.wbuf) = l
  have hlen : l = [] → s.wbuf = [] := by
    intro h0
    rw [h0] at hl
    by_cases hd : s.descriptor = true
    · rw [if_pos hd] at hl
      cases hw : s.wbuf with
      | nil => rfl
      | cons d r => rw [hw] at hl; simp [on_descriptor] at hl
    · rw [if_neg hd] at hl
      exact hl
  refine ⟨io_events s.t_buffers l.length 0 l, rfl, ?_, ?_, ?_⟩
  · intro hne
    exact barrier_flags_io_events_more _ hne _ _ _
  · by_cases hne : s.t_buffers = []
    · rw [hne, barrier_flags_io_events_last _ l 0 (by omega)]
      intro b hb
      by_cases h0 : l = []
      · rw [h0] at hb
        cases hb
      · rw [if_neg h0, List.dropLast_concat] at hb
        exact List.eq_of_mem_replicate hb
    · intro b hb
      exact barrier_flags_io_events_more _ hne _ _ _ b (List.mem_of_mem_dropLast hb)
  · intro he hw
    have h0 : l ≠ [] := fun h => hw (hlen h)
    rw [he, barrier_flags_io_events_last _ l 0 (by omega), if_neg h0]
    simp

theorem loop_submit_barrier (env : commit_env) (z : commit_state) :
    ∃ evs, (loop_submit env z).trace = z.trace ++ evs ∧
      (z.t_buffers ≠ [] → ∀ b ∈ barrier_flags evs, b = false) ∧
      (∀ b ∈ (barrier_flags evs).dropLast, b = false) ∧
      (z.t_buffers = [] → z.wbuf ≠ [] → (barrier_flags evs).getLast? = some true) := by
  unfold loop_submit
  by_cases h : loop_batch_full z = true
  · rw [if_pos h]
    obtain ⟨evs, h1, h2, h3, h4⟩ := start_journal_io_barrier env
      { z with wbuf := on_descriptor descriptor_mark_last z.wbuf }
    refine ⟨evs, h1, h2, h3, fun he hw => h4 he ?_⟩
    cases hz : z.wbuf with
    | nil => exact absurd hz hw
    | cons d r => simp [on_descriptor]
  · rw [if_neg h]
    refine ⟨[], by simp, fun _ b hb => (by cases hb), fun b hb => (by cases hb),
      fun he _ => ?_⟩
    exfalso
    apply h
    simp [loop_batch_full, he]

/-- A step of the loop from a state with `t_buffers` not empty keeps
`barrier_inv` when the calls it adds are of the right form. -/
theorem barrier_inv_extend (s0 x y : commit_state) (evs2 : List event)
    (hx : barrier_inv s0 x) (hxne : x.t_buffers ≠ [])
    (htr : y.trace = x.trace ++ evs2)
    (h1 : y.t_buffers ≠ [] → ∀ b ∈ barrier_flags evs2, b = false)
    (h2 : ∀ b ∈ (barrier_flags evs2).dropLast, b = false)
    (h3 : y.t_buffers = [] → is_journal_aborted y.journal = false →
      (barrier_flags evs2).getLast? = some true) : barrier_inv s0 y := by
  obtain ⟨evs, e1, a1, _, _⟩ := hx
  have hF := a1 hxne
  refine ⟨evs ++ evs2, by rw [htr, e1, List.append_assoc], ?_, ?_, ?_⟩
  · intro hy b hb
    rw [barrier_flags_append] at hb
    rcases List.mem_append.mp hb with hb1 | hb2
    · exact hF b hb1
    · exact h1 hy b hb2
  · intro b hb
    rw [barrier_flags_append] at hb
    by_cases hN : barrier_flags evs2 = []
    · rw [hN, List.append_nil] at hb
      exact hF b (List.mem_of_mem_dropLast hb)
    · rw [List.dropLast_append_of_ne_nil _ hN] at hb
      rcases List.mem_append.mp hb with hb1 | hb2
      · exact hF b hb1
      · exact h2 b hb2
  · intro _ hy ha
    have hl := h3 hy ha
    rw [barrier_flags_append, List.getLast?_append, hl]
    rfl

theorem commit_loop_iter_barrier (env : commit_env) (barrier : Bool) (s0 x : commit_state)
    (hne : x.t_buffers ≠ []) (hx : barrier_inv s0 x) :
    barrier_inv s0 (commit_loop_iter env barrier x) := by
  cases hs : x.t_buffers with
  | nil => exact absurd hs hne
  | cons jh rest =>
    apply commit_loop_iter_cases env barrier (fun y => barrier_inv s0 y) x jh rest hs
    · intro ha
      rw [loop_release_eq]
      by_cases hr : rest = []
      · rw [if_pos hr]
        obtain ⟨evs, b1, _, b3, _⟩ := start_journal_io_barrier env
          { x with t_buffers := [], trace := x.trace ++ release_events barrier [jh] }
        have hj := (start_journal_io_frame env
          { x with t_buffers := [], trace := x.trace ++ release_events barrier [jh] }).2.1
        have ht := (start_journal_io_frame env
          { x with t_buffers := [], trace := x.trace ++ release_events barrier [jh] }).1
        refine barrier_inv_extend s0 x _ (release_events barrier [jh] ++ evs) hx hne
          (by rw [b1]; simp) (fun hy => absurd ht hy) ?_ (fun _ hna => ?_)
        · rw [barrier_flags_append, barrier_flags_release_events, List.nil_append]
          exact b3
        · rw [hj] at hna
          have h0 : is_journal_aborted x.journal = false := hna
          rw [ha] at h0
          cases h0
      · rw [if_neg hr]
        refine barrier_inv_extend s0 x _ (release_events barrier [jh]) hx hne rfl
          (fun _ b hb => ?_) (fun b hb => ?_) (fun hy _ => absurd hy hr)
        · rw [barrier_flags_release_events] at hb
          cases hb
        · rw [barrier_flags_release_events] at hb
          cases hb
    · intro _ _ _
      exact barrier_inv_extend s0 x _ [event.jbd2_journal_abort (- EIO)] hx hne rfl
        (fun _ b hb => by cases hb) (fun b hb => by cases hb)
        (fun _ hna => by cases hna)
    · intro _ s1 h1 _
      rcases h1 with ⟨_, rfl⟩ | ⟨_, _, rfl⟩
      · exact barrier_inv_extend s0 s1 _ [event.jbd2_journal_abort _] hx hne rfl
          (fun _ b hb => by cases hb) (fun b hb => by cases hb)
          (fun _ hna => by cases hna)
      · exact barrier_inv_extend s0 x _ [event.jbd2_journal_abort _] hx hne rfl
          (fun _ b hb => by cases hb) (fun b hb => by cases hb)
          (fun _ hna => by cases hna)
    · intro _ s1 h1 _ _
      rcases h1 with ⟨_, rfl⟩ | ⟨_, _, rfl⟩
      · exact barrier_inv_extend s0 s1 _ [event.jbd2_journal_abort _] hx hne rfl
          (fun _ b hb => by cases hb) (fun b hb => by cases hb)
          (fun _ hna => by cases hna)
      · exact barrier_inv_extend s0 x _ [event.jbd2_journal_abort _] hx hne rfl
          (fun _ b hb => by cases hb) (fun b hb => by cases hb)
          (fun _ hna => by cases hna)
    · intro _ s1 h1 _ _
      generalize hz : loop_tag env (log_buffer s1 jh rest) jh (metadata_bh env s1 jh)
        (env.write_metadata_flags jh.b_blocknr) = z
      have hzeq := hz
      rw [loop_tag_eq] at hzeq
      have zt : z.t_buffers = rest := by rw [← hzeq]; rfl
      have zw : z.wbuf ≠ [] := by rw [← hzeq]; simp
      have ztr : z.trace = x.trace := by
        rw [← hzeq]
        rcases h1 with ⟨_, rfl⟩ | ⟨_, _, rfl⟩ <;> rfl
      obtain ⟨evs, b1, b2, b3, b4⟩ := loop_submit_barrier env z
      have yt : (loop_submit env z).t_buffers = rest := by
        rw [(loop_submit_frame env z).1, zt]
      refine barrier_inv_extend s0 x _ evs hx hne (by rw [b1, ztr])
        (fun hy => b2 (by rw [zt]; rwa [yt] at hy)) b3
        (fun hy _ => b4 (by rw [zt]; rwa [yt] at hy) zw)

theorem commit_loop_barrier (env : commit_env) (barrier : Bool) (s0 : commit_state)
    (fuel : Nat) (s s2 : commit_state) (h : barrier_inv s0 s)
    (hl : commit_loop env barrier fuel s = some s2) : barrier_inv s0 s2 :=
  commit_loop_rule env barrier (fun x => barrier_inv s0 x)
    (fun x hx hne => commit_loop_iter_barrier env barrier s0 x hne hx) fuel s s2 h hl

/-- C18, as stated, fails: with write barriers disabled (`JBD2_BARRIER`
clear) the last block of the last batch is still submitted with
`REQ_BARRIER`, in the ordinary commit and in the dispatch stage alike. -/
theorem barrier_flag_counterexample :
    (sample_state nobarrier_journal [sample_jh 100, sample_jh 200]).journal.j_flags.JBD2_BARRIER
      = false ∧
    (commit_loop sample_env false 5
        (commit_prologue sample_env
          (sample_state nobarrier_journal [sample_jh 100, sample_jh 200]))).map
      (fun s => barrier_flags s.trace) = some [false, false, true] ∧
    (commit_loop sample_env true 5
        (commit_prologue sample_env
          (sample_state nobarrier_journal [sample_jh 100, sample_jh 200]))).map
      (fun s => barrier_flags s.trace) = some [false, false, true] := by
  decide

/-- C18, amended: the metadata loop (either copy) ends, and of the blocks it
passes to `submit_bh` none but the last carries `REQ_BARRIER`; when the loop
starts with buffers on `t_buffers` and ends without the journal being aborted,
the last block it submits, which is the last block of the batch submitted once
`t_buffers` is empty, carries `REQ_BARRIER`, whether or not `JBD2_BARRIER` is
set in `j_flags`. -/
theorem barrier_flag_on_last_block (env : commit_env) (barrier : Bool) (s : commit_state) :
    ∃ s2 evs, commit_loop env barrier (commit_loop_fuel s) s = some s2 ∧
      s2.trace = s.trace ++ evs ∧
      (∀ b ∈ (barrier_flags evs).dropLast, b = false) ∧
      (s.t_buffers ≠ [] → is_journal_aborted s2.journal = false →
        (barrier_flags evs).getLast? = some true) := by
  obtain ⟨s2, h1, h2⟩ := commit_loop_total env barrier (commit_loop_fuel s) s
    (commit_loop_fuel_enough s)
  have hinit : barrier_inv s s :=
    ⟨[], by simp, fun _ b hb => (by cases hb), fun b hb => (by cases hb),
      fun hne he _ => absurd he hne⟩
  obtain ⟨evs, e1, _, e3, e4⟩ := commit_loop_barrier env barrier s _ s s2 hinit h1
  exact ⟨s2, evs, h1, e1, e3, fun hne hna => e4 hne h2 hna⟩

/-- C18, amended, at a concrete input: two buffers on a journal with write
barriers disabled; the loop ends and the last block it submits carries
`REQ_BARRIER`. -/
theorem barrier_flag_on_last_block_witness :
    ∃ s2 evs, commit_loop sample_env false
        (commit_loop_fuel (sample_state nobarrier_journal [sample_jh 100, sample_jh 200]))
        (sample_state nobarrier_journal [sample_jh 100, sample_jh 200]) = some s2 ∧
      s2.trace = (sample_state nobarrier_journal [sample_jh 100, sample_jh 200]).trace ++ evs ∧
      (barrier_flags evs).getLast? = some true := by
  obtain ⟨s2, evs, h1, h2, _, h4⟩ := barrier_flag_on_last_block sample_env false
    (sample_state nobarrier_journal [sample_jh 100, sample_jh 200])
  have hmap : (commit_loop sample_env false
      (commit_loop_fuel (sample_state nobarrier_journal [sample_jh 100, sample_jh 200]))
      (sample_state nobarrier_journal [sample_jh 100, sample_jh 200])).map
        (fun x => is_journal_aborted x.journal) = some false := by decide
  rw [h1] at hmap
  exact ⟨s2, evs, h1, h2, h4 (by decide) (Option.some.inj hmap)⟩

/-! ### C19: the compound flush -/

theorem flushes_map_wait (l : List Nat) : flushes (l.map event.wait_on_buffer) = [] := by
  induction l with
  | nil => rfl
  | cons b rest ih => simp [flushes]

/-- The test `journal->j_flushing_transactions == commit_transaction->t_flushnext`
holds exactly when the transaction at the head is the only one queued. -/
theorem commit_empty_iff (q : flush_queue) (a : Nat) (l : List Nat)
    (hr : flush_ring q (a :: l)) :
    q.j_flushing_transactions = some (q.mem a).t_flushnext ↔ l = [] := by
  obtain ⟨hh, hnd, hseg⟩ := hr
  cases l with
  | nil =>
    obtain ⟨h1, _⟩ := hseg
    simp [hh, h1]
  | cons x l =>
    obtain ⟨e1, _, _⟩ := hseg
    have hax : a ≠ x := by
      intro h
      exact (List.nodup_cons.mp hnd).1 (by simp [h])
    simp [hh, e1, hax]

theorem flush_forget_one_flushes (ver_tid : Nat) (s : commit_state) (jh : journal_head) :
    flushes (flush_forget_one ver_tid s jh).trace = flushes s.trace := by
  unfold flush_forget_one
  simp only [emit]
  split_ifs <;> simp [flushes]

theorem flush_forget_fold_flushes (ver_tid : Nat) :
    ∀ (l : List journal_head) (s : commit_state),
      flushes (l.foldl (flush_forget_one ver_tid) s).trace = flushes s.trace := by
  intro l
  induction l with
  | nil => intro s; rfl
  | cons jh rest ih =>
    intro s
    rw [List.foldl_cons, ih, flush_forget_one_flushes]

/-- The end of the flush stage issues no device flush and sets the two
sequence numbers. -/
theorem flush_finish_facts (env : commit_env) (cfg : barrier_config) (do_flush : Bool)
    (ver_tid : Nat) (s : commit_state) :
    flushes (flush_finish env cfg do_flush ver_tid s).trace = flushes s.trace ∧
    (flush_finish env cfg do_flush ver_tid s).journal.j_transfer_sequence =
      (if cfg.COMPOUND_FLUSH.isSome then s.t_tid else s.journal.j_transfer_sequence) ∧
    (flush_finish env cfg do_flush ver_tid s).journal.j_flush_sequence =
      (if do_flush then s.t_tid else s.journal.j_flush_sequence) := by
  have hf := flush_forget_fold_flushes ver_tid s.t_forget s
  obtain ⟨_, hj, ht⟩ := flush_forget_fold_ext ver_tid s.t_forget s
  unfold flush_finish
  simp only [set_t_state, emit]
  generalize List.foldl (flush_forget_one ver_tid) s s.t_forget = f at hf hj ht ⊢
  refine ⟨?_, ?_, ?_⟩
  · split_ifs <;> (simp only [flushes_append, hf]; simp [flushes])
  · split_ifs <;> simp [hj, ht]
  · split_ifs <;> simp [hj, ht]

/-- The flush stage for the transaction `a` at the head of the queue, with
`COMPOUND_FLUSH` defined as `c`. -/
theorem flush_transaction_eq (env : commit_env) (cfg : barrier_config) (c : Nat)
    (hc : cfg.COMPOUND_FLUSH = some c) (q : flush_queue) (a : Nat)
    (hp : q.j_flushing_transactions = some a) (s0 : commit_state) :
    jbd2_journal_barrier_flush_transaction env cfg q s0 =
      (flush_dequeue q a,
        flush_finish env cfg
          (decide (s0.t_tid % c = 0 ∨ q.j_flushing_transactions = some (q.mem a).t_flushnext))
          (s0.t_tid % cfg.MAX_JH_VERSION)
          (flush_jflush env
            (decide (s0.t_tid % c = 0 ∨
              q.j_flushing_transactions = some (q.mem a).t_flushnext))
            (commit_wait_io env { s0 with err := 0 }))) := by
  unfold jbd2_journal_barrier_flush_transaction
  simp only [flush_pick, hp, hc, Option.map_some']
  simp

theorem flush_jflush_facts (env : commit_env) (do_flush : Bool) (s : commit_state) :
    flushes (flush_jflush env do_flush s).trace = flushes s.trace ++
      (if s.journal.j_flags.JBD2_BARRIER = true ∧ do_flush = true then [s.journal.j_dev]
        else []) ∧
    (flush_jflush env do_flush s).t_tid = s.t_tid ∧
    (flush_jflush env do_flush s).journal.j_flush_sequence = s.journal.j_flush_sequence ∧
    (flush_jflush env do_flush s).journal.j_transfer_sequence =
      s.journal.j_transfer_sequence := by
  rw [flush_jflush_eq]
  refine ⟨?_, rfl, ?_, ?_⟩
  · simp only [flushes_append]
    cases s.cbh <;> split_ifs <;> simp [flushes]
  · simp only []
    split_ifs <;> rfl
  · simp only []
    split_ifs <;> rfl

theorem commit_wait_io_facts (env : commit_env) (s : commit_state) :
    flushes (commit_wait_io env s).trace = flushes s.trace ∧
    (commit_wait_io env s).t_tid = s.t_tid ∧
    (commit_wait_io env s).journal.j_flush_sequence = s.journal.j_flush_sequence ∧
    (commit_wait_io env s).journal.j_transfer_sequence = s.journal.j_transfer_sequence ∧
    (commit_wait_io env s).journal.j_flags.JBD2_BARRIER = s.journal.j_flags.JBD2_BARRIER ∧
    (commit_wait_io env s).journal.j_dev = s.journal.j_dev := by
  obtain ⟨io, lb, sh, fg, h⟩ := commit_wait_io_eq env s
  rw [h]
  refine ⟨?_, rfl, ?_, ?_, ?_, ?_⟩
  · simp only [flushes_append, flushes_map_wait]
    split_ifs <;> simp [flushes]
  all_goals
    simp only []
    split_ifs <;> rfl

/-- C19: compound flush never leaves a drained queue unflushed.  With
`COMPOUND_FLUSH` defined as `c` and write barriers enabled, a run of the flush
stage for the transaction `a` at the head of the queue `a :: l` issues the
flush of the journal device exactly when `tid mod c = 0` or `a` was the only
element of the queue when the run started (`l` empty); it sets
`j_transfer_sequence` to the tid, and `j_flush_sequence` under the same
condition; it removes `a` from the queue.  Whenever the removal leaves
`j_flushing_transactions` NULL, also when transactions `l2` were dispatched
during the run, the run issued the device flush and `j_flush_sequence` equals
`j_transfer_sequence`. -/
theorem compound_flush_drained (env : commit_env) (cfg : barrier_config) (c : Nat)
    (hc : cfg.COMPOUND_FLUSH = some c) (q : flush_queue) (a : Nat) (l : List Nat)
    (hr : flush_ring q (a :: l)) (s0 : commit_state)
    (hb : s0.journal.j_flags.JBD2_BARRIER = true) :
    flushes (jbd2_journal_barrier_flush_transaction env cfg q s0).2.trace =
      flushes s0.trace ++ (if s0.t_tid % c = 0 ∨ l = [] then [s0.journal.j_dev] else []) ∧
    (jbd2_journal_barrier_flush_transaction env cfg q s0).2.journal.j_transfer_sequence =
      s0.t_tid ∧
    (jbd2_journal_barrier_flush_transaction env cfg q s0).2.journal.j_flush_sequence =
      (if s0.t_tid % c = 0 ∨ l = [] then s0.t_tid else s0.journal.j_flush_sequence) ∧
    flush_ring (jbd2_journal_barrier_flush_transaction env cfg q s0).1 l ∧
    (∀ (q2 : flush_queue) (l2 : List Nat), flush_ring q2 (a :: (l ++ l2)) →
      (flush_dequeue q2 a).j_flushing_transactions = none →
      flushes (jbd2_journal_barrier_flush_transaction env cfg q s0).2.trace =
        flushes s0.trace ++ [s0.journal.j_dev] ∧
      (jbd2_journal_barrier_flush_transaction env cfg q s0).2.journal.j_flush_sequence =
        (jbd2_journal_barrier_flush_transaction env cfg q s0).2.journal.j_transfer_sequence) := by
  have hempty := commit_empty_iff q a l hr
  have hD : decide (s0.t_tid % c = 0 ∨
      q.j_flushing_transactions = some (q.mem a).t_flushnext) =
      decide (s0.t_tid % c = 0 ∨ l = []) := by
    simp only [hempty]
  rw [flush_transaction_eq env cfg c hc q a hr.1 s0, hD]
  obtain ⟨w1, w2, w3, w4, w5, w6⟩ := commit_wait_io_facts env { s0 with err := 0 }
  obtain ⟨j1, j2, j3, _⟩ := flush_jflush_facts env (decide (s0.t_tid % c = 0 ∨ l = []))
    (commit_wait_io env { s0 with err := 0 })
  obtain ⟨f1, f2, f3⟩ := flush_finish_facts env cfg (decide (s0.t_tid % c = 0 ∨ l = []))
    (s0.t_tid % cfg.MAX_JH_VERSION)
    (flush_jflush env (decide (s0.t_tid % c = 0 ∨ l = []))
      (commit_wait_io env { s0 with err := 0 }))
  have hb2 : (commit_wait_io env { s0 with err := 0 }).journal.j_flags.JBD2_BARRIER = true := by
    rw [w5]; exact hb
  have hdev : (commit_wait_io env { s0 with err := 0 }).journal.j_dev = s0.journal.j_dev := w6
  have htid : (flush_jflush env (decide (s0.t_tid % c = 0 ∨ l = []))
      (commit_wait_io env { s0 with err := 0 })).t_tid = s0.t_tid := by
    rw [j2, w2]
  have h1 : flushes (flush_finish env cfg (decide (s0.t_tid % c = 0 ∨ l = []))
      (s0.t_tid % cfg.MAX_JH_VERSION)
      (flush_jflush env (decide (s0.t_tid % c = 0 ∨ l = []))
        (commit_wait_io env { s0 with err := 0 }))).trace =
      flushes s0.trace ++ (if s0.t_tid % c = 0 ∨ l = [] then [s0.journal.j_dev] else []) := by
    rw [f1, j1, w1, hdev]
    by_cases hP : s0.t_tid % c = 0 ∨ l = []
    · simp [hP, hb2]
    · simp [hP]
  have h2 : (flush_finish env cfg (decide (s0.t_tid % c = 0 ∨ l = []))
      (s0.t_tid % cfg.MAX_JH_VERSION)
      (flush_jflush env (decide (s0.t_tid % c = 0 ∨ l = []))
        (commit_wait_io env { s0 with err := 0 }))).journal.j_transfer_sequence = s0.t_tid := by
    rw [f2, hc, htid]
    simp
  have h3 : (flush_finish env cfg (decide (s0.t_tid % c = 0 ∨ l = []))
      (s0.t_tid % cfg.MAX_JH_VERSION)
      (flush_jflush env (decide (s0.t_tid % c = 0 ∨ l = []))
        (commit_wait_io env { s0 with err := 0 }))).journal.j_flush_sequence =
      (if s0.t_tid % c = 0 ∨ l = [] then s0.t_tid else s0.journal.j_flush_sequence) := by
    rw [f3, htid, j3, w3]
    by_cases hP : s0.t_tid % c = 0 ∨ l = []
    · simp [hP]
    · simp [hP]
  refine ⟨h1, h2, h3, flush_ring_dequeue q a l hr, ?_⟩
  intro q2 l2 hr2 hnone
  have hhead := flush_ring_head _ _ (flush_ring_dequeue q2 a (l ++ l2) hr2)
  rw [hnone] at hhead
  have hl : l = [] := by
    cases l with
    | nil => rfl
    | cons x r => simp at hhead
  have hP : s0.t_tid % c = 0 ∨ l = [] := Or.inr hl
  rw [h1, h2, h3, if_pos hP, if_pos hP]
  exact ⟨rfl, rfl⟩

/-- C19 at a concrete input: transaction 42 alone in the queue, with
`COMPOUND_FLUSH` defined as 4 (42 mod 4 is not 0); the run flushes the journal
device and sets both sequence numbers to 42. -/
theorem compound_flush_drained_witness :
    flushes (jbd2_journal_barrier_flush_transaction sample_env compound_config sample_queue
      dispatched_state).2.trace = [1] ∧
    (jbd2_journal_barrier_flush_transaction sample_env compound_config sample_queue
      dispatched_state).2.journal.j_flush_sequence = 42 := by
  obtain ⟨h1, _, h3, _⟩ := compound_flush_drained sample_env compound_config 4 rfl
    sample_queue 7 [] ⟨rfl, by simp, rfl, rfl⟩ dispatched_state rfl
  exact ⟨h1, h3⟩

/-! ### The dispatch stage: prologue -/

theorem dispatch_release_reserved_list_eq :
    ∀ (l : List journal_head) (s : commit_state),
      dispatch_release_reserved_list l s =
        { s with
          t_reserved_list := [],
          trace := s.trace ++
            l.map (fun jh => event.jbd2_journal_refile_buffer_entry jh.b_blocknr) } := by
  intro l
  induction l with
  | nil => intro s; simp [dispatch_release_reserved_list]
  | cons jh rest ih =>
    intro s
    rw [dispatch_release_reserved_list, ih]
    simp [emit]

theorem dispatch_lock_down_eq (env : commit_env) (s : commit_state) :
    dispatch_lock_down env s =
      { s with
        journal := { s.journal with j_flags := { s.journal.j_flags with
          JBD2_FULL_COMMIT_ONGOING := true,
          JBD2_ABORT := s.journal.j_flags.JBD2_ABORT || decide (submit_data_err env s ≠ 0) } },
        t_state := t_state.T_FLUSH,
        t_reserved_list := [],
        t_outstanding_credits := s.t_outstanding_credits - s.journal.j_reserved_credits,
        t_log_start := s.journal.j_head,
        err := submit_data_err env s,
        space_left := 0, first_tag := false,
        io_bufs := [], log_bufs := [],
        trace := s.trace ++ (if s.journal.j_flags.JBD2_FLUSHED then [event.update_sb_log_tail]
            else []) ++
          [event.set_t_state t_state.T_LOCKED, event.set_t_state t_state.T_SWITCH] ++
          s.t_reserved_list.map
            (fun jh => event.jbd2_journal_refile_buffer_entry jh.b_blocknr) ++
          [event.set_t_state t_state.T_FLUSH] ++
          (if submit_data_err env s ≠ 0 then [event.jbd2_journal_abort (submit_data_err env s)]
            else []) } := by
  unfold dispatch_lock_down
  simp only [dispatch_release_reserved_list_eq]
  by_cases hf : s.journal.j_flags.JBD2_FLUSHED = true <;>
    by_cases he : submit_data_err env s = 0 <;>
    simp [hf, he, emit, set_t_state, jbd2_journal_abort, submit_data_err] at * <;>
    simp [he]

/-- The calls made by `jbd2_journal_write_revoke_records`: one
`write_revoke_record` for every revoke block. -/
theorem write_revoke_records_events (env : commit_env) :
    ∀ (n : Nat) (s : commit_state), ∃ (h : Nat) (lb : List Nat) (evs : List event),
      jbd2_journal_write_revoke_records env n s =
        { s with
          journal := { s.journal with j_head := h },
          log_bufs := lb,
          trace := s.trace ++ evs } ∧
      (∀ e ∈ evs, ∃ bh, e = event.write_revoke_record bh) := by
  intro n
  induction n with
  | zero =>
    intro s
    exact ⟨s.journal.j_head, s.log_bufs, [], by simp [jbd2_journal_write_revoke_records],
      by simp⟩
  | succ n ih =>
    intro s
    by_cases ha : is_journal_aborted s.journal = true
    · exact ⟨s.journal.j_head, s.log_bufs, [], by simp [jbd2_journal_write_revoke_records, ha],
        by simp⟩
    · simp only [jbd2_journal_write_revoke_records, ha, get_descriptor_buffer_fst]
      cases hr : (jbd2_journal_get_descriptor_buffer env s 5).2 with
      | none =>
        refine ⟨log_next s.journal s.journal.j_head, s.log_bufs, [], ?_, by simp⟩
        simp [log_advance]
      | some bh =>
        obtain ⟨h, lb, evs, h1, h2⟩ := ih
          (emit { log_advance s with log_bufs := (log_advance s).log_bufs ++ [bh.b_blocknr] }
            (event.write_revoke_record bh))
        refine ⟨h, lb, event.write_revoke_record bh :: evs, ?_, ?_⟩
        · simp only [Bool.false_eq_true, if_false]
          rw [h1]
          simp [emit, log_advance]
        · intro e he
          rcases List.mem_cons.mp he with rfl | he2
          · exact ⟨bh, rfl⟩
          · exact h2 e he2

/-- The prologue of the dispatch stage in terms of `dispatch_lock_down` and
the revoke records. -/
theorem dispatch_prologue_eq (env : commit_env) (s : commit_state) :
    ∃ (h : Nat) (lb : List Nat) (evs : List event),
      dispatch_prologue env s =
        { dispatch_lock_down env s with
          journal := { (dispatch_lock_down env s).journal with j_head := h },
          t_state := t_state.T_COMMIT,
          log_bufs := lb, err := 0, wbuf := [], descriptor := false,
          trace := (dispatch_lock_down env s).trace ++ evs ++
            [event.set_t_state t_state.T_COMMIT] } ∧
      (∀ e ∈ evs, ∃ bh, e = event.write_revoke_record bh) := by
  obtain ⟨h, lb, evs, h1, h2⟩ :=
    write_revoke_records_events env env.revoke_blocks (dispatch_lock_down env s)
  refine ⟨h, lb, evs, ?_, h2⟩
  unfold dispatch_prologue
  simp only [h1, set_t_state]

/-- The prologue of the ordinary commit, with the calls of the revoke
records named. -/
theorem commit_prologue_events (env : commit_env) (s : commit_state) :
    ∃ (h : Nat) (lb : List Nat) (evs : List event),
      commit_prologue env s =
        { commit_lock_down env s with
          journal := { (commit_lock_down env s).journal with j_head := h },
          t_state := t_state.T_COMMIT,
          log_bufs := lb, err := 0, wbuf := [], descriptor := false,
          trace := (commit_lock_down env s).trace ++ evs ++
            [event.set_t_state t_state.T_COMMIT] } ∧
      (∀ e ∈ evs, ∃ bh, e = event.write_revoke_record bh) := by
  obtain ⟨h, lb, evs, h1, h2⟩ :=
    write_revoke_records_events env env.revoke_blocks (commit_lock_down env s)
  refine ⟨h, lb, evs, ?_, h2⟩
  unfold commit_prologue
  simp only [h1, set_t_state]

/-! ### State changes and callbacks in a trace -/

theorem milestones_append (a b : List event) : milestones (a ++ b) = milestones a ++ milestones b := by
  simp [milestones]

theorem milestones_of_plain (evs : List event) (h : ∀ e ∈ evs, is_milestone e = false) :
    milestones evs = [] := by
  simp only [milestones, List.filter_eq_nil_iff]
  intro e he
  simp [h e he]

theorem milestones_revoke (evs : List event)
    (h : ∀ e ∈ evs, ∃ bh, e = event.write_revoke_record bh) : milestones evs = [] := by
  apply milestones_of_plain
  intro e he
  obtain ⟨bh, rfl⟩ := h e he
  rfl

theorem milestones_loop_events (evs : List event) (h : ∀ e ∈ evs, is_loop_event e = true) :
    milestones evs = [] := by
  apply milestones_of_plain
  intro e he
  have h1 := h e he
  cases e <;> first | rfl | exact Bool.noConfusion h1

theorem milestones_map (α : Type) (l : List α) (f : α → event)
    (h : ∀ x, is_milestone (f x) = false) : milestones (l.map f) = [] := by
  apply milestones_of_plain
  intro e he
  obtain ⟨x, _, rfl⟩ := List.mem_map.mp he
  exact h x

theorem flushes_revoke (evs : List event)
    (h : ∀ e ∈ evs, ∃ bh, e = event.write_revoke_record bh) : flushes evs = [] := by
  induction evs with
  | nil => rfl
  | cons e rest ih =>
    obtain ⟨bh, rfl⟩ := h e (by simp)
    have h2 := ih (fun x hx => h x (List.mem_cons_of_mem _ hx))
    have h3 : flushes (event.write_revoke_record bh :: rest) =
        flushes [event.write_revoke_record bh] ++ flushes rest :=
      flushes_append [event.write_revoke_record bh] rest
    rw [h3, h2]
    rfl

theorem submitted_revoke (evs : List event)
    (h : ∀ e ∈ evs, ∃ bh, e = event.write_revoke_record bh) : submitted evs = [] := by
  induction evs with
  | nil => rfl
  | cons e rest ih =>
    obtain ⟨bh, rfl⟩ := h e (by simp)
    have h2 := ih (fun x hx => h x (List.mem_cons_of_mem _ hx))
    have h3 : submitted (event.write_revoke_record bh :: rest) =
        submitted [event.write_revoke_record bh] ++ submitted rest :=
      submitted_append [event.write_revoke_record bh] rest
    rw [h3, h2]
    rfl

theorem flushes_map_plain (α : Type) (l : List α) (f : α → event)
    (h : ∀ x, flushes [f x] = []) : flushes (l.map f) = [] := by
  induction l with
  | nil => rfl
  | cons x rest ih =>
    have h3 : flushes (f x :: rest.map f) = flushes [f x] ++ flushes (rest.map f) :=
      flushes_append [f x] (rest.map f)
    rw [List.map_cons, h3, ih, h x]
    rfl

theorem submitted_map_plain (α : Type) (l : List α) (f : α → event)
    (h : ∀ x, submitted [f x] = []) : submitted (l.map f) = [] := by
  induction l with
  | nil => rfl
  | cons x rest ih =>
    have h3 : submitted (f x :: rest.map f) = submitted [f x] ++ submitted (rest.map f) :=
      submitted_append [f x] (rest.map f)
    rw [List.map_cons, h3, ih, h x]
    rfl

/-- What the prologue of the dispatch stage does to the trace and what it
leaves alone. -/
theorem dispatch_prologue_facts (env : commit_env) (s : commit_state) :
    journal_config (dispatch_prologue env s).journal = journal_config s.journal ∧
    (dispatch_prologue env s).wbuf = [] ∧
    (dispatch_prologue env s).descriptor = false ∧
    (dispatch_prologue env s).t_need_data_flush = s.t_need_data_flush ∧
    (dispatch_prologue env s).t_buffers = s.t_buffers ∧
    (dispatch_prologue env s).t_tid = s.t_tid ∧
    (dispatch_prologue env s).t_state = t_state.T_COMMIT ∧
    submitted (dispatch_prologue env s).trace = submitted s.trace ∧
    flushes (dispatch_prologue env s).trace = flushes s.trace ∧
    milestones (dispatch_prologue env s).trace = milestones s.trace ++
      [event.set_t_state t_state.T_LOCKED, event.set_t_state t_state.T_SWITCH,
        event.set_t_state t_state.T_FLUSH, event.set_t_state t_state.T_COMMIT] := by
  obtain ⟨h, lb, evs, h1, h2⟩ := dispatch_prologue_eq env s
  have m1 := milestones_revoke evs h2
  have m2 := flushes_revoke evs h2
  have m3 := submitted_revoke evs h2
  have r1 := milestones_map journal_head s.t_reserved_list
    (fun jh => event.jbd2_journal_refile_buffer_entry jh.b_blocknr) (fun _ => rfl)
  have r2 := flushes_map_plain journal_head s.t_reserved_list
    (fun jh => event.jbd2_journal_refile_buffer_entry jh.b_blocknr) (fun _ => rfl)
  have r3 := submitted_map_plain journal_head s.t_reserved_list
    (fun jh => event.jbd2_journal_refile_buffer_entry jh.b_blocknr) (fun _ => rfl)
  rw [h1, dispatch_lock_down_eq]
  refine ⟨by simp [journal_config], rfl, rfl, rfl, rfl, rfl, rfl, ?_, ?_, ?_⟩
  · simp only [submitted_append, m3, r3, List.append_nil]
    split_ifs <;> simp [submitted]
  · simp only [flushes_append, m2, r2, List.append_nil]
    split_ifs <;> simp [flushes]
  · simp only [milestones_append, m1, r1, List.append_nil, List.append_assoc]
    split_ifs <;> simp [milestones, is_milestone]

/-! ### The code behind the metadata loop, call by call -/

/-- The calls made from the end of the metadata loop to the flush of the
filesystem device (commit.c 794-836, and 1730-1775 in the dispatch stage). -/
theorem commit_dflush_head_trace (env : commit_env) (s : commit_state) :
    (commit_dflush_head env s).trace = s.trace ++
      (if finish_data_err env s ≠ 0 ∧ s.journal.j_flags.JBD2_ABORT_ON_SYNCDATA_ERR = true then
        [event.jbd2_journal_abort (finish_data_err env s)] else []) ++
      [event.set_t_state t_state.T_COMMIT_DFLUSH] ++
      (if s.t_need_data_flush = true ∧ s.journal.j_fs_dev ≠ s.journal.j_dev ∧
          s.journal.j_flags.JBD2_BARRIER = true then
        [event.blkdev_issue_flush s.journal.j_fs_dev] else []) ∧
    (commit_dflush_head env s).t_state = t_state.T_COMMIT_DFLUSH := by
  unfold commit_dflush_head
  simp only [log_tail_step_eq, finish_inode_data_step_eq, set_t_state, emit]
  by_cases h1 : finish_data_err env s ≠ 0 ∧ s.journal.j_flags.JBD2_ABORT_ON_SYNCDATA_ERR = true <;>
    by_cases h5 : s.t_need_data_flush = true ∧ s.journal.j_fs_dev ≠ s.journal.j_dev ∧
      s.journal.j_flags.JBD2_BARRIER = true <;>
    simp [h1, h5]

/-- The calls of `journal_submit_commit_record` and of the abort behind it. -/
theorem submit_commit_record_step_trace (env : commit_env) (s : commit_state) :
    ∃ R, (submit_commit_record_step env s).trace = s.trace ++ R ∧
      (∀ e ∈ R, is_loop_event e = true) ∧
      (submit_commit_record_step env s).t_state = s.t_state ∧
      (submit_commit_record_step env s).t_tid = s.t_tid := by
  rw [submit_commit_record_step_eq]
  by_cases ha : is_journal_aborted s.journal = true
  · exact ⟨[], by simp [ha], by simp, by simp [ha], by simp [ha]⟩
  · by_cases hd : desc_alloc_ok env s = true
    · by_cases hr : env.submit_bh_ret = 0
      · refine ⟨[event.submit_bh (commit_record_flags s.journal)
          (commit_record_bh env s s.crc32_sum)], by simp [ha, hd, hr], ?_,
          by simp [ha, hd, hr, log_advance], by simp [ha, hd, hr, log_advance]⟩
        intro e he
        simp only [List.mem_singleton] at he
        subst he; rfl
      · refine ⟨[event.submit_bh (commit_record_flags s.journal)
          (commit_record_bh env s s.crc32_sum), event.jbd2_journal_abort env.submit_bh_ret],
          by simp [ha, hd, hr, jbd2_journal_abort], ?_,
          by simp [ha, hd, hr, jbd2_journal_abort, log_advance],
          by simp [ha, hd, hr, jbd2_journal_abort, log_advance]⟩
        intro e he
        simp only [List.mem_cons, List.mem_singleton, List.not_mem_nil, or_false] at he
        rcases he with rfl | rfl <;> rfl
    · refine ⟨[event.jbd2_journal_abort 1], by simp [ha, hd, jbd2_journal_abort, log_advance], ?_,
        by simp [ha, hd, jbd2_journal_abort, log_advance],
        by simp [ha, hd, jbd2_journal_abort, log_advance]⟩
      intro e he
      simp only [List.mem_singleton] at he
      subst he; rfl

theorem commit_dflush_trace (env : commit_env) (s : commit_state) :
    ∃ R, (commit_dflush env s).trace = (commit_dflush_head env s).trace ++ R ∧
      (∀ e ∈ R, is_loop_event e = true) ∧
      (commit_dflush env s).t_state = t_state.T_COMMIT_DFLUSH ∧
      (commit_dflush env s).t_tid = s.t_tid := by
  obtain ⟨_, hst⟩ := commit_dflush_head_trace env s
  have htid : (commit_dflush_head env s).t_tid = s.t_tid :=
    (commit_dflush_head_facts env s).2.2.2.2.2.2.2.2.2.1
  unfold commit_dflush
  simp only []
  split_ifs
  · obtain ⟨R, h1, h2, h3, h4⟩ := submit_commit_record_step_trace env (commit_dflush_head env s)
    exact ⟨R, h1, h2, h3.trans hst, h4.trans htid⟩
  · exact ⟨[], by simp, by simp, hst, htid⟩

theorem milestones_abort_list (c : Prop) [Decidable c] (x : Int) :
    milestones (if c then [event.jbd2_journal_abort x] else []) = [] := by
  split_ifs <;> rfl

theorem milestones_flush_list (c : Prop) [Decidable c] (d : Nat) :
    milestones (if c then [event.blkdev_issue_flush d] else []) = [] := by
  split_ifs <;> rfl

theorem commit_wait_io_milestones (env : commit_env) (s : commit_state) :
    milestones (commit_wait_io env s).trace = milestones s.trace ∧
    (commit_wait_io env s).t_state = s.t_state ∧
    (∃ T, (commit_wait_io env s).trace = s.trace ++ T) := by
  obtain ⟨io, lb, sh, fg, h⟩ := commit_wait_io_eq env s
  rw [h]
  refine ⟨?_, rfl, ⟨_, by simp only [List.append_assoc]; rfl⟩⟩
  simp only [milestones_append, milestones_abort_list, List.append_nil]
  rw [milestones_map Nat _ event.wait_on_buffer (fun _ => rfl), List.append_nil]

theorem commit_jflush_tail_milestones (env : commit_env) (s : commit_state) :
    milestones (commit_jflush_tail env s).trace = milestones s.trace ∧
    (commit_jflush_tail env s).t_state = s.t_state := by
  rw [commit_jflush_tail_eq]
  refine ⟨?_, rfl⟩
  simp only [milestones_append, milestones_abort_list, milestones_flush_list, List.append_nil]
  have h1 : milestones (match s.cbh with
      | some cbh => [event.wait_on_buffer cbh.b_blocknr]
      | none => []) = [] := by
    cases s.cbh <;> rfl
  have h2 : milestones (if s.update_tail ≠ 0 then
      [event.jbd2_update_log_tail s.first_tid s.first_block] else []) = [] := by
    split_ifs <;> rfl
  rw [h1, h2, List.append_nil, List.append_nil]

theorem commit_jflush_milestones (env : commit_env) (s : commit_state) :
    milestones (commit_jflush env s).trace =
      milestones s.trace ++ [event.set_t_state t_state.T_COMMIT_JFLUSH] ∧
    (commit_jflush env s).t_state = t_state.T_COMMIT_JFLUSH := by
  unfold commit_jflush
  simp only []
  rw [(commit_jflush_tail_milestones env _).1, (commit_jflush_tail_milestones env _).2]
  split_ifs
  · obtain ⟨R, h1, h2, h3, _⟩ :=
      submit_commit_record_step_trace env (set_t_state s t_state.T_COMMIT_JFLUSH)
    rw [h1, milestones_append, milestones_loop_events R h2, List.append_nil, h3]
    exact ⟨by simp [set_t_state, emit, milestones_append, milestones, is_milestone], rfl⟩
  · exact ⟨by simp [set_t_state, emit, milestones_append, milestones, is_milestone], rfl⟩

theorem commit_forget_one_milestones (s : commit_state) (jh : journal_head) :
    milestones (commit_forget_one s jh).trace = milestones s.trace ∧
    (commit_forget_one s jh).journal = s.journal ∧
    (commit_forget_one s jh).t_tid = s.t_tid := by
  unfold commit_forget_one
  simp only [emit]
  split_ifs <;> simp [milestones, is_milestone]

theorem forget_fold_milestones :
    ∀ (l : List journal_head) (s : commit_state),
      milestones (l.foldl commit_forget_one s).trace = milestones s.trace ∧
      (l.foldl commit_forget_one s).journal = s.journal ∧
      (l.foldl commit_forget_one s).t_tid = s.t_tid := by
  intro l
  induction l with
  | nil => intro s; exact ⟨rfl, rfl, rfl⟩
  | cons jh rest ih =>
    intro s
    obtain ⟨a1, a2, a3⟩ := commit_forget_one_milestones s jh
    obtain ⟨b1, b2, b3⟩ := ih (commit_forget_one s jh)
    rw [List.foldl_cons]
    exact ⟨b1.trans a1, b2.trans a2, b3.trans a3⟩

/-- The state changes and callbacks at the end of the ordinary commit. -/
theorem commit_finish_milestones (env : commit_env) (s : commit_state) :
    milestones (commit_finish env s).trace = milestones s.trace ++
      [event.set_t_state t_state.T_COMMIT_CALLBACK] ++
      (if s.journal.j_commit_callback = true then [event.j_commit_callback s.t_tid] else []) ++
      (if s.journal.j_fc_cleanup_callback = true then [event.j_fc_cleanup_callback s.t_tid]
        else []) ++
      [event.set_t_state t_state.T_FINISHED] := by
  obtain ⟨hm, _, _⟩ := forget_fold_milestones s.t_forget s
  obtain ⟨fg, cp, evs, h, _⟩ := forget_fold_eq s.t_forget s
  have hevs : milestones evs = [] := by
    rw [h] at hm
    have h0 : milestones s.trace ++ milestones evs = milestones s.trace ++ [] := by
      rw [← milestones_append, List.append_nil]
      exact hm
    exact List.append_cancel_left h0
  unfold commit_finish
  simp only [h, set_t_state, emit]
  by_cases h1 : s.journal.j_commit_callback = true <;>
    by_cases h2 : s.journal.j_fc_cleanup_callback = true <;>
    by_cases h3 : cp = [] ∧ s.t_checkpoint_io_list = [] <;>
    simp only [h1, h2, h3, if_true, if_false, and_self, milestones_append, hevs,
      List.append_nil, Bool.false_eq_true] <;>
    simp [milestones, is_milestone]

theorem commit_dflush_milestones (env : commit_env) (s : commit_state) :
    milestones (commit_dflush env s).trace =
      milestones s.trace ++ [event.set_t_state t_state.T_COMMIT_DFLUSH] := by
  obtain ⟨R, h1, h2, _⟩ := commit_dflush_trace env s
  rw [h1, (commit_dflush_head_trace env s).1]
  simp only [milestones_append, milestones_loop_events R h2, milestones_abort_list,
    milestones_flush_list, List.append_nil]
  rfl

theorem commit_jflush_tid (env : commit_env) (s : commit_state) :
    (commit_jflush env s).t_tid = s.t_tid := by
  unfold commit_jflush
  simp only []
  rw [commit_jflush_tail_eq]
  simp only []
  split_ifs
  · exact (submit_commit_record_step_trace env _).choose_spec.2.2.2
  · rfl

/-- The state changes and callbacks of the ordinary commit behind the
metadata loop. -/
theorem commit_after_loop_milestones (env : commit_env) (s : commit_state) :
    milestones (commit_after_loop env s).trace = milestones s.trace ++
      [event.set_t_state t_state.T_COMMIT_DFLUSH, event.set_t_state t_state.T_COMMIT_JFLUSH,
        event.set_t_state t_state.T_COMMIT_CALLBACK] ++
      (if s.journal.j_commit_callback = true then [event.j_commit_callback s.t_tid] else []) ++
      (if s.journal.j_fc_cleanup_callback = true then [event.j_fc_cleanup_callback s.t_tid]
        else []) ++
      [event.set_t_state t_state.T_FINISHED] := by
  obtain ⟨_, _, _, _, _, c1, _⟩ := commit_dflush_loud env s
  obtain ⟨_, c2, _⟩ := commit_wait_io_loud env (commit_dflush env s)
  obtain ⟨_, _, _, _, _, c3, _⟩ := commit_jflush_loud env (commit_wait_io env (commit_dflush env s))
  have hc : journal_config (commit_jflush env (commit_wait_io env (commit_dflush env s))).journal
      = journal_config s.journal := c3.trans (c2.trans c1)
  simp only [journal_config, Prod.mk.injEq] at hc
  have hcb := hc.2.2.2.2.2.2.2.2.2.2.2.2.2.2.1
  have hfc := hc.2.2.2.2.2.2.2.2.2.2.2.2.2.2.2
  have htid : (commit_jflush env (commit_wait_io env (commit_dflush env s))).t_tid = s.t_tid := by
    rw [commit_jflush_tid]
    obtain ⟨io, lb, sh, fg, h⟩ := commit_wait_io_eq env (commit_dflush env s)
    rw [h]
    exact (commit_dflush_trace env s).choose_spec.2.2.2
  unfold commit_after_loop
  rw [commit_finish_milestones, (commit_jflush_milestones env _).1,
    (commit_wait_io_milestones env _).1, commit_dflush_milestones, hcb, hfc, htid]
  simp only [List.append_assoc, List.cons_append, List.nil_append]

/-! ### The dispatch stage behind the metadata loop -/

theorem dispatch_wait_fold_eq :
    ∀ (l acc : List Nat) (s : commit_state),
      l.foldl dispatch_wait_buf (acc, s) =
        (acc ++ l, { s with trace := s.trace ++ l.map event.wait_on_buffer_dispatch }) := by
  intro l
  induction l with
  | nil => intro acc s; simp
  | cons b rest ih =>
    intro acc s
    have hstep : dispatch_wait_buf (acc, s) b =
        (acc ++ [b], { s with trace := s.trace ++ [event.wait_on_buffer_dispatch b] }) := rfl
    rw [List.foldl_cons, hstep, ih]
    simp

/-- The waits for the dispatch of the log blocks: the buffers are waited for
last first and end up on the lists of the transaction in that order. -/
theorem dispatch_wait_eq (s : commit_state) :
    dispatch_wait s =
      { s with
        io_bufs := s.io_bufs.reverse, log_bufs := s.log_bufs.reverse,
        trace := s.trace ++ s.io_bufs.reverse.map event.wait_on_buffer_dispatch ++
          s.log_bufs.reverse.map event.wait_on_buffer_dispatch } := by
  unfold dispatch_wait
  simp only [dispatch_wait_fold_eq, List.nil_append]

theorem dispatch_commit_record_trace (env : commit_env) (s : commit_state) :
    ∃ R W, (dispatch_commit_record env s).trace = s.trace ++ R ++ W ∧
      (∀ e ∈ R, is_loop_event e = true) ∧
      (∀ e ∈ W, ∃ b, e = event.wait_on_buffer_dispatch b) ∧
      (dispatch_commit_record env s).t_state = s.t_state ∧
      (dispatch_commit_record env s).t_tid = s.t_tid ∧
      journal_config (dispatch_commit_record env s).journal = journal_config s.journal := by
  unfold dispatch_commit_record journal_wait_on_dispatch_of_commit_record
  simp only [emit]
  have key : ∀ x : commit_state, ∃ W,
      (match x.cbh with
        | some cbh =>
          { x with trace := x.trace ++ [event.wait_on_buffer_dispatch cbh.b_blocknr], err := 0 }
        | none => x).trace = x.trace ++ W ∧
      (∀ e ∈ W, ∃ b, e = event.wait_on_buffer_dispatch b) ∧
      (match x.cbh with
        | some cbh =>
          { x with trace := x.trace ++ [event.wait_on_buffer_dispatch cbh.b_blocknr], err := 0 }
        | none => x).t_state = x.t_state ∧
      (match x.cbh with
        | some cbh =>
          { x with trace := x.trace ++ [event.wait_on_buffer_dispatch cbh.b_blocknr], err := 0 }
        | none => x).t_tid = x.t_tid ∧
      (match x.cbh with
        | some cbh =>
          { x with trace := x.trace ++ [event.wait_on_buffer_dispatch cbh.b_blocknr], err := 0 }
        | none => x).journal = x.journal := by
    intro x
    cases x.cbh with
    | none => exact ⟨[], by simp, by simp, rfl, rfl, rfl⟩
    | some cbh =>
      refine ⟨[event.wait_on_buffer_dispatch cbh.b_blocknr], rfl, ?_, rfl, rfl, rfl⟩
      intro e he
      simp only [List.mem_singleton] at he
      exact ⟨_, he⟩
  split_ifs
  · obtain ⟨R, h1, h2, h3, h4⟩ := submit_commit_record_step_trace env s
    obtain ⟨W, w1, w2, w3, w4, w5⟩ := key (submit_commit_record_step env s)
    refine ⟨R, W, by rw [w1, h1], h2, w2, w3.trans h3, w4.trans h4, ?_⟩
    rw [w5]
    exact (submit_commit_record_step_facts env s).2.1
  · obtain ⟨W, w1, w2, w3, w4, w5⟩ := key s
    exact ⟨[], W, by rw [w1]; simp, by simp, w2, w3, w4, by rw [w5]⟩

theorem dispatch_finish_trace (s : commit_state) :
    (dispatch_finish s).trace = s.trace ++
      (if s.journal.j_commit_callback = true then [event.j_commit_callback s.t_tid] else []) ++
      (if s.journal.j_fc_cleanup_callback = true then [event.j_fc_cleanup_callback s.t_tid]
        else []) ∧
    (dispatch_finish s).t_state = s.t_state := by
  unfold dispatch_finish
  simp only [emit]
  by_cases h1 : s.journal.j_commit_callback = true <;>
    by_cases h2 : s.journal.j_fc_cleanup_callback = true <;>
    simp [h1, h2]

/-! ### C20: the state of the transaction at the callbacks -/

theorem callback_states_milestones :
    ∀ (tr : List event) (st : t_state),
      callback_states st tr = callback_states st (milestones tr) := by
  intro tr
  induction tr with
  | nil => intro st; rfl
  | cons e rest ih =>
    intro st
    cases e with
    | set_t_state st2 =>
      have h : milestones (event.set_t_state st2 :: rest) =
          event.set_t_state st2 :: milestones rest := by
        simp [milestones, is_milestone]
      rw [h]
      simp only [callback_states]
      exact ih st2
    | j_commit_callback tid =>
      have h : milestones (event.j_commit_callback tid :: rest) =
          event.j_commit_callback tid :: milestones rest := by
        simp [milestones, is_milestone]
      rw [h]
      simp only [callback_states]
      rw [ih st]
    | j_fc_cleanup_callback tid =>
      have h : milestones (event.j_fc_cleanup_callback tid :: rest) =
          event.j_fc_cleanup_callback tid :: milestones rest := by
        simp [milestones, is_milestone]
      rw [h]
      simp only [callback_states]
      rw [ih st]
    | _ =>
      simp only [callback_states]
      rw [ih st]
      simp [milestones, is_milestone]

theorem commit_prologue_milestones (env : commit_env) (s : commit_state) :
    milestones (commit_prologue env s).trace = milestones s.trace ++
      [event.set_t_state t_state.T_LOCKED, event.set_t_state t_state.T_SWITCH,
        event.set_t_state t_state.T_FLUSH, event.set_t_state t_state.T_COMMIT] := by
  obtain ⟨h, lb, evs, h1, h2⟩ := commit_prologue_events env s
  have m1 := milestones_revoke evs h2
  have r1 := milestones_map journal_head s.t_reserved_list
    (fun jh => event.jbd2_journal_refile_buffer jh.b_blocknr) (fun _ => rfl)
  rw [h1, commit_lock_down_eq]
  simp only [milestones_append, m1, r1, List.append_nil, List.append_assoc]
  split_ifs <;> simp [milestones, is_milestone]

/-- The state changes and callbacks of the metadata loop: none. -/
theorem commit_loop_milestones (env : commit_env) (barrier : Bool) (fuel : Nat)
    (s s2 : commit_state) (h : commit_loop env barrier fuel s = some s2) :
    milestones s2.trace = milestones s.trace ∧ s2.t_tid = s.t_tid ∧
    journal_config s2.journal = journal_config s.journal := by
  obtain ⟨h1, h2, _, evs, h4, h5⟩ := commit_loop_basic env barrier fuel s s2 h
  refine ⟨?_, ?_, h1⟩
  · rw [h4, milestones_append, milestones_loop_events evs h5, List.append_nil]
  · have := h2
    simp only [loop_frame, Prod.mk.injEq] at this
    exact this.1

/-- The state changes and callbacks of the dispatch stage behind the metadata
loop. -/
theorem dispatch_after_loop_milestones (env : commit_env) (s : commit_state) :
    milestones (dispatch_after_loop env s).trace = milestones s.trace ++
      [event.set_t_state t_state.T_COMMIT_DFLUSH] ++
      (if s.journal.j_commit_callback = true then [event.j_commit_callback s.t_tid] else []) ++
      (if s.journal.j_fc_cleanup_callback = true then [event.j_fc_cleanup_callback s.t_tid]
        else []) ∧
    (dispatch_after_loop env s).t_state = t_state.T_COMMIT_DFLUSH := by
  obtain ⟨_, _, _, _, _, c1, _⟩ := commit_dflush_loud env s
  obtain ⟨_, _, _, d3, d4⟩ := commit_dflush_trace env s
  obtain ⟨R, W, r1, r2, r3, r4, r5, r6⟩ :=
    dispatch_commit_record_trace env (dispatch_wait (commit_dflush env s))
  have hw : (dispatch_wait (commit_dflush env s)).journal = (commit_dflush env s).journal := by
    rw [dispatch_wait_eq]
  have hc : journal_config
      (dispatch_commit_record env (dispatch_wait (commit_dflush env s))).journal =
      journal_config s.journal := by
    rw [r6, hw]; exact c1
  simp only [journal_config, Prod.mk.injEq] at hc
  have hcb := hc.2.2.2.2.2.2.2.2.2.2.2.2.2.2.1
  have hfc := hc.2.2.2.2.2.2.2.2.2.2.2.2.2.2.2
  have htid : (dispatch_commit_record env (dispatch_wait (commit_dflush env s))).t_tid =
      s.t_tid := by
    rw [r5, dispatch_wait_eq]; exact d4
  have hW : milestones W = [] := by
    apply milestones_of_plain
    intro e he
    obtain ⟨b, rfl⟩ := r3 e he
    rfl
  unfold dispatch_after_loop
  refine ⟨?_, ?_⟩
  · rw [(dispatch_finish_trace _).1, hcb, hfc, htid, r1, dispatch_wait_eq]
    simp only [milestones_append, milestones_loop_events R r2, hW, List.append_nil,
      milestones_map Nat _ event.wait_on_buffer_dispatch (fun _ => rfl), commit_dflush_milestones]
    split_ifs <;> simp [milestones, is_milestone]
  · rw [(dispatch_finish_trace _).2, r4, dispatch_wait_eq]
    exact d3

/-- The dispatch stage returns: the metadata loop ends within its fuel. -/
theorem dispatch_transaction_total (env : commit_env) (q : flush_queue)
    (commit_transaction : Nat) (s0 : commit_state) :
    ∃ s2, commit_loop env true (commit_loop_fuel (dispatch_prologue env s0))
        (dispatch_prologue env s0) = some s2 ∧ s2.t_buffers = [] ∧
      jbd2_journal_barrier_commit_transaction env q commit_transaction s0 =
        some (flush_enqueue q commit_transaction, dispatch_after_loop env s2) := by
  obtain ⟨s2, h1, h2⟩ := commit_loop_total env true (commit_loop_fuel (dispatch_prologue env s0))
    (dispatch_prologue env s0) (commit_loop_fuel_enough _)
  refine ⟨s2, h1, h2, ?_⟩
  unfold jbd2_journal_barrier_commit_transaction
  simp only [h1]

/-- C20, as stated, fails: the dispatch stage of the pipelined commit invokes
both callbacks while the state of the transaction is `T_COMMIT_DFLUSH`. -/
theorem callback_state_counterexample :
    (jbd2_journal_barrier_commit_transaction sample_env empty_queue 7
        (sample_state sample_journal [sample_jh 100])).map
      (fun r => callback_states t_state.T_RUNNING r.2.trace) =
      some [(event.j_commit_callback 42, t_state.T_COMMIT_DFLUSH),
        (event.j_fc_cleanup_callback 42, t_state.T_COMMIT_DFLUSH)] := by
  decide

theorem callbacks_of_milestones (tr : List event) :
    callbacks tr = callbacks (milestones tr) := by
  unfold callbacks milestones
  rw [List.filter_filter]
  congr 1
  funext e
  cases e <;> rfl

theorem t_states_of_milestones (tr : List event) :
    t_states tr = t_states (milestones tr) := by
  unfold t_states milestones
  rw [List.filterMap_filter]
  congr 1
  funext e
  cases e <;> rfl

theorem callbacks_append (a b : List event) :
    callbacks (a ++ b) = callbacks a ++ callbacks b := by
  simp [callbacks]

/-- The state changes and callbacks of the flush stage: when the queue is not
NULL it sets `T_COMMIT_JFLUSH` and `T_FINISHED` and invokes no callback, and
otherwise it does nothing. -/
theorem flush_transaction_milestones (env : commit_env) (cfg : barrier_config)
    (q : flush_queue) (s : commit_state) :
    milestones (jbd2_journal_barrier_flush_transaction env cfg q s).2.trace =
      milestones s.trace ++
        (if q.j_flushing_transactions.isSome = true then
          [event.set_t_state t_state.T_COMMIT_JFLUSH, event.set_t_state t_state.T_FINISHED]
        else []) := by
  have hfin : ∀ (d : Bool) (v : Nat) (x : commit_state),
      milestones (flush_finish env cfg d v x).trace =
        milestones x.trace ++ [event.set_t_state t_state.T_FINISHED] := by
    intro d v x
    have hone : ∀ (y : commit_state) (jh : journal_head),
        milestones (flush_forget_one v y jh).trace = milestones y.trace := by
      intro y jh
      unfold flush_forget_one
      simp only [emit]
      split_ifs <;> simp [milestones, is_milestone]
    have hfold : ∀ (l : List journal_head) (y : commit_state),
        milestones (l.foldl (flush_forget_one v) y).trace = milestones y.trace := by
      intro l
      induction l with
      | nil => intro y; rfl
      | cons jh rest ih => intro y; rw [List.foldl_cons, ih, hone]
    have hf := hfold x.t_forget x
    unfold flush_finish
    simp only [set_t_state, emit]
    generalize List.foldl (flush_forget_one v) x x.t_forget = f at hf ⊢
    split_ifs <;> (simp only [milestones_append, hf]; simp [milestones, is_milestone])
  cases hq : q.j_flushing_transactions with
  | none =>
    unfold jbd2_journal_barrier_flush_transaction
    simp [flush_pick, hq]
  | some a =>
    obtain ⟨w1, _, _⟩ := commit_wait_io_milestones env { s with err := 0 }
    unfold jbd2_journal_barrier_flush_transaction
    simp only [flush_pick, hq]
    rw [hfin, flush_jflush_eq]
    have hw : milestones (match (commit_wait_io env { s with err := 0 }).cbh with
        | some cbh => [event.wait_on_buffer cbh.b_blocknr]
        | none => []) = [] := by
      cases (commit_wait_io env { s with err := 0 }).cbh <;> rfl
    have hu : ∀ (c : Prop) [Decidable c] (a b : Nat),
        milestones (if c then [event.jbd2_update_log_tail a b] else []) = [] := by
      intro c _ a b
      split_ifs <;> rfl
    simp only [milestones_append, milestones_abort_list, milestones_flush_list, hw, hu,
      List.append_nil, w1]
    simp [milestones, is_milestone]

theorem dispatch_lock_down_split (env : commit_env) (s : commit_state) :
    dispatch_lock_down env s = dispatch_lock env (dispatch_entry s) := rfl

theorem coalescing_none (env : commit_env) (q : flush_queue) (commit_transaction : Nat)
    (s0 : commit_state) :
    jbd2_journal_barrier_commit_transaction_coalescing env q commit_transaction 0 s0 =
      jbd2_journal_barrier_commit_transaction env q commit_transaction s0 := rfl

theorem coalescing_passes_eq :
    ∀ (n : Nat) (s : commit_state),
      coalescing_passes n s =
        { s with
          t_state := if n = 0 then s.t_state else t_state.T_RUNNING,
          trace := s.trace ++ (coalescing_states n).map event.set_t_state } := by
  intro n
  induction n with
  | zero => intro s; simp [coalescing_passes, coalescing_states]
  | succ n ih =>
    intro s
    rw [coalescing_passes, ih]
    by_cases hn : n = 0 <;>
      simp [hn, coalescing_pass, set_t_state, emit, coalescing_states]

theorem dispatch_lock_facts (env : commit_env) (s : commit_state) :
    journal_config (dispatch_lock env s).journal = journal_config s.journal ∧
    (dispatch_lock env s).t_tid = s.t_tid ∧
    milestones (dispatch_lock env s).trace = milestones s.trace ++
      [event.set_t_state t_state.T_LOCKED, event.set_t_state t_state.T_SWITCH,
        event.set_t_state t_state.T_FLUSH] := by
  have r1 := milestones_map journal_head s.t_reserved_list
    (fun jh => event.jbd2_journal_refile_buffer_entry jh.b_blocknr) (fun _ => rfl)
  unfold dispatch_lock
  simp only [dispatch_release_reserved_list_eq, set_t_state, emit]
  split_ifs
  · refine ⟨by simp [jbd2_journal_abort, journal_config], rfl, ?_⟩
    simp only [jbd2_journal_abort, milestones_append, r1, List.append_nil, List.append_assoc]
    simp [milestones, is_milestone]
  · refine ⟨rfl, rfl, ?_⟩
    simp only [milestones_append, r1, List.append_nil, List.append_assoc]
    simp [milestones, is_milestone]

theorem milestones_set_states (l : List t_state) :
    milestones (l.map event.set_t_state) = l.map event.set_t_state := by
  unfold milestones
  rw [List.filter_eq_self]
  intro e he
  obtain ⟨st, _, rfl⟩ := List.mem_map.mp he
  rfl

theorem dispatch_prologue_coalescing_facts (env : commit_env) (n : Nat) (s : commit_state) :
    journal_config (dispatch_prologue_coalescing env n s).journal = journal_config s.journal ∧
    (dispatch_prologue_coalescing env n s).t_tid = s.t_tid ∧
    milestones (dispatch_prologue_coalescing env n s).trace = milestones s.trace ++
      (coalescing_states n).map event.set_t_state ++
      [event.set_t_state t_state.T_LOCKED, event.set_t_state t_state.T_SWITCH,
        event.set_t_state t_state.T_FLUSH, event.set_t_state t_state.T_COMMIT] := by
  obtain ⟨h, lb, evs, h1, h2⟩ := write_revoke_records_events env env.revoke_blocks
    (dispatch_lock env (coalescing_passes n (dispatch_entry s)))
  obtain ⟨k1, k2, k3⟩ := dispatch_lock_facts env (coalescing_passes n (dispatch_entry s))
  have m1 := milestones_revoke evs h2
  have e1 : journal_config (coalescing_passes n (dispatch_entry s)).journal =
      journal_config s.journal := by
    rw [coalescing_passes_eq]
    unfold dispatch_entry
    simp only []
    split_ifs <;> simp [journal_config, emit]
  have e2 : (coalescing_passes n (dispatch_entry s)).t_tid = s.t_tid := by
    rw [coalescing_passes_eq]
    unfold dispatch_entry
    simp only []
    split_ifs <;> rfl
  have e3 : milestones (coalescing_passes n (dispatch_entry s)).trace =
      milestones s.trace ++ (coalescing_states n).map event.set_t_state := by
    rw [coalescing_passes_eq]
    unfold dispatch_entry
    simp only [milestones_append, milestones_set_states]
    split_ifs <;> simp [emit, milestones, is_milestone]
  unfold dispatch_prologue_coalescing
  simp only [h1, set_t_state, emit]
  refine ⟨?_, k2.trans e2, ?_⟩
  · rw [← e1, ← k1]
    simp [journal_config]
  · simp only [milestones_append, m1, k3, e3, List.append_nil, List.append_assoc]
    simp [milestones, is_milestone]

theorem coalescing_states_plain (n : Nat) :
    t_state.T_COMMIT_CALLBACK ∉ coalescing_states n := by
  induction n with
  | zero => simp [coalescing_states]
  | succ n ih => simp [coalescing_states, ih]

theorem callbacks_set_states (l : List t_state) :
    callbacks (l.map event.set_t_state) = [] := by
  unfold callbacks
  rw [List.filter_eq_nil_iff]
  intro e he
  obtain ⟨st, _, rfl⟩ := List.mem_map.mp he
  simp [is_callback]

theorem t_states_set_states (l : List t_state) :
    t_states (l.map event.set_t_state) = l := by
  induction l with
  | nil => rfl
  | cons st rest ih => simpa [t_states, List.filterMap_cons] using ih

/-- The dispatch stage returns, however often it starts over at
`op_coalescing`. -/
theorem dispatch_coalescing_total (env : commit_env) (q : flush_queue)
    (commit_transaction : Nat) (n : Nat) (s0 : commit_state) :
    ∃ s2, commit_loop env true (commit_loop_fuel (dispatch_prologue_coalescing env n s0))
        (dispatch_prologue_coalescing env n s0) = some s2 ∧
      jbd2_journal_barrier_commit_transaction_coalescing env q commit_transaction n s0 =
        some (flush_enqueue q commit_transaction, dispatch_after_loop env s2) := by
  obtain ⟨s2, h1, _⟩ := commit_loop_total env true
    (commit_loop_fuel (dispatch_prologue_coalescing env n s0))
    (dispatch_prologue_coalescing env n s0) (commit_loop_fuel_enough _)
  refine ⟨s2, h1, ?_⟩
  unfold jbd2_journal_barrier_commit_transaction_coalescing
  simp only [h1]

/-- C20, amended: each of the two callbacks is invoked at most once per
transaction (once when the journal has it, never otherwise).  In
`jbd2_journal_commit_transaction` they are invoked only once the state of the
transaction is `T_COMMIT_CALLBACK`.  `jbd2_journal_barrier_commit_transaction`
invokes them without the state being set to `T_COMMIT_CALLBACK`: no statement
of the dispatch stage assigns that state, however often the stage starts over
at `op_coalescing`, and none of the flush stage
(`jbd2_journal_barrier_flush_transaction`), which assigns `T_COMMIT_JFLUSH`
and `T_FINISHED` only and invokes no callback.  What state the transaction is
in when the dispatch stage invokes the callbacks is left open: it has been put
on the flush queue before, and the flush stage may be at work on it. -/
theorem callbacks_once_at_end (env : commit_env) (cfg : barrier_config)
    (q q2 : flush_queue) (commit_transaction : Nat) (s0 : commit_state)
    (htr : s0.trace = []) :
    (∃ s, jbd2_journal_commit_transaction env s0 = some s ∧
      callback_states s0.t_state s.trace =
        (if s0.journal.j_commit_callback = true then
          [(event.j_commit_callback s0.t_tid, t_state.T_COMMIT_CALLBACK)] else []) ++
        (if s0.journal.j_fc_cleanup_callback = true then
          [(event.j_fc_cleanup_callback s0.t_tid, t_state.T_COMMIT_CALLBACK)] else [])) ∧
    (∀ conflicts : Nat, ∃ r,
      jbd2_journal_barrier_commit_transaction_coalescing env q commit_transaction conflicts s0 =
        some r ∧
      commit_callback_calls r.2.trace =
        (if s0.journal.j_commit_callback = true then 1 else 0) ∧
      fc_cleanup_callback_calls r.2.trace =
        (if s0.journal.j_fc_cleanup_callback = true then 1 else 0) ∧
      t_state.T_COMMIT_CALLBACK ∉ t_states r.2.trace) ∧
    jbd2_journal_barrier_commit_transaction_coalescing env q commit_transaction 0 s0 =
      jbd2_journal_barrier_commit_transaction env q commit_transaction s0 ∧
    (∀ x : commit_state,
      t_states (jbd2_journal_barrier_flush_transaction env cfg q2 x).2.trace =
        t_states x.trace ++
          (if q2.j_flushing_transactions.isSome = true then
            [t_state.T_COMMIT_JFLUSH, t_state.T_FINISHED] else []) ∧
      callbacks (jbd2_journal_barrier_flush_transaction env cfg q2 x).2.trace =
        callbacks x.trace) := by
  refine ⟨?_, ?_, rfl, ?_⟩
  · obtain ⟨s2, h1, _, h3⟩ := commit_transaction_total env s0
    obtain ⟨l1, l2, l3⟩ := commit_loop_milestones env false _ _ s2 h1
    obtain ⟨p1, _, _, _, _, _, _, _, _, p10, _⟩ := commit_prologue_frame env s0
    have hc := l3.trans p1
    simp only [journal_config, Prod.mk.injEq] at hc
    have hcb := hc.2.2.2.2.2.2.2.2.2.2.2.2.2.2.1
    have hfc := hc.2.2.2.2.2.2.2.2.2.2.2.2.2.2.2
    refine ⟨_, h3, ?_⟩
    rw [callback_states_milestones, commit_after_loop_milestones, l1,
      commit_prologue_milestones, htr, hcb, hfc, l2, p10]
    by_cases c1 : s0.journal.j_commit_callback = true <;>
      by_cases c2 : s0.journal.j_fc_cleanup_callback = true <;>
      simp [c1, c2, milestones, callback_states]
  · intro n
    obtain ⟨s2, h1, h3⟩ := dispatch_coalescing_total env q commit_transaction n s0
    obtain ⟨l1, l2, l3⟩ := commit_loop_milestones env true _ _ s2 h1
    obtain ⟨p1, p6, p10⟩ := dispatch_prologue_coalescing_facts env n s0
    obtain ⟨a1, _⟩ := dispatch_after_loop_milestones env s2
    have hc := l3.trans p1
    simp only [journal_config, Prod.mk.injEq] at hc
    have hcb := hc.2.2.2.2.2.2.2.2.2.2.2.2.2.2.1
    have hfc := hc.2.2.2.2.2.2.2.2.2.2.2.2.2.2.2
    have hm : milestones (dispatch_after_loop env s2).trace =
        (coalescing_states n).map event.set_t_state ++
        [event.set_t_state t_state.T_LOCKED, event.set_t_state t_state.T_SWITCH,
          event.set_t_state t_state.T_FLUSH, event.set_t_state t_state.T_COMMIT,
          event.set_t_state t_state.T_COMMIT_DFLUSH] ++
        (if s0.journal.j_commit_callback = true then [event.j_commit_callback s0.t_tid]
          else []) ++
        (if s0.journal.j_fc_cleanup_callback = true then [event.j_fc_cleanup_callback s0.t_tid]
          else []) := by
      rw [a1, l1, p10, htr, hcb, hfc, l2, p6]
      simp [milestones]
    have hcbs : callbacks (dispatch_after_loop env s2).trace =
        (if s0.journal.j_commit_callback = true then [event.j_commit_callback s0.t_tid]
          else []) ++
        (if s0.journal.j_fc_cleanup_callback = true then [event.j_fc_cleanup_callback s0.t_tid]
          else []) := by
      rw [callbacks_of_milestones, hm]
      simp only [callbacks_append, callbacks_set_states, List.nil_append]
      by_cases c1 : s0.journal.j_commit_callback = true <;>
        by_cases c2 : s0.journal.j_fc_cleanup_callback = true <;>
        simp [c1, c2, callbacks, is_callback]
    refine ⟨_, h3, ?_, ?_, ?_⟩
    · show commit_callback_calls (dispatch_after_loop env s2).trace = _
      unfold commit_callback_calls
      rw [hcbs]
      by_cases c1 : s0.journal.j_commit_callback = true <;>
        by_cases c2 : s0.journal.j_fc_cleanup_callback = true <;>
        simp [c1, c2]
    · show fc_cleanup_callback_calls (dispatch_after_loop env s2).trace = _
      unfold fc_cleanup_callback_calls
      rw [hcbs]
      by_cases c1 : s0.journal.j_commit_callback = true <;>
        by_cases c2 : s0.journal.j_fc_cleanup_callback = true <;>
        simp [c1, c2]
    · show t_state.T_COMMIT_CALLBACK ∉ t_states (dispatch_after_loop env s2).trace
      rw [t_states_of_milestones, hm]
      simp only [t_states_append, t_states_set_states]
      have hn := coalescing_states_plain n
      by_cases c1 : s0.journal.j_commit_callback = true <;>
        by_cases c2 : s0.journal.j_fc_cleanup_callback = true <;>
        simp [c1, c2, t_states, hn]
  · intro x
    have hm := flush_transaction_milestones env cfg q2 x
    constructor
    · rw [t_states_of_milestones, hm, t_states_append, ← t_states_of_milestones]
      split_ifs <;> simp [t_states]
    · rw [callbacks_of_milestones, hm, callbacks_append, ← callbacks_of_milestones]
      split_ifs <;> simp [callbacks, is_callback]

/-- C20, amended, at a concrete input: the ordinary commit of the sample
transaction invokes each callback once, in state `T_COMMIT_CALLBACK`. -/
theorem callbacks_once_at_end_witness :
    ∃ s, jbd2_journal_commit_transaction sample_env
        (sample_state sample_journal [sample_jh 100]) = some s ∧
      callback_states t_state.T_RUNNING s.trace =
        [(event.j_commit_callback 42, t_state.T_COMMIT_CALLBACK),
          (event.j_fc_cleanup_callback 42, t_state.T_COMMIT_CALLBACK)] :=
  (callbacks_once_at_end sample_env sample_config empty_queue empty_queue 7
    (sample_state sample_journal [sample_jh 100]) rfl).1

/-! ### C17: the flush of the filesystem device -/

theorem tags_match_no_commit (env : commit_env) (uuid : List Nat) :
    ∀ (ts : List journal_block_tag_t) (first : Bool) (ms : List buffer_head),
      tags_match env uuid first ts ms → ∀ m ∈ ms, is_commit m = false := by
  intro ts
  induction ts with
  | nil =>
    intro first ms h m hm
    cases ms with
    | nil => cases hm
    | cons b ms => exact absurd h (by simp [tags_match])
  | cons t rest ih =>
    intro first ms h m hm
    cases ms with
    | nil => cases hm
    | cons b ms =>
      obtain ⟨⟨jh, hb, _⟩, h2⟩ := h
      rcases List.mem_cons.mp hm with rfl | hm2
      · unfold is_commit
        rw [hb]
      · exact ih false ms h2 m hm2

/-- The blocks of the batches of the metadata loop are descriptor blocks and
copies of metadata buffers: no commit block is among them. -/
theorem log_batches_no_commit (env : commit_env) (uuid : List Nat) (l : List buffer_head)
    (h : log_batches env uuid l) : ∀ bh ∈ l, is_commit bh = false := by
  induction h with
  | nil => intro bh hbh; cases hbh
  | batch d0 ms rest hd0 hm _ ih =>
    intro bh hbh
    rcases List.mem_cons.mp hbh with rfl | hd2
    · unfold is_descriptor at hd0
      unfold is_commit
      cases hb : bh.b_data <;> simp_all
    · rcases List.mem_append.mp hd2 with h1 | h2
      · exact tags_match_no_commit env uuid _ true ms hm bh h1
      · exact ih bh h2

/-- The trace up to the flush of the filesystem device, when the conditions
of the flush hold at the end of the metadata loop. -/
theorem dflush_head_split (env : commit_env) (s2 : commit_state)
    (hcond : s2.t_need_data_flush = true ∧ s2.journal.j_fs_dev ≠ s2.journal.j_dev ∧
      s2.journal.j_flags.JBD2_BARRIER = true)
    (hfl : flushes s2.trace = []) (hsub : ∀ bh ∈ submitted s2.trace, is_commit bh = false) :
    ∃ pre, (commit_dflush_head env s2).trace =
        pre ++ [event.blkdev_issue_flush s2.journal.j_fs_dev] ∧
      flushes pre = [] ∧ ∀ bh ∈ submitted pre, is_commit bh = false := by
  obtain ⟨h1, _⟩ := commit_dflush_head_trace env s2
  rw [if_pos hcond] at h1
  refine ⟨_, h1, ?_, ?_⟩
  · simp only [flushes_append, hfl, List.nil_append]
    split_ifs <;> rfl
  · intro bh hbh
    simp only [submitted_append] at hbh
    have h0 : submitted (if finish_data_err env s2 ≠ 0 ∧
        s2.journal.j_flags.JBD2_ABORT_ON_SYNCDATA_ERR = true then
        [event.jbd2_journal_abort (finish_data_err env s2)] else []) = [] := by
      split_ifs <;> rfl
    rw [h0, List.append_nil] at hbh
    have h9 : submitted [event.set_t_state t_state.T_COMMIT_DFLUSH] = [] := rfl
    rw [h9, List.append_nil] at hbh
    exact hsub bh hbh

theorem commit_after_loop_ext (env : commit_env) (s : commit_state) :
    ∃ post, (commit_after_loop env s).trace = (commit_dflush_head env s).trace ++ post := by
  obtain ⟨R, r1, _⟩ := commit_dflush_trace env s
  obtain ⟨_, _, T1, t1⟩ := commit_wait_io_milestones env (commit_dflush env s)
  obtain ⟨⟨T2, t2⟩, _⟩ := commit_jflush_failed env (commit_wait_io env (commit_dflush env s))
  obtain ⟨⟨T3, t3⟩, _⟩ := commit_finish_ext env
    (commit_jflush env (commit_wait_io env (commit_dflush env s)))
  unfold commit_after_loop
  exact ⟨R ++ T1 ++ T2 ++ T3, by rw [t3, t2, t1, r1]; simp only [List.append_assoc]⟩

theorem dispatch_after_loop_ext (env : commit_env) (s : commit_state) :
    ∃ post, (dispatch_after_loop env s).trace = (commit_dflush_head env s).trace ++ post := by
  obtain ⟨R, r1, _⟩ := commit_dflush_trace env s
  obtain ⟨R2, W, w1, _⟩ := dispatch_commit_record_trace env (dispatch_wait (commit_dflush env s))
  unfold dispatch_after_loop
  rw [(dispatch_finish_trace _).1, w1, dispatch_wait_eq, r1]
  simp only [List.append_assoc]
  exact ⟨_, rfl⟩

/-- From the start of the metadata loop to the flush of the filesystem
device: no device flush and no commit block before it. -/
theorem loop_end_split (env : commit_env) (barrier : Bool) (uuid : List Nat) (fuel : Nat)
    (p s2 : commit_state) (hl : commit_loop env barrier fuel p = some s2)
    (htags : tags_inv env uuid p) (hfl : flushes p.trace = [])
    (hcond : p.t_need_data_flush = true ∧ p.journal.j_fs_dev ≠ p.journal.j_dev ∧
      p.journal.j_flags.JBD2_BARRIER = true) :
    ∃ pre, (commit_dflush_head env s2).trace =
        pre ++ [event.blkdev_issue_flush p.journal.j_fs_dev] ∧
      flushes pre = [] ∧ ∀ bh ∈ submitted pre, is_commit bh = false := by
  obtain ⟨b1, b2, _, evs, b4, b5⟩ := commit_loop_basic env barrier fuel p s2 hl
  obtain ⟨_, _, _, hb⟩ := commit_loop_tags env barrier uuid fuel p s2 htags hl
  simp only [journal_config, Prod.mk.injEq] at b1
  simp only [loop_frame, Prod.mk.injEq] at b2
  have hfs : s2.journal.j_fs_dev = p.journal.j_fs_dev := b1.2.2.2.2.2.2.2.2.2.2.1
  have hdev : s2.journal.j_dev = p.journal.j_dev := b1.2.2.2.2.2.2.2.2.2.2.2.1
  have hbar : s2.journal.j_flags.JBD2_BARRIER = p.journal.j_flags.JBD2_BARRIER := b1.1
  have hnd : s2.t_need_data_flush = p.t_need_data_flush := b2.2.2.2.2.2.2.2.2.1
  have hcond2 : s2.t_need_data_flush = true ∧ s2.journal.j_fs_dev ≠ s2.journal.j_dev ∧
      s2.journal.j_flags.JBD2_BARRIER = true := by
    rw [hnd, hfs, hdev, hbar]; exact hcond
  have hfl2 : flushes s2.trace = [] := by
    rw [b4, flushes_append, hfl, flushes_loop_events evs b5]
    rfl
  obtain ⟨pre, h1, h2, h3⟩ := dflush_head_split env s2 hcond2 hfl2
    (log_batches_no_commit env uuid _ hb)
  exact ⟨pre, by rw [h1, hfs], h2, h3⟩

theorem commit_prologue_flushes (env : commit_env) (s : commit_state) :
    flushes (commit_prologue env s).trace = flushes s.trace := by
  obtain ⟨h, lb, evs, h1, h2⟩ := commit_prologue_events env s
  have m2 := flushes_revoke evs h2
  have r2 := flushes_map_plain journal_head s.t_reserved_list
    (fun jh => event.jbd2_journal_refile_buffer jh.b_blocknr) (fun _ => rfl)
  rw [h1, commit_lock_down_eq]
  simp only [flushes_append, m2, r2, List.append_nil]
  split_ifs <;> simp [flushes]

/-- C17, as stated, fails: the journal is on another device than the
filesystem and write barriers are enabled, but the transaction has no file
data to flush (`t_need_data_flush` clear); the commit flushes the journal
device only. -/
theorem fs_flush_counterexample :
    external_journal_no_data.journal.j_fs_dev ≠ external_journal_no_data.journal.j_dev ∧
    external_journal_no_data.journal.j_flags.JBD2_BARRIER = true ∧
    (jbd2_journal_commit_transaction sample_env external_journal_no_data).map
      (fun s => flushes s.trace) = some [1] := by
  decide

/-- C17, amended: whenever the journal device differs from the filesystem
device, write barriers are enabled and the transaction has `t_need_data_flush`
set, the commit flushes the filesystem device, and does so before the commit
record is submitted: in `jbd2_journal_commit_transaction` and in
`jbd2_journal_barrier_commit_transaction` alike the calls made are some calls
`pre`, among them no device flush and no submission of a commit block, then
`blkdev_issue_flush(journal->j_fs_dev)`, then the rest. -/
theorem fs_flush_before_commit_record (env : commit_env) (q : flush_queue)
    (commit_transaction : Nat) (s0 : commit_state) (htr : s0.trace = [])
    (hdev : s0.journal.j_fs_dev ≠ s0.journal.j_dev)
    (hb : s0.journal.j_flags.JBD2_BARRIER = true) (hnd : s0.t_need_data_flush = true) :
    (∃ s pre post, jbd2_journal_commit_transaction env s0 = some s ∧
      s.trace = pre ++ [event.blkdev_issue_flush s0.journal.j_fs_dev] ++ post ∧
      flushes pre = [] ∧ ∀ bh ∈ submitted pre, is_commit bh = false) ∧
    (∃ r pre post,
      jbd2_journal_barrier_commit_transaction env q commit_transaction s0 = some r ∧
      r.2.trace = pre ++ [event.blkdev_issue_flush s0.journal.j_fs_dev] ++ post ∧
      flushes pre = [] ∧ ∀ bh ∈ submitted pre, is_commit bh = false) := by
  constructor
  · obtain ⟨s2, h1, _, h3⟩ := commit_transaction_total env s0
    obtain ⟨p1, _, p3, p4, _, _, _, _, _, _, p11, _⟩ := commit_prologue_frame env s0
    have hcfg := p1
    simp only [journal_config, Prod.mk.injEq] at hcfg
    have hinit : tags_inv env s0.journal.j_uuid (commit_prologue env s0) := by
      refine ⟨hcfg.2.2.2.2.2.2.2.2.2.1, fun _ => p3, fun h => ?_, ?_⟩
      · rw [p4] at h
        cases h
      · rw [commit_prologue_submitted, htr]
        exact log_batches.nil
    have hfl : flushes (commit_prologue env s0).trace = [] := by
      rw [commit_prologue_flushes, htr]; rfl
    have hcond : (commit_prologue env s0).t_need_data_flush = true ∧
        (commit_prologue env s0).journal.j_fs_dev ≠ (commit_prologue env s0).journal.j_dev ∧
        (commit_prologue env s0).journal.j_flags.JBD2_BARRIER = true := by
      rw [p11, hcfg.1, hcfg.2.2.2.2.2.2.2.2.2.2.1, hcfg.2.2.2.2.2.2.2.2.2.2.2.1]
      exact ⟨hnd, hdev, hb⟩
    obtain ⟨pre, e1, e2, e3⟩ := loop_end_split env false _ _ _ s2 h1 hinit hfl hcond
    obtain ⟨post, e4⟩ := commit_after_loop_ext env s2
    refine ⟨_, pre, post, h3, ?_, e2, e3⟩
    rw [e4, e1, hcfg.2.2.2.2.2.2.2.2.2.2.1]
  · obtain ⟨s2, h1, _, h3⟩ := dispatch_transaction_total env q commit_transaction s0
    obtain ⟨p1, p3, p4, p11, _, _, _, p8, p9, _⟩ := dispatch_prologue_facts env s0
    have hcfg := p1
    simp only [journal_config, Prod.mk.injEq] at hcfg
    have hinit : tags_inv env s0.journal.j_uuid (dispatch_prologue env s0) := by
      refine ⟨hcfg.2.2.2.2.2.2.2.2.2.1, fun _ => p3, fun h => ?_, ?_⟩
      · rw [p4] at h
        cases h
      · rw [p8, htr]
        exact log_batches.nil
    have hfl : flushes (dispatch_prologue env s0).trace = [] := by
      rw [p9, htr]; rfl
    have hcond : (dispatch_prologue env s0).t_need_data_flush = true ∧
        (dispatch_prologue env s0).journal.j_fs_dev ≠ (dispatch_prologue env s0).journal.j_dev ∧
        (dispatch_prologue env s0).journal.j_flags.JBD2_BARRIER = true := by
      rw [p11, hcfg.1, hcfg.2.2.2.2.2.2.2.2.2.2.1, hcfg.2.2.2.2.2.2.2.2.2.2.2.1]
      exact ⟨hnd, hdev, hb⟩
    obtain ⟨pre, e1, e2, e3⟩ := loop_end_split env true _ _ _ s2 h1 hinit hfl hcond
    obtain ⟨post, e4⟩ := dispatch_after_loop_ext env s2
    refine ⟨_, pre, post, h3, ?_, e2, e3⟩
    rw [e4, e1, hcfg.2.2.2.2.2.2.2.2.2.2.1]

/-- C17, amended, at a concrete input: the sample transaction with file data
to flush on a journal whose filesystem is on device 2. -/
theorem fs_flush_before_commit_record_witness :
    ∃ s pre post, jbd2_journal_commit_transaction sample_env external_journal_state = some s ∧
      s.trace = pre ++ [event.blkdev_issue_flush 2] ++ post ∧
      flushes pre = [] ∧ ∀ bh ∈ submitted pre, is_commit bh = false :=
  (fs_flush_before_commit_record sample_env empty_queue 7 external_journal_state rfl
    (by decide) rfl rfl).1

/-! ### C29: the generation slots of nearby transactions -/

/-- C29, as stated, fails: with three generation slots the transaction ids
`2^32 - 1` and `0` are one apart across the wrap-around of the 32-bit id, and
both get slot 0. -/
theorem ver_tid_counterexample :
    1 ≤ three_slot_config.MAX_JH_VERSION ∧
    0 < tid_distance 4294967295 0 ∧
    tid_distance 4294967295 0 < three_slot_config.MAX_JH_VERSION ∧
    ver_tid three_slot_config 4294967295 = ver_tid three_slot_config 0 := by
  decide

/-- C29, amended: for `V = MAX_JH_VERSION >= 1` every slot index `tid mod V`
lies in `[0, V)`, and two 32-bit transaction ids `t1`, `t2` with
`0 < (t2 - t1) mod 2^32 < V` get different slots when `V` divides `2^32`
(also across the wrap-around of the id) or when there is no wrap-around between
them (`t1 < t2`). -/
theorem ver_tid_distinct (cfg : barrier_config) (t1 t2 : Nat)
    (hV : 1 ≤ cfg.MAX_JH_VERSION) (h1 : t1 < 4294967296) (h2 : t2 < 4294967296)
    (hpos : 0 < tid_distance t1 t2) (hlt : tid_distance t1 t2 < cfg.MAX_JH_VERSION)
    (hcase : cfg.MAX_JH_VERSION ∣ 4294967296 ∨ t1 < t2) :
    ver_tid cfg t1 ≠ ver_tid cfg t2 ∧
    ver_tid cfg t1 < cfg.MAX_JH_VERSION ∧ ver_tid cfg t2 < cfg.MAX_JH_VERSION := by
  refine ⟨?_, Nat.mod_lt _ hV, Nat.mod_lt _ hV⟩
  unfold ver_tid
  unfold tid_distance at hpos hlt
  intro heq
  by_cases hw : t1 < t2
  · have hd : (t2 + 4294967296 - t1) % 4294967296 = t2 - t1 := by omega
    rw [hd] at hpos hlt
    have hdvd : cfg.MAX_JH_VERSION ∣ t2 - t1 :=
      (Nat.modEq_iff_dvd' (le_of_lt hw)).mp heq
    have := Nat.le_of_dvd hpos hdvd
    omega
  · have hdiv : cfg.MAX_JH_VERSION ∣ 4294967296 := by
      rcases hcase with h | h
      · exact h
      · exact absurd h hw
    have hne : t1 ≠ t2 := by
      intro h
      rw [h] at hpos
      omega
    have hd : (t2 + 4294967296 - t1) % 4294967296 = t2 + 4294967296 - t1 := by omega
    rw [hd] at hpos hlt
    have h3 : (t2 + 4294967296) % cfg.MAX_JH_VERSION = t2 % cfg.MAX_JH_VERSION := by
      obtain ⟨k, hk⟩ := hdiv
      rw [hk, Nat.add_mul_mod_self_left]
    have heq2 : t1 % cfg.MAX_JH_VERSION = (t2 + 4294967296) % cfg.MAX_JH_VERSION := by
      rw [h3]; exact heq
    have hdvd : cfg.MAX_JH_VERSION ∣ t2 + 4294967296 - t1 :=
      (Nat.modEq_iff_dvd' (by omega)).mp heq2
    have := Nat.le_of_dvd hpos hdvd
    omega

/-- C29, amended, at a concrete input: four generation slots, ids `2^32 - 1`
and `1`, two apart across the wrap-around. -/
theorem ver_tid_distinct_witness :
    ver_tid sample_config 4294967295 ≠ ver_tid sample_config 1 ∧
    ver_tid sample_config 4294967295 < 4 ∧ ver_tid sample_config 1 < 4 :=
  ver_tid_distinct sample_config 4294967295 1 (by decide) (by decide) (by decide) (by decide)
    (by decide) (Or.inl (by decide))

/-! ### One pass of the metadata loop and the lists of the transaction -/

/-- What a pass of the metadata loop does to `t_buffers`, `t_shadow_list` and
`io_bufs`: in abort mode it takes the first buffer off `t_buffers`; otherwise
it aborts the journal and leaves the lists alone, or it moves the first buffer
of `t_buffers` to the tail of `t_shadow_list` and appends its log block to
`io_bufs`.  The log tail `j_tail` is not changed. -/
theorem commit_loop_iter_lists (env : commit_env) (barrier : Bool) (s : commit_state)
    (jh : journal_head) (rest : List journal_head) (hs : s.t_buffers = jh :: rest) :
    (commit_loop_iter env barrier s).journal.j_tail = s.journal.j_tail ∧
    ((is_journal_aborted s.journal = true ∧
        is_journal_aborted (commit_loop_iter env barrier s).journal = true ∧
        (commit_loop_iter env barrier s).t_buffers = rest ∧
        (commit_loop_iter env barrier s).t_shadow_list = s.t_shadow_list ∧
        (commit_loop_iter env barrier s).io_bufs = s.io_bufs) ∨
      (is_journal_aborted s.journal = false ∧
        is_journal_aborted (commit_loop_iter env barrier s).journal = true ∧
        (commit_loop_iter env barrier s).t_buffers = s.t_buffers ∧
        (commit_loop_iter env barrier s).t_shadow_list = s.t_shadow_list ∧
        (commit_loop_iter env barrier s).io_bufs = s.io_bufs) ∨
      (is_journal_aborted s.journal = false ∧
        is_journal_aborted (commit_loop_iter env barrier s).journal = false ∧
        (commit_loop_iter env barrier s).t_buffers = rest ∧
        (commit_loop_iter env barrier s).t_shadow_list = s.t_shadow_list ++ [jh] ∧
        ∃ b, (commit_loop_iter env barrier s).io_bufs = s.io_bufs ++ [b])) := by
  apply commit_loop_iter_cases env barrier
    (fun y => y.journal.j_tail = s.journal.j_tail ∧
      ((is_journal_aborted s.journal = true ∧ is_journal_aborted y.journal = true ∧
          y.t_buffers = rest ∧ y.t_shadow_list = s.t_shadow_list ∧ y.io_bufs = s.io_bufs) ∨
        (is_journal_aborted s.journal = false ∧ is_journal_aborted y.journal = true ∧
          y.t_buffers = s.t_buffers ∧ y.t_shadow_list = s.t_shadow_list ∧
          y.io_bufs = s.io_bufs) ∨
        (is_journal_aborted s.journal = false ∧ is_journal_aborted y.journal = false ∧
          y.t_buffers = rest ∧ y.t_shadow_list = s.t_shadow_list ++ [jh] ∧
          ∃ b, y.io_bufs = s.io_bufs ++ [b]))) s jh rest hs
  · intro ha
    rw [loop_release_eq]
    by_cases hr : rest = []
    · rw [if_pos hr]
      obtain ⟨f1, f2, f3, _, _, f6, _⟩ := start_journal_io_frame env
        { s with t_buffers := [], trace := s.trace ++ release_events barrier [jh] }
      exact ⟨by rw [f2], Or.inl ⟨ha, by rw [f2]; exact ha, by rw [f1, hr], f6, f3⟩⟩
    · rw [if_neg hr]
      exact ⟨rfl, Or.inl ⟨ha, ha, rfl, rfl, rfl⟩⟩
  · intro ha _ _
    exact ⟨rfl, Or.inr (Or.inl ⟨ha, rfl, rfl, rfl, rfl⟩)⟩
  · intro ha s1 h1 _
    rcases h1 with ⟨_, rfl⟩ | ⟨_, _, rfl⟩
    · exact ⟨rfl, Or.inr (Or.inl ⟨ha, rfl, rfl, rfl, rfl⟩)⟩
    · exact ⟨rfl, Or.inr (Or.inl ⟨ha, rfl, rfl, rfl, rfl⟩)⟩
  · intro ha s1 h1 _ _
    rcases h1 with ⟨_, rfl⟩ | ⟨_, _, rfl⟩
    · exact ⟨rfl, Or.inr (Or.inl ⟨ha, rfl, rfl, rfl, rfl⟩)⟩
    · exact ⟨rfl, Or.inr (Or.inl ⟨ha, rfl, rfl, rfl, rfl⟩)⟩
  · intro ha s1 h1 _ _
    obtain ⟨f1, f2, f3, _, _, f6⟩ := loop_submit_frame env
      (loop_tag env (log_buffer s1 jh rest) jh (metadata_bh env s1 jh)
        (env.write_metadata_flags jh.b_blocknr))
    rw [f1, f2, f3, f6, loop_tag_eq]
    rcases h1 with ⟨_, rfl⟩ | ⟨_, _, rfl⟩
    · exact ⟨rfl, Or.inr (Or.inr ⟨ha, ha, rfl, rfl, _, rfl⟩)⟩
    · exact ⟨rfl, Or.inr (Or.inr ⟨ha, ha, rfl, rfl, _, rfl⟩)⟩

/-! ### C26: the metadata loop terminates -/

theorem commit_loop_fuel_succ (env : commit_env) (barrier : Bool) :
    ∀ (fuel : Nat) (s s2 : commit_state), commit_loop env barrier fuel s = some s2 →
      commit_loop env barrier (fuel + 1) s = some s2 := by
  intro fuel
  induction fuel with
  | zero =>
    intro s s2 h
    by_cases he : s.t_buffers = []
    · simp only [commit_loop, he, if_true] at h ⊢
      exact h
    · simp [commit_loop, he] at h
  | succ n ih =>
    intro s s2 h
    by_cases he : s.t_buffers = []
    · simp only [commit_loop, he, if_true] at h ⊢
      exact h
    · rw [commit_loop, if_neg he] at h
      rw [commit_loop, if_neg he]
      exact ih _ _ h

theorem commit_loop_fuel_le (env : commit_env) (barrier : Bool) (s s2 : commit_state)
    (fuel : Nat) (h : commit_loop env barrier fuel s = some s2) :
    ∀ more, commit_loop env barrier (fuel + more) s = some s2 := by
  intro more
  induction more with
  | zero => exact h
  | succ n ih => exact commit_loop_fuel_succ env barrier _ s s2 ih

/-- C26: the metadata loop terminates.  For every list `t_buffers`, every
environment (any pattern of failures of descriptor allocation, log-block
allocation and metadata-buffer writing) and both copies of the loop, the loop
ends within `2 * length t_buffers + 1` passes, with `t_buffers` empty, and more
passes allowed give the same result; every pass takes the first buffer off
`t_buffers` or aborts a journal that was not aborted, and once the journal is
aborted every pass takes the first buffer off `t_buffers` and the journal
stays aborted. -/
theorem metadata_loop_terminates (env : commit_env) (barrier : Bool) (s : commit_state) :
    (∃ s2, commit_loop env barrier (2 * s.t_buffers.length + 1) s = some s2 ∧
      s2.t_buffers = [] ∧
      ∀ more, commit_loop env barrier (2 * s.t_buffers.length + 1 + more) s = some s2) ∧
    (∀ jh rest, s.t_buffers = jh :: rest →
      ((commit_loop_iter env barrier s).t_buffers = rest ∨
        (is_journal_aborted s.journal = false ∧
          is_journal_aborted (commit_loop_iter env barrier s).journal = true)) ∧
      (is_journal_aborted s.journal = true →
        (commit_loop_iter env barrier s).t_buffers = rest ∧
        is_journal_aborted (commit_loop_iter env barrier s).journal = true) ∧
      commit_loop_measure (commit_loop_iter env barrier s) < commit_loop_measure s) := by
  constructor
  · obtain ⟨s2, h1, h2⟩ := commit_loop_total env barrier (commit_loop_fuel s) s
      (commit_loop_fuel_enough s)
    exact ⟨s2, h1, h2, commit_loop_fuel_le env barrier s s2 _ h1⟩
  · intro jh rest hs
    obtain ⟨_, h⟩ := commit_loop_iter_lists env barrier s jh rest hs
    have hne : s.t_buffers ≠ [] := by rw [hs]; simp
    refine ⟨?_, ?_, commit_loop_iter_measure env barrier s hne⟩
    · rcases h with ⟨_, _, h3, _⟩ | ⟨h1, h2, _⟩ | ⟨_, _, h3, _⟩
      · exact Or.inl h3
      · exact Or.inr ⟨h1, h2⟩
      · exact Or.inl h3
    · intro ha
      rcases h with ⟨_, h2, h3, _⟩ | ⟨h1, _⟩ | ⟨h1, _⟩
      · exact ⟨h3, h2⟩
      · rw [ha] at h1; cases h1
      · rw [ha] at h1; cases h1

/-- C26 at a concrete input: three buffers, log position 12 cannot be mapped;
the first pass moves the first buffer to the shadow list, and the loop ends
within seven passes. -/
theorem metadata_loop_terminates_witness :
    (∃ s2, commit_loop bmap_fail_env false 7
        (sample_state sample_journal [sample_jh 100, sample_jh 200, sample_jh 300]) = some s2 ∧
      s2.t_buffers = []) ∧
    ((commit_loop_iter bmap_fail_env false
        (sample_state sample_journal [sample_jh 100, sample_jh 200, sample_jh 300])).t_buffers =
        [sample_jh 200, sample_jh 300] ∨
      is_journal_aborted (commit_loop_iter bmap_fail_env false
        (sample_state sample_journal [sample_jh 100, sample_jh 200, sample_jh 300])).journal
        = true) := by
  have h := metadata_loop_terminates bmap_fail_env false
    (sample_state sample_journal [sample_jh 100, sample_jh 200, sample_jh 300])
  obtain ⟨s2, h1, h2, _⟩ := h.1
  refine ⟨⟨s2, h1, h2⟩, ?_⟩
  rcases (h.2 (sample_jh 100) [sample_jh 200, sample_jh 300] rfl).1 with h3 | h3
  · exact Or.inl h3
  · exact Or.inr h3.2

/-! ### C23: the shadow list and `io_bufs` -/

theorem loop_states_rule (env : commit_env) (barrier : Bool) (P : commit_state → Prop)
    (hstep : ∀ s, P s → s.t_buffers ≠ [] → P (commit_loop_iter env barrier s)) :
    ∀ (fuel : Nat) (s : commit_state), P s → ∀ x ∈ loop_states env barrier fuel s, P x := by
  intro fuel
  induction fuel with
  | zero =>
    intro s hs x hx
    simp only [loop_states, List.mem_singleton] at hx
    rw [hx]; exact hs
  | succ n ih =>
    intro s hs x hx
    by_cases he : s.t_buffers = []
    · simp only [loop_states, he, if_true, List.mem_singleton] at hx
      rw [hx]; exact hs
    · rw [loop_states, if_neg he] at hx
      rcases List.mem_cons.mp hx with rfl | hx2
      · exact hs
      · exact ih _ (hstep s hs he) x hx2

/-- The state in which the loop ends is the last of the states of its
passes. -/
theorem loop_states_last (env : commit_env) (barrier : Bool) :
    ∀ (fuel : Nat) (s s2 : commit_state), commit_loop env barrier fuel s = some s2 →
      s2 ∈ loop_states env barrier fuel s := by
  intro fuel
  induction fuel with
  | zero =>
    intro s s2 h
    by_cases he : s.t_buffers = []
    · simp only [commit_loop, he, if_true, Option.some.injEq] at h
      simp [loop_states, h]
    · simp [commit_loop, he] at h
  | succ n ih =>
    intro s s2 h
    by_cases he : s.t_buffers = []
    · simp only [commit_loop, he, if_true, Option.some.injEq] at h
      rw [loop_states, if_pos he, h]
      exact List.mem_singleton.mpr rfl
    · rw [commit_loop, if_neg he] at h
      rw [loop_states, if_neg he]
      exact List.mem_cons_of_mem _ (ih _ _ h)

theorem commit_loop_iter_shadow (env : commit_env) (barrier : Bool) (s : commit_state)
    (hne : s.t_buffers ≠ []) (h : s.io_bufs.length = s.t_shadow_list.length) :
    (commit_loop_iter env barrier s).io_bufs.length =
      (commit_loop_iter env barrier s).t_shadow_list.length := by
  cases hs : s.t_buffers with
  | nil => exact absurd hs hne
  | cons jh rest =>
    obtain ⟨_, hl⟩ := commit_loop_iter_lists env barrier s jh rest hs
    rcases hl with ⟨_, _, _, h4, h5⟩ | ⟨_, _, _, h4, h5⟩ | ⟨_, _, _, h4, b, h5⟩
    · rw [h4, h5]; exact h
    · rw [h4, h5]; exact h
    · rw [h4, h5, List.length_append, List.length_append, h]
      rfl

/-- One pass of the wait loop over `io_bufs` with a buffer on the shadow
list: the last temporary buffer leaves `io_bufs` and the last shadow buffer
goes to the tail of the forget list. -/
theorem wait_io_buf_moves (env : commit_env) (s : commit_state) (b : Nat)
    (hne : s.t_shadow_list ≠ []) :
    (wait_io_buf env s b).io_bufs = s.io_bufs.dropLast ∧
    (wait_io_buf env s b).t_shadow_list = s.t_shadow_list.dropLast ∧
    (wait_io_buf env s b).t_forget = s.t_forget ++ [s.t_shadow_list.getLast hne] ∧
    (wait_io_buf env s b).t_buffers = s.t_buffers := by
  have hl : s.t_shadow_list.getLast? = some (s.t_shadow_list.getLast hne) :=
    List.getLast?_eq_getLast _ hne
  unfold wait_io_buf
  by_cases hu : env.io_uptodate b = true <;> simp [hu, hl, emit]

theorem wait_io_fold_drains (env : commit_env) :
    ∀ (l : List Nat) (s : commit_state), s.io_bufs.length = l.length →
      s.t_shadow_list.length = l.length →
      (l.foldl (wait_io_buf env) s).io_bufs = [] ∧
      (l.foldl (wait_io_buf env) s).t_shadow_list = [] ∧
      (l.foldl (wait_io_buf env) s).t_forget = s.t_forget ++ s.t_shadow_list.reverse ∧
      (l.foldl (wait_io_buf env) s).t_buffers = s.t_buffers := by
  intro l
  induction l with
  | nil =>
    intro s h1 h2
    have e1 : s.io_bufs = [] := List.length_eq_zero.mp h1
    have e2 : s.t_shadow_list = [] := List.length_eq_zero.mp h2
    simp [e1, e2]
  | cons b rest ih =>
    intro s h1 h2
    have hne : s.t_shadow_list ≠ [] := by
      intro h0
      rw [h0] at h2
      simp at h2
    obtain ⟨m1, m2, m3, m4⟩ := wait_io_buf_moves env s b hne
    have hio : (wait_io_buf env s b).io_bufs.length = rest.length := by
      rw [m1, List.length_dropLast, h1]; simp
    have hsh : (wait_io_buf env s b).t_shadow_list.length = rest.length := by
      rw [m2, List.length_dropLast, h2]; simp
    obtain ⟨i1, i2, i3, i4⟩ := ih (wait_io_buf env s b) hio hsh
    rw [List.foldl_cons]
    refine ⟨i1, i2, ?_, i4.trans m4⟩
    rw [i3, m3, m2, List.append_assoc]
    congr 1
    conv_rhs => rw [← List.dropLast_append_getLast hne]
    rw [List.reverse_append]
    rfl

theorem submit_commit_record_step_lists (env : commit_env) (s : commit_state) :
    (submit_commit_record_step env s).t_buffers = s.t_buffers ∧
    (submit_commit_record_step env s).t_shadow_list = s.t_shadow_list ∧
    (submit_commit_record_step env s).io_bufs = s.io_bufs ∧
    (submit_commit_record_step env s).t_forget = s.t_forget := by
  rw [submit_commit_record_step_eq]
  split_ifs <;> exact ⟨rfl, rfl, rfl, rfl⟩

theorem commit_dflush_lists (env : commit_env) (s : commit_state) :
    (commit_dflush env s).t_buffers = s.t_buffers ∧
    (commit_dflush env s).t_shadow_list = s.t_shadow_list ∧
    (commit_dflush env s).io_bufs = s.io_bufs ∧
    (commit_dflush env s).t_forget = s.t_forget := by
  have hh : (commit_dflush_head env s).t_buffers = s.t_buffers ∧
      (commit_dflush_head env s).t_shadow_list = s.t_shadow_list ∧
      (commit_dflush_head env s).io_bufs = s.io_bufs ∧
      (commit_dflush_head env s).t_forget = s.t_forget := by
    unfold commit_dflush_head
    simp only [log_tail_step_eq, finish_inode_data_step_eq, set_t_state, emit]
    split_ifs <;> exact ⟨rfl, rfl, rfl, rfl⟩
  unfold commit_dflush
  simp only []
  split_ifs
  · obtain ⟨a, b, c, d⟩ := submit_commit_record_step_lists env (commit_dflush_head env s)
    exact ⟨a.trans hh.1, b.trans hh.2.1, c.trans hh.2.2.1, d.trans hh.2.2.2⟩
  · exact hh

/-- The two wait loops drain `io_bufs` and the shadow list together. -/
theorem commit_wait_io_drains (env : commit_env) (s : commit_state)
    (h : s.io_bufs.length = s.t_shadow_list.length) :
    (commit_wait_io env s).io_bufs = [] ∧
    (commit_wait_io env s).t_shadow_list = [] ∧
    (commit_wait_io env s).t_forget = s.t_forget ++ s.t_shadow_list.reverse ∧
    (commit_wait_io env s).t_buffers = s.t_buffers := by
  obtain ⟨d1, d2, d3, d4⟩ := wait_io_fold_drains env s.io_bufs.reverse s
    (by rw [List.length_reverse]) (by rw [List.length_reverse, h])
  obtain ⟨lb, hlb⟩ := wait_log_fold_eq env
    (s.io_bufs.reverse.foldl (wait_io_buf env) s).log_bufs.reverse
    (s.io_bufs.reverse.foldl (wait_io_buf env) s)
  unfold commit_wait_io
  simp only []
  rw [hlb]
  split_ifs <;> exact ⟨d1, d2, d3, d4⟩

theorem commit_jflush_lists (env : commit_env) (s : commit_state) :
    (commit_jflush env s).t_buffers = s.t_buffers ∧
    (commit_jflush env s).t_shadow_list = s.t_shadow_list := by
  unfold commit_jflush
  simp only []
  rw [commit_jflush_tail_eq]
  simp only []
  split_ifs
  · obtain ⟨a, b, _⟩ := submit_commit_record_step_lists env
      (set_t_state s t_state.T_COMMIT_JFLUSH)
    exact ⟨a, b⟩
  · exact ⟨rfl, rfl⟩

/-- C23: list emptiness before checkpoint insertion.  In a commit entered
with `t_shadow_list` empty, at the top of every pass of the metadata loop and
at its end `io_bufs` holds as many entries as the shadow list (a successful
`jbd2_journal_write_metadata_buffer` being taken to move one buffer from
`t_buffers` to the tail of `t_shadow_list`); every pass of the wait loop moves
the last shadow buffer to the tail of the forget list; and when the wait loops
have drained `io_bufs`, `t_buffers` and `t_shadow_list` are empty, and they
still are where the `J_ASSERT`s in front of the checkpoint processing stand. -/
theorem lists_empty_before_checkpoint (env : commit_env) (s0 : commit_state)
    (hsh : s0.t_shadow_list = []) :
    ∃ s2, commit_loop env false (commit_loop_fuel (commit_prologue env s0))
        (commit_prologue env s0) = some s2 ∧
      jbd2_journal_commit_transaction env s0 = some (commit_after_loop env s2) ∧
      (∀ x ∈ loop_states env false (commit_loop_fuel (commit_prologue env s0))
          (commit_prologue env s0), x.io_bufs.length = x.t_shadow_list.length) ∧
      (∀ (x : commit_state) (b : Nat) (hne : x.t_shadow_list ≠ []),
        (wait_io_buf env x b).io_bufs = x.io_bufs.dropLast ∧
        (wait_io_buf env x b).t_shadow_list = x.t_shadow_list.dropLast ∧
        (wait_io_buf env x b).t_forget = x.t_forget ++ [x.t_shadow_list.getLast hne]) ∧
      (commit_wait_io env (commit_dflush env s2)).io_bufs = [] ∧
      (commit_wait_io env (commit_dflush env s2)).t_buffers = [] ∧
      (commit_wait_io env (commit_dflush env s2)).t_shadow_list = [] ∧
      (commit_wait_io env (commit_dflush env s2)).t_forget =
        s2.t_forget ++ s2.t_shadow_list.reverse ∧
      (commit_jflush env (commit_wait_io env (commit_dflush env s2))).t_buffers = [] ∧
      (commit_jflush env (commit_wait_io env (commit_dflush env s2))).t_shadow_list = [] := by
  obtain ⟨s2, h1, h2, h3⟩ := commit_transaction_total env s0
  obtain ⟨_, _, _, _, _, p6, _, _, p9, _⟩ := commit_prologue_frame env s0
  have hinit : (commit_prologue env s0).io_bufs.length =
      (commit_prologue env s0).t_shadow_list.length := by
    rw [p6, p9, hsh]
    rfl
  have hall := loop_states_rule env false
    (fun x => x.io_bufs.length = x.t_shadow_list.length)
    (fun x hx hne => commit_loop_iter_shadow env false x hne hx)
    (commit_loop_fuel (commit_prologue env s0)) (commit_prologue env s0) hinit
  have hend := hall s2 (loop_states_last env false _ _ s2 h1)
  obtain ⟨d1, d2, d3, d4⟩ := commit_dflush_lists env s2
  obtain ⟨w1, w2, w3, w4⟩ := commit_wait_io_drains env (commit_dflush env s2)
    (by rw [d3, d2]; exact hend)
  obtain ⟨j1, j2⟩ := commit_jflush_lists env (commit_wait_io env (commit_dflush env s2))
  refine ⟨s2, h1, h3, hall, fun x b hne => ?_, w1, ?_, w2, ?_, ?_, ?_⟩
  · obtain ⟨m1, m2, m3, _⟩ := wait_io_buf_moves env x b hne
    exact ⟨m1, m2, m3⟩
  · rw [w4, d1]; exact h2
  · rw [w3, d4, d2]
  · rw [j1, w4, d1]; exact h2
  · rw [j2]; exact w2

/-- C23 at a concrete input: the sample commit of three buffers. -/
theorem lists_empty_before_checkpoint_witness :
    ∃ s2, commit_loop sample_env false
        (commit_loop_fuel (commit_prologue sample_env
          (sample_state sample_journal [sample_jh 100, sample_jh 200, sample_jh 300])))
        (commit_prologue sample_env
          (sample_state sample_journal [sample_jh 100, sample_jh 200, sample_jh 300])) = some s2 ∧
      (commit_wait_io sample_env (commit_dflush sample_env s2)).t_buffers = [] ∧
      (commit_wait_io sample_env (commit_dflush sample_env s2)).t_shadow_list = [] := by
  obtain ⟨s2, h1, _, _, _, _, h6, h7, _⟩ := lists_empty_before_checkpoint sample_env
    (sample_state sample_journal [sample_jh 100, sample_jh 200, sample_jh 300]) rfl
  exact ⟨s2, h1, h6, h7⟩

/-! ### C22: snapshot rotation on the forget list -/

/-- C22: the ordinary commit rotates the snapshots of every buffer as the
claim says, on the fields of the journal head; the flush stage of the pipelined
commit does not: for the buffer `rotating_jh`, whose slot 2 holds committed data
`[5]` and frozen data `[7]`, the slot is left without frozen data and with
committed data NULL, the value of `jh->b_frozen_data` (commit.c 2124), instead
of the former frozen data `[7]` of the slot; the buffer filed on the checkpoint
list carries that slot. -/
theorem snapshot_rotation_slot_divergence :
    (∀ jh : journal_head,
      (forget_rotate jh).b_frozen_data = none ∧
      (forget_rotate jh).b_committed_data =
        rotated_committed jh.b_frozen_data jh.b_committed_data) ∧
    (∀ (jh : journal_head) (e : jh_entry), (forget_rotate_entry jh e).b_frozen_data = none) ∧
    (∀ (jh : journal_head) (e : jh_entry),
      (forget_rotate_entry jh e).b_committed_data =
        (if e.b_committed_data.isSome = true ∧ e.b_frozen_data.isSome = true then
          jh.b_frozen_data else none)) ∧
    rotating_jh.b_jh_entry.get? (42 % sample_config.MAX_JH_VERSION) =
      some { b_frozen_data := some [7], b_committed_data := some [5],
             b_frozen_triggers := true } ∧
    rotated_committed (some [7]) (some [5]) = some [7] ∧
    ((flush_forget_one (42 % sample_config.MAX_JH_VERSION)
        { dispatched_state with t_forget := [rotating_jh] } rotating_jh).t_checkpoint_list.map
      (fun jh => jh.b_jh_entry.get? (42 % sample_config.MAX_JH_VERSION))) =
      [some { b_frozen_data := none, b_committed_data := none, b_frozen_triggers := false }] := by
  refine ⟨fun jh => ?_, fun jh e => ?_, fun jh e => ?_, by decide, rfl, by decide⟩
  · unfold forget_rotate rotated_committed
    cases hc : jh.b_committed_data <;> cases hf : jh.b_frozen_data <;> simp [hc, hf]
  · unfold forget_rotate_entry
    cases hc : e.b_committed_data <;> cases hf : e.b_frozen_data <;> simp [hc, hf]
  · unfold forget_rotate_entry
    cases hc : e.b_committed_data <;> cases hf : e.b_frozen_data <;> simp [hc, hf]

/-! ### C21: the advance of the log tail -/

theorem tail_updates_append (a b : List event) :
    tail_updates (a ++ b) = tail_updates a ++ tail_updates b := by
  simp [tail_updates]

theorem tail_updates_of_plain (evs : List event)
    (h : ∀ e ∈ evs, tail_updates [e] = []) : tail_updates evs = [] := by
  induction evs with
  | nil => rfl
  | cons e rest ih =>
    have h3 : tail_updates (e :: rest) = tail_updates [e] ++ tail_updates rest :=
      tail_updates_append [e] rest
    rw [h3, h e (by simp), ih (fun x hx => h x (List.mem_cons_of_mem _ hx))]
    rfl

theorem tail_updates_loop_events (evs : List event) (h : ∀ e ∈ evs, is_loop_event e = true) :
    tail_updates evs = [] := by
  apply tail_updates_of_plain
  intro e he
  have h1 := h e he
  cases e <;> first | rfl | exact Bool.noConfusion h1

theorem tail_updates_revoke (evs : List event)
    (h : ∀ e ∈ evs, ∃ bh, e = event.write_revoke_record bh) : tail_updates evs = [] := by
  apply tail_updates_of_plain
  intro e he
  obtain ⟨bh, rfl⟩ := h e he
  rfl

theorem tail_updates_map (α : Type) (l : List α) (f : α → event)
    (h : ∀ x, tail_updates [f x] = []) : tail_updates (l.map f) = [] := by
  apply tail_updates_of_plain
  intro e he
  obtain ⟨x, _, rfl⟩ := List.mem_map.mp he
  exact h x

theorem tail_updates_abort_list (c : Prop) [Decidable c] (x : Int) :
    tail_updates (if c then [event.jbd2_journal_abort x] else []) = [] := by
  split_ifs <;> rfl

theorem tail_updates_flush_list (c : Prop) [Decidable c] (d : Nat) :
    tail_updates (if c then [event.blkdev_issue_flush d] else []) = [] := by
  split_ifs <;> rfl

theorem log_tail_freed_congr (j j2 : journal_t) (fb : Nat) (h1 : j.j_tail = j2.j_tail)
    (h2 : j.j_first = j2.j_first) (h3 : j.j_last = j2.j_last) :
    log_tail_freed j fb = log_tail_freed j2 fb := by
  unfold log_tail_freed
  rw [h1, h2, h3]

/-- The prologue of either commit function makes no call of
`jbd2_update_log_tail` and leaves the bounds and the tail of the log alone. -/
theorem commit_prologue_tail (env : commit_env) (s : commit_state) :
    tail_updates (commit_prologue env s).trace = tail_updates s.trace ∧
    (commit_prologue env s).journal.j_tail = s.journal.j_tail ∧
    (commit_prologue env s).journal.j_first = s.journal.j_first ∧
    (commit_prologue env s).journal.j_last = s.journal.j_last := by
  obtain ⟨h, lb, evs, h1, h2⟩ := commit_prologue_events env s
  have m1 := tail_updates_revoke evs h2
  have r1 := tail_updates_map journal_head s.t_reserved_list
    (fun jh => event.jbd2_journal_refile_buffer jh.b_blocknr) (fun _ => rfl)
  rw [h1, commit_lock_down_eq]
  refine ⟨?_, rfl, rfl, rfl⟩
  simp only [tail_updates_append, m1, r1, List.append_nil, tail_updates_abort_list]
  split_ifs <;> simp [tail_updates]

theorem dispatch_prologue_tail (env : commit_env) (s : commit_state) :
    tail_updates (dispatch_prologue env s).trace = tail_updates s.trace ∧
    (dispatch_prologue env s).journal.j_tail = s.journal.j_tail ∧
    (dispatch_prologue env s).journal.j_first = s.journal.j_first ∧
    (dispatch_prologue env s).journal.j_last = s.journal.j_last := by
  obtain ⟨h, lb, evs, h1, h2⟩ := dispatch_prologue_eq env s
  have m1 := tail_updates_revoke evs h2
  have r1 := tail_updates_map journal_head s.t_reserved_list
    (fun jh => event.jbd2_journal_refile_buffer_entry jh.b_blocknr) (fun _ => rfl)
  rw [h1, dispatch_lock_down_eq]
  refine ⟨?_, rfl, rfl, rfl⟩
  simp only [tail_updates_append, m1, r1, List.append_nil, tail_updates_abort_list]
  split_ifs <;> simp [tail_updates]

/-- The metadata loop makes no call of `jbd2_update_log_tail` and leaves the
bounds and the tail of the log alone. -/
theorem commit_loop_tail (env : commit_env) (barrier : Bool) (fuel : Nat)
    (s s2 : commit_state) (h : commit_loop env barrier fuel s = some s2) :
    tail_updates s2.trace = tail_updates s.trace ∧
    s2.journal.j_tail = s.journal.j_tail ∧
    s2.journal.j_first = s.journal.j_first ∧
    s2.journal.j_last = s.journal.j_last := by
  obtain ⟨b1, _, _, evs, b4, b5⟩ := commit_loop_basic env barrier fuel s s2 h
  simp only [journal_config, Prod.mk.injEq] at b1
  have ht := commit_loop_rule env barrier (fun x => x.journal.j_tail = s.journal.j_tail)
    (fun x hx hne => by
      cases hs : x.t_buffers with
      | nil => exact absurd hs hne
      | cons jh rest =>
        exact ((commit_loop_iter_lists env barrier x jh rest hs).1).trans hx)
    fuel s s2 rfl h
  refine ⟨?_, ht, b1.2.2.2.2.2.2.2.2.2.2.2.2.1, b1.2.2.2.2.2.2.2.2.2.2.2.2.2.1⟩
  rw [b4, tail_updates_append, tail_updates_loop_events evs b5, List.append_nil]

/-- The decision on the update of the log tail (commit.c 811-823, 1748-1762):
`update_tail` stays non-zero exactly when `jbd2_journal_get_log_tail` returned
non-zero and `freed` is not below `jbd2_journal_get_max_txn_bufs`. -/
theorem commit_dflush_head_tail (env : commit_env) (s : commit_state) :
    (commit_dflush_head env s).update_tail =
      (if env.get_log_tail.1 ≠ 0 ∧
          log_tail_freed s.journal env.get_log_tail.2.2 < env.max_txn_bufs then 0
        else env.get_log_tail.1) ∧
    (commit_dflush_head env s).first_tid = env.get_log_tail.2.1 ∧
    (commit_dflush_head env s).first_block = env.get_log_tail.2.2 ∧
    tail_updates (commit_dflush_head env s).trace = tail_updates s.trace := by
  have hc : ∀ j2 : journal_t, j2.j_tail = s.journal.j_tail → j2.j_first = s.journal.j_first →
      j2.j_last = s.journal.j_last →
      log_tail_freed j2 env.get_log_tail.2.2 = log_tail_freed s.journal env.get_log_tail.2.2 :=
    fun j2 a b c => log_tail_freed_congr _ _ _ a b c
  have hj : log_tail_freed (finish_inode_data_step env s).journal env.get_log_tail.2.2 =
      log_tail_freed s.journal env.get_log_tail.2.2 := by
    apply hc
    all_goals
      rw [finish_inode_data_step_eq]
      simp only []
      split_ifs <;> rfl
  obtain ⟨h1, _⟩ := commit_dflush_head_trace env s
  refine ⟨?_, ?_, ?_, ?_⟩
  · unfold commit_dflush_head
    simp only [log_tail_step_eq, hj, set_t_state, emit]
    split_ifs <;> rfl
  · unfold commit_dflush_head
    simp only [log_tail_step_eq, set_t_state, emit]
    split_ifs <;> rfl
  · unfold commit_dflush_head
    simp only [log_tail_step_eq, set_t_state, emit]
    split_ifs <;> rfl
  · rw [h1]
    simp only [tail_updates_append, tail_updates_abort_list, tail_updates_flush_list,
      List.append_nil]
    simp [tail_updates]

theorem submit_commit_record_step_tail (env : commit_env) (s : commit_state) :
    (submit_commit_record_step env s).update_tail = s.update_tail ∧
    (submit_commit_record_step env s).first_tid = s.first_tid ∧
    (submit_commit_record_step env s).first_block = s.first_block ∧
    tail_updates (submit_commit_record_step env s).trace = tail_updates s.trace := by
  obtain ⟨R, r1, r2, _⟩ := submit_commit_record_step_trace env s
  refine ⟨?_, ?_, ?_, ?_⟩
  · rw [submit_commit_record_step_eq]; split_ifs <;> rfl
  · rw [submit_commit_record_step_eq]; split_ifs <;> rfl
  · rw [submit_commit_record_step_eq]; split_ifs <;> rfl
  · rw [r1, tail_updates_append, tail_updates_loop_events R r2, List.append_nil]

theorem commit_dflush_tail (env : commit_env) (s : commit_state) :
    (commit_dflush env s).update_tail = (commit_dflush_head env s).update_tail ∧
    (commit_dflush env s).first_tid = env.get_log_tail.2.1 ∧
    (commit_dflush env s).first_block = env.get_log_tail.2.2 ∧
    tail_updates (commit_dflush env s).trace = tail_updates s.trace := by
  obtain ⟨_, h2, h3, h4⟩ := commit_dflush_head_tail env s
  unfold commit_dflush
  simp only []
  split_ifs
  · obtain ⟨a, b, c, d⟩ := submit_commit_record_step_tail env (commit_dflush_head env s)
    exact ⟨a, b.trans h2, c.trans h3, d.trans h4⟩
  · exact ⟨rfl, h2, h3, h4⟩

theorem commit_wait_io_tail (env : commit_env) (s : commit_state) :
    (commit_wait_io env s).update_tail = s.update_tail ∧
    (commit_wait_io env s).first_tid = s.first_tid ∧
    (commit_wait_io env s).first_block = s.first_block ∧
    tail_updates (commit_wait_io env s).trace = tail_updates s.trace := by
  obtain ⟨io, lb, sh, fg, h⟩ := commit_wait_io_eq env s
  rw [h]
  refine ⟨rfl, rfl, rfl, ?_⟩
  simp only [tail_updates_append, tail_updates_abort_list, List.append_nil]
  rw [tail_updates_map Nat _ event.wait_on_buffer (fun _ => rfl), List.append_nil]

/-- The call of `jbd2_update_log_tail` (commit.c 962-963): made exactly when
`update_tail` is non-zero. -/
theorem commit_jflush_tail_update (env : commit_env) (s : commit_state) :
    tail_updates (commit_jflush env s).trace = tail_updates s.trace ++
      (if s.update_tail ≠ 0 then [(s.first_tid, s.first_block)] else []) := by
  unfold commit_jflush
  simp only []
  generalize hx : (if (!jbd2_has_feature_async_commit
      (set_t_state s t_state.T_COMMIT_JFLUSH).journal) = true then
      submit_commit_record_step env (set_t_state s t_state.T_COMMIT_JFLUSH)
      else set_t_state s t_state.T_COMMIT_JFLUSH) = x
  have hxf : x.update_tail = s.update_tail ∧ x.first_tid = s.first_tid ∧
      x.first_block = s.first_block ∧ tail_updates x.trace = tail_updates s.trace := by
    have h0 : tail_updates (set_t_state s t_state.T_COMMIT_JFLUSH).trace =
        tail_updates s.trace := by
      simp [set_t_state, emit, tail_updates]
    rw [← hx]
    split_ifs
    · obtain ⟨a, b, c, d⟩ := submit_commit_record_step_tail env
        (set_t_state s t_state.T_COMMIT_JFLUSH)
      exact ⟨a, b, c, d.trans h0⟩
    · exact ⟨rfl, rfl, rfl, h0⟩
  obtain ⟨x1, x2, x3, x4⟩ := hxf
  rw [commit_jflush_tail_eq]
  have hw : tail_updates (match x.cbh with
      | some cbh => [event.wait_on_buffer cbh.b_blocknr]
      | none => []) = [] := by
    cases x.cbh <;> rfl
  simp only [tail_updates_append, tail_updates_abort_list, tail_updates_flush_list, hw,
    List.append_nil, x1, x2, x3, x4]
  split_ifs <;> rfl

theorem commit_forget_one_tail (s : commit_state) (jh : journal_head) :
    tail_updates (commit_forget_one s jh).trace = tail_updates s.trace := by
  unfold commit_forget_one
  simp only [emit]
  split_ifs <;> simp [tail_updates]

theorem forget_fold_tail :
    ∀ (l : List journal_head) (s : commit_state),
      tail_updates (l.foldl commit_forget_one s).trace = tail_updates s.trace := by
  intro l
  induction l with
  | nil => intro s; rfl
  | cons jh rest ih =>
    intro s
    rw [List.foldl_cons, ih, commit_forget_one_tail]

theorem commit_finish_tail (env : commit_env) (s : commit_state) :
    tail_updates (commit_finish env s).trace = tail_updates s.trace := by
  have hm := forget_fold_tail s.t_forget s
  obtain ⟨fg, cp, evs, h, _⟩ := forget_fold_eq s.t_forget s
  have hevs : tail_updates evs = [] := by
    rw [h] at hm
    have h0 : tail_updates s.trace ++ tail_updates evs = tail_updates s.trace ++ [] := by
      rw [← tail_updates_append, List.append_nil]
      exact hm
    exact List.append_cancel_left h0
  unfold commit_finish
  simp only [h, set_t_state, emit]
  by_cases h1 : s.journal.j_commit_callback = true <;>
    by_cases h2 : s.journal.j_fc_cleanup_callback = true <;>
    by_cases h3 : cp = [] ∧ s.t_checkpoint_io_list = [] <;>
    simp only [h1, h2, h3, if_true, if_false, and_self, tail_updates_append, hevs,
      List.append_nil, Bool.false_eq_true] <;>
    simp [tail_updates]

/-- The calls of `jbd2_update_log_tail` of the ordinary commit behind the
metadata loop. -/
theorem commit_after_loop_tail (env : commit_env) (s : commit_state) :
    tail_updates (commit_after_loop env s).trace = tail_updates s.trace ++
      (if env.get_log_tail.1 ≠ 0 ∧
          env.max_txn_bufs ≤ log_tail_freed s.journal env.get_log_tail.2.2 then
        [(env.get_log_tail.2.1, env.get_log_tail.2.2)] else []) := by
  obtain ⟨d0, _⟩ := commit_dflush_head_tail env s
  obtain ⟨d1, d2, d3, d4⟩ := commit_dflush_tail env s
  obtain ⟨w1, w2, w3, w4⟩ := commit_wait_io_tail env (commit_dflush env s)
  unfold commit_after_loop
  rw [commit_finish_tail, commit_jflush_tail_update, w1, w2, w3, w4, d1, d2, d3, d4, d0]
  by_cases hr : env.get_log_tail.1 = 0
  · simp [hr]
  · by_cases hf : log_tail_freed s.journal env.get_log_tail.2.2 < env.max_txn_bufs
    · simp [hr, hf]
    · simp [hr, hf, not_lt.mp hf]

/-- The dispatch stage leaves the decision in `t_update_tail`. -/
theorem dispatch_after_loop_tail (env : commit_env) (s : commit_state) :
    (dispatch_after_loop env s).update_tail =
      (if env.get_log_tail.1 ≠ 0 ∧
          log_tail_freed s.journal env.get_log_tail.2.2 < env.max_txn_bufs then 0
        else env.get_log_tail.1) ∧
    (dispatch_after_loop env s).first_tid = env.get_log_tail.2.1 ∧
    (dispatch_after_loop env s).first_block = env.get_log_tail.2.2 ∧
    tail_updates (dispatch_after_loop env s).trace = tail_updates s.trace := by
  obtain ⟨d0, _⟩ := commit_dflush_head_tail env s
  obtain ⟨d1, d2, d3, d4⟩ := commit_dflush_tail env s
  have hrec : ∀ x : commit_state,
      (dispatch_commit_record env x).update_tail = x.update_tail ∧
      (dispatch_commit_record env x).first_tid = x.first_tid ∧
      (dispatch_commit_record env x).first_block = x.first_block ∧
      tail_updates (dispatch_commit_record env x).trace = tail_updates x.trace := by
    intro x
    unfold dispatch_commit_record journal_wait_on_dispatch_of_commit_record
    simp only [emit]
    have key : ∀ y : commit_state,
        (match y.cbh with
          | some cbh =>
            { y with trace := y.trace ++ [event.wait_on_buffer_dispatch cbh.b_blocknr],
                     err := 0 }
          | none => y).update_tail = y.update_tail ∧
        (match y.cbh with
          | some cbh =>
            { y with trace := y.trace ++ [event.wait_on_buffer_dispatch cbh.b_blocknr],
                     err := 0 }
          | none => y).first_tid = y.first_tid ∧
        (match y.cbh with
          | some cbh =>
            { y with trace := y.trace ++ [event.wait_on_buffer_dispatch cbh.b_blocknr],
                     err := 0 }
          | none => y).first_block = y.first_block ∧
        tail_updates (match y.cbh with
          | some cbh =>
            { y with trace := y.trace ++ [event.wait_on_buffer_dispatch cbh.b_blocknr],
                     err := 0 }
          | none => y).trace = tail_updates y.trace := by
      intro y
      cases y.cbh with
      | none => exact ⟨rfl, rfl, rfl, rfl⟩
      | some cbh => exact ⟨rfl, rfl, rfl, by simp [tail_updates]⟩
    split_ifs
    · obtain ⟨a, b, c, d⟩ := submit_commit_record_step_tail env x
      obtain ⟨k1, k2, k3, k4⟩ := key (submit_commit_record_step env x)
      exact ⟨k1.trans a, k2.trans b, k3.trans c, k4.trans d⟩
    · exact key x
  obtain ⟨r1, r2, r3, r4⟩ := hrec (dispatch_wait (commit_dflush env s))
  have hfin : ∀ x : commit_state, (dispatch_finish x).update_tail = x.update_tail ∧
      (dispatch_finish x).first_tid = x.first_tid ∧
      (dispatch_finish x).first_block = x.first_block ∧
      tail_updates (dispatch_finish x).trace = tail_updates x.trace := by
    intro x
    refine ⟨?_, ?_, ?_, ?_⟩
    · unfold dispatch_finish; simp only [emit]; split_ifs <;> rfl
    · unfold dispatch_finish; simp only [emit]; split_ifs <;> rfl
    · unfold dispatch_finish; simp only [emit]; split_ifs <;> rfl
    · rw [(dispatch_finish_trace x).1]
      simp only [tail_updates_append]
      split_ifs <;> simp [tail_updates]
  obtain ⟨f1, f2, f3, f4⟩ := hfin (dispatch_commit_record env (dispatch_wait (commit_dflush env s)))
  have hwt : tail_updates (dispatch_wait (commit_dflush env s)).trace =
      tail_updates (commit_dflush env s).trace := by
    rw [dispatch_wait_eq]
    simp only [tail_updates_append]
    rw [tail_updates_map Nat _ event.wait_on_buffer_dispatch (fun _ => rfl),
      tail_updates_map Nat _ event.wait_on_buffer_dispatch (fun _ => rfl)]
    simp
  have hwf : (dispatch_wait (commit_dflush env s)).update_tail = (commit_dflush env s).update_tail ∧
      (dispatch_wait (commit_dflush env s)).first_tid = (commit_dflush env s).first_tid ∧
      (dispatch_wait (commit_dflush env s)).first_block = (commit_dflush env s).first_block := by
    rw [dispatch_wait_eq]
    exact ⟨rfl, rfl, rfl⟩
  unfold dispatch_after_loop
  exact ⟨by rw [f1, r1, hwf.1, d1, d0], by rw [f2, r2, hwf.2.1, d2], by rw [f3, r3, hwf.2.2, d3],
    by rw [f4, r4, hwt, d4]⟩

/-- The flush stage calls `jbd2_update_log_tail` exactly when `t_update_tail`
is non-zero (commit.c 2067-2069). -/
theorem flush_transaction_tail (env : commit_env) (cfg : barrier_config) (q : flush_queue)
    (a : Nat) (hp : q.j_flushing_transactions = some a) (s : commit_state) :
    tail_updates (jbd2_journal_barrier_flush_transaction env cfg q s).2.trace =
      tail_updates s.trace ++
        (if s.update_tail ≠ 0 then [(s.first_tid, s.first_block)] else []) := by
  have hfin : ∀ (d : Bool) (v : Nat) (x : commit_state),
      tail_updates (flush_finish env cfg d v x).trace = tail_updates x.trace := by
    intro d v x
    have hone : ∀ (y : commit_state) (jh : journal_head),
        tail_updates (flush_forget_one v y jh).trace = tail_updates y.trace := by
      intro y jh
      unfold flush_forget_one
      simp only [emit]
      split_ifs <;> simp [tail_updates]
    have hfold : ∀ (l : List journal_head) (y : commit_state),
        tail_updates (l.foldl (flush_forget_one v) y).trace = tail_updates y.trace := by
      intro l
      induction l with
      | nil => intro y; rfl
      | cons jh rest ih => intro y; rw [List.foldl_cons, ih, hone]
    have hf := hfold x.t_forget x
    unfold flush_finish
    simp only [set_t_state, emit]
    generalize List.foldl (flush_forget_one v) x x.t_forget = f at hf ⊢
    split_ifs <;> (simp only [tail_updates_append, hf]; simp [tail_updates])
  obtain ⟨w1, w2, w3, w4⟩ := commit_wait_io_tail env { s with err := 0 }
  unfold jbd2_journal_barrier_flush_transaction
  simp only [flush_pick, hp]
  rw [hfin, flush_jflush_eq]
  have hw : tail_updates (match (commit_wait_io env { s with err := 0 }).cbh with
      | some cbh => [event.wait_on_buffer cbh.b_blocknr]
      | none => []) = [] := by
    cases (commit_wait_io env { s with err := 0 }).cbh <;> rfl
  simp only [tail_updates_append, tail_updates_abort_list, tail_updates_flush_list, hw,
    List.append_nil, w1, w2, w3, w4]
  split_ifs <;> simp [tail_updates]

theorem as_long_of_range (x : Int) (h1 : -9223372036854775808 ≤ x)
    (h2 : x < 9223372036854775808) : as_long x = x := by
  unfold as_long
  split_ifs <;> omega

/-- The value `freed` is the circular distance from `j_tail` to
`first_block`. -/
theorem log_tail_freed_circular (j : journal_t) (fb : Nat)
    (h1 : j.j_first ≤ j.j_tail) (h2 : j.j_tail < j.j_last)
    (h3 : j.j_first ≤ fb) (h4 : fb < j.j_last) :
    log_tail_freed j fb = ((fb : Int) - (j.j_tail : Int)) % ((j.j_last : Int) - (j.j_first : Int)) ∧
    0 ≤ log_tail_freed j fb ∧
    log_tail_freed j fb < (j.j_last : Int) - (j.j_first : Int) ∧
    (j.j_last ≤ 9223372036854775808 → log_tail_freed_long j fb = log_tail_freed j fb) := by
  unfold log_tail_freed log_tail_freed_long
  simp only []
  by_cases hlt : fb < j.j_tail
  · rw [if_pos hlt, if_pos hlt]
    refine ⟨?_, by omega, by omega, fun h5 => ?_⟩
    · rw [← Int.add_emod_self, Int.emod_eq_of_lt (by omega) (by omega)]
    · rw [as_long_of_range ((fb : Int) - (j.j_tail : Int)) (by omega) (by omega),
        as_long_of_range _ (by omega) (by omega)]
  · rw [if_neg hlt, if_neg hlt]
    refine ⟨?_, by omega, by omega, fun h5 => ?_⟩
    · rw [Int.emod_eq_of_lt (by omega) (by omega)]
    · rw [as_long_of_range ((fb : Int) - (j.j_tail : Int)) (by omega) (by omega)]

/-- C21: the threshold for advancing the log tail.  Given `j_first <= j_tail <
j_last` and `j_first <= first_block < j_last`, the value `freed` computed by
the commit is the circular distance `(first_block - j_tail) mod (j_last -
j_first)`, which lies in `[0, j_last - j_first)` (and the 64-bit arithmetic of
the C code gives that value when `j_last <= 2^63`); the ordinary commit calls
`jbd2_update_log_tail`, once, exactly when `jbd2_journal_get_log_tail`
returned non-zero and `freed >= jbd2_journal_get_max_txn_bufs(journal)`; in the
pipelined commit the dispatch stage takes the same decision and makes no call,
and the flush stage makes the call exactly under that condition. -/
theorem tail_advance_threshold (env : commit_env) (cfg : barrier_config) (q : flush_queue)
    (commit_transaction : Nat) (s0 : commit_state)
    (h1 : s0.journal.j_first ≤ s0.journal.j_tail) (h2 : s0.journal.j_tail < s0.journal.j_last)
    (h3 : s0.journal.j_first ≤ env.get_log_tail.2.2)
    (h4 : env.get_log_tail.2.2 < s0.journal.j_last) :
    log_tail_freed s0.journal env.get_log_tail.2.2 =
      ((env.get_log_tail.2.2 : Int) - (s0.journal.j_tail : Int)) %
        ((s0.journal.j_last : Int) - (s0.journal.j_first : Int)) ∧
    0 ≤ log_tail_freed s0.journal env.get_log_tail.2.2 ∧
    log_tail_freed s0.journal env.get_log_tail.2.2 <
      (s0.journal.j_last : Int) - (s0.journal.j_first : Int) ∧
    (s0.journal.j_last ≤ 9223372036854775808 →
      log_tail_freed_long s0.journal env.get_log_tail.2.2 =
        log_tail_freed s0.journal env.get_log_tail.2.2) ∧
    (∃ s, jbd2_journal_commit_transaction env s0 = some s ∧
      tail_updates s.trace = tail_updates s0.trace ++
        (if env.get_log_tail.1 ≠ 0 ∧
            env.max_txn_bufs ≤ log_tail_freed s0.journal env.get_log_tail.2.2 then
          [(env.get_log_tail.2.1, env.get_log_tail.2.2)] else [])) ∧
    (∃ r, jbd2_journal_barrier_commit_transaction env q commit_transaction s0 = some r ∧
      tail_updates r.2.trace = tail_updates s0.trace ∧
      ∀ (q2 : flush_queue) (a : Nat), q2.j_flushing_transactions = some a →
        tail_updates (jbd2_journal_barrier_flush_transaction env cfg q2 r.2).2.trace =
          tail_updates s0.trace ++
            (if env.get_log_tail.1 ≠ 0 ∧
                env.max_txn_bufs ≤ log_tail_freed s0.journal env.get_log_tail.2.2 then
              [(env.get_log_tail.2.1, env.get_log_tail.2.2)] else [])) := by
  obtain ⟨a1, a2, a3, a4⟩ := log_tail_freed_circular s0.journal env.get_log_tail.2.2 h1 h2 h3 h4
  refine ⟨a1, a2, a3, a4, ?_, ?_⟩
  · obtain ⟨s2, l1, _, l3⟩ := commit_transaction_total env s0
    obtain ⟨p1, p2, p3, p4⟩ := commit_prologue_tail env s0
    obtain ⟨c1, c2, c3, c4⟩ := commit_loop_tail env false _ _ s2 l1
    have hfr : log_tail_freed s2.journal env.get_log_tail.2.2 =
        log_tail_freed s0.journal env.get_log_tail.2.2 :=
      log_tail_freed_congr _ _ _ (c2.trans p2) (c3.trans p3) (c4.trans p4)
    refine ⟨_, l3, ?_⟩
    rw [commit_after_loop_tail, hfr, c1, p1]
  · obtain ⟨s2, l1, _, l3⟩ := dispatch_transaction_total env q commit_transaction s0
    obtain ⟨p1, p2, p3, p4⟩ := dispatch_prologue_tail env s0
    obtain ⟨c1, c2, c3, c4⟩ := commit_loop_tail env true _ _ s2 l1
    have hfr : log_tail_freed s2.journal env.get_log_tail.2.2 =
        log_tail_freed s0.journal env.get_log_tail.2.2 :=
      log_tail_freed_congr _ _ _ (c2.trans p2) (c3.trans p3) (c4.trans p4)
    obtain ⟨d1, d2, d3, d4⟩ := dispatch_after_loop_tail env s2
    refine ⟨_, l3, by rw [d4, c1, p1], ?_⟩
    intro q2 a hq
    rw [flush_transaction_tail env cfg q2 a hq, d4, c1, p1, d1, d2, d3, hfr]
    by_cases hr : env.get_log_tail.1 = 0
    · simp [hr]
    · by_cases hf : log_tail_freed s0.journal env.get_log_tail.2.2 < env.max_txn_bufs
      · simp [hr, hf]
      · simp [hr, hf, not_lt.mp hf]

/-- C21 at a concrete input: the log tail is at block 5 of the log 1..99 and
the oldest transaction starts at block 80; 75 blocks are freed, the limit is
16, and the commit calls `jbd2_update_log_tail(journal, 41, 80)`. -/
theorem tail_advance_threshold_witness :
    log_tail_freed sample_journal 80 = 75 ∧
    ∃ s, jbd2_journal_commit_transaction tail_env
        (sample_state sample_journal [sample_jh 100]) = some s ∧
      tail_updates s.trace = [(41, 80)] := by
  obtain ⟨_, _, _, _, ⟨s, h5, h6⟩, _⟩ := tail_advance_threshold tail_env sample_config
    empty_queue 7 (sample_state sample_journal [sample_jh 100])
    (by decide) (by decide) (by decide) (by decide)
  exact ⟨by decide, s, h5, h6⟩

/-! ### C24: durability requests on a shut-down or read-only filesystem -/

/-- C24, as stated, fails: on a filesystem mounted read-only that has not been
aborted, with no writeback error recorded for the file, `ext4_sync_file`
returns 0 (it makes no call but `file_check_and_advance_wb_err`). -/
theorem sync_file_rdonly_counterexample :
    rdonly_fs.sb_rdonly = true ∧
    ext4_sync_file rdonly_fs false = (0, [fsync_call.file_check_and_advance_wb_err]) ∧
    ext4_sync_file rdonly_fs true = (0, [fsync_call.file_check_and_advance_wb_err]) := by
  decide

/-- C24, amended: whenever the filesystem is forced shut down or mounted
read-only, `ext4_sync_file` starts no data writeback, no journal commit and no
device flush; after a forced shutdown it makes no call at all and returns
`-EIO`; on a read-only filesystem that is not shut down its only call is
`file_check_and_advance_wb_err`, and it returns `-EROFS` if the filesystem has
been aborted and the recorded writeback error of the file (0 if there is none)
otherwise. -/
theorem sync_file_rejects (env : fsync_env) (datasync : Bool)
    (h : env.forced_shutdown = true ∨ env.sb_rdonly = true) :
    (ext4_sync_file env datasync).2.filter starts_io = [] ∧
    (env.forced_shutdown = true → ext4_sync_file env datasync = (- EIO, [])) ∧
    (env.forced_shutdown = false →
      ext4_sync_file env datasync =
        (if env.fs_aborted = true then - EROFS else env.wb_err,
          [fsync_call.file_check_and_advance_wb_err])) ∧
    (env.forced_shutdown = true ∨ env.fs_aborted = true ∨ env.wb_err ≠ 0 →
      (ext4_sync_file env datasync).1 ≠ 0) := by
  by_cases hs : env.forced_shutdown = true
  · have e : ext4_sync_file env datasync = (- EIO, []) := by
      unfold ext4_sync_file
      rw [if_pos hs]
    rw [e]
    refine ⟨rfl, fun _ => rfl, fun h2 => ?_, fun _ => by decide⟩
    rw [hs] at h2
    exact Bool.noConfusion h2
  · have hr : env.sb_rdonly = true := h.resolve_left hs
    have e : ext4_sync_file env datasync =
        (if env.fs_aborted = true then - EROFS else env.wb_err,
          [fsync_call.file_check_and_advance_wb_err]) := by
      unfold ext4_sync_file
      rw [if_neg hs, if_pos hr]
      unfold sync_file_out
      by_cases ha : env.fs_aborted = true
      · simp [ha, EROFS]
      · simp [ha]
    rw [e]
    refine ⟨rfl, fun h2 => absurd h2 hs, fun _ => rfl, ?_⟩
    rintro (h2 | h2 | h2)
    · exact absurd h2 hs
    · simp [h2, EROFS]
    · by_cases ha : env.fs_aborted = true
      · simp [ha, EROFS]
      · simpa [ha] using h2

/-- C24, amended, at concrete inputs: after a forced shutdown the request is
rejected with `-EIO`, and no call is made. -/
theorem sync_file_rejects_witness :
    shutdown_fs.forced_shutdown = true ∧ ext4_sync_file shutdown_fs false = (-5, []) := by
  obtain ⟨_, h2, _, _⟩ := sync_file_rejects shutdown_fs false (Or.inl (by decide))
  exact ⟨by decide, h2 (by decide)⟩

/-! ### C30: the value returned by `ext4_fbarrier_file` -/

/-- C30: `ext4_fbarrier_file` reads the local variable `err` whenever `ret` is
0 at the label `out`, and nothing has been assigned to `err` on any path: the
value it returns is then indeterminate (`none`).  For every state of the
filesystem the function returns `-EIO` after a forced shutdown, the non-zero
`ret` it reached `out` with, or an indeterminate value; it never returns a
determined 0.  On a healthy filesystem, where every call succeeds, and on a
read-only filesystem that has not been aborted, the value is indeterminate,
while the sibling `ext4_sync_file`, which assigns `err` at `out`, returns 0
there. -/
theorem fbarrier_file_unassigned_err :
    (∀ (env : fsync_env) (datasync : Bool), (ext4_fbarrier_file env datasync).1 ≠ some 0) ∧
    (ext4_fbarrier_file healthy_fs false).1 = none ∧
    (ext4_fbarrier_file healthy_fs true).1 = none ∧
    (ext4_fbarrier_file rdonly_fs false).1 = none ∧
    (ext4_sync_file healthy_fs false).1 = 0 ∧
    (ext4_sync_file healthy_fs true).1 = 0 ∧
    (ext4_sync_file rdonly_fs false).1 = 0 := by
  refine ⟨?_, by decide, by decide, by decide, by decide, by decide, by decide⟩
  intro env datasync
  have hout : ∀ (ret : Int) (calls : List fsync_call),
      (fbarrier_file_out none ret calls).1 ≠ some 0 := by
    intro ret calls
    unfold fbarrier_file_out
    by_cases hz : ret = 0
    · simp [hz]
    · simp [hz]
  unfold ext4_fbarrier_file
  simp only []
  split_ifs
  all_goals first
    | exact hout _ _
    | (simp [ EIO])

/-! ### C25: the transaction behind `jbd2_journal_free_transaction` -/

/-- C25: the flush stage uses the transaction after freeing it.  The ordinary
commit makes no access to `*commit_transaction` behind
`jbd2_journal_free_transaction`, whatever the state; the end of
`jbd2_journal_barrier_flush_transaction` frees the transaction exactly when
both checkpoint lists are empty, and then goes on to read
`t_commit_start_time` and to write and read `commit_time` in the freed object
(and after them `stats`, `t_flushnext` and `t_flushprev`).  At a concrete
input, the flush of a transaction without metadata buffers on a queue that
holds only that transaction, the transaction reaches `T_FINISHED` with both
checkpoint lists empty, is dropped, and twenty accesses to it follow. -/
theorem flush_stage_use_after_free :
    (∀ s : commit_state, after_free (commit_end_accesses s) = []) ∧
    (∀ (q : flush_queue) (commit_transaction : Nat) (s : commit_state),
      (after_free (flush_end_accesses q commit_transaction s)).take 3 =
        if s.t_checkpoint_list = [] ∧ s.t_checkpoint_io_list = [] then
          [txn_access.read txn_field.t_commit_start_time,
           txn_access.write txn_field.commit_time,
           txn_access.read txn_field.commit_time]
        else []) ∧
    (jbd2_journal_barrier_flush_transaction sample_env sample_config sample_queue
      empty_dispatched_state).2.t_state = t_state.T_FINISHED ∧
    (jbd2_journal_barrier_flush_transaction sample_env sample_config sample_queue
      empty_dispatched_state).2.t_checkpoint_list = [] ∧
    (jbd2_journal_barrier_flush_transaction sample_env sample_config sample_queue
      empty_dispatched_state).2.t_checkpoint_io_list = [] ∧
    event.drop_transaction 42 ∈
      (jbd2_journal_barrier_flush_transaction sample_env sample_config sample_queue
        empty_dispatched_state).2.trace ∧
    after_free (flush_transaction_accesses sample_env sample_config sample_queue
        empty_dispatched_state) =
      [txn_access.read txn_field.t_commit_start_time,
       txn_access.write txn_field.commit_time,
       txn_access.read txn_field.commit_time] ++
      List.replicate 10 (txn_access.read txn_field.stats) ++
      [txn_access.read txn_field.t_flushnext, txn_access.read txn_field.t_flushprev,
       txn_access.write txn_field.t_flushprev, txn_access.read txn_field.t_flushprev,
       txn_access.read txn_field.t_flushnext, txn_access.write txn_field.t_flushnext,
       txn_access.read txn_field.t_flushnext] := by
  refine ⟨?_, ?_, by decide, by decide, by decide, by decide, by decide⟩
  · intro s
    unfold commit_end_accesses drop_accesses
    by_cases h1 : s.t_checkpoint_list = []
    · by_cases h2 : s.t_checkpoint_io_list = []
      · simp [h1, h2, after_free]
      · simp [h1, h2, after_free]
    · simp [h1, after_free]
  · intro q commit_transaction s
    unfold flush_end_accesses drop_accesses
    by_cases h1 : s.t_checkpoint_list = []
    · by_cases h2 : s.t_checkpoint_io_list = []
      · simp [h1, h2, after_free]
      · simp only [h1, h2, and_false, if_false, if_true, List.append_nil]
        split_ifs <;> simp [after_free, List.replicate]
    · simp only [h1, false_and, if_false, List.append_nil]
      split_ifs <;> simp [after_free, List.replicate]

/-! ### The filling of `wbuf` and of the descriptor blocks -/

theorem descriptor_add_tag_size (t : journal_block_tag_t) (d : buffer_head) :
    (descriptor_add_tag t d).b_size = d.b_size := by
  unfold descriptor_add_tag
  split <;> rfl

theorem descriptor_mark_last_size (d : buffer_head) :
    (descriptor_mark_last d).b_size = d.b_size := by
  unfold descriptor_mark_last
  split <;> rfl

theorem descriptor_csum_size (env : commit_env) (j : journal_t) (d : buffer_head) :
    (jbd2_descriptor_block_csum_set env j d).b_size = d.b_size := by
  unfold jbd2_descriptor_block_csum_set
  split_ifs
  · rfl
  · split <;> rfl

theorem batches_of_append (P : buffer_head → List buffer_head → Prop) (l1 l2 : List buffer_head)
    (h1 : batches_of P l1) (h2 : batches_of P l2) : batches_of P (l1 ++ l2) := by
  induction h1 with
  | nil => exact h2
  | batch d ms rest hd _ ih =>
    have : d :: ms ++ rest ++ l2 = d :: ms ++ (rest ++ l2) := by simp
    rw [this]
    exact batches_of.batch d ms (rest ++ l2) hd ih

theorem batches_of_mono (P Q : buffer_head → List buffer_head → Prop)
    (hPQ : ∀ d ms, P d ms → Q d ms) (l : List buffer_head) (h : batches_of P l) :
    batches_of Q l := by
  induction h with
  | nil => exact batches_of.nil
  | batch d ms rest hd _ ih => exact batches_of.batch d ms rest (hPQ d ms hd) ih

theorem descriptor_bytes_succ (tb : Int) (k : Nat) :
    descriptor_bytes tb (k + 1) =
      descriptor_bytes tb k + tb + (if k = 0 then 16 else 0) := by
  unfold descriptor_bytes
  by_cases hk : k = 0
  · simp [hk]
  · simp only [hk, if_false, Nat.succ_ne_zero, Nat.cast_add, Nat.cast_one]
    ring

/-- The shape of a batch does not change when the descriptor gets its
checksum. -/
theorem batch_shape_csum (env : commit_env) (j : journal_t) (B : Nat) (d : buffer_head)
    (ms : List buffer_head) (h : batch_shape B d ms) :
    batch_shape B (jbd2_descriptor_block_csum_set env j d) ms := by
  obtain ⟨h1, h2, h3, h4⟩ := h
  refine ⟨?_, ?_, h3, ?_⟩
  · rw [(tags_of_descriptor_csum env j d).2]; exact h1
  · rw [descriptor_csum_size]; exact h2
  · rw [(tags_of_descriptor_csum env j d).1]; exact h4

/-- The shape of a batch does not change when the last tag is marked. -/
theorem batch_shape_mark (B : Nat) (d : buffer_head) (ms : List buffer_head)
    (h : batch_shape B d ms) : batch_shape B (descriptor_mark_last d) ms := by
  obtain ⟨h1, h2, h3, h4⟩ := h
  refine ⟨(tags_of_mark_last d h1).2, ?_, h3, ?_⟩
  · rw [descriptor_mark_last_size]; exact h2
  · rw [(tags_of_mark_last d h1).1, mark_last_tag_length]; exact h4

/-- A tag and the block it describes are added to a batch. -/
theorem batch_shape_add (B : Nat) (d : buffer_head) (ms : List buffer_head)
    (t : journal_block_tag_t) (m : buffer_head) (hm : is_descriptor m = false)
    (h : batch_shape B d ms) : batch_shape B (descriptor_add_tag t d) (ms ++ [m]) := by
  obtain ⟨h1, h2, h3, h4⟩ := h
  refine ⟨(tags_of_add_tag t d h1).2, ?_, ?_, ?_⟩
  · rw [descriptor_add_tag_size]; exact h2
  · intro x hx
    rcases List.mem_append.mp hx with hx1 | hx2
    · exact h3 x hx1
    · rw [List.mem_singleton.mp hx2]; exact hm
  · rw [(tags_of_add_tag t d h1).1, List.length_append, List.length_append, h4]
    rfl

/-- An open batch can be submitted as it is. -/
theorem open_batch_fits (n B : Nat) (tb cs : Int) (first_tag : Bool) (space_left : Int)
    (d : buffer_head) (ms : List buffer_head)
    (h : open_batch n B tb cs first_tag space_left d ms) : batch_fits n B tb cs d ms := by
  obtain ⟨h1, _, h3, h4, h5⟩ := h
  refine ⟨h1, fun hn => le_of_lt (h4 hn), fun hB hne => ?_⟩
  have := (h5 hB).2 hne
  rw [h3] at this
  linarith

/-- A step that leaves the settings, `wbuf`, the open descriptor, `first_tag`,
`space_left` and the submitted blocks alone keeps the filling. -/
theorem fill_inv_frame (n B : Nat) (tb cs : Int) (s x : commit_state)
    (hc : fill_cfg n B tb cs x.journal) (hw : x.wbuf = s.wbuf)
    (hd : x.descriptor = s.descriptor) (hf : x.first_tag = s.first_tag)
    (hsp : x.space_left = s.space_left) (ht : submitted x.trace = submitted s.trace)
    (hne : s.t_buffers ≠ []) (h : fill_inv n B tb cs s) : fill_inv n B tb cs x := by
  obtain ⟨_, ⟨h2, h3⟩, L, last, h4, h5, h6⟩ := h
  refine ⟨hc, ⟨?_, ?_⟩, L, [], ?_, h5, Or.inl rfl⟩
  · intro h0
    rw [hw]
    exact h2 (hd ▸ h0)
  · intro h0
    rw [hw, hf, hsp]
    exact h3 (hd ▸ h0)
  · rcases h6 with h6 | ⟨h6, _⟩
    · rw [ht, h4, h6]
    · exact absurd h6 hne

/-- The code at `start_journal_io` submits the open batch: behind the batches
closed so far if buffers remain, and as the last batch otherwise. -/
theorem fill_inv_start_io (n B : Nat) (tb cs : Int) (env : commit_env) (y : commit_state)
    (hc : fill_cfg n B tb cs y.journal) (hw : y.descriptor = false → y.wbuf = [])
    (hd : y.descriptor = true → ∃ d ms, y.wbuf = d :: ms ∧ batch_fits n B tb cs d ms ∧
      (y.t_buffers ≠ [] → batch_closed n B tb cs ms))
    (hL : batches_of (fun d ms => batch_fits n B tb cs d ms ∧ batch_closed n B tb cs ms)
      (submitted y.trace)) :
    fill_inv n B tb cs (start_journal_io env y) := by
  have hf := start_journal_io_frame env y
  refine ⟨by rw [hf.2.1]; exact hc, ⟨fun _ => hf.2.2.2.2.2.2.1, fun h1 => ?_⟩, ?_⟩
  · rw [hf.2.2.2.2.2.2.2] at h1
    cases h1
  · rw [fill_done, start_journal_io_submitted, hf.1]
    unfold staged
    by_cases hdsc : y.descriptor = true
    · obtain ⟨d, ms, hwb, hfit, hcl⟩ := hd hdsc
      rw [if_pos hdsc, hwb]
      simp only [on_descriptor]
      have hfit2 : batch_fits n B tb cs (jbd2_descriptor_block_csum_set env y.journal d) ms :=
        ⟨batch_shape_csum env y.journal B d ms hfit.1, hfit.2.1, hfit.2.2⟩
      by_cases hb : y.t_buffers = []
      · exact ⟨submitted y.trace, _, rfl, hL, Or.inr ⟨hb, _, _, rfl, hfit2⟩⟩
      · refine ⟨submitted y.trace ++
          (jbd2_descriptor_block_csum_set env y.journal d :: ms), [], by simp, ?_, Or.inl rfl⟩
        apply batches_of_append _ _ _ hL
        have hnew : batches_of
            (fun d ms => batch_fits n B tb cs d ms ∧ batch_closed n B tb cs ms)
            (jbd2_descriptor_block_csum_set env y.journal d :: ms ++ []) :=
          batches_of.batch _ ms [] ⟨hfit2, hcl hb⟩ batches_of.nil
        simpa using hnew
    · have hd0 : y.descriptor = false := by simpa using hdsc
      rw [if_neg hdsc, hw hd0]
      exact ⟨submitted y.trace, [], by simp, hL, Or.inl rfl⟩

/-- While buffers remain, the blocks submitted so far are closed batches. -/
theorem fill_done_closed (n B : Nat) (tb cs : Int) (s : commit_state)
    (hne : s.t_buffers ≠ []) (h : fill_done n B tb cs s) :
    batches_of (fun d ms => batch_fits n B tb cs d ms ∧ batch_closed n B tb cs ms)
      (submitted s.trace) := by
  obtain ⟨L, last, h4, h5, h6⟩ := h
  rcases h6 with h6 | ⟨h6, _⟩
  · rw [h4, h6, List.append_nil]
    exact h5
  · exact absurd h6 hne

/-- A fresh descriptor block opens an empty batch. -/
theorem fill_inv_open (n B : Nat) (tb cs : Int) (s : commit_state)
    (hd : s.descriptor = false) (hne : s.t_buffers ≠ []) (h : fill_inv n B tb cs s) :
    fill_inv n B tb cs (open_descriptor s) := by
  obtain ⟨hc, ⟨h2, _⟩, h4⟩ := h
  have hL := fill_done_closed n B tb cs s hne h4
  refine ⟨hc, ⟨fun h0 => (by cases h0), fun _ => ?_⟩, submitted s.trace, [], by simp [open_descriptor, log_advance], hL, Or.inl rfl⟩
  refine ⟨fresh_descriptor s, [], ?_, ⟨rfl, hc.2.1, fun m hm => (by cases hm), rfl⟩,
    ⟨fun _ => rfl, fun _ => rfl⟩, ?_, fun hn => (by simpa using hn), fun hB => ⟨?_, fun h0 => absurd rfl h0⟩⟩
  · show s.wbuf ++ [fresh_descriptor s] = _
    rw [h2 hd]
    rfl
  · show (s.journal.j_blocksize : Int) - sizeof_journal_header_t = _
    rw [hc.2.1]
    simp [descriptor_bytes]
  · show tb + 16 + cs ≤ (s.journal.j_blocksize : Int) - sizeof_journal_header_t
    rw [hc.2.1]
    linarith

/-- Logging one buffer: its tag goes into the open descriptor and its copy
behind the staged blocks; the batch is closed when `wbuf` is full, no buffer
remains or the descriptor has no room for another tag. -/
theorem fill_inv_logged (n B : Nat) (tb cs : Int) (env : commit_env) (s1 : commit_state)
    (jh : journal_head) (rest : List journal_head) (hd : s1.descriptor = true)
    (hne : s1.t_buffers ≠ []) (h : fill_inv n B tb cs s1) :
    fill_inv n B tb cs (loop_submit env (loop_tag env (log_buffer s1 jh rest) jh
      (metadata_bh env s1 jh) (env.write_metadata_flags jh.b_blocknr))) := by
  obtain ⟨hc, ⟨_, h3⟩, h4⟩ := h
  have hL := fill_done_closed n B tb cs s1 hne h4
  obtain ⟨d0, ms, hwb, hshape, hfirst, hspace, hsize, hroom⟩ := h3 hd
  generalize htg : loop_make_tag env (log_buffer s1 jh rest) jh (metadata_bh env s1 jh)
    (env.write_metadata_flags jh.b_blocknr) = tag
  generalize hx : loop_tag env (log_buffer s1 jh rest) jh (metadata_bh env s1 jh)
    (env.write_metadata_flags jh.b_blocknr) = x
  have hxeq := hx
  rw [loop_tag_eq, htg] at hxeq
  have x_c : fill_cfg n B tb cs x.journal := by rw [← hxeq]; exact hc
  have x_d : x.descriptor = true := by rw [← hxeq]; exact hd
  have x_f : x.first_tag = false := by rw [← hxeq]
  have x_tr : x.trace = s1.trace := by rw [← hxeq]; rfl
  have x_b : x.t_buffers = rest := by rw [← hxeq]; rfl
  have x_w : x.wbuf = descriptor_add_tag tag d0 :: (ms ++ [metadata_bh env s1 jh]) := by
    rw [← hxeq]
    show on_descriptor _ s1.wbuf ++ _ = _
    rw [hwb]
    rfl
  have x_s : x.space_left = (B : Int) - descriptor_bytes tb (ms ++ [metadata_bh env s1 jh]).length := by
    rw [← hxeq]
    show s1.space_left - s1.journal.tag_bytes - (if s1.first_tag = true then 16 else 0) = _
    rw [List.length_append, List.length_singleton, descriptor_bytes_succ, hspace, hc.2.2.1]
    by_cases hm : ms = []
    · rw [if_pos (hfirst.mpr hm), hm]
      simp only [List.length_nil, if_true]
      ring
    · have hlen : ms.length ≠ 0 := fun h0 => hm (List.length_eq_zero.mp h0)
      have hft : ¬ s1.first_tag = true := fun h0 => hm (hfirst.mp h0)
      rw [if_neg hft, if_neg hlen]
      ring
  have x_room : sizeof_journal_header_t + tb + 16 + cs ≤ (B : Int) → cs ≤ x.space_left := by
    intro hB
    obtain ⟨r1, _⟩ := hroom hB
    rw [← hxeq]
    show cs ≤ s1.space_left - s1.journal.tag_bytes - (if s1.first_tag = true then 16 else 0)
    rw [hc.2.2.1]
    split_ifs <;> linarith
  have hshape2 : batch_shape B (descriptor_add_tag tag d0) (ms ++ [metadata_bh env s1 jh]) :=
    batch_shape_add B d0 ms tag _ rfl hshape
  have hne2 : ms ++ [metadata_bh env s1 jh] ≠ [] := by simp
  have hfit : batch_fits n B tb cs (descriptor_add_tag tag d0)
      (ms ++ [metadata_bh env s1 jh]) := by
    refine ⟨hshape2, fun hn => ?_, fun hB _ => ?_⟩
    · have := hsize hn
      rw [List.length_append, List.length_singleton]
      omega
    · have := x_room hB
      rw [x_s] at this
      linarith
  unfold loop_submit
  by_cases hfull : loop_batch_full x = true
  · rw [if_pos hfull]
    refine fill_inv_start_io n B tb cs env
      { x with wbuf := on_descriptor descriptor_mark_last x.wbuf } x_c ?_ ?_ ?_
    · intro h0
      have h1 : x.descriptor = false := h0
      rw [x_d] at h1
      cases h1
    · intro _
      refine ⟨descriptor_mark_last (descriptor_add_tag tag d0), ms ++ [metadata_bh env s1 jh],
        ?_, ⟨batch_shape_mark B _ _ hshape2, hfit.2.1, hfit.2.2⟩, ?_⟩
      · show on_descriptor descriptor_mark_last x.wbuf = _
        rw [x_w]
        rfl
      · intro hb
        have hb2 : x.t_buffers ≠ [] := hb
        unfold loop_batch_full at hfull
        simp only [decide_eq_true_eq] at hfull
        rcases hfull with hf1 | hf2 | hf3
        · left
          rw [x_w, x_c.1] at hf1
          simpa using hf1
        · exact absurd hf2 hb2
        · right
          rw [x_s, x_c.2.2.1, x_c.2.2.2] at hf3
          exact hf3
    · show batches_of _ (submitted x.trace)
      rw [x_tr]
      exact hL
  · rw [if_neg hfull]
    unfold loop_batch_full at hfull
    simp only [decide_eq_true_eq, not_or, not_lt] at hfull
    obtain ⟨hf1, _, hf3⟩ := hfull
    refine ⟨x_c, ⟨fun h0 => ?_, fun _ => ⟨_, _, x_w, hshape2, ?_, x_s, ?_, ?_⟩⟩,
      submitted s1.trace, [], by rw [x_tr]; simp, hL, Or.inl rfl⟩
    · rw [x_d] at h0
      cases h0
    · rw [x_f]
      exact ⟨fun h0 => (by cases h0), fun h0 => absurd h0 hne2⟩
    · intro hn
      have h1 := hfit.2.1 hn
      rw [x_w, x_c.1] at hf1
      simp only [List.length_cons] at hf1
      omega
    · intro hB
      refine ⟨?_, fun _ => x_room hB⟩
      rw [x_c.2.2.1, x_c.2.2.2] at hf3
      exact hf3

/-- One pass of the metadata loop keeps the filling. -/
theorem commit_loop_iter_fill (n B : Nat) (tb cs : Int) (env : commit_env) (barrier : Bool)
    (s : commit_state) (hne : s.t_buffers ≠ []) (h : fill_inv n B tb cs s) :
    fill_inv n B tb cs (commit_loop_iter env barrier s) := by
  cases hs : s.t_buffers with
  | nil => exact absurd hs hne
  | cons jh rest =>
    have hopen : ∀ s1, ((s.descriptor = true ∧ s1 = s) ∨
        (s.descriptor = false ∧ desc_alloc_ok env s = true ∧ s1 = open_descriptor s)) →
        fill_inv n B tb cs s1 ∧ s1.descriptor = true ∧ s1.t_buffers ≠ [] := by
      intro s1 h1
      rcases h1 with ⟨hd, rfl⟩ | ⟨hd, _, rfl⟩
      · exact ⟨h, hd, hne⟩
      · exact ⟨fill_inv_open n B tb cs s hd hne h, rfl, hne⟩
    apply commit_loop_iter_cases env barrier (fun x => fill_inv n B tb cs x) s jh rest hs
    · intro _
      rw [loop_release_eq]
      have htr : submitted (s.trace ++ release_events barrier [jh]) = submitted s.trace := by
        rw [submitted_append, submitted_release_events, List.append_nil]
      by_cases hr : rest = []
      · rw [if_pos hr]
        obtain ⟨hc, ⟨h2, h3⟩, h4⟩ := h
        refine fill_inv_start_io n B tb cs env _ hc h2 ?_ ?_
        · intro h0
          obtain ⟨d, ms, e1, e2⟩ := h3 h0
          exact ⟨d, ms, e1, open_batch_fits n B tb cs _ _ d ms e2, fun hb => absurd rfl hb⟩
        · show batches_of _ (submitted (s.trace ++ release_events barrier [jh]))
          rw [htr]
          exact fill_done_closed n B tb cs s hne h4
      · rw [if_neg hr]
        exact fill_inv_frame n B tb cs s _ h.1 rfl rfl rfl rfl htr hne h
    · intro _ _ _
      refine fill_inv_frame n B tb cs s _ h.1 rfl rfl rfl rfl ?_ hne h
      show submitted (s.trace ++ [event.jbd2_journal_abort (- EIO)]) = _
      rw [submitted_append]
      simp [submitted]
    · intro _ s1 h1 _
      obtain ⟨hi, _, hb⟩ := hopen s1 h1
      refine fill_inv_frame n B tb cs s1 _ hi.1 rfl rfl rfl rfl ?_ hb hi
      show submitted (s1.trace ++ [event.jbd2_journal_abort _]) = _
      rw [submitted_append]
      simp [submitted]
    · intro _ s1 h1 _ _
      obtain ⟨hi, _, hb⟩ := hopen s1 h1
      refine fill_inv_frame n B tb cs s1 _ hi.1 rfl rfl rfl rfl ?_ hb hi
      show submitted (s1.trace ++ [event.jbd2_journal_abort _]) = _
      rw [submitted_append]
      simp [submitted]
    · intro _ s1 h1 _ _
      obtain ⟨hi, hd, hb⟩ := hopen s1 h1
      exact fill_inv_logged n B tb cs env s1 jh rest hd hb hi

/-- The filling holds when the metadata loop is entered by
`jbd2_journal_commit_transaction`. -/
theorem commit_prologue_fill (env : commit_env) (s0 : commit_state) (htr : s0.trace = []) :
    fill_inv s0.journal.j_wbufsize s0.journal.j_blocksize s0.journal.tag_bytes
      (csum_size s0.journal) (commit_prologue env s0) := by
  obtain ⟨p1, _, p3, p4, _⟩ := commit_prologue_frame env s0
  have hcfg := p1
  simp only [journal_config, Prod.mk.injEq] at hcfg
  refine ⟨⟨hcfg.2.2.2.2.2.2.2.1, hcfg.2.2.2.2.2.2.1, hcfg.2.2.2.2.2.2.2.2.1, ?_⟩,
    ⟨fun _ => p3, fun h => ?_⟩, [], [], ?_, batches_of.nil, Or.inl rfl⟩
  · unfold csum_size jbd2_journal_has_csum_v2or3
    rw [hcfg.2.2.1]
  · rw [p4] at h
    cases h
  · rw [commit_prologue_submitted, htr]
    rfl

/-- The filling at the top of every pass of the metadata loop of
`jbd2_journal_commit_transaction` and at its end. -/
theorem loop_states_fill (env : commit_env) (s0 : commit_state) (htr : s0.trace = [])
    (fuel : Nat) :
    ∀ x ∈ loop_states env false fuel (commit_prologue env s0),
      fill_inv s0.journal.j_wbufsize s0.journal.j_blocksize s0.journal.tag_bytes
        (csum_size s0.journal) x :=
  loop_states_rule env false
    (fun x => fill_inv s0.journal.j_wbufsize s0.journal.j_blocksize s0.journal.tag_bytes
      (csum_size s0.journal) x)
    (fun x hx hne => commit_loop_iter_fill _ _ _ _ env false x hne hx) fuel
    (commit_prologue env s0) (commit_prologue_fill env s0 htr)

/-- The blocks submitted by `jbd2_journal_commit_transaction`: the batches
closed while buffers remained, the batch submitted last, and commit blocks. -/
theorem commit_transaction_fill (env : commit_env) (s0 : commit_state) (htr : s0.trace = []) :
    ∃ s L last C, jbd2_journal_commit_transaction env s0 = some s ∧
      submitted s.trace = L ++ last ++ C ∧ (∀ c ∈ C, is_commit c = true) ∧
      batches_of (fun d ms =>
        batch_fits s0.journal.j_wbufsize s0.journal.j_blocksize s0.journal.tag_bytes
          (csum_size s0.journal) d ms ∧
        batch_closed s0.journal.j_wbufsize s0.journal.j_blocksize s0.journal.tag_bytes
          (csum_size s0.journal) ms) L ∧
      (last = [] ∨ ∃ d ms, last = d :: ms ∧
        batch_fits s0.journal.j_wbufsize s0.journal.j_blocksize s0.journal.tag_bytes
          (csum_size s0.journal) d ms) := by
  obtain ⟨s2, h1, _, h3⟩ := commit_transaction_total env s0
  have hinv := loop_states_fill env s0 htr _ s2 (loop_states_last env false _ _ s2 h1)
  obtain ⟨_, _, L, last, e1, e2, e3⟩ := hinv
  obtain ⟨⟨C, hC, hCc⟩, _⟩ := commit_after_loop_commit_only env s2
  refine ⟨commit_after_loop env s2, L, last, C, h3, by rw [hC, e1], hCc, e2, ?_⟩
  rcases e3 with e3 | ⟨_, e3⟩
  · exact Or.inl e3
  · exact Or.inr e3

/-! ### C27: the bound of the batch array -/

/-- C27: the batch array `wbuf` is never indexed out of bounds.  For every
`j_wbufsize >= 2`, in every run of `jbd2_journal_commit_transaction` and at the
top of every pass of the metadata loop: `bufs` (the length of `wbuf`) is 0
whenever `descriptor` is NULL, so the `J_ASSERT (bufs == 0)` holds and the
descriptor is stored at index 0; `bufs` is less than `j_wbufsize`, and still
so behind the block `if (!descriptor)`, where `wbuf[bufs]` is stored and read
for the copy of the metadata buffer.  The commit returns, and the blocks the
loop has submitted are batches of a descriptor block and one block for each of
its tags, each batch of at most `j_wbufsize` buffers counting the descriptor
(the indices `i < bufs` read at submission), that is of at most
`j_wbufsize - 1` tags; behind them come only commit blocks. -/
theorem wbuf_index_bound (env : commit_env) (s0 : commit_state) (htr : s0.trace = [])
    (hw : 2 ≤ s0.journal.j_wbufsize) :
    (∀ x ∈ loop_states env false (commit_loop_fuel (commit_prologue env s0))
        (commit_prologue env s0),
      (x.descriptor = false → x.wbuf.length = 0) ∧
      x.wbuf.length < s0.journal.j_wbufsize ∧
      (loop_descriptor env x).1.wbuf.length < s0.journal.j_wbufsize) ∧
    ∃ s L C, jbd2_journal_commit_transaction env s0 = some s ∧
      submitted s.trace = L ++ C ∧ (∀ c ∈ C, is_commit c = true) ∧
      batches_of (fun d ms => is_descriptor d = true ∧ (∀ m ∈ ms, is_descriptor m = false) ∧
        (tags_of d).length = ms.length ∧ ms.length + 1 ≤ s0.journal.j_wbufsize ∧
        (tags_of d).length ≤ s0.journal.j_wbufsize - 1) L := by
  constructor
  · intro x hx
    obtain ⟨_, ⟨h2, h3⟩, _⟩ := loop_states_fill env s0 htr _ x hx
    have hlen : x.wbuf.length < s0.journal.j_wbufsize := by
      by_cases hd : x.descriptor = true
      · obtain ⟨d, ms, e1, e2⟩ := h3 hd
        have := e2.2.2.2.1 hw
        rw [e1, List.length_cons]
        exact this
      · have hd0 : x.descriptor = false := by simpa using hd
        rw [h2 hd0, List.length_nil]
        omega
    refine ⟨fun hd => by rw [h2 hd]; rfl, hlen, ?_⟩
    rw [loop_descriptor_eq]
    by_cases hd : x.descriptor = true
    · rw [if_pos hd]
      exact hlen
    · have hd0 : x.descriptor = false := by simpa using hd
      rw [if_neg hd]
      by_cases ha : desc_alloc_ok env x = true
      · rw [if_pos ha]
        show (x.wbuf ++ [fresh_descriptor x]).length < _
        rw [h2 hd0]
        simp only [List.nil_append, List.length_singleton]
        omega
      · rw [if_neg ha]
        exact hlen
  · obtain ⟨s, L, last, C, h1, h2, h3, h4, h5⟩ := commit_transaction_fill env s0 htr
    have hmono : ∀ (d : buffer_head) (ms : List buffer_head),
        batch_fits s0.journal.j_wbufsize s0.journal.j_blocksize s0.journal.tag_bytes
          (csum_size s0.journal) d ms →
        is_descriptor d = true ∧ (∀ m ∈ ms, is_descriptor m = false) ∧
        (tags_of d).length = ms.length ∧ ms.length + 1 ≤ s0.journal.j_wbufsize ∧
        (tags_of d).length ≤ s0.journal.j_wbufsize - 1 := by
      intro d ms hf
      obtain ⟨⟨f1, _, f3, f4⟩, f5, _⟩ := hf
      have := f5 hw
      exact ⟨f1, f3, f4, this, by omega⟩
    refine ⟨s, L ++ last, C, h1, h2, h3, ?_⟩
    apply batches_of_append
    · exact batches_of_mono _ _ (fun d ms hd => hmono d ms hd.1) L h4
    · rcases h5 with h5 | ⟨d, ms, h5, h6⟩
      · rw [h5]
        exact batches_of.nil
      · rw [h5]
        have hnew : batches_of (fun d ms => is_descriptor d = true ∧
            (∀ m ∈ ms, is_descriptor m = false) ∧
            (tags_of d).length = ms.length ∧ ms.length + 1 ≤ s0.journal.j_wbufsize ∧
            (tags_of d).length ≤ s0.journal.j_wbufsize - 1) (d :: ms ++ []) :=
          batches_of.batch d ms [] (hmono d ms h6) batches_of.nil
        simpa using hnew

/-- C27 at a concrete input: five buffers on a journal with `j_wbufsize` 2;
every batch is a descriptor and one block. -/
theorem wbuf_index_bound_witness :
    2 ≤ batch_two_state.journal.j_wbufsize ∧
    ∃ s L C, jbd2_journal_commit_transaction sample_env batch_two_state = some s ∧
      submitted s.trace = L ++ C ∧ (∀ c ∈ C, is_commit c = true) ∧
      batches_of (fun d ms => is_descriptor d = true ∧ (∀ m ∈ ms, is_descriptor m = false) ∧
        (tags_of d).length = ms.length ∧ ms.length + 1 ≤ batch_two_state.journal.j_wbufsize ∧
        (tags_of d).length ≤ batch_two_state.journal.j_wbufsize - 1) L :=
  ⟨by decide, (wbuf_index_bound sample_env batch_two_state rfl (by decide)).2⟩

/-! ### C28: the tags and the end of the descriptor block -/

/-- C28, as stated, fails in its second half: on a journal with blocks of 60
bytes, tags of 8 bytes, no block tail and room for 8 buffers in `wbuf`, the
commit of five buffers closes its first descriptor after two tags, with
buffers remaining and `wbuf` not full, although four tags satisfy the bound
(12 + 4 * 8 + 16 = 60): the test at commit.c 743-745 asks for room for a tag
and another 16 bytes. -/
theorem descriptor_not_full_counterexample :
    sizeof_journal_header_t + small_block_journal.tag_bytes + 16 +
      csum_size small_block_journal ≤ (small_block_journal.j_blocksize : Int) ∧
    small_block_journal.j_wbufsize = 8 ∧
    (jbd2_journal_commit_transaction sample_env small_block_state).map
      (fun s => ((submitted s.trace).filter is_descriptor).map (fun d => (tags_of d).length)) =
      some [2, 2, 1] ∧
    descriptor_bytes small_block_journal.tag_bytes 4 + csum_size small_block_journal ≤
      (small_block_journal.j_blocksize : Int) := by
  decide

/-- C28, amended: if the block size is at least `sizeof(journal_header_t) +
tag_bytes + 16 + csum_size`, then in every run of
`jbd2_journal_commit_transaction`, at the top of every pass of the metadata
loop with an open descriptor, `space_left` is the block size less the header,
the tags written and the UUID, there is room for another tag, 16 bytes and the
block tail, and `space_left >= csum_size` once a tag has been written.  The
commit returns, and the blocks the loop has submitted are batches of a
descriptor block and one block for each of its tags: in each of them the
header, the tags and the UUID take at most `b_size - csum_size` bytes; and
every batch closed while buffers remained either fills `wbuf` or has less than
`tag_bytes + 16 + csum_size` bytes left in its descriptor, so a descriptor
closed only for lack of space has no room for a tag, another 16 bytes and the
block tail. -/
theorem tags_fit_descriptor (env : commit_env) (s0 : commit_state) (htr : s0.trace = [])
    (hB : sizeof_journal_header_t + s0.journal.tag_bytes + 16 + csum_size s0.journal ≤
      (s0.journal.j_blocksize : Int)) :
    (∀ x ∈ loop_states env false (commit_loop_fuel (commit_prologue env s0))
        (commit_prologue env s0),
      x.descriptor = true →
      s0.journal.tag_bytes + 16 + csum_size s0.journal ≤ x.space_left ∧
      (x.first_tag = false → csum_size s0.journal ≤ x.space_left) ∧
      ∃ d ms, x.wbuf = d :: ms ∧ (tags_of d).length = ms.length ∧
        x.space_left = (s0.journal.j_blocksize : Int) -
          descriptor_bytes s0.journal.tag_bytes (tags_of d).length) ∧
    ∃ s L last C, jbd2_journal_commit_transaction env s0 = some s ∧
      submitted s.trace = L ++ last ++ C ∧ (∀ c ∈ C, is_commit c = true) ∧
      batches_of (fun d ms => is_descriptor d = true ∧ d.b_size = s0.journal.j_blocksize ∧
        (∀ m ∈ ms, is_descriptor m = false) ∧ (tags_of d).length = ms.length ∧
        (tags_of d ≠ [] → descriptor_bytes s0.journal.tag_bytes (tags_of d).length +
          csum_size s0.journal ≤ (d.b_size : Int)) ∧
        (ms.length + 1 = s0.journal.j_wbufsize ∨
          (d.b_size : Int) - descriptor_bytes s0.journal.tag_bytes (tags_of d).length <
            s0.journal.tag_bytes + 16 + csum_size s0.journal)) L ∧
      (last = [] ∨ ∃ d ms, last = d :: ms ∧ is_descriptor d = true ∧
        d.b_size = s0.journal.j_blocksize ∧
        (∀ m ∈ ms, is_descriptor m = false) ∧ (tags_of d).length = ms.length ∧
        (tags_of d ≠ [] → descriptor_bytes s0.journal.tag_bytes (tags_of d).length +
          csum_size s0.journal ≤ (d.b_size : Int))) := by
  have hfit : ∀ (d : buffer_head) (ms : List buffer_head),
      batch_fits s0.journal.j_wbufsize s0.journal.j_blocksize s0.journal.tag_bytes
        (csum_size s0.journal) d ms →
      is_descriptor d = true ∧ d.b_size = s0.journal.j_blocksize ∧
      (∀ m ∈ ms, is_descriptor m = false) ∧ (tags_of d).length = ms.length ∧
      (tags_of d ≠ [] → descriptor_bytes s0.journal.tag_bytes (tags_of d).length +
        csum_size s0.journal ≤ (d.b_size : Int)) := by
    intro d ms hf
    obtain ⟨⟨f1, f2, f3, f4⟩, _, f6⟩ := hf
    refine ⟨f1, f2, f3, f4, fun hne => ?_⟩
    have hms : ms ≠ [] := by
      intro h0
      rw [h0] at f4
      exact hne (List.length_eq_zero.mp f4)
    rw [f4, f2]
    exact f6 hB hms
  constructor
  · intro x hx hd
    obtain ⟨_, ⟨_, h3⟩, _⟩ := loop_states_fill env s0 htr _ x hx
    obtain ⟨d, ms, e1, ⟨_, _, _, e5⟩, e6, e7, _, e9⟩ := h3 hd
    obtain ⟨r1, r2⟩ := e9 hB
    refine ⟨r1, fun hf => r2 (fun h0 => ?_), d, ms, e1, e5, by rw [e5]; exact e7⟩
    rw [e6.mpr h0] at hf
    cases hf
  · obtain ⟨s, L, last, C, h1, h2, h3, h4, h5⟩ := commit_transaction_fill env s0 htr
    refine ⟨s, L, last, C, h1, h2, h3, ?_, ?_⟩
    · refine batches_of_mono _ _ (fun d ms hd => ?_) L h4
      obtain ⟨g1, g2, g3, g4, g5⟩ := hfit d ms hd.1
      refine ⟨g1, g2, g3, g4, g5, ?_⟩
      rcases hd.2 with hc1 | hc2
      · exact Or.inl hc1
      · right
        rw [g4, g2]
        exact hc2
    · rcases h5 with h5 | ⟨d, ms, h5, h6⟩
      · exact Or.inl h5
      · exact Or.inr ⟨d, ms, h5, hfit d ms h6⟩

/-- C28, amended, at a concrete input: the commit of five buffers on the
journal with blocks of 60 bytes. -/
theorem tags_fit_descriptor_witness :
    sizeof_journal_header_t + small_block_state.journal.tag_bytes + 16 +
      csum_size small_block_state.journal ≤ (small_block_state.journal.j_blocksize : Int) ∧
    ∃ s L last C, jbd2_journal_commit_transaction sample_env small_block_state = some s ∧
      submitted s.trace = L ++ last ++ C ∧ (∀ c ∈ C, is_commit c = true) ∧
      batches_of (fun d ms => is_descriptor d = true ∧
        d.b_size = small_block_state.journal.j_blocksize ∧
        (∀ m ∈ ms, is_descriptor m = false) ∧ (tags_of d).length = ms.length ∧
        (tags_of d ≠ [] →
          descriptor_bytes small_block_state.journal.tag_bytes (tags_of d).length +
            csum_size small_block_state.journal ≤ (d.b_size : Int)) ∧
        (ms.length + 1 = small_block_state.journal.j_wbufsize ∨
          (d.b_size : Int) -
              descriptor_bytes small_block_state.journal.tag_bytes (tags_of d).length <
            small_block_state.journal.tag_bytes + 16 +
              csum_size small_block_state.journal)) L ∧
      (last = [] ∨ ∃ d ms, last = d :: ms ∧ is_descriptor d = true ∧
        d.b_size = small_block_state.journal.j_blocksize ∧
        (∀ m ∈ ms, is_descriptor m = false) ∧ (tags_of d).length = ms.length ∧
        (tags_of d ≠ [] →
          descriptor_bytes small_block_state.journal.tag_bytes (tags_of d).length +
            csum_size small_block_state.journal ≤ (d.b_size : Int))) :=
  ⟨by decide, (tags_fit_descriptor sample_env small_block_state rfl (by decide)).2⟩

/-! ### C2: the order of the transaction states -/

theorem first_bug_cases (l : List assertion) (s : commit_state) :
    first_bug l s = commit_outcome.returned s ∨
      ∃ a ∈ l, a.holds = false ∧ first_bug l s = commit_outcome.bug a.line a.state := by
  induction l with
  | nil => exact Or.inl rfl
  | cons a rest ih =>
    by_cases h : a.holds = true
    · rw [first_bug, if_pos h]
      rcases ih with h1 | ⟨b, hb, h2, h3⟩
      · exact Or.inl h1
      · exact Or.inr ⟨b, List.mem_cons_of_mem _ hb, h2, h3⟩
    · rw [first_bug, if_neg h]
      exact Or.inr ⟨a, List.mem_cons_self _ _, by simpa using h, rfl⟩

theorem first_bug_all (l : List assertion) (s : commit_state)
    (h : ∀ a ∈ l, a.holds = true) : first_bug l s = commit_outcome.returned s := by
  rcases first_bug_cases l s with h1 | ⟨a, ha, h2, _⟩
  · exact h1
  · rw [h a ha] at h2
    exact Bool.noConfusion h2

/-- A property of the state that every pass of a loop keeps holds at the
start of every pass. -/
theorem fold_states_rule {σ α : Type} (f : σ → α → σ) (I : List α → σ → Prop)
    (hstep : ∀ (a : α) (l : List α) (s : σ), I (a :: l) s → I l (f s a)) :
    ∀ (l : List α) (s : σ), I l s →
      (∀ p ∈ fold_states f l s, ∃ rest, I (p.1 :: rest) p.2) ∧ I [] (l.foldl f s) := by
  intro l
  induction l with
  | nil =>
    intro s hs
    exact ⟨fun p hp => (by cases hp), hs⟩
  | cons a rest ih =>
    intro s hs
    obtain ⟨i1, i2⟩ := ih (f s a) (hstep a rest s hs)
    refine ⟨?_, i2⟩
    intro p hp
    rcases List.mem_cons.mp hp with rfl | hp2
    · exact ⟨rest, hs⟩
    · exact i1 p hp2

theorem states_taken_entry (s : commit_state) : states_taken s (lock_down_entry s) 0 := by
  unfold states_taken lock_down_entry
  simp only []
  split_ifs <;> simp [emit, t_states, commit_states]

theorem states_taken_flagged (s : commit_state) : states_taken s (lock_down_flagged s) 0 :=
  states_taken_entry s

theorem states_taken_switched (s : commit_state) : states_taken s (lock_down_switched s) 2 := by
  have h := states_taken_entry s
  unfold states_taken at h ⊢
  unfold lock_down_switched lock_down_flagged
  simp only [set_t_state, emit, t_states_append, h]
  simp [t_states, commit_states]

theorem states_taken_flushing (s : commit_state) : states_taken s (lock_down_flushing s) 3 := by
  have h := states_taken_switched s
  unfold states_taken at h ⊢
  unfold lock_down_flushing
  simp only [release_reserved_list_eq, set_t_state, emit, t_states_append, h]
  have r1 : t_states ((lock_down_switched s).t_reserved_list.map
      (fun jh => event.jbd2_journal_refile_buffer jh.b_blocknr)) = [] := by
    simp [t_states, List.filterMap_map]
  rw [r1]
  simp [t_states, commit_states]

theorem states_taken_committing (env : commit_env) (s : commit_state) :
    states_taken s (prologue_committing env s) 4 := by
  have h := commit_prologue_t_states env s
  exact h

theorem states_taken_same (s0 x y : commit_state) (k : Nat) (h : states_taken s0 x k)
    (hm : milestones y.trace = milestones x.trace) : states_taken s0 y k := by
  unfold states_taken at h ⊢
  rw [t_states_of_milestones, hm, ← t_states_of_milestones, h]

theorem states_taken_next (s0 x y : commit_state) (k : Nat) (st : t_state)
    (h : states_taken s0 x k)
    (hm : milestones y.trace = milestones x.trace ++ [event.set_t_state st])
    (hk : commit_states.take (k + 1) = commit_states.take k ++ [st]) :
    states_taken s0 y (k + 1) := by
  unfold states_taken at h ⊢
  rw [t_states_of_milestones, hm, t_states_append, ← t_states_of_milestones, h, hk,
    List.append_assoc]
  rfl

theorem loop_states_taken (env : commit_env) (s0 s1 : commit_state) (fuel : Nat)
    (h : states_taken s0 s1 4) :
    ∀ x ∈ loop_states env false fuel s1, states_taken s0 x 4 ∧ loop_frame x = loop_frame s1 := by
  apply loop_states_rule env false
    (fun x => states_taken s0 x 4 ∧ loop_frame x = loop_frame s1) ?_ fuel s1 ⟨h, rfl⟩
  intro x hx hne
  obtain ⟨_, b2, _, evs, b4, b5⟩ := commit_loop_iter_basic env false x hne
  refine ⟨states_taken_same s0 x _ 4 hx.1 ?_, b2.trans hx.2⟩
  rw [b4, milestones_append, milestones_loop_events evs b5, List.append_nil]

theorem wait_io_buf_milestones (env : commit_env) (s : commit_state) (b : Nat) :
    milestones (wait_io_buf env s b).trace = milestones s.trace ∧
    milestones (wait_io_head env s b).trace = milestones s.trace ∧
    (wait_io_buf env s b).t_state = s.t_state := by
  unfold wait_io_buf wait_io_head
  simp only [emit]
  refine ⟨?_, ?_, ?_⟩
  · split <;> split_ifs <;> simp [milestones, is_milestone]
  · split_ifs <;> simp [milestones, is_milestone]
  · split <;> split_ifs <;> rfl

theorem finish_log_tail_milestones (env : commit_env) (s : commit_state) :
    milestones (log_tail_step env (finish_inode_data_step env s)).trace = milestones s.trace ∧
    (log_tail_step env (finish_inode_data_step env s)).t_state = s.t_state ∧
    (log_tail_step env (finish_inode_data_step env s)).t_inode_list = [] := by
  rw [log_tail_step_eq, finish_inode_data_step_eq]
  refine ⟨?_, rfl, rfl⟩
  simp only [milestones_append, milestones_abort_list, List.append_nil]

theorem wait_io_states_taken (env : commit_env) (a : assert_env) (s0 s : commit_state) (k : Nat)
    (h : states_taken s0 s k) :
    (∀ x ∈ wait_io_asserts env a s, states_taken s0 x.state k) ∧
    states_taken s0 (s.io_bufs.reverse.foldl (wait_io_buf env) s) k := by
  obtain ⟨r1, r2⟩ := fold_states_rule (wait_io_buf env) (fun _ y => states_taken s0 y k)
    (fun b _ y hy => states_taken_same s0 y _ k hy (wait_io_buf_milestones env y b).1)
    s.io_bufs.reverse s h
  refine ⟨?_, r2⟩
  intro x hx
  unfold wait_io_asserts at hx
  obtain ⟨p, hp, hx2⟩ := List.mem_flatMap.mp hx
  obtain ⟨_, hp2⟩ := r1 p hp
  have hh := states_taken_same s0 p.2 _ k hp2 (wait_io_buf_milestones env p.2 p.1).2.1
  simp only [List.mem_cons, List.mem_singleton, List.not_mem_nil, or_false] at hx2
  rcases hx2 with rfl | rfl | rfl | rfl <;> exact hh

theorem forget_states_taken (a : assert_env) (s0 s : commit_state) (k : Nat)
    (h : states_taken s0 s k) :
    (∀ x ∈ forget_asserts a s, states_taken s0 x.state k) ∧
    states_taken s0 (s.t_forget.foldl commit_forget_one s) k := by
  obtain ⟨r1, r2⟩ := fold_states_rule commit_forget_one (fun _ y => states_taken s0 y k)
    (fun jh _ y hy => states_taken_same s0 y _ k hy (commit_forget_one_milestones y jh).1)
    s.t_forget s h
  refine ⟨?_, r2⟩
  intro x hx
  unfold forget_asserts at hx
  obtain ⟨p, hp, hx2⟩ := List.mem_flatMap.mp hx
  obtain ⟨_, hp2⟩ := r1 p hp
  rcases List.mem_cons.mp hx2 with rfl | hx3
  · exact hp2
  · split_ifs at hx3
    · cases hx3
    · rw [List.mem_singleton.mp hx3]
      exact hp2

theorem after_loop_states_taken (env : commit_env) (a : assert_env) (s0 s2 : commit_state)
    (h : states_taken s0 s2 4) :
    ∀ x ∈ after_loop_asserts env a s2, ∃ k, k ≤ 7 ∧ states_taken s0 x.state k := by
  have h3 := states_taken_same s0 s2 _ 4 h (finish_log_tail_milestones env s2).1
  have h4 := states_taken_next s0 s2 _ 4 t_state.T_COMMIT_DFLUSH h
    (commit_dflush_milestones env s2) rfl
  obtain ⟨w1, h5⟩ := wait_io_states_taken env a s0 (commit_dflush env s2) 5 h4
  have h6 := states_taken_same s0 _ _ 5 h4 (commit_wait_io_milestones env (commit_dflush env s2)).1
  have h7 := states_taken_next s0 _ _ 5 t_state.T_COMMIT_JFLUSH h6
    (commit_jflush_milestones env (commit_wait_io env (commit_dflush env s2))).1 rfl
  obtain ⟨f1, h8⟩ := forget_states_taken a s0 _ 6 h7
  intro x hx
  unfold after_loop_asserts at hx
  simp only [List.mem_append, List.mem_cons, List.mem_singleton, List.not_mem_nil,
    or_false] at hx
  rcases hx with ((((rfl | hx) | (rfl | rfl | rfl | rfl | rfl | rfl)) | hx) | (rfl | rfl))
  · exact ⟨4, by decide, h3⟩
  · exact ⟨5, by decide, w1 x hx⟩
  · exact ⟨5, by decide, h5⟩
  · exact ⟨5, by decide, h6⟩
  · exact ⟨6, by decide, h7⟩
  · exact ⟨6, by decide, h7⟩
  · exact ⟨6, by decide, h7⟩
  · exact ⟨6, by decide, h7⟩
  · exact ⟨6, by decide, f1 x hx⟩
  · exact ⟨6, by decide, states_taken_same s0 _ _ 6 h8 rfl⟩
  · refine ⟨7, by decide, states_taken_next s0 _ _ 6 t_state.T_COMMIT_CALLBACK h8 ?_ rfl⟩
    simp [set_t_state, emit, milestones, is_milestone]

theorem prologue_states_taken (env : commit_env) (a : assert_env) (s : commit_state) :
    ∀ x ∈ prologue_asserts env a s, ∃ k, k ≤ 7 ∧ states_taken s x.state k := by
  intro x hx
  unfold prologue_asserts at hx
  simp only [List.mem_append, List.mem_cons, List.mem_singleton, List.not_mem_nil,
    or_false, List.mem_map] at hx
  rcases hx with (((rfl | rfl | rfl | rfl) | ⟨_, _, rfl⟩) | rfl)
  · exact ⟨0, by decide, states_taken_entry s⟩
  · exact ⟨0, by decide, states_taken_entry s⟩
  · exact ⟨0, by decide, states_taken_flagged s⟩
  · exact ⟨2, by decide, states_taken_switched s⟩
  · exact ⟨3, by decide, states_taken_flushing s⟩
  · exact ⟨4, by decide, states_taken_committing env s⟩

theorem loop_asserts_states_taken (env : commit_env) (s0 s1 : commit_state) (fuel : Nat)
    (h : states_taken s0 s1 4) :
    ∀ x ∈ loop_asserts (loop_states env false fuel s1), ∃ k, k ≤ 7 ∧ states_taken s0 x.state k := by
  intro x hx
  unfold loop_asserts at hx
  obtain ⟨y, hy, rfl⟩ := List.mem_map.mp hx
  exact ⟨4, by decide, (loop_states_taken env s0 s1 fuel h y (List.mem_filter.mp hy).1).1⟩

theorem prologue_committing_fields (env : commit_env) (s : commit_state) :
    (prologue_committing env s).t_nr_buffers = s.t_nr_buffers ∧
    (prologue_committing env s).t_outstanding_credits =
      s.t_outstanding_credits - s.journal.j_reserved_credits ∧
    (commit_prologue env s).t_state = t_state.T_COMMIT ∧
    (commit_prologue env s).t_checkpoint_list = s.t_checkpoint_list := by
  have e1 : (prologue_committing env s).t_nr_buffers = (commit_prologue env s).t_nr_buffers := rfl
  have e2 : (prologue_committing env s).t_outstanding_credits =
      (commit_prologue env s).t_outstanding_credits := rfl
  obtain ⟨h, lb, evs, h1, _⟩ := commit_prologue_eq env s
  rw [e1, e2, h1, commit_lock_down_eq]
  exact ⟨rfl, rfl, rfl, rfl⟩

theorem prologue_asserts_hold (env : commit_env) (a : assert_env) (s : commit_state)
    (hrun : s.t_state = t_state.T_RUNNING) (h : asserts_hold a s) :
    ∀ x ∈ prologue_asserts env a s, x.holds = true := by
  obtain ⟨c1, c2, c3, c4, _, _, _, c8, _⟩ := h
  obtain ⟨p1, p2, _⟩ := prologue_committing_fields env s
  have hst : (lock_down_flagged s).t_state = s.t_state := by
    unfold lock_down_flagged lock_down_entry
    simp only []
    split_ifs <;> rfl
  have hcr : (lock_down_switched s).t_outstanding_credits = s.t_outstanding_credits := by
    unfold lock_down_switched lock_down_flagged lock_down_entry
    simp only [set_t_state, emit]
    split_ifs <;> rfl
  intro x hx
  unfold prologue_asserts at hx
  simp only [List.mem_append, List.mem_cons, List.mem_singleton, List.not_mem_nil,
    or_false, List.mem_map] at hx
  rcases hx with (((rfl | rfl | rfl | rfl) | ⟨_, _, rfl⟩) | rfl)
  · exact c1
  · simp [c2]
  · simp [hst, hrun]
  · simp [hcr, c3]
  · exact c8 _
  · simp [p1, p2, c4]

/-- A pass of the metadata loop leaves `wbuf` empty whenever it leaves no
descriptor, keeps every buffer on `t_buffers` and on the shadow list
`jbddirty`, and keeps `io_bufs` as long as the shadow list. -/
theorem commit_loop_iter_asserted (env : commit_env) (s : commit_state)
    (hne : s.t_buffers ≠ [])
    (h : (s.descriptor = false → s.wbuf = []) ∧
      (∀ jh ∈ s.t_buffers ++ s.t_shadow_list, jh.jbddirty = true) ∧
      s.io_bufs.length = s.t_shadow_list.length) :
    ((commit_loop_iter env false s).descriptor = false → (commit_loop_iter env false s).wbuf = []) ∧
    (∀ jh ∈ (commit_loop_iter env false s).t_buffers ++ (commit_loop_iter env false s).t_shadow_list,
      jh.jbddirty = true) ∧
    (commit_loop_iter env false s).io_bufs.length =
      (commit_loop_iter env false s).t_shadow_list.length := by
  obtain ⟨hw, hd, hl⟩ := h
  refine ⟨?_, ?_, commit_loop_iter_shadow env false s hne hl⟩
  · cases hs : s.t_buffers with
    | nil => exact absurd hs hne
    | cons jh rest =>
      apply commit_loop_iter_cases env false
        (fun y => y.descriptor = false → y.wbuf = []) s jh rest hs
      · intro _
        rw [loop_release_eq]
        by_cases hr : rest = []
        · rw [if_pos hr]
          intro _
          exact (start_journal_io_frame env _).2.2.2.2.2.2.1
        · rw [if_neg hr]
          exact hw
      · intro _ _ _
        exact hw
      · intro _ s1 h1 _
        rcases h1 with ⟨hd1, rfl⟩ | ⟨_, _, rfl⟩
        · exact hw
        · intro h0
          exact Bool.noConfusion h0
      · intro _ s1 h1 _ _
        rcases h1 with ⟨hd1, rfl⟩ | ⟨_, _, rfl⟩
        · exact hw
        · intro h0
          exact Bool.noConfusion h0
      · intro _ s1 h1 _ _
        unfold loop_submit
        by_cases hf : loop_batch_full (loop_tag env (log_buffer s1 jh rest) jh
            (metadata_bh env s1 jh) (env.write_metadata_flags jh.b_blocknr)) = true
        · rw [if_pos hf]
          intro _
          exact (start_journal_io_frame env _).2.2.2.2.2.2.1
        · rw [if_neg hf, loop_tag_eq]
          rcases h1 with ⟨hd1, rfl⟩ | ⟨_, _, rfl⟩
          · intro h0
            have h2 : s1.descriptor = false := h0
            rw [hd1] at h2
            exact Bool.noConfusion h2
          · intro h0
            exact Bool.noConfusion h0
  · cases hs : s.t_buffers with
    | nil => exact absurd hs hne
    | cons jh rest =>
      obtain ⟨_, hc⟩ := commit_loop_iter_lists env false s jh rest hs
      rw [hs] at hd
      intro x hx
      rcases hc with ⟨_, _, e1, e2, _⟩ | ⟨_, _, e1, e2, _⟩ | ⟨_, _, e1, e2, _⟩
      · rw [e1, e2] at hx
        apply hd x
        simp only [List.mem_append, List.mem_cons] at hx ⊢
        tauto
      · rw [e1, e2, hs] at hx
        exact hd x hx
      · rw [e1, e2] at hx
        apply hd x
        simp only [List.mem_append, List.mem_cons, List.mem_singleton, List.not_mem_nil,
          or_false] at hx ⊢
        tauto

theorem submit_commit_record_step_kept (env : commit_env) (s : commit_state) :
    (submit_commit_record_step env s).t_inode_list = s.t_inode_list ∧
    (submit_commit_record_step env s).t_checkpoint_list = s.t_checkpoint_list := by
  rw [submit_commit_record_step_eq]
  split_ifs <;> exact ⟨rfl, rfl⟩

theorem commit_dflush_kept (env : commit_env) (s : commit_state) :
    (commit_dflush env s).t_inode_list = [] ∧
    (commit_dflush env s).t_checkpoint_list = s.t_checkpoint_list := by
  have hh : (commit_dflush_head env s).t_inode_list = [] ∧
      (commit_dflush_head env s).t_checkpoint_list = s.t_checkpoint_list := by
    unfold commit_dflush_head
    simp only [log_tail_step_eq, finish_inode_data_step_eq, set_t_state, emit]
    split_ifs <;> exact ⟨rfl, rfl⟩
  unfold commit_dflush
  simp only []
  split_ifs
  · obtain ⟨k1, k2⟩ := submit_commit_record_step_kept env (commit_dflush_head env s)
    exact ⟨k1.trans hh.1, k2.trans hh.2⟩
  · exact hh

theorem commit_wait_io_kept (env : commit_env) (s : commit_state) :
    (commit_wait_io env s).t_inode_list = s.t_inode_list ∧
    (commit_wait_io env s).t_checkpoint_list = s.t_checkpoint_list := by
  obtain ⟨io, lb, sh, fg, h⟩ := commit_wait_io_eq env s
  rw [h]
  exact ⟨rfl, rfl⟩

theorem commit_jflush_kept (env : commit_env) (s : commit_state) :
    (commit_jflush env s).t_inode_list = s.t_inode_list ∧
    (commit_jflush env s).t_checkpoint_list = s.t_checkpoint_list := by
  unfold commit_jflush
  simp only []
  rw [commit_jflush_tail_eq]
  simp only []
  split_ifs
  · exact submit_commit_record_step_kept env (set_t_state s t_state.T_COMMIT_JFLUSH)
  · exact ⟨rfl, rfl⟩

theorem wait_io_asserts_hold (env : commit_env) (a : assert_env) (s : commit_state)
    (hb : ∀ b, a.b_count b = 0) (hsh : ∀ b, a.buffer_shadow b = false)
    (hl : s.io_bufs.length = s.t_shadow_list.length)
    (hd : ∀ jh ∈ s.t_shadow_list, jh.jbddirty = true) :
    ∀ x ∈ wait_io_asserts env a s, x.holds = true := by
  obtain ⟨r1, _⟩ := fold_states_rule (wait_io_buf env)
    (fun l y => y.t_shadow_list.length = l.length ∧ ∀ jh ∈ y.t_shadow_list, jh.jbddirty = true)
    (fun b l y hy => by
      have hne : y.t_shadow_list ≠ [] := by
        intro h0
        have := hy.1
        rw [h0] at this
        simp at this
      obtain ⟨_, m2, _⟩ := wait_io_buf_moves env y b hne
      show (wait_io_buf env y b).t_shadow_list.length = l.length ∧
        ∀ jh ∈ (wait_io_buf env y b).t_shadow_list, jh.jbddirty = true
      rw [m2]
      refine ⟨by rw [List.length_dropLast, hy.1]; simp, ?_⟩
      intro jh hjh
      exact hy.2 jh (List.mem_of_mem_dropLast hjh))
    s.io_bufs.reverse s ⟨by rw [List.length_reverse, hl], hd⟩
  intro x hx
  unfold wait_io_asserts at hx
  obtain ⟨p, hp, hx2⟩ := List.mem_flatMap.mp hx
  obtain ⟨rest, hp1, hp2⟩ := r1 p hp
  have hne : p.2.t_shadow_list ≠ [] := by
    intro h0
    rw [h0] at hp1
    simp at hp1
  have hlast : p.2.t_shadow_list.getLast? = some (p.2.t_shadow_list.getLast hne) :=
    List.getLast?_eq_getLast _ hne
  simp only [List.mem_cons, List.mem_singleton, List.not_mem_nil, or_false] at hx2
  rcases hx2 with rfl | rfl | rfl | rfl
  · simp [hb]
  · simp [hlast]
  · simp only [hlast]
    exact hp2 _ (List.getLast_mem hne)
  · simp [hlast, hsh]

theorem forget_asserts_hold (a : assert_env) (s : commit_state)
    (ht : ∀ b, a.b_transaction_ok b = true) (hd : ∀ b, a.buffer_dirty b = false) :
    ∀ x ∈ forget_asserts a s, x.holds = true := by
  intro x hx
  unfold forget_asserts at hx
  obtain ⟨p, _, hx2⟩ := List.mem_flatMap.mp hx
  rcases List.mem_cons.mp hx2 with rfl | hx3
  · exact ht _
  · split_ifs at hx3
    · cases hx3
    · rw [List.mem_singleton.mp hx3]
      simp [hd]

theorem forget_fold_t_state (l : List journal_head) (s : commit_state) :
    (l.foldl commit_forget_one s).t_state = s.t_state := by
  obtain ⟨fg, cp, evs, h, _⟩ := forget_fold_eq l s
  rw [h]

theorem after_loop_asserts_hold (env : commit_env) (a : assert_env) (s2 : commit_state)
    (hb : ∀ b, a.b_count b = 0) (hsh : ∀ b, a.buffer_shadow b = false)
    (ht : ∀ b, a.b_transaction_ok b = true) (hdi : ∀ b, a.buffer_dirty b = false)
    (hst : s2.t_state = t_state.T_COMMIT)
    (hl : s2.io_bufs.length = s2.t_shadow_list.length)
    (hd : ∀ jh ∈ s2.t_shadow_list, jh.jbddirty = true)
    (hbuf : s2.t_buffers = []) (hcp : s2.t_checkpoint_list = []) :
    ∀ x ∈ after_loop_asserts env a s2, x.holds = true := by
  obtain ⟨d1, d2, d3, d4⟩ := commit_dflush_lists env s2
  obtain ⟨k1, k2⟩ := commit_dflush_kept env s2
  have hl4 : (commit_dflush env s2).io_bufs.length = (commit_dflush env s2).t_shadow_list.length := by
    rw [d3, d2]; exact hl
  obtain ⟨_, f2, _⟩ := wait_io_fold_drains env (commit_dflush env s2).io_bufs.reverse
    (commit_dflush env s2) (by rw [List.length_reverse]) (by rw [List.length_reverse, hl4])
  obtain ⟨_, w2, _, w4⟩ := commit_wait_io_drains env (commit_dflush env s2) hl4
  obtain ⟨_, ws, _⟩ := commit_wait_io_milestones env (commit_dflush env s2)
  obtain ⟨_, _, _, ds, _⟩ := commit_dflush_trace env s2
  obtain ⟨wk1, wk2⟩ := commit_wait_io_kept env (commit_dflush env s2)
  obtain ⟨j1, j2⟩ := commit_jflush_lists env (commit_wait_io env (commit_dflush env s2))
  obtain ⟨jk1, jk2⟩ := commit_jflush_kept env (commit_wait_io env (commit_dflush env s2))
  obtain ⟨_, js⟩ := commit_jflush_milestones env (commit_wait_io env (commit_dflush env s2))
  intro x hx
  unfold after_loop_asserts at hx
  simp only [List.mem_append, List.mem_cons, List.mem_singleton, List.not_mem_nil,
    or_false] at hx
  rcases hx with ((((rfl | hx) | (rfl | rfl | rfl | rfl | rfl | rfl)) | hx) | (rfl | rfl))
  · simp [(finish_log_tail_milestones env s2).2.1, hst]
  · exact wait_io_asserts_hold env a _ hb hsh hl4 (by rw [d2]; exact hd) x hx
  · exact decide_eq_true f2
  · exact decide_eq_true (ws.trans ds)
  · simp [jk1, wk1, k1]
  · simp [j1, w4, d1, hbuf]
  · simp [jk2, wk2, k2, hcp]
  · simp [j2, w2]
  · exact forget_asserts_hold a _ ht hdi x hx
  · simp [forget_fold_t_state, js]
  · simp

theorem commit_states_ranked (st : t_state) (k : Nat) (hst : st = t_state.T_RUNNING)
    (hk : k ≤ 8) :
    (st :: commit_states.take k).Pairwise (fun x y => x.rank < y.rank) := by
  subst hst
  interval_cases k <;> decide

/-- Under `asserts_hold` every assertion of the commit holds. -/
theorem commit_asserts_hold (env : commit_env) (a : assert_env) (s0 s2 : commit_state)
    (hrun : s0.t_state = t_state.T_RUNNING) (h : asserts_hold a s0)
    (h1 : commit_loop env false (commit_loop_fuel (commit_prologue env s0))
      (commit_prologue env s0) = some s2)
    (h2 : s2.t_buffers = []) :
    ∀ x ∈ prologue_asserts env a s0 ++
        loop_asserts (loop_states env false (commit_loop_fuel (commit_prologue env s0))
          (commit_prologue env s0)) ++
        after_loop_asserts env a s2, x.holds = true := by
  have hp := prologue_asserts_hold env a s0 hrun h
  obtain ⟨_, _, _, _, c5, c6, c7, _, c9, c10, c11, c12⟩ := h
  obtain ⟨_, _, p3, _, _, p6, _, p8, p9, _⟩ := commit_prologue_frame env s0
  obtain ⟨_, _, q3, q4⟩ := prologue_committing_fields env s0
  have hinit : ((commit_prologue env s0).descriptor = false → (commit_prologue env s0).wbuf = []) ∧
      (∀ jh ∈ (commit_prologue env s0).t_buffers ++ (commit_prologue env s0).t_shadow_list,
        jh.jbddirty = true) ∧
      (commit_prologue env s0).io_bufs.length = (commit_prologue env s0).t_shadow_list.length := by
    refine ⟨fun _ => p3, ?_, ?_⟩
    · rw [p8, p9, c5, List.append_nil]
      exact c7
    · rw [p6, p9, c5]
      rfl
  have hall := loop_states_rule env false
    (fun x => (x.descriptor = false → x.wbuf = []) ∧
      (∀ jh ∈ x.t_buffers ++ x.t_shadow_list, jh.jbddirty = true) ∧
      x.io_bufs.length = x.t_shadow_list.length)
    (fun x hx hne => commit_loop_iter_asserted env x hne hx)
    (commit_loop_fuel (commit_prologue env s0)) (commit_prologue env s0) hinit
  obtain ⟨_, e2, e3⟩ := hall s2 (loop_states_last env false _ _ s2 h1)
  obtain ⟨_, hfr, _⟩ := commit_loop_basic env false _ _ _ h1
  simp only [loop_frame, Prod.mk.injEq] at hfr
  obtain ⟨_, f2, _, _, _, f6, _⟩ := hfr
  intro x hx
  rcases List.mem_append.mp hx with hx1 | hx3
  · rcases List.mem_append.mp hx1 with hx1 | hx2
    · exact hp x hx1
    · unfold loop_asserts at hx2
      obtain ⟨y, hy, rfl⟩ := List.mem_map.mp hx2
      obtain ⟨hy1, hy2⟩ := List.mem_filter.mp hy
      unfold needs_descriptor at hy2
      simp only [Bool.and_eq_true, Bool.not_eq_true', decide_eq_true_eq] at hy2
      have hw := (hall y hy1).1 hy2.2
      simp [hw]
  · exact after_loop_asserts_hold env a s2 c9 c10 c11 c12 (f2.trans q3) e3
      (fun jh hjh => e2 jh (List.mem_append_right _ hjh)) h2 ((f6.trans q4).trans c6) x hx3

/-- C2, amended: in `jbd2_journal_commit_transaction`, for every environment
(whatever fails, whether or not the journal aborts) and every run that starts
with the running transaction in state RUNNING, the run ends (it returns or it
stops at a `J_ASSERT`), and the values assigned to `t_state` are the first
`k` of LOCKED, SWITCH, FLUSH, COMMIT, COMMIT_DFLUSH, COMMIT_JFLUSH,
COMMIT_CALLBACK, FINISHED, in that order, each once, never backwards (the
ranks of the states taken are strictly increasing from RUNNING on).  All eight
are taken exactly if the run returns, that is, if no assertion stops it; the
run that returns is the run of the function without its assertions, and it
leaves the transaction FINISHED.  No assertion stops the run if the
conditions `asserts_hold` on the entry state hold. -/
theorem commit_state_sequence (env : commit_env) (a : assert_env) (s0 : commit_state)
    (hrun : s0.t_state = t_state.T_RUNNING) :
    ∃ o, jbd2_journal_commit_transaction_asserting env a s0 = some o ∧
      (∃ k, k ≤ 8 ∧
        t_states o.state.trace = t_states s0.trace ++ commit_states.take k ∧
        (k = 8 ↔ ∃ s, o = commit_outcome.returned s)) ∧
      (s0.t_state :: (t_states o.state.trace).drop (t_states s0.trace).length).Pairwise
        (fun x y => x.rank < y.rank) ∧
      (∀ s, o = commit_outcome.returned s →
        jbd2_journal_commit_transaction env s0 = some s ∧ s.t_state = t_state.T_FINISHED) ∧
      (asserts_hold a s0 → ∃ s, o = commit_outcome.returned s) := by
  obtain ⟨s2, h1, h2, h3⟩ := commit_transaction_total env s0
  have hs1 : states_taken s0 (commit_prologue env s0) 4 := commit_prologue_t_states env s0
  have hs2 : states_taken s0 s2 4 :=
    (loop_states_taken env s0 _ _ hs1 s2 (loop_states_last env false _ _ s2 h1)).1
  have hfin : states_taken s0 (commit_after_loop env s2) 8 := by
    unfold states_taken at hs2 ⊢
    rw [commit_after_loop_t_states, hs2, List.append_assoc]
    rfl
  have hst : (commit_after_loop env s2).t_state = t_state.T_FINISHED :=
    (commit_finish_facts env _).2.2.2
  have hall : ∀ x ∈ prologue_asserts env a s0 ++
      loop_asserts (loop_states env false (commit_loop_fuel (commit_prologue env s0))
        (commit_prologue env s0)) ++
      after_loop_asserts env a s2, ∃ k, k ≤ 7 ∧ states_taken s0 x.state k := by
    intro x hx
    rcases List.mem_append.mp hx with hx1 | hx3
    · rcases List.mem_append.mp hx1 with hx1 | hx2
      · exact prologue_states_taken env a s0 x hx1
      · exact loop_asserts_states_taken env s0 _ _ hs1 x hx2
    · exact after_loop_states_taken env a s0 s2 hs2 x hx3
  have hrun2 : jbd2_journal_commit_transaction_asserting env a s0 =
      some (first_bug (prologue_asserts env a s0 ++
        loop_asserts (loop_states env false (commit_loop_fuel (commit_prologue env s0))
          (commit_prologue env s0)) ++
        after_loop_asserts env a s2) (commit_after_loop env s2)) := by
    unfold jbd2_journal_commit_transaction_asserting
    simp only [h1]
  have hgood : asserts_hold a s0 → first_bug (prologue_asserts env a s0 ++
        loop_asserts (loop_states env false (commit_loop_fuel (commit_prologue env s0))
          (commit_prologue env s0)) ++
        after_loop_asserts env a s2) (commit_after_loop env s2) =
      commit_outcome.returned (commit_after_loop env s2) := fun h =>
    first_bug_all _ _ (commit_asserts_hold env a s0 s2 hrun h h1 h2)
  refine ⟨_, hrun2, ?_⟩
  rcases first_bug_cases (prologue_asserts env a s0 ++
      loop_asserts (loop_states env false (commit_loop_fuel (commit_prologue env s0))
        (commit_prologue env s0)) ++
      after_loop_asserts env a s2) (commit_after_loop env s2) with hr | ⟨x, hx, _, hb⟩
  · rw [hr]
    refine ⟨⟨8, le_refl 8, hfin, fun _ => ⟨_, rfl⟩, fun _ => rfl⟩, ?_, ?_, fun _ => ⟨_, rfl⟩⟩
    · have e : t_states (commit_outcome.returned (commit_after_loop env s2)).state.trace =
          t_states s0.trace ++ commit_states.take 8 := hfin
      rw [e, List.drop_left]
      exact commit_states_ranked _ 8 hrun (le_refl 8)
    · intro s hs
      cases hs
      exact ⟨h3, hst⟩
  · obtain ⟨k, hk, hkx⟩ := hall x hx
    rw [hb]
    refine ⟨⟨k, by omega, hkx, fun h8 => by omega, fun ⟨s, hs⟩ => by cases hs⟩, ?_, ?_, ?_⟩
    · have e : t_states (commit_outcome.bug x.line x.state).state.trace =
          t_states s0.trace ++ commit_states.take k := hkx
      rw [e, List.drop_left]
      exact commit_states_ranked _ k hrun (by omega)
    · intro s hs
      cases hs
    · intro h
      have := hgood h
      rw [hb] at this
      cases this

/-- C2, as stated, fails: the sample transaction of three buffers, RUNNING at
the entry, with `t_nr_buffers` 3 and credits for two blocks only, is stopped by
the `J_ASSERT` of lines 614-615, when `t_state` has taken the values LOCKED,
SWITCH, FLUSH and COMMIT only; every other condition of `asserts_hold` holds
at that entry. -/
theorem commit_state_counterexample :
    short_credit_state.t_state = t_state.T_RUNNING ∧
    short_credit_state.t_nr_buffers = 3 ∧
    short_credit_state.t_outstanding_credits = 2 ∧
    (jbd2_journal_commit_transaction_asserting sample_env sample_asserts short_credit_state).map
      (fun o => (o.line, o.state.t_state, t_states o.state.trace)) =
      some (some 614, t_state.T_COMMIT,
        [t_state.T_LOCKED, t_state.T_SWITCH, t_state.T_FLUSH, t_state.T_COMMIT]) := by
  decide

/-- C2, amended, at a concrete input: the sample transaction with three
buffers and credits enough; no assertion stops the commit, which assigns all
eight states. -/
theorem commit_state_sequence_witness :
    ∃ s, jbd2_journal_commit_transaction_asserting sample_env sample_asserts
        (sample_state sample_journal [sample_jh 100, sample_jh 200, sample_jh 300]) =
          some (commit_outcome.returned s) ∧
      t_states s.trace =
        [t_state.T_LOCKED, t_state.T_SWITCH, t_state.T_FLUSH, t_state.T_COMMIT,
          t_state.T_COMMIT_DFLUSH, t_state.T_COMMIT_JFLUSH, t_state.T_COMMIT_CALLBACK,
          t_state.T_FINISHED] ∧
      s.t_state = t_state.T_FINISHED := by
  obtain ⟨o, h1, ⟨k, _, hk2, hk3⟩, _, h4, h5⟩ := commit_state_sequence sample_env sample_asserts
    (sample_state sample_journal [sample_jh 100, sample_jh 200, sample_jh 300]) rfl
  obtain ⟨s, rfl⟩ := h5 ⟨rfl, rfl, by decide, by decide, rfl, rfl, by decide,
    fun _ => rfl, fun _ => rfl, fun _ => rfl, fun _ => rfl, fun _ => rfl⟩
  have hk : k = 8 := hk3.2 ⟨s, rfl⟩
  subst hk
  exact ⟨s, h1, hk2, (h4 s rfl).2⟩

end Jbd2
